import Mathlib

/-!
# FEMU zoned-namespace core (hw/femu/zns/zns.c)

A shallow embedding of the zone state machine, the active/open resource
accounting and the write path of `zns.c`, followed by theorems about them.

Conventions of the embedding.

* The controller `FemuCtrl` and its single namespace are one record (`ns->ctrl`
  is the controller, `n->namespaces[0]` the namespace).
* A `NvmeZone *` is the index of the zone in `zone_array`.
* The four `QTAILQ` zone lists are lists of zone indices, head first.
* Unsigned machine words are natural numbers; every operation that can wrap
  is reduced modulo `2^64` or `2^32` explicitly.
* A failed `assert` (or an access outside `zone_array`) is the result `none`.
-/

namespace FEMU

/-- Number of values of a `uint64_t`. -/
def U64 : Nat := 18446744073709551616

/-- Number of values of a `uint32_t`. -/
def U32 : Nat := 4294967296

/-- Zone states, the values `zns_get_zone_state` can return (`NvmeZoneState`). -/
inductive NvmeZoneState where
  | EMPTY
  | IMPLICITLY_OPEN
  | EXPLICITLY_OPEN
  | CLOSED
  | READ_ONLY
  | FULL
  | OFFLINE
  deriving DecidableEq, Repr, Inhabited

/-- Status kinds used by `zns.c` (the `NVME_*` status values without the
do-not-retry bit). -/
inductive NvmeStatusCode where
  | SUCCESS
  | INVALID_OPCODE
  | INVALID_FIELD
  | LBA_RANGE
  | ZONE_BOUNDARY_ERROR
  | ZONE_FULL
  | ZONE_READ_ONLY
  | ZONE_OFFLINE
  | ZONE_INVALID_WRITE
  | ZONE_TOO_MANY_ACTIVE
  | ZONE_TOO_MANY_OPEN
  | ZONE_INVAL_TRANSITION
  | NO_COMPLETE
  deriving DecidableEq, Repr, Inhabited

/-- Modelled from the spec: the numeric `NVME_*` status values and `NVME_DNR`
are defined in `nvme.h`, which is not among the sources. A 16-bit status word
is an error kind (§7) together with the "do-not-retry" qualifier bit;
`NVME_SUCCESS` is the word with kind `SUCCESS` and the bit clear, the only
word for which the C test `if (status)` is false. -/
structure Status where
  sc : NvmeStatusCode
  dnr : Bool
  deriving DecidableEq, Repr, Inhabited

/-- The status word `NVME_SUCCESS` (zero). -/
def NVME_SUCCESS : Status := ⟨NvmeStatusCode.SUCCESS, false⟩

/-- The C expression `status | NVME_DNR`. -/
def Status.orDNR (s : Status) : Status := { s with dnr := true }

/-- The zone descriptor `NvmeZoneDescr` (field `d` of a zone). -/
structure NvmeZoneDescr where
  zt : Nat
  zs : NvmeZoneState
  za : Nat
  zcap : Nat
  zslba : Nat
  wp : Nat
  deriving DecidableEq, Repr, Inhabited

/-- A zone (`NvmeZone`): its descriptor and the internal write pointer. The
list linkage `entry` is represented by membership in the controller lists. -/
structure NvmeZone where
  d : NvmeZoneDescr
  w_ptr : Nat
  deriving DecidableEq, Repr, Inhabited

/-- Die of the timing model (`struct zns_fc`); `blk` holds the per-block
watermarks `next_blk_avail_time`. -/
structure zns_fc where
  blk : List Nat
  next_fc_avail_time : Nat
  deriving DecidableEq, Repr, Inhabited

/-- Channel of the timing model (`struct zns_ch`). -/
structure zns_ch where
  fc : List zns_fc
  next_ch_avail_time : Nat
  deriving DecidableEq, Repr, Inhabited

/-- The round-robin placement cursor (`struct write_pointer`). -/
structure write_pointer where
  ch : Nat
  lun : Nat
  deriving DecidableEq, Repr, Inhabited

/-- The NAND timing state (`struct zns_ssd`). -/
structure zns_ssd where
  num_ch : Nat
  num_lun : Nat
  ch : List zns_ch
  wp : write_pointer
  deriving DecidableEq, Repr, Inhabited

/-- The controller together with its namespace. `size` is `ns->size`, the size
of the namespace in bytes. `clock_ns k` is the value the `k`-th call of
`qemu_clock_get_ns` returns and `clock_reads` counts the calls made so far. -/
structure FemuCtrl where
  zoned : Bool
  zone_size : Nat
  zone_capacity : Nat
  num_zones : Nat
  zone_size_log2 : Nat
  max_active_zones : Nat
  max_open_zones : Nat
  nr_active_zones : Nat
  nr_open_zones : Nat
  zd_extension_size : Nat
  cross_zone_read : Bool
  page_size : Nat
  zasl : Nat
  mdts : Nat
  lbads : Nat
  nsze : Nat
  size : Nat
  zone_array : List NvmeZone
  exp_open_zones : List Nat
  imp_open_zones : List Nat
  closed_zones : List Nat
  full_zones : List Nat
  zns : zns_ssd
  zns_read : Nat
  zns_write : Nat
  clock_ns : Nat → Nat
  clock_reads : Nat

/-- The read/write command fields used by the write path (`NvmeRwCmd`):
`slba`, the zero-based 16-bit block count `nlb`, and the data pointer type
`psdt`. -/
structure NvmeRwCmd where
  slba : Nat
  nlb : Nat
  psdt : Nat
  deriving DecidableEq, Repr, Inhabited

/-- The parts of a request (`NvmeRequest`) the core reads or writes.
`map_prp` is the status `nvme_map_prp` returns for this request (the mapping
of host memory is outside the core); `cqe_slba` is the `slba` field of the
zoned completion result. `cdw10` to `cdw13` are the command dwords the zone
management commands read through `(NvmeCmd *)&req->cmd` (the byte layout that
overlays them with the read/write view `cmd` is in `nvme.h`, which is not among
the sources), and `dma_prp` is the status `dma_write_prp` or `dma_read_prp`
returns for this request. -/
structure NvmeRequest where
  cmd : NvmeRwCmd
  stime : Nat
  map_prp : Status
  is_write : Bool
  cqe_slba : Nat
  reqlat : Nat
  expire_time : Nat
  cdw10 : Nat
  cdw11 : Nat
  cdw12 : Nat
  cdw13 : Nat
  dma_prp : Status
  deriving DecidableEq, Repr, Inhabited

/-- The command argument `NvmeCmd *cmd` of `zns_io_cmd`: its opcode and its
view as a read/write command (the cast `(NvmeRwCmd *)cmd`). -/
structure NvmeCmd where
  opcode : Nat
  rw : NvmeRwCmd
  deriving DecidableEq, Repr, Inhabited

/-! ## Zone accessors -/

/-- The zone a `NvmeZone *` with index `zi` points to. -/
def zoneAt (n : FemuCtrl) (zi : Nat) : NvmeZone :=
  n.zone_array.getD zi default

/-- Store through a zone pointer: replace the zone with index `zi`. -/
def setZone (n : FemuCtrl) (zi : Nat) (z : NvmeZone) : FemuCtrl :=
  { n with zone_array := n.zone_array.set zi z }

/-- Modelled from the spec: `zns_get_zone_state` is defined in `zns.h`, which
is not among the sources; it reads the zone's `state` (§3). -/
def zns_get_zone_state (z : NvmeZone) : NvmeZoneState := z.d.zs

/-- Modelled from the spec: `zns_set_zone_state` is defined in `zns.h`, which
is not among the sources; it stores the zone's `state` (§3) and nothing else. -/
def zns_set_zone_state (z : NvmeZone) (state : NvmeZoneState) : NvmeZone :=
  { z with d := { z.d with zs := state } }

/-- Modelled from the spec: `zns_zone_wr_boundary` is defined in `zns.h`, which
is not among the sources; "the zone's capacity boundary
(`start_lba + capacity`)" (§4.3), a 64-bit sum. -/
def zns_zone_wr_boundary (z : NvmeZone) : Nat := (z.d.zslba + z.d.zcap) % U64

/-- Modelled from the spec: `zns_l2b` is defined in `zns.h`, which is not among
the sources; the byte length of `lba` logical blocks of `1 << lbads` bytes
(`lbasz` in `zns_init_zone_geometry`), as a 64-bit value. -/
def zns_l2b (n : FemuCtrl) (lba : Nat) : Nat := (lba * 2 ^ n.lbads) % U64

/-- `QTAILQ_IN_USE(zone, entry)`: the zone is linked into one of the lists. -/
def QTAILQ_IN_USE (n : FemuCtrl) (zi : Nat) : Bool :=
  decide (zi ∈ n.exp_open_zones) || decide (zi ∈ n.imp_open_zones) ||
    decide (zi ∈ n.closed_zones) || decide (zi ∈ n.full_zones)

/-! ## Resource accounting -/

/-- Modelled from the spec: `zns_aor_inc_open` is defined in `zns.h`, which is
not among the sources; "increments/decrements are unconditional once the
corresponding transition is committed" (§4.2). The counter is a 32-bit word. -/
def zns_aor_inc_open (n : FemuCtrl) : FemuCtrl :=
  { n with nr_open_zones := (n.nr_open_zones + 1) % U32 }

/-- Modelled from the spec: `zns_aor_dec_open` is defined in `zns.h`, which is
not among the sources; an unconditional decrement (§4.2) of a 32-bit word
(0 wraps to `2^32 - 1`). -/
def zns_aor_dec_open (n : FemuCtrl) : FemuCtrl :=
  { n with nr_open_zones := if n.nr_open_zones = 0 then U32 - 1 else n.nr_open_zones - 1 }

/-- Modelled from the spec: `zns_aor_inc_active` is defined in `zns.h`, which is
not among the sources; an unconditional increment (§4.2) of a 32-bit word. -/
def zns_aor_inc_active (n : FemuCtrl) : FemuCtrl :=
  { n with nr_active_zones := (n.nr_active_zones + 1) % U32 }

/-- Modelled from the spec: `zns_aor_dec_active` is defined in `zns.h`, which is
not among the sources; an unconditional decrement (§4.2) of a 32-bit word
(0 wraps to `2^32 - 1`). -/
def zns_aor_dec_active (n : FemuCtrl) : FemuCtrl :=
  { n with nr_active_zones := if n.nr_active_zones = 0 then U32 - 1 else n.nr_active_zones - 1 }

/-- The function `zns_aor_check`: can `act` more active and `opn` more open
zones be taken without exceeding the limits (32-bit sums). -/
def zns_aor_check (n : FemuCtrl) (act opn : Nat) : Status :=
  if n.max_active_zones ≠ 0 ∧ (n.nr_active_zones + act) % U32 > n.max_active_zones then
    ⟨NvmeStatusCode.ZONE_TOO_MANY_ACTIVE, true⟩
  else if n.max_open_zones ≠ 0 ∧ (n.nr_open_zones + opn) % U32 > n.max_open_zones then
    ⟨NvmeStatusCode.ZONE_TOO_MANY_OPEN, true⟩
  else NVME_SUCCESS

/-! ## Zone state assignment -/

/-- First half of `zns_assign_zone_state`: when the zone is linked
(`QTAILQ_IN_USE`), `QTAILQ_REMOVE` it from the list of its current state. -/
def zns_assign_unlink (n : FemuCtrl) (zi : Nat) : FemuCtrl :=
  if QTAILQ_IN_USE n zi then
    match zns_get_zone_state (zoneAt n zi) with
    | NvmeZoneState.EXPLICITLY_OPEN => { n with exp_open_zones := n.exp_open_zones.erase zi }
    | NvmeZoneState.IMPLICITLY_OPEN => { n with imp_open_zones := n.imp_open_zones.erase zi }
    | NvmeZoneState.CLOSED => { n with closed_zones := n.closed_zones.erase zi }
    | NvmeZoneState.FULL => { n with full_zones := n.full_zones.erase zi }
    | _ => n
  else n

/-- Second half of `zns_assign_zone_state`: store the new state and
`QTAILQ_INSERT_TAIL` the zone into the list of that state; the states without
a list, other than `READ_ONLY`, clear the zone attributes. -/
def zns_assign_link (n : FemuCtrl) (zi : Nat) (state : NvmeZoneState) : FemuCtrl :=
  let n2 : FemuCtrl := setZone n zi (zns_set_zone_state (zoneAt n zi) state)
  match state with
  | NvmeZoneState.EXPLICITLY_OPEN => { n2 with exp_open_zones := n2.exp_open_zones ++ [zi] }
  | NvmeZoneState.IMPLICITLY_OPEN => { n2 with imp_open_zones := n2.imp_open_zones ++ [zi] }
  | NvmeZoneState.CLOSED => { n2 with closed_zones := n2.closed_zones ++ [zi] }
  | NvmeZoneState.FULL => { n2 with full_zones := n2.full_zones ++ [zi] }
  | NvmeZoneState.READ_ONLY => n2
  | _ => setZone n2 zi { zoneAt n2 zi with d := { (zoneAt n2 zi).d with za := 0 } }

/-- The function `zns_assign_zone_state`: unlink the zone from the list of its
current state when it is linked, store the new state, and append the zone to
the list of the new state. -/
def zns_assign_zone_state (n : FemuCtrl) (zi : Nat) (state : NvmeZoneState) : FemuCtrl :=
  zns_assign_link (zns_assign_unlink n zi) zi state

/-! ## Zone lookup -/

/-- The function `zns_zone_idx`: index of the zone holding `slba`, a 32-bit
value; the shift is used when `zone_size_log2 > 0`, the division otherwise
(`none` when that division is by zero). -/
def zns_zone_idx (n : FemuCtrl) (slba : Nat) : Option Nat :=
  if n.zone_size_log2 > 0 then some ((slba >>> n.zone_size_log2) % U32)
  else if n.zone_size = 0 then none
  else some ((slba / n.zone_size) % U32)

/-- The function `zns_get_zone_by_slba`: the zone holding `slba`; `none` when
`assert(zone_idx < n->num_zones)` fails or the index is outside the array. -/
def zns_get_zone_by_slba (n : FemuCtrl) (slba : Nat) : Option Nat :=
  match zns_zone_idx n slba with
  | none => none
  | some zone_idx =>
    if zone_idx < n.num_zones ∧ zone_idx < n.zone_array.length then some zone_idx else none

/-! ## Write checks -/

/-- The function `zns_check_zone_state_for_write`. -/
def zns_check_zone_state_for_write (z : NvmeZone) : Status :=
  match zns_get_zone_state z with
  | NvmeZoneState.EMPTY => NVME_SUCCESS
  | NvmeZoneState.IMPLICITLY_OPEN => NVME_SUCCESS
  | NvmeZoneState.EXPLICITLY_OPEN => NVME_SUCCESS
  | NvmeZoneState.CLOSED => NVME_SUCCESS
  | NvmeZoneState.FULL => ⟨NvmeStatusCode.ZONE_FULL, false⟩
  | NvmeZoneState.OFFLINE => ⟨NvmeStatusCode.ZONE_OFFLINE, false⟩
  | NvmeZoneState.READ_ONLY => ⟨NvmeStatusCode.ZONE_READ_ONLY, false⟩

/-- Modelled from the spec: `zns_wp_is_valid` is defined in `zns.h`, which is
not among the sources. The write pointer is valid in every state except
`READ_ONLY` and `OFFLINE`. The spec's data model (§3) has the write pointer
"defined (valid) only in states other than Empty/Offline/ReadOnly", so a zone
that is implicitly open, explicitly open, closed or full has a valid pointer,
and the report example of §8 has the descriptors of full zones carry the stored
write pointer. For `EMPTY` the source decides against the sentence of §3:
`zns_check_zone_write` runs `assert(zns_wp_is_valid(zone))` for every zone that
passed `zns_check_zone_state_for_write`, and an `EMPTY` zone passes it, so the
predicate holds for an `EMPTY` zone. -/
def zns_wp_is_valid (zone : NvmeZone) : Bool :=
  zns_get_zone_state zone ≠ NvmeZoneState.READ_ONLY ∧
    zns_get_zone_state zone ≠ NvmeZoneState.OFFLINE

/-- The function `zns_check_zone_write`. The sum `slba + nlb` is a 64-bit sum.
The assertion `zns_wp_is_valid(zone)` sits behind a successful state check and
is not part of the result; with `zns_wp_is_valid` as above it holds for every
zone that passed the state check (`wp_is_valid_of_state`). -/
def zns_check_zone_write (n : FemuCtrl) (zi : Nat) (slba nlb : Nat) (append : Bool) : Status :=
  let zone := zoneAt n zi
  let status : Status :=
    if (slba + nlb) % U64 > zns_zone_wr_boundary zone then
      ⟨NvmeStatusCode.ZONE_BOUNDARY_ERROR, false⟩
    else zns_check_zone_state_for_write zone
  if status ≠ NVME_SUCCESS then status
  else if append then
    let status : Status :=
      if slba ≠ zone.d.zslba then ⟨NvmeStatusCode.INVALID_FIELD, false⟩ else status
    if zns_l2b n nlb > n.page_size <<< n.zasl then ⟨NvmeStatusCode.INVALID_FIELD, false⟩
    else status
  else if slba ≠ zone.w_ptr then ⟨NvmeStatusCode.ZONE_INVALID_WRITE, false⟩
  else status

/-- The function `zns_check_bounds`: `LBA_RANGE` with do-not-retry when
`UINT64_MAX - slba < nlb` or `slba + nlb > nsze`. -/
def zns_check_bounds (n : FemuCtrl) (slba nlb : Nat) : Status :=
  if (U64 - 1) - slba < nlb ∨ (slba + nlb) % U64 > n.nsze then
    ⟨NvmeStatusCode.LBA_RANGE, true⟩
  else NVME_SUCCESS

/-! ## Read checks -/

/-- Modelled from the spec: `zns_zone_rd_boundary` is defined in `zns.h`, which
is not among the sources; the zone's "read boundary" (§4.4), the end of the
zone's address range `[start_lba, start_lba + zone_size)` (§3), a 64-bit sum. -/
def zns_zone_rd_boundary (n : FemuCtrl) (z : NvmeZone) : Nat := (z.d.zslba + n.zone_size) % U64

/-- The function `zns_check_zone_state_for_read`. -/
def zns_check_zone_state_for_read (z : NvmeZone) : Status :=
  match zns_get_zone_state z with
  | NvmeZoneState.EMPTY => NVME_SUCCESS
  | NvmeZoneState.IMPLICITLY_OPEN => NVME_SUCCESS
  | NvmeZoneState.EXPLICITLY_OPEN => NVME_SUCCESS
  | NvmeZoneState.FULL => NVME_SUCCESS
  | NvmeZoneState.CLOSED => NVME_SUCCESS
  | NvmeZoneState.READ_ONLY => NVME_SUCCESS
  | NvmeZoneState.OFFLINE => ⟨NvmeStatusCode.ZONE_OFFLINE, false⟩

/-- The `do ... while` loop of `zns_check_zone_read`: `zone++` walks the zones
that follow the first one in `zone_array` (the argument list); `none` when the
pointer leaves the array. -/
def zns_check_zone_read_next (n : FemuCtrl) (end_lba : Nat) : List NvmeZone → Option Status
  | [] => none
  | zone :: rest =>
    let status := zns_check_zone_state_for_read zone
    if status ≠ NVME_SUCCESS then some status
    else if end_lba > zns_zone_rd_boundary n zone then zns_check_zone_read_next n end_lba rest
    else some status

/-- The function `zns_check_zone_read`; `end = slba + nlb` is a 64-bit sum. -/
def zns_check_zone_read (n : FemuCtrl) (slba nlb : Nat) : Option Status :=
  match zns_get_zone_by_slba n slba with
  | none => none
  | some zi =>
    let zone := zoneAt n zi
    let bndry := zns_zone_rd_boundary n zone
    let end_lba := (slba + nlb) % U64
    let status := zns_check_zone_state_for_read zone
    if status ≠ NVME_SUCCESS then some status
    else if end_lba > bndry then
      if ¬ n.cross_zone_read then some ⟨NvmeStatusCode.ZONE_BOUNDARY_ERROR, false⟩
      else zns_check_zone_read_next n end_lba (n.zone_array.drop (zi + 1))
    else some status

/-- Modelled from the spec: `nvme_check_mdts` is declared outside the sources;
`mdts` is the "maximum data transfer size ... expressed in page-size units"
(glossary), and a transfer of more than `page_size << mdts` bytes is refused
as a malformed request (`InvalidField`, do-not-retry). -/
def nvme_check_mdts (n : FemuCtrl) (len : Nat) : Status :=
  if len > n.page_size <<< n.mdts then ⟨NvmeStatusCode.INVALID_FIELD, true⟩ else NVME_SUCCESS

/-- The function `zns_map_dptr`: the status of `nvme_map_prp` for a PRP data
pointer (`psdt == NVME_PSDT_PRP`, the value 0), `INVALID_FIELD` otherwise. -/
def zns_map_dptr (req : NvmeRequest) : Status :=
  if req.cmd.psdt = 0 then req.map_prp else ⟨NvmeStatusCode.INVALID_FIELD, false⟩

/-! ## Automatic open and close -/

/-- The function `zns_auto_transition_zone`: when the open limit is reached,
close the zone at the head of the implicitly-open list. -/
def zns_auto_transition_zone (n : FemuCtrl) : FemuCtrl :=
  if n.max_open_zones ≠ 0 ∧ n.nr_open_zones = n.max_open_zones then
    match n.imp_open_zones.head? with
    | some zi =>
      let n1 : FemuCtrl := { n with imp_open_zones := n.imp_open_zones.erase zi }
      let n2 := zns_aor_dec_open n1
      zns_assign_zone_state n2 zi NvmeZoneState.CLOSED
    | none => n
  else n

/-- The function `zns_auto_open_zone`. -/
def zns_auto_open_zone (n : FemuCtrl) (zi : Nat) : Status × FemuCtrl :=
  match zns_get_zone_state (zoneAt n zi) with
  | NvmeZoneState.EMPTY =>
    let n1 := zns_auto_transition_zone n
    (zns_aor_check n1 1 1, n1)
  | NvmeZoneState.CLOSED =>
    let n1 := zns_auto_transition_zone n
    (zns_aor_check n1 0 1, n1)
  | _ => (NVME_SUCCESS, n)

/-- The function `zns_advance_zone_wp`: returns the old `w_ptr` and the
controller after `w_ptr += nlb` and, below the boundary, the implicit open of
an `EMPTY` or `CLOSED` zone. -/
def zns_advance_zone_wp (n : FemuCtrl) (zi : Nat) (nlb : Nat) : Nat × FemuCtrl :=
  let zone := zoneAt n zi
  let result := zone.w_ptr
  let n1 := setZone n zi { zone with w_ptr := (zone.w_ptr + nlb) % U64 }
  if (zoneAt n1 zi).w_ptr < zns_zone_wr_boundary (zoneAt n1 zi) then
    match zns_get_zone_state (zoneAt n1 zi) with
    | NvmeZoneState.EMPTY =>
      (result, zns_assign_zone_state (zns_aor_inc_open (zns_aor_inc_active n1)) zi
        NvmeZoneState.IMPLICITLY_OPEN)
    | NvmeZoneState.CLOSED =>
      (result, zns_assign_zone_state (zns_aor_inc_open n1) zi NvmeZoneState.IMPLICITLY_OPEN)
    | _ => (result, n1)
  else (result, n1)

/-- The function `zns_finalize_zoned_write`: `d.wp += nlb` on the zone of the
command's `slba`, and the transition to `FULL` when `d.wp` reaches the write
boundary. -/
def zns_finalize_zoned_write (n : FemuCtrl) (req : NvmeRequest) (failed : Bool) :
    Option (FemuCtrl × NvmeRequest) :=
  let slba := req.cmd.slba
  let nlb := req.cmd.nlb + 1
  match zns_get_zone_by_slba n slba with
  | none => none
  | some zi =>
    let zone := zoneAt n zi
    let n1 := setZone n zi { zone with d := { zone.d with wp := (zone.d.wp + nlb) % U64 } }
    let req1 : NvmeRequest := if failed then { req with cqe_slba := 0 } else req
    if (zoneAt n1 zi).d.wp = zns_zone_wr_boundary (zoneAt n1 zi) then
      match zns_get_zone_state (zoneAt n1 zi) with
      | NvmeZoneState.IMPLICITLY_OPEN =>
        some (zns_assign_zone_state (zns_aor_dec_active (zns_aor_dec_open n1)) zi
          NvmeZoneState.FULL, req1)
      | NvmeZoneState.EXPLICITLY_OPEN =>
        some (zns_assign_zone_state (zns_aor_dec_active (zns_aor_dec_open n1)) zi
          NvmeZoneState.FULL, req1)
      | NvmeZoneState.CLOSED =>
        some (zns_assign_zone_state (zns_aor_dec_active n1) zi NvmeZoneState.FULL, req1)
      | NvmeZoneState.EMPTY => some (zns_assign_zone_state n1 zi NvmeZoneState.FULL, req1)
      | NvmeZoneState.FULL => some (n1, req1)
      | _ => none
    else some (n1, req1)

/-! ## The write path -/

/-- What a call of `zns_do_write` leaves behind: the returned status, the
controller, the request, and the backend offset handed to `backend_rw` when
that call is made. -/
structure WriteOut where
  status : Status
  n : FemuCtrl
  req : NvmeRequest
  data_offset : Option Nat

/-- The function `zns_do_write` (`append` for a zone append, `wrz` for write
zeroes). Every `goto err` returns `status | NVME_DNR`. -/
def zns_do_write (n : FemuCtrl) (req : NvmeRequest) (append wrz : Bool) : Option WriteOut :=
  let slba := req.cmd.slba
  let nlb := req.cmd.nlb + 1
  let data_size := zns_l2b n nlb
  if ¬ n.zoned then none
  else
    let req := { req with is_write := true }
    let status := if wrz then NVME_SUCCESS else nvme_check_mdts n data_size
    if status ≠ NVME_SUCCESS then some ⟨status.orDNR, n, req, none⟩
    else
      let status := zns_check_bounds n slba nlb
      if status ≠ NVME_SUCCESS then some ⟨status.orDNR, n, req, none⟩
      else
        match zns_get_zone_by_slba n slba with
        | none => none
        | some zi =>
          let status := zns_check_zone_write n zi slba nlb append
          if status ≠ NVME_SUCCESS then some ⟨status.orDNR, n, req, none⟩
          else
            let (status, n1) := zns_auto_open_zone n zi
            if status ≠ NVME_SUCCESS then some ⟨status.orDNR, n1, req, none⟩
            else
              let slba := if append then (zoneAt n1 zi).w_ptr else slba
              let (res, n2) := zns_advance_zone_wp n1 zi nlb
              let req := { req with cqe_slba := res }
              let data_offset := zns_l2b n2 slba
              let status := if wrz then NVME_SUCCESS else zns_map_dptr req
              if status ≠ NVME_SUCCESS then some ⟨status.orDNR, n2, req, none⟩
              else
                match zns_finalize_zoned_write n2 req false with
                | none => none
                | some (n3, req) =>
                  some ⟨NVME_SUCCESS, n3, req, if wrz then none else some data_offset⟩

/-- The function `zns_zone_append`. -/
def zns_zone_append (n : FemuCtrl) (req : NvmeRequest) : Option WriteOut :=
  zns_do_write n req true false

/-! ## NAND timing -/

/-- Kinds of NAND command (`ncmd->cmd`); `NAND_OTHER` stands for every value
that is none of the three the timing model knows. -/
inductive NandOp where
  | NAND_READ
  | NAND_WRITE
  | NAND_ERASE
  | NAND_OTHER
  deriving DecidableEq, Repr, Inhabited

/-- A NAND command (`struct nand_cmd`). -/
structure nand_cmd where
  cmd : NandOp
  stime : Nat
  deriving DecidableEq, Repr, Inhabited

/-- The placement key `struct ppa` (`g.ch`, `g.fc`, `g.blk`). -/
structure ppa where
  ch : Nat
  fc : Nat
  blk : Nat
  deriving DecidableEq, Repr, Inhabited

/-- The function `get_fc`: the die `zns->ch[ppa->g.ch].fc[ppa->g.fc]`. -/
def get_fc (zns : zns_ssd) (p : ppa) : zns_fc :=
  ((zns.ch.getD p.ch default).fc).getD p.fc default

/-- Store through the pointer returned by `get_fc`. -/
def set_fc (zns : zns_ssd) (p : ppa) (fc : zns_fc) : zns_ssd :=
  let c := zns.ch.getD p.ch default
  { zns with ch := zns.ch.set p.ch { c with fc := c.fc.set p.fc fc } }

/-- The function `zns_advance_status`: the latency of one NAND command on the
die of `p`, and the controller with the die watermark moved. The clock is read
only when the command carries `stime == 0`. All sums are 64-bit. -/
def zns_advance_status (n : FemuCtrl) (ncmd : nand_cmd) (p : ppa) : Nat × FemuCtrl :=
  let req_stime := if ncmd.stime = 0 then n.clock_ns n.clock_reads else ncmd.stime
  let n : FemuCtrl :=
    if ncmd.stime = 0 then { n with clock_reads := n.clock_reads + 1 } else n
  let fc := get_fc n.zns p
  let nand_stime := if fc.next_fc_avail_time < req_stime then req_stime else fc.next_fc_avail_time
  let finish (delay : Nat) : Nat × FemuCtrl :=
    let next := (nand_stime + delay) % U64
    ((next + (U64 - req_stime)) % U64,
      { n with zns := set_fc n.zns p { fc with next_fc_avail_time := next } })
  match ncmd.cmd with
  | NandOp.NAND_READ => finish n.zns_read
  | NandOp.NAND_WRITE => finish n.zns_write
  | NandOp.NAND_ERASE => finish 2000000
  | NandOp.NAND_OTHER => (0, n)

/-- The erase loop of `zns_aio_zone_reset_cb`: one `NAND_ERASE` with
`stime = 0` on every (channel, die) pair, channels outermost. The key's `blk`
component (`zns_zone_idx` of the zone start) is never read by
`zns_advance_status`. -/
def zns_reset_erase (n : FemuCtrl) (blk : Nat) : FemuCtrl :=
  let num_ch := n.zns.num_ch
  let num_lun := n.zns.num_lun
  (List.range num_ch).foldl
    (fun n ch => (List.range num_lun).foldl
      (fun n lun => (zns_advance_status n ⟨NandOp.NAND_ERASE, 0⟩ ⟨ch, lun, blk⟩).2) n) n

/-- The function `zns_aio_zone_reset_cb`: release the resources the zone
holds, rewind both write pointers, make the zone `EMPTY`, then charge the
erase (also when the zone was in none of the four states). -/
def zns_aio_zone_reset_cb (n : FemuCtrl) (zi : Nat) : FemuCtrl :=
  let rewind (n : FemuCtrl) : FemuCtrl :=
    let zone := zoneAt n zi
    let n1 := setZone n zi { zone with w_ptr := zone.d.zslba }
    let zone1 := zoneAt n1 zi
    let n2 := setZone n1 zi { zone1 with d := { zone1.d with wp := zone1.w_ptr } }
    zns_assign_zone_state n2 zi NvmeZoneState.EMPTY
  let n1 : FemuCtrl :=
    match zns_get_zone_state (zoneAt n zi) with
    | NvmeZoneState.EXPLICITLY_OPEN => rewind (zns_aor_dec_active (zns_aor_dec_open n))
    | NvmeZoneState.IMPLICITLY_OPEN => rewind (zns_aor_dec_active (zns_aor_dec_open n))
    | NvmeZoneState.CLOSED => rewind (zns_aor_dec_active n)
    | NvmeZoneState.FULL => rewind n
    | _ => n
  zns_reset_erase n1 ((zns_zone_idx n1 (zoneAt n1 zi).d.zslba).getD 0)

/-! ## Zone management handlers -/

/-- The type `op_handler_t`: a handler gets the controller, the zone and the
state the caller read from the zone. -/
abbrev op_handler_t := FemuCtrl → Nat → NvmeZoneState → Status × FemuCtrl

/-- The function `zns_open_zone`, from the label `case CLOSED` on. -/
def zns_open_zone_closed (n : FemuCtrl) (zi : Nat) (state : NvmeZoneState) :
    Status × FemuCtrl :=
  let status := zns_aor_check n 0 1
  if status ≠ NVME_SUCCESS then
    (status, if state = NvmeZoneState.EMPTY then zns_aor_dec_active n else n)
  else
    (NVME_SUCCESS,
      zns_assign_zone_state (zns_aor_inc_open n) zi NvmeZoneState.EXPLICITLY_OPEN)

/-- The function `zns_open_zone`. -/
def zns_open_zone (n : FemuCtrl) (zi : Nat) (state : NvmeZoneState) : Status × FemuCtrl :=
  match state with
  | NvmeZoneState.EMPTY =>
    let status := zns_aor_check n 1 0
    if status ≠ NVME_SUCCESS then (status, n)
    else zns_open_zone_closed (zns_aor_inc_active n) zi state
  | NvmeZoneState.CLOSED => zns_open_zone_closed n zi state
  | NvmeZoneState.IMPLICITLY_OPEN =>
    (NVME_SUCCESS, zns_assign_zone_state n zi NvmeZoneState.EXPLICITLY_OPEN)
  | NvmeZoneState.EXPLICITLY_OPEN => (NVME_SUCCESS, n)
  | _ => (⟨NvmeStatusCode.ZONE_INVAL_TRANSITION, false⟩, n)

/-- The function `zns_close_zone`. -/
def zns_close_zone (n : FemuCtrl) (zi : Nat) (state : NvmeZoneState) : Status × FemuCtrl :=
  match state with
  | NvmeZoneState.EXPLICITLY_OPEN =>
    (NVME_SUCCESS, zns_assign_zone_state (zns_aor_dec_open n) zi NvmeZoneState.CLOSED)
  | NvmeZoneState.IMPLICITLY_OPEN =>
    (NVME_SUCCESS, zns_assign_zone_state (zns_aor_dec_open n) zi NvmeZoneState.CLOSED)
  | NvmeZoneState.CLOSED => (NVME_SUCCESS, n)
  | _ => (⟨NvmeStatusCode.ZONE_INVAL_TRANSITION, false⟩, n)

/-- The function `zns_finish_zone`, from the label `case EMPTY` on: both write
pointers go to the write boundary and the zone becomes `FULL`. -/
def zns_finish_zone_empty (n : FemuCtrl) (zi : Nat) : FemuCtrl :=
  let zone := zoneAt n zi
  let n1 := setZone n zi { zone with w_ptr := zns_zone_wr_boundary zone }
  let zone1 := zoneAt n1 zi
  let n2 := setZone n1 zi { zone1 with d := { zone1.d with wp := zone1.w_ptr } }
  zns_assign_zone_state n2 zi NvmeZoneState.FULL

/-- The function `zns_finish_zone`. -/
def zns_finish_zone (n : FemuCtrl) (zi : Nat) (state : NvmeZoneState) : Status × FemuCtrl :=
  match state with
  | NvmeZoneState.EXPLICITLY_OPEN =>
    (NVME_SUCCESS, zns_finish_zone_empty (zns_aor_dec_active (zns_aor_dec_open n)) zi)
  | NvmeZoneState.IMPLICITLY_OPEN =>
    (NVME_SUCCESS, zns_finish_zone_empty (zns_aor_dec_active (zns_aor_dec_open n)) zi)
  | NvmeZoneState.CLOSED => (NVME_SUCCESS, zns_finish_zone_empty (zns_aor_dec_active n) zi)
  | NvmeZoneState.EMPTY => (NVME_SUCCESS, zns_finish_zone_empty n zi)
  | NvmeZoneState.FULL => (NVME_SUCCESS, n)
  | _ => (⟨NvmeStatusCode.ZONE_INVAL_TRANSITION, false⟩, n)

/-- The function `zns_reset_zone`. -/
def zns_reset_zone (n : FemuCtrl) (zi : Nat) (state : NvmeZoneState) : Status × FemuCtrl :=
  match state with
  | NvmeZoneState.EMPTY => (NVME_SUCCESS, n)
  | NvmeZoneState.EXPLICITLY_OPEN => (NVME_SUCCESS, zns_aio_zone_reset_cb n zi)
  | NvmeZoneState.IMPLICITLY_OPEN => (NVME_SUCCESS, zns_aio_zone_reset_cb n zi)
  | NvmeZoneState.CLOSED => (NVME_SUCCESS, zns_aio_zone_reset_cb n zi)
  | NvmeZoneState.FULL => (NVME_SUCCESS, zns_aio_zone_reset_cb n zi)
  | _ => (⟨NvmeStatusCode.ZONE_INVAL_TRANSITION, false⟩, n)

/-- The function `zns_offline_zone`. -/
def zns_offline_zone (n : FemuCtrl) (zi : Nat) (state : NvmeZoneState) : Status × FemuCtrl :=
  match state with
  | NvmeZoneState.READ_ONLY =>
    (NVME_SUCCESS, zns_assign_zone_state n zi NvmeZoneState.OFFLINE)
  | NvmeZoneState.OFFLINE => (NVME_SUCCESS, n)
  | _ => (⟨NvmeStatusCode.ZONE_INVAL_TRANSITION, false⟩, n)

/-- Modelled from the spec: `NVME_ZA_ZD_EXT_VALID` is defined in `nvme.h`, which
is not among the sources; the "extension-valid bit" of the zone attributes
(§3), bit 7 of the attribute byte in the standard zone descriptor (§6). -/
def NVME_ZA_ZD_EXT_VALID : Nat := 128

/-- The function `zns_set_zd_ext`. -/
def zns_set_zd_ext (n : FemuCtrl) (zi : Nat) : Status × FemuCtrl :=
  if zns_get_zone_state (zoneAt n zi) = NvmeZoneState.EMPTY then
    let status := zns_aor_check n 1 0
    if status ≠ NVME_SUCCESS then (status, n)
    else
      let n1 := zns_aor_inc_active n
      let zone := zoneAt n1 zi
      let n2 := setZone n1 zi { zone with d := { zone.d with za := zone.d.za ||| NVME_ZA_ZD_EXT_VALID } }
      (NVME_SUCCESS, zns_assign_zone_state n2 zi NvmeZoneState.CLOSED)
  else (⟨NvmeStatusCode.ZONE_INVAL_TRANSITION, false⟩, n)

/-! ## Bulk processing -/

/-- Processing mask bit `NVME_PROC_OPENED_ZONES`. -/
def NVME_PROC_OPENED_ZONES : Nat := 1

/-- Processing mask bit `NVME_PROC_CLOSED_ZONES`. -/
def NVME_PROC_CLOSED_ZONES : Nat := 2

/-- Processing mask bit `NVME_PROC_READ_ONLY_ZONES`. -/
def NVME_PROC_READ_ONLY_ZONES : Nat := 4

/-- Processing mask bit `NVME_PROC_FULL_ZONES`. -/
def NVME_PROC_FULL_ZONES : Nat := 8

/-- The status word `NVME_NO_COMPLETE` (all sixteen bits set). -/
def NVME_NO_COMPLETE : Status := ⟨NvmeStatusCode.NO_COMPLETE, true⟩

/-- The function `zns_bulk_proc_zone`: run the handler on the zone when the
mask selects the zone's current state. -/
def zns_bulk_proc_zone (n : FemuCtrl) (zi : Nat) (proc_mask : Nat) (op_hndlr : op_handler_t) :
    Status × FemuCtrl :=
  let zs := zns_get_zone_state (zoneAt n zi)
  let proc_zone : Bool :=
    match zs with
    | NvmeZoneState.IMPLICITLY_OPEN => proc_mask &&& NVME_PROC_OPENED_ZONES ≠ 0
    | NvmeZoneState.EXPLICITLY_OPEN => proc_mask &&& NVME_PROC_OPENED_ZONES ≠ 0
    | NvmeZoneState.CLOSED => proc_mask &&& NVME_PROC_CLOSED_ZONES ≠ 0
    | NvmeZoneState.READ_ONLY => proc_mask &&& NVME_PROC_READ_ONLY_ZONES ≠ 0
    | NvmeZoneState.FULL => proc_mask &&& NVME_PROC_FULL_ZONES ≠ 0
    | _ => false
  if proc_zone then op_hndlr n zi zs else (NVME_SUCCESS, n)

/-- One `QTAILQ_FOREACH_SAFE` loop of `zns_do_zone_op` over the zones `zones`.
The successor is read before the body runs and a handler unlinks no zone but
the one it is given, so the zones visited are those of the list as it stood
when the loop began, in order. The flag of the result tells whether the loop
left through `goto out`. -/
def zns_bulk_foreach (proc_mask : Nat) (op_hndlr : op_handler_t) :
    List Nat → Status → FemuCtrl → Status × FemuCtrl × Bool
  | [], status, n => (status, n, false)
  | zi :: rest, _, n =>
    let (status, n1) := zns_bulk_proc_zone n zi proc_mask op_hndlr
    if status ≠ NVME_SUCCESS ∧ status ≠ NVME_NO_COMPLETE then (status, n1, true)
    else zns_bulk_foreach proc_mask op_hndlr rest status n1

/-- The array scan of `zns_do_zone_op` (`for (i = 0; i < n->num_zones; i++,
zone++)`) over the zones `zone, zone + 1, ...`; `none` when the scan leaves
the array. -/
def zns_bulk_scan (proc_mask : Nat) (op_hndlr : op_handler_t) :
    Nat → Nat → Status → FemuCtrl → Option (Status × FemuCtrl)
  | 0, _, status, n => some (status, n)
  | i + 1, zone, _, n =>
    if zone < n.zone_array.length then
      let (status, n1) := zns_bulk_proc_zone n zone proc_mask op_hndlr
      if status ≠ NVME_SUCCESS ∧ status ≠ NVME_NO_COMPLETE then some (status, n1)
      else zns_bulk_scan proc_mask op_hndlr i (zone + 1) status n1
    else none

/-- The function `zns_do_zone_op`. With `proc_mask = 0` the handler runs on the
zone `zone`; otherwise the closed, implicitly-open, explicitly-open and full
lists are walked as the mask selects, then the array is scanned for the
read-only bit. The scan starts at the pointer `zone`, which is the argument
when no list loop ran and `NULL` after a list loop (`none` when the scan then
has a zone to visit). -/
def zns_do_zone_op (n : FemuCtrl) (zone : Nat) (proc_mask : Nat) (op_hndlr : op_handler_t) :
    Option (Status × FemuCtrl) :=
  if proc_mask = 0 then
    if zone < n.zone_array.length then
      some (op_hndlr n zone (zns_get_zone_state (zoneAt n zone)))
    else none
  else
    let r1 : Status × FemuCtrl × Bool :=
      if proc_mask &&& NVME_PROC_CLOSED_ZONES ≠ 0 then
        zns_bulk_foreach proc_mask op_hndlr n.closed_zones NVME_SUCCESS n
      else (NVME_SUCCESS, n, false)
    if r1.2.2 then some (r1.1, r1.2.1)
    else
      let r2 : Status × FemuCtrl × Bool :=
        if proc_mask &&& NVME_PROC_OPENED_ZONES ≠ 0 then
          let ri := zns_bulk_foreach proc_mask op_hndlr r1.2.1.imp_open_zones r1.1 r1.2.1
          if ri.2.2 then ri
          else zns_bulk_foreach proc_mask op_hndlr ri.2.1.exp_open_zones ri.1 ri.2.1
        else r1
      if r2.2.2 then some (r2.1, r2.2.1)
      else
        let r3 : Status × FemuCtrl × Bool :=
          if proc_mask &&& NVME_PROC_FULL_ZONES ≠ 0 then
            zns_bulk_foreach proc_mask op_hndlr r2.2.1.full_zones r2.1 r2.2.1
          else r2
        if r3.2.2 then some (r3.1, r3.2.1)
        else if proc_mask &&& NVME_PROC_READ_ONLY_ZONES ≠ 0 then
          if proc_mask &&& NVME_PROC_CLOSED_ZONES ≠ 0 ∨ proc_mask &&& NVME_PROC_OPENED_ZONES ≠ 0 ∨
              proc_mask &&& NVME_PROC_FULL_ZONES ≠ 0 then
            if r3.2.1.num_zones = 0 then some (r3.1, r3.2.1) else none
          else zns_bulk_scan proc_mask op_hndlr r3.2.1.num_zones zone r3.1 r3.2.1
        else some (r3.1, r3.2.1)

/-! ## Zone management send -/

/-- Modelled from the spec: `NVME_ZONE_ACTION_CLOSE` is defined in `nvme.h`,
which is not among the sources; the spec names the action (§4.5) and leaves the
wire format to the protocol layer, the value is the one of the NVMe Zoned
Namespace Command Set. -/
def NVME_ZONE_ACTION_CLOSE : Nat := 1

/-- Modelled from the spec: `NVME_ZONE_ACTION_FINISH` of `nvme.h` (not among the
sources), the action Finish (§4.5) with its command-set value. -/
def NVME_ZONE_ACTION_FINISH : Nat := 2

/-- Modelled from the spec: `NVME_ZONE_ACTION_OPEN` of `nvme.h` (not among the
sources), the action Open (§4.5) with its command-set value. -/
def NVME_ZONE_ACTION_OPEN : Nat := 3

/-- Modelled from the spec: `NVME_ZONE_ACTION_RESET` of `nvme.h` (not among the
sources), the action Reset (§4.5) with its command-set value. -/
def NVME_ZONE_ACTION_RESET : Nat := 4

/-- Modelled from the spec: `NVME_ZONE_ACTION_OFFLINE` of `nvme.h` (not among
the sources), the action Offline (§4.5) with its command-set value. -/
def NVME_ZONE_ACTION_OFFLINE : Nat := 5

/-- Modelled from the spec: `NVME_ZONE_ACTION_SET_ZD_EXT` of `nvme.h` (not among
the sources), the action SetZoneDescriptorExtension (§4.5) with its
command-set value. -/
def NVME_ZONE_ACTION_SET_ZD_EXT : Nat := 16

/-- The function `zns_get_mgmt_zone_slba_idx`: status, `*slba` and `*zone_idx`
as the caller finds them (both start at 0 in the caller); `none` when the
assertion `*zone_idx < n->num_zones` fails. -/
def zns_get_mgmt_zone_slba_idx (n : FemuCtrl) (req : NvmeRequest) :
    Option (Status × Nat × Nat) :=
  let dw10 := req.cdw10 % U32
  let dw11 := req.cdw11 % U32
  if ¬ n.zoned then some (⟨NvmeStatusCode.INVALID_OPCODE, true⟩, 0, 0)
  else
    let slba := dw11 * U32 + dw10
    if slba ≥ n.nsze then some (⟨NvmeStatusCode.LBA_RANGE, true⟩, 0, 0)
    else
      match zns_zone_idx n slba with
      | none => none
      | some zone_idx =>
        if zone_idx < n.num_zones then some (NVME_SUCCESS, slba, zone_idx) else none

/-- The tail of `zns_zone_mgmt_send` after the `switch`: a non-zero status gets
the do-not-retry bit. -/
def zns_mgmt_send_status (status : Status) : Status :=
  if status ≠ NVME_SUCCESS then status.orDNR else status

/-- The function `zns_zone_mgmt_send`: the action is `dw13 & 0xff`, the
select-all bit `dw13 & 0x100`. The Reset case returns `NVME_SUCCESS` whatever
`zns_do_zone_op` returned. The bytes `dma_write_prp` stores into the
descriptor extension are not part of the embedding, only its status is.
`none` when `zone_array[zone_idx]` is outside the array. -/
def zns_zone_mgmt_send (n : FemuCtrl) (req : NvmeRequest) : Option (Status × FemuCtrl) :=
  let dw13 := req.cdw13 % U32
  let action := dw13 &&& 255
  let all : Bool := dw13 &&& 256 ≠ 0
  let r : Option (Status × Nat × Nat) :=
    if ¬ all then zns_get_mgmt_zone_slba_idx n req else some (NVME_SUCCESS, 0, 0)
  match r with
  | none => none
  | some (status, slba, zone_idx) =>
    if status ≠ NVME_SUCCESS then some (status, n)
    else if ¬ zone_idx < n.zone_array.length then none
    else if slba ≠ (zoneAt n zone_idx).d.zslba then some (⟨NvmeStatusCode.INVALID_FIELD, true⟩, n)
    else if action = NVME_ZONE_ACTION_OPEN then
      (zns_do_zone_op n zone_idx (if all then NVME_PROC_CLOSED_ZONES else 0) zns_open_zone).map
        (fun r => (zns_mgmt_send_status r.1, r.2))
    else if action = NVME_ZONE_ACTION_CLOSE then
      (zns_do_zone_op n zone_idx (if all then NVME_PROC_OPENED_ZONES else 0) zns_close_zone).map
        (fun r => (zns_mgmt_send_status r.1, r.2))
    else if action = NVME_ZONE_ACTION_FINISH then
      (zns_do_zone_op n zone_idx
        (if all then NVME_PROC_OPENED_ZONES ||| NVME_PROC_CLOSED_ZONES else 0)
        zns_finish_zone).map (fun r => (zns_mgmt_send_status r.1, r.2))
    else if action = NVME_ZONE_ACTION_RESET then
      (zns_do_zone_op n zone_idx
        (if all then NVME_PROC_OPENED_ZONES ||| NVME_PROC_CLOSED_ZONES ||| NVME_PROC_FULL_ZONES
          else 0)
        zns_reset_zone).map (fun r => (NVME_SUCCESS, r.2))
    else if action = NVME_ZONE_ACTION_OFFLINE then
      (zns_do_zone_op n zone_idx (if all then NVME_PROC_READ_ONLY_ZONES else 0)
        zns_offline_zone).map (fun r => (zns_mgmt_send_status r.1, r.2))
    else if action = NVME_ZONE_ACTION_SET_ZD_EXT then
      if all ∨ n.zd_extension_size = 0 then some (⟨NvmeStatusCode.INVALID_FIELD, true⟩, n)
      else
        let status := req.dma_prp
        if status ≠ NVME_SUCCESS then some (status, n)
        else
          let r := zns_set_zd_ext n zone_idx
          if r.1 = NVME_SUCCESS then some (r.1, r.2)
          else some (zns_mgmt_send_status r.1, r.2)
    else some (zns_mgmt_send_status ⟨NvmeStatusCode.INVALID_FIELD, false⟩, n)

/-! ## Zone report -/

/-- The type of the predicate `zns_wp_is_valid`, which the report functions
take as a parameter. -/
abbrev wp_valid_t := NvmeZone → Bool

/-- Modelled from the spec: `zns_ns_nlbas` is defined in `zns.h`, which is not
among the sources. It is the capacity of the namespace in logical blocks: the
geometry of §3 has `num_zones = namespace_capacity_lbas / zone_size`, and
`zns_init_zone_geometry` computes `num_zones` as
`ns->size / lbasz / n->zone_size`, so the capacity in blocks is the size in
bytes divided by the block size `1 << lbads`. It is at least
`num_zones * zone_size` and larger when the size is not a multiple of the zone
size. -/
def zns_ns_nlbas (n : FemuCtrl) : Nat := n.size / 2 ^ n.lbads

/-- Modelled from the spec: the zone report filter values `NVME_ZONE_REPORT_ALL`
(0) to `NVME_ZONE_REPORT_OFFLINE` (7) are defined in `nvme.h`, which is not
among the sources; one value per zone state in the order of the state list of
§3, after the value for "all". This is the last of them. -/
def NVME_ZONE_REPORT_OFFLINE : Nat := 7

/-- The function `zns_zone_matches_filter`, with the filter values
`NVME_ZONE_REPORT_ALL = 0`, `EMPTY = 1`, `IMPLICITLY_OPEN = 2`,
`EXPLICITLY_OPEN = 3`, `CLOSED = 4`, `FULL = 5`, `READ_ONLY = 6`,
`OFFLINE = 7`. -/
def zns_zone_matches_filter (zafs : Nat) (zl : NvmeZone) : Bool :=
  let zs := zns_get_zone_state zl
  if zafs = 0 then true
  else if zafs = 1 then zs = NvmeZoneState.EMPTY
  else if zafs = 2 then zs = NvmeZoneState.IMPLICITLY_OPEN
  else if zafs = 3 then zs = NvmeZoneState.EXPLICITLY_OPEN
  else if zafs = 4 then zs = NvmeZoneState.CLOSED
  else if zafs = 5 then zs = NvmeZoneState.FULL
  else if zafs = 6 then zs = NvmeZoneState.READ_ONLY
  else if zafs = NVME_ZONE_REPORT_OFFLINE then zs = NvmeZoneState.OFFLINE
  else false

/-- One entry of a zone report: the descriptor written for a zone, and for an
extended report the index of the zone whose descriptor extension was copied
behind it (`none` when the bytes were left zero). -/
structure NvmeZoneReportEntry where
  d : NvmeZoneDescr
  ext : Option Nat
  deriving DecidableEq, Repr, Inhabited

/-- The buffer `zns_zone_mgmt_recv` hands to `dma_read_prp`: the header count
and the entries that follow it. -/
structure NvmeZoneReport where
  nr_zones : Nat
  entries : List NvmeZoneReportEntry
  deriving DecidableEq, Repr, Inhabited

/-- The counting loop of `zns_zone_mgmt_recv`
(`for (; slba < capacity; slba += n->zone_size)`), over the zones `zone++`
reads (the argument list); `none` when the pointer leaves the array. -/
def zns_report_count (n : FemuCtrl) (zrasf : Nat) (part : Bool) (max_zones capacity : Nat) :
    List NvmeZone → Nat → Nat → Option Nat
  | [], slba, nr_zones =>
    if slba < capacity then
      if part ∧ nr_zones ≥ max_zones then some nr_zones else none
    else some nr_zones
  | zone :: rest, slba, nr_zones =>
    if slba < capacity then
      if part ∧ nr_zones ≥ max_zones then some nr_zones
      else zns_report_count n zrasf part max_zones capacity rest ((slba + n.zone_size) % U64)
        (if zns_zone_matches_filter zrasf zone then nr_zones + 1 else nr_zones)
    else some nr_zones

/-- The descriptor loop of `zns_zone_mgmt_recv`
(`for (; zone_idx < n->num_zones && max_zones > 0; zone_idx++)`); the first
argument bounds the iterations by `num_zones - zone_idx`. A descriptor carries
`d.wp` when the write pointer is valid and all ones otherwise. -/
def zns_report_fill (n : FemuCtrl) (wp_valid : wp_valid_t) (extended : Bool) (zrasf : Nat) :
    Nat → Nat → Nat → Option (List NvmeZoneReportEntry)
  | 0, _, _ => some []
  | k + 1, zone_idx, max_zones =>
    if max_zones > 0 then
      if zone_idx < n.zone_array.length then
        let zone := zoneAt n zone_idx
        if zns_zone_matches_filter zrasf zone then
          let z : NvmeZoneDescr :=
            { zone.d with wp := if wp_valid zone then zone.d.wp else U64 - 1 }
          let ext : Option Nat :=
            if extended ∧ zone.d.za &&& NVME_ZA_ZD_EXT_VALID ≠ 0 then some zone_idx else none
          (zns_report_fill n wp_valid extended zrasf k (zone_idx + 1) (max_zones - 1)).map
            (fun l => ⟨z, ext⟩ :: l)
        else zns_report_fill n wp_valid extended zrasf k (zone_idx + 1) max_zones
      else none
    else some []

/-- The function `zns_zone_mgmt_recv`: the status and, when the report was
built, the buffer given to `dma_read_prp`. `zra` is `dw13 & 0xff` (0 for a
report, 1 for an extended report), the filter is `(dw13 >> 8) & 0xff`, the
partial flag `(dw13 >> 16) & 1`; header and descriptor are 64 bytes each. The
bound of the counting loop is `capacity = zns_ns_nlbas(ns)`, the bound of the
descriptor loop is `num_zones`. -/
def zns_zone_mgmt_recv (n : FemuCtrl) (wp_valid : wp_valid_t) (req : NvmeRequest) :
    Option (Status × Option NvmeZoneReport) :=
  let data_size := ((req.cdw12 % U32 + 1) * 4) % U32
  let dw13 := req.cdw13 % U32
  let capacity := zns_ns_nlbas n
  match zns_get_mgmt_zone_slba_idx n req with
  | none => none
  | some (status, slba, zone_idx) =>
    if status ≠ NVME_SUCCESS then some (status, none)
    else
      let zra := dw13 &&& 255
      if zra ≠ 0 ∧ zra ≠ 1 then some (⟨NvmeStatusCode.INVALID_FIELD, true⟩, none)
      else if zra = 1 ∧ n.zd_extension_size = 0 then
        some (⟨NvmeStatusCode.INVALID_FIELD, true⟩, none)
      else
        let zrasf := (dw13 >>> 8) &&& 255
        if zrasf > NVME_ZONE_REPORT_OFFLINE then some (⟨NvmeStatusCode.INVALID_FIELD, true⟩, none)
        else if data_size < 64 then some (⟨NvmeStatusCode.INVALID_FIELD, true⟩, none)
        else
          let status := nvme_check_mdts n data_size
          if status ≠ NVME_SUCCESS then some (status, none)
          else
            let part : Bool := (dw13 >>> 16) &&& 1 ≠ 0
            let zone_entry_sz := if zra = 1 then 64 + n.zd_extension_size else 64
            let max_zones := (data_size - 64) / zone_entry_sz
            match zns_report_count n zrasf part max_zones capacity (n.zone_array.drop zone_idx)
                slba 0 with
            | none => none
            | some nr_zones =>
              match zns_report_fill n wp_valid (zra = 1) zrasf (n.num_zones - zone_idx) zone_idx
                  max_zones with
              | none => none
              | some entries => some (req.dma_prp, some ⟨nr_zones, entries⟩)

/-! ## Read and write commands -/

/-- The function `advance_read_pointer`: the placement cursor moves to the next
channel and, after the last channel, to the next die. `none` when a
`check_addr` assertion fails. The two counts are read into `uint8_t`
variables. -/
def advance_read_pointer (n : FemuCtrl) : Option FemuCtrl :=
  let num_ch := n.zns.num_ch % 256
  let num_lun := n.zns.num_lun % 256
  if ¬ n.zns.wp.ch < num_ch then none
  else
    let ch := n.zns.wp.ch + 1
    if ch ≠ num_ch then some { n with zns := { n.zns with wp := { n.zns.wp with ch := ch } } }
    else if ¬ n.zns.wp.lun < num_lun then none
    else
      let lun := n.zns.wp.lun + 1
      some { n with zns := { n.zns with wp := { ch := 0, lun := if lun = num_lun then 0 else lun } } }

/-- The function `lpn_to_ppa`: the placement key of a page is the cursor
position together with the zone index of block `lpn * 4096` (`none` when
`zns_zone_idx` divides by zero). -/
def lpn_to_ppa (n : FemuCtrl) (lpn : Nat) : Option ppa :=
  match zns_zone_idx n ((lpn * 4096) % U64) with
  | none => none
  | some zone_idx => some { ch := n.zns.wp.ch, fc := n.zns.wp.lun, blk := zone_idx }

/-- The page loop of `zns_read` (`for (lpn = slpn; lpn <= elpn; lpn++)`), with
the number of pages still to go as first argument: each page takes the key of
the cursor, advances the cursor, and is charged on the die of the key; the
result is the largest latency seen and the controller afterwards. -/
def zns_rw_pages (op : NandOp) (stime : Nat) : Nat → Nat → Nat → FemuCtrl → Option (Nat × FemuCtrl)
  | 0, _, maxlat, n => some (maxlat, n)
  | k + 1, lpn, maxlat, n =>
    match lpn_to_ppa n lpn with
    | none => none
    | some p =>
      match advance_read_pointer n with
      | none => none
      | some n1 =>
        let r := zns_advance_status n1 ⟨op, stime⟩ p
        zns_rw_pages op stime k (lpn + 1) (if r.1 > maxlat then r.1 else maxlat) r.2

/-- The function `zns_read`. `zns_check_dulbe` returns `NVME_SUCCESS` for every
input, so the branch that calls it has no effect. The result carries the
offset handed to `backend_rw`. -/
def zns_read (n : FemuCtrl) (req : NvmeRequest) : Option WriteOut :=
  let slba := req.cmd.slba
  let nlb := req.cmd.nlb + 1
  let data_size := zns_l2b n nlb
  if ¬ n.zoned then none
  else
    let req := { req with is_write := false }
    let status := nvme_check_mdts n data_size
    if status ≠ NVME_SUCCESS then some ⟨status.orDNR, n, req, none⟩
    else
      let status := zns_check_bounds n slba nlb
      if status ≠ NVME_SUCCESS then some ⟨status.orDNR, n, req, none⟩
      else
        match zns_check_zone_read n slba nlb with
        | none => none
        | some status =>
          if status ≠ NVME_SUCCESS then some ⟨status.orDNR, n, req, none⟩
          else
            let status := zns_map_dptr req
            if status ≠ NVME_SUCCESS then some ⟨status.orDNR, n, req, none⟩
            else
              let data_offset := zns_l2b n slba
              let slpn := slba / 4096
              let elpn := ((slba + req.cmd.nlb) % U64) / 4096
              match zns_rw_pages NandOp.NAND_READ req.stime (elpn + 1 - slpn) slpn 0 n with
              | none => none
              | some (maxlat, n1) =>
                some ⟨NVME_SUCCESS, n1,
                  { req with reqlat := maxlat, expire_time := (req.expire_time + maxlat) % U64 },
                  some data_offset⟩

/-- The function `zns_write`. In the source the first check reads
`if (status) femu_err(...); { goto err; }`: the `if` governs only the log call,
the block with `goto err` runs for every status, and nothing after it is
reached. The function returns `status | NVME_DNR` for the status of
`nvme_check_mdts`, having written only `req->is_write`. -/
def zns_write (n : FemuCtrl) (cmd : NvmeCmd) (req : NvmeRequest) : Option WriteOut :=
  let nlb := cmd.rw.nlb + 1
  let data_size := zns_l2b n nlb
  if ¬ n.zoned then none
  else
    let req := { req with is_write := true }
    let status := nvme_check_mdts n data_size
    some ⟨status.orDNR, n, req, none⟩

/-- Modelled from the spec: the opcode `NVME_CMD_WRITE` is defined in `nvme.h`,
which is not among the sources; `submit_write` of §4.5 with its NVM command-set
value. -/
def NVME_CMD_WRITE : Nat := 1

/-- Modelled from the spec: the opcode `NVME_CMD_READ` of `nvme.h` (not among
the sources); `submit_read` of §4.5 with its NVM command-set value. -/
def NVME_CMD_READ : Nat := 2

/-- Modelled from the spec: the opcode `NVME_CMD_ZONE_MGMT_SEND` of `nvme.h`
(not among the sources); `zone_management_send` of §4.5 with its command-set
value. -/
def NVME_CMD_ZONE_MGMT_SEND : Nat := 121

/-- Modelled from the spec: the opcode `NVME_CMD_ZONE_MGMT_RECV` of `nvme.h`
(not among the sources); `zone_management_receive` of §4.5 with its
command-set value. -/
def NVME_CMD_ZONE_MGMT_RECV : Nat := 122

/-- Modelled from the spec: the opcode `NVME_CMD_ZONE_APPEND` of `nvme.h` (not
among the sources); the append form of `submit_write` (§4.5) with its
command-set value. -/
def NVME_CMD_ZONE_APPEND : Nat := 125

/-- What a call of `zns_io_cmd` leaves behind: the returned status, the
controller, the request, the backend offset when `backend_rw` was called, and
the zone report when one was built. -/
structure IoOut where
  status : Status
  n : FemuCtrl
  req : NvmeRequest
  data_offset : Option Nat
  report : Option NvmeZoneReport

/-- The function `zns_io_cmd`: dispatch on the opcode. -/
def zns_io_cmd (n : FemuCtrl) (wp_valid : wp_valid_t) (cmd : NvmeCmd) (req : NvmeRequest) :
    Option IoOut :=
  if cmd.opcode = NVME_CMD_READ then
    (zns_read n req).map (fun o => ⟨o.status, o.n, o.req, o.data_offset, none⟩)
  else if cmd.opcode = NVME_CMD_WRITE then
    (zns_write n cmd req).map (fun o => ⟨o.status, o.n, o.req, o.data_offset, none⟩)
  else if cmd.opcode = NVME_CMD_ZONE_MGMT_SEND then
    (zns_zone_mgmt_send n req).map (fun r => ⟨r.1, r.2, req, none, none⟩)
  else if cmd.opcode = NVME_CMD_ZONE_MGMT_RECV then
    (zns_zone_mgmt_recv n wp_valid req).map (fun r => ⟨r.1, n, req, none, r.2⟩)
  else if cmd.opcode = NVME_CMD_ZONE_APPEND then
    (zns_zone_append n req).map (fun o => ⟨o.status, o.n, o.req, o.data_offset, none⟩)
  else some ⟨⟨NvmeStatusCode.INVALID_OPCODE, true⟩, n, req, none, none⟩

/-! ## Initial zone state -/

/-- The zone loop of `zns_init_zoned_state`: the zones still to be set up,
given the running `start` and `zone_size` (which is cut down when a zone would
end past `capacity`). -/
def zns_init_zones (zone_capacity capacity : Nat) : Nat → Nat → Nat → List NvmeZone
  | 0, _, _ => []
  | i + 1, start, zone_size =>
    let zone_size := if (start + zone_size) % U64 > capacity then (capacity + (U64 - start)) % U64
      else zone_size
    { d := { zt := 2, zs := NvmeZoneState.EMPTY, za := 0, zcap := zone_capacity,
             zslba := start, wp := start },
      w_ptr := start } ::
      zns_init_zones zone_capacity capacity i ((start + zone_size) % U64) zone_size

/-- Position of the highest set bit by repeated halving, at most `fuel` steps. -/
def floor_log2 : Nat → Nat → Nat
  | 0, _ => 0
  | fuel + 1, x => if x ≤ 1 then 0 else 1 + floor_log2 fuel (x / 2)

/-- The helper `is_power_of_2` of the host utilities: non-zero with a single
bit set (`value & (value - 1)` is zero). -/
def is_power_of_2 (value : Nat) : Bool :=
  value ≠ 0 ∧ value &&& (value - 1) = 0

/-- The function `zns_init_zoned_state`: a fresh zone array of `num_zones`
`EMPTY` zones, four empty lists, and `zone_size_log2`, which is
`63 - clz64(zone_size)` (the position of the highest set bit of a 64-bit
value) when `zone_size` is a power of two and 0 otherwise. The two `nr_*`
counters are not written. -/
def zns_init_zoned_state (n : FemuCtrl) : FemuCtrl :=
  let capacity := (n.num_zones * n.zone_size) % U64
  { n with
    zone_array := zns_init_zones n.zone_capacity capacity n.num_zones 0 n.zone_size
    exp_open_zones := []
    imp_open_zones := []
    closed_zones := []
    full_zones := []
    zone_size_log2 := if is_power_of_2 n.zone_size then floor_log2 64 n.zone_size else 0 }

/-- The function `zone_slba`: the product of the 32-bit zone index and the
zone size, as a 64-bit value. -/
def zone_slba (n : FemuCtrl) (zone_idx : Nat) : Nat :=
  ((zone_idx % U32) * n.zone_size) % U64

/-! ## Sequences of core operations -/

/-- The zone management handlers `zns_do_zone_op` is called with. -/
inductive ZoneHandler where
  | OPEN
  | CLOSE
  | FINISH
  | RESET
  | OFFLINE
  deriving DecidableEq, Repr, Inhabited

/-- The handler function behind a `ZoneHandler`. -/
def ZoneHandler.fn : ZoneHandler → op_handler_t
  | ZoneHandler.OPEN => zns_open_zone
  | ZoneHandler.CLOSE => zns_close_zone
  | ZoneHandler.FINISH => zns_finish_zone
  | ZoneHandler.RESET => zns_reset_zone
  | ZoneHandler.OFFLINE => zns_offline_zone

/-- One core operation: a write or append through `zns_do_write`, a handler on
one zone (`proc_mask = 0`) or in bulk through `zns_do_zone_op`, or
`zns_set_zd_ext` on one zone. -/
inductive CoreOp where
  | write (req : NvmeRequest) (append wrz : Bool)
  | zone_op (zone : Nat) (proc_mask : Nat) (h : ZoneHandler)
  | set_zd_ext (zone : Nat)

/-- The controller after one core operation, whatever status it returned;
`none` when the call does not return. -/
def CoreOp.run (n : FemuCtrl) : CoreOp → Option FemuCtrl
  | CoreOp.write req append wrz => (zns_do_write n req append wrz).map (fun out => out.n)
  | CoreOp.zone_op zone proc_mask h => (zns_do_zone_op n zone proc_mask h.fn).map (fun r => r.2)
  | CoreOp.set_zd_ext zone =>
    if zone < n.zone_array.length then some (zns_set_zd_ext n zone).2 else none

/-- The controller after a finite sequence of core operations. -/
def runOps : FemuCtrl → List CoreOp → Option FemuCtrl
  | n, [] => some n
  | n, op :: ops =>
    match op.run n with
    | none => none
    | some n1 => runOps n1 ops

/-! ## Geometry -/

/-- Modelled from the spec: `NVME_DEFAULT_ZONE_SIZE` is `128 * MiB`, and `MiB`
(from the units header, which is not part of the sources) is `2^20` bytes. -/
def NVME_DEFAULT_ZONE_SIZE : Nat := 128 * 1048576

/-- Mirrors `zns_init_zone_geometry`. The configuration values it reads are
arguments: `zone_size_bs` and `zone_cap_bs` of the controller and the
namespace size in bytes `size` (the value of `ns->size`, which the controller
keeps in its field `size` for `zns_ns_nlbas`), all 64-bit.
The result is the returned `int` with the controller as the function leaves it.
`lbasz = 1 << lbads` is an `int` shift stored in a `uint32_t`: a shift by 31 or
more is undefined and gives `none`. `num_zones` is a 32-bit field (the source
prints it with `%u` and indexes zones with `uint32_t`), so the 64-bit quotient
is truncated when stored. -/
def zns_init_zone_geometry (n : FemuCtrl) (zone_size_bs zone_cap_bs size : Nat) :
    Option (Int × FemuCtrl) :=
  if 31 ≤ n.lbads then none else
  let lbasz := 2 ^ n.lbads
  let zone_size := if zone_size_bs ≠ 0 then zone_size_bs else NVME_DEFAULT_ZONE_SIZE
  let zone_cap := if zone_cap_bs ≠ 0 then zone_cap_bs else zone_size
  if zone_cap > zone_size then some (-1, n)
  else if zone_size < lbasz then some (-1, n)
  else if zone_cap < lbasz then some (-1, n)
  else
    let n1 := { n with zone_size := zone_size / lbasz, zone_capacity := zone_cap / lbasz }
    let n2 := { n1 with num_zones := (size / lbasz / n1.zone_size) % U32 }
    if n2.max_open_zones > n2.num_zones then some (-1, n2)
    else if n2.max_active_zones > n2.num_zones then some (-1, n2)
    else if n2.zd_extension_size ≠ 0 then
      if n2.zd_extension_size &&& 0x3f ≠ 0 then some (-1, n2)
      else if n2.zd_extension_size >>> 6 > 0xff then some (-1, n2)
      else some (0, n2)
    else some (0, n2)

/-! ## Backend transfer (`backend/dram.c`, `backend/dm.c`) -/

/-- The backend mode `b->femu_mode`: the four values `backend_rw` tests for
(`FEMU_OCSSD_MODE`, `FEMU_BBSSD_MODE`, `FEMU_NOSSD_MODE`, `FEMU_ZNSSD_MODE`,
defined in `nvme.h`, which is not among the sources) and any other value. -/
inductive FemuMode where
  | OCSSD
  | BBSSD
  | NOSSD
  | ZNSSD
  | OTHER
  deriving DecidableEq, Repr, Inhabited

/-- One segment of the scatter list (`qsg->sg[i]`): host address and length. -/
structure ScatterGatherEntry where
  base : Nat
  len : Nat
  deriving DecidableEq, Repr, Inhabited

/-- One call of `dma_memory_rw`: `len` bytes between host address `addr` and
the backend store at byte offset `mb_oft`, towards the device when
`is_write`. -/
structure DmaCopy where
  addr : Nat
  mb_oft : Nat
  len : Nat
  is_write : Bool
  deriving DecidableEq, Repr, Inhabited

/-- What `backend_rw` did: the copies in the order made, the number of copies
that reported an error (each only logged), and the returned `int`. -/
structure BackendRwOut where
  copies : List DmaCopy
  errors : Nat
  ret : Int
  deriving DecidableEq, Repr

/-- The loop `while (sg_cur_index < qsg->nsg)` of `backend_rw`, the same
statements in `dram.c` and `dm.c` apart from logging. The first argument bounds
the number of passes (`none` when it is used up with segments left); then
`sg_cur_index`, `sg_cur_byte` and `mb_oft`. `dma_memory_rw` is given by its
result (`true` = error) for each copy. `lbal[sg_cur_index]` is read after the
index was moved; a read outside the table and `assert(0)` give `none`. Sums and
differences are 64-bit. -/
def backend_rw_loop (mode : FemuMode) (sg : List ScatterGatherEntry) (lbal : List Nat)
    (dma_memory_rw : DmaCopy → Bool) (is_write : Bool) :
    Nat → Nat → Nat → Nat → Option (List DmaCopy × Nat)
  | 0, sg_cur_index, _, _ => if sg_cur_index < sg.length then none else some ([], 0)
  | fuel + 1, sg_cur_index, sg_cur_byte, mb_oft =>
    if sg_cur_index < sg.length then
      let e := sg.getD sg_cur_index default
      let cur_addr := (e.base + sg_cur_byte) % U64
      let cur_len := if sg_cur_byte ≤ e.len then e.len - sg_cur_byte
        else U64 - (sg_cur_byte - e.len)
      let c : DmaCopy := ⟨cur_addr, mb_oft, cur_len, is_write⟩
      let err := if dma_memory_rw c then 1 else 0
      let sg_cur_byte := (sg_cur_byte + cur_len) % U64
      let next : Nat × Nat :=
        if sg_cur_byte = e.len then (sg_cur_index + 1, 0) else (sg_cur_index, sg_cur_byte)
      let mb_oft : Option Nat :=
        match mode with
        | FemuMode.OCSSD => lbal[next.1]?
        | FemuMode.BBSSD => some ((mb_oft + cur_len) % U64)
        | FemuMode.NOSSD => some ((mb_oft + cur_len) % U64)
        | FemuMode.ZNSSD => some ((mb_oft + cur_len) % U64)
        | FemuMode.OTHER => none
      match mb_oft with
      | none => none
      | some mb_oft =>
        (backend_rw_loop mode sg lbal dma_memory_rw is_write fuel next.1 next.2 mb_oft).map
          (fun r => (c :: r.1, err + r.2))
    else some ([], 0)

/-- The function `backend_rw` of `dram.c` and `dm.c`: `mb_oft` starts at
`lbal[0]`, the loop walks the scatter list, the list is destroyed and 0 is
returned. `fuel` bounds the number of loop passes. -/
def backend_rw (fuel : Nat) (mode : FemuMode) (sg : List ScatterGatherEntry) (lbal : List Nat)
    (dma_memory_rw : DmaCopy → Bool) (is_write : Bool) : Option BackendRwOut :=
  match lbal[0]? with
  | none => none
  | some mb_oft =>
    (backend_rw_loop mode sg lbal dma_memory_rw is_write fuel 0 0 mb_oft).map
      (fun r => ⟨r.1, r.2, 0⟩)

/-! ## Concrete controllers for evaluation -/

/-- A controller before `zns_init_zoned_state`: `num_zones` zones of
`zone_size` blocks of 512 bytes (capacity equal to the size) in a namespace of
exactly that many blocks, the given limits,
both counters 0, two channels of two dies, and a clock that always reads 0. -/
def exampleConfig (num_zones zone_size max_active max_open : Nat) : FemuCtrl :=
  { zoned := true, zone_size := zone_size, zone_capacity := zone_size,
    num_zones := num_zones, zone_size_log2 := 0, max_active_zones := max_active,
    max_open_zones := max_open, nr_active_zones := 0, nr_open_zones := 0,
    zd_extension_size := 0, cross_zone_read := false, page_size := 4096, zasl := 5,
    mdts := 5, lbads := 9, nsze := num_zones * zone_size,
    size := num_zones * zone_size * 512, zone_array := [],
    exp_open_zones := [], imp_open_zones := [], closed_zones := [], full_zones := [],
    zns := { num_ch := 2, num_lun := 2,
             ch := List.replicate 2
               { fc := List.replicate 2 { blk := List.replicate 32 0, next_fc_avail_time := 0 },
                 next_ch_avail_time := 0 },
             wp := { ch := 0, lun := 0 } },
    zns_read := 40000, zns_write := 200000, clock_ns := fun _ => 0, clock_reads := 0 }

/-- The controller `exampleConfig` describes, after `zns_init_zoned_state`. -/
def exampleCtrl (num_zones zone_size max_active max_open : Nat) : FemuCtrl :=
  zns_init_zoned_state (exampleConfig num_zones zone_size max_active max_open)

/-- A request for `nlb + 1` blocks at `slba` with a PRP data pointer that maps. -/
def exampleReq (slba nlb : Nat) : NvmeRequest :=
  { cmd := { slba := slba, nlb := nlb, psdt := 0 }, stime := 0, map_prp := NVME_SUCCESS,
    is_write := false, cqe_slba := 0, reqlat := 0, expire_time := 0,
    cdw10 := 0, cdw11 := 0, cdw12 := 0, cdw13 := 0, dma_prp := NVME_SUCCESS }

/-- The controller after the operations `ops`, for concrete evaluation (the
controller itself when the sequence does not run through). -/
def afterOps (n : FemuCtrl) (ops : List CoreOp) : FemuCtrl :=
  (runOps n ops).getD n

/-! ## Predicates used in the proofs -/

/-- The zone record after `zns_assign_zone_state` gave it the state `st`. -/
def assignZone (z : NvmeZone) (st : NvmeZoneState) : NvmeZone :=
  { z with d := { z.d with
      zs := st
      za := if st = NvmeZoneState.EMPTY ∨ st = NvmeZoneState.OFFLINE then 0 else z.d.za } }

/-- A zone list after a zone left it (`rem`) and after it was appended (`add`). -/
def queueAfter (l : List Nat) (zi : Nat) (rem add : Bool) : List Nat :=
  (if rem then l.erase zi else l) ++ (if add then [zi] else [])

/-- Zone `zi` exists and is in state `st`. -/
def inState (n : FemuCtrl) (zi : Nat) (st : NvmeZoneState) : Prop :=
  zi < n.zone_array.length ∧ (zoneAt n zi).d.zs = st

/-- Consistency of the four zone lists with the zone states: a zone is linked
into a list exactly when it is in the state of that list, and no list holds a
zone twice. -/
def QueuesOk (n : FemuCtrl) : Prop :=
  (∀ zi, zi ∈ n.imp_open_zones ↔ inState n zi NvmeZoneState.IMPLICITLY_OPEN) ∧
  (∀ zi, zi ∈ n.exp_open_zones ↔ inState n zi NvmeZoneState.EXPLICITLY_OPEN) ∧
  (∀ zi, zi ∈ n.closed_zones ↔ inState n zi NvmeZoneState.CLOSED) ∧
  (∀ zi, zi ∈ n.full_zones ↔ inState n zi NvmeZoneState.FULL) ∧
  n.imp_open_zones.Nodup ∧ n.exp_open_zones.Nodup ∧ n.closed_zones.Nodup ∧
  n.full_zones.Nodup

/-- Number of zones linked into the two open lists. -/
def openCount (n : FemuCtrl) : Nat := n.imp_open_zones.length + n.exp_open_zones.length

/-- Number of zones linked into the open lists and the closed list. -/
def activeCount (n : FemuCtrl) : Nat := openCount n + n.closed_zones.length

/-- The value 1 for the two open states, 0 otherwise. -/
def isOpen (st : NvmeZoneState) : Nat :=
  (decide (st = NvmeZoneState.IMPLICITLY_OPEN)).toNat +
    (decide (st = NvmeZoneState.EXPLICITLY_OPEN)).toNat

/-- The value 1 for the open states and the closed state, 0 otherwise. -/
def isActive (st : NvmeZoneState) : Nat :=
  isOpen st + (decide (st = NvmeZoneState.CLOSED)).toNat

/-- The accounting invariant: the lists agree with the zone states, the zone
array fits a 32-bit count, and each counter whose limit is configured equals
the number of zones holding that resource and respects the limit. -/
def Inv (n : FemuCtrl) : Prop :=
  QueuesOk n ∧ n.zone_array.length < U32 ∧
  (n.max_open_zones ≠ 0 →
    n.nr_open_zones = openCount n ∧ n.nr_open_zones ≤ n.max_open_zones) ∧
  (n.max_active_zones ≠ 0 →
    n.nr_active_zones = activeCount n ∧ n.nr_active_zones ≤ n.max_active_zones)

/-- Two controllers with the same zone lists, the same zone states and the same
limits. -/
def SameQ (n m : FemuCtrl) : Prop :=
  m.imp_open_zones = n.imp_open_zones ∧ m.exp_open_zones = n.exp_open_zones ∧
  m.closed_zones = n.closed_zones ∧ m.full_zones = n.full_zones ∧
  m.zone_array.length = n.zone_array.length ∧
  (∀ zj, (zoneAt m zj).d.zs = (zoneAt n zj).d.zs) ∧
  m.max_open_zones = n.max_open_zones ∧ m.max_active_zones = n.max_active_zones

/-- The counters after a zone in state `old` gave back what it holds: the open
states release an open and an active resource, `CLOSED` an active one. -/
def releaseFor (old : NvmeZoneState) (m : FemuCtrl) : FemuCtrl :=
  match old with
  | NvmeZoneState.IMPLICITLY_OPEN => zns_aor_dec_active (zns_aor_dec_open m)
  | NvmeZoneState.EXPLICITLY_OPEN => zns_aor_dec_active (zns_aor_dec_open m)
  | NvmeZoneState.CLOSED => zns_aor_dec_active m
  | _ => m

/-- A handler that keeps the invariant when it is given a zone of the array
together with that zone's state. -/
def HandlerOk (op : op_handler_t) : Prop :=
  ∀ n zi, Inv n → zi < n.zone_array.length → Inv (op n zi (zoneAt n zi).d.zs).2

/-- Two controllers with the same geometry and settings, zone arrays of the
same length, and the same start and capacity in every zone. -/
def SameGeom (n m : FemuCtrl) : Prop :=
  m.zoned = n.zoned ∧ m.zone_size = n.zone_size ∧ m.zone_size_log2 = n.zone_size_log2 ∧
  m.num_zones = n.num_zones ∧ m.lbads = n.lbads ∧ m.page_size = n.page_size ∧
  m.zasl = n.zasl ∧ m.mdts = n.mdts ∧ m.nsze = n.nsze ∧
  m.max_open_zones = n.max_open_zones ∧ m.max_active_zones = n.max_active_zones ∧
  m.zone_array.length = n.zone_array.length ∧
  ∀ zj, (zoneAt m zj).d.zslba = (zoneAt n zj).d.zslba ∧ (zoneAt m zj).d.zcap = (zoneAt n zj).d.zcap

/-- The controller after `w_ptr += nlb` on zone `zi`. -/
def bumpWptr (n : FemuCtrl) (zi nlb : Nat) : FemuCtrl :=
  setZone n zi { zoneAt n zi with w_ptr := ((zoneAt n zi).w_ptr + nlb) % U64 }

/-- The controller after `d.wp += nlb` on zone `zi`. -/
def bumpWp (n : FemuCtrl) (zi nlb : Nat) : FemuCtrl :=
  setZone n zi { zoneAt n zi with
    d := { (zoneAt n zi).d with wp := ((zoneAt n zi).d.wp + nlb) % U64 } }

/-- A zone after both write pointers were set back to the zone start. -/
def rewindZone (z : NvmeZone) : NvmeZone :=
  { d := { z.d with wp := z.d.zslba }, w_ptr := z.d.zslba }

/-- A zone after both write pointers were set to the write boundary. -/
def fillZone (z : NvmeZone) : NvmeZone :=
  { d := { z.d with wp := zns_zone_wr_boundary z }, w_ptr := zns_zone_wr_boundary z }

/-- Visit the zones of a list in order: the handler runs on each zone with the
state the zone has at that moment; a status that is neither success nor
`NVME_NO_COMPLETE` ends the visit at once (the flag of the result), and the
zones behind it are not touched. -/
def visitZones (op : op_handler_t) : List Nat → Status → FemuCtrl → Status × FemuCtrl × Bool
  | [], status, n => (status, n, false)
  | zi :: rest, _, n =>
    if (op n zi (zoneAt n zi).d.zs).1 ≠ NVME_SUCCESS ∧
        (op n zi (zoneAt n zi).d.zs).1 ≠ NVME_NO_COMPLETE then
      ((op n zi (zoneAt n zi).d.zs).1, (op n zi (zoneAt n zi).d.zs).2, true)
    else visitZones op rest (op n zi (zoneAt n zi).d.zs).1 (op n zi (zoneAt n zi).d.zs).2

/-- The zones visited for a mask without the read-only bit: the closed list
when the mask selects closed zones, then the implicitly-open and the
explicitly-open list when it selects opened zones, then the full list when it
selects full zones, each list as it stands when its turn comes; the first
status that ends a visit is the result. -/
def visitLists (n : FemuCtrl) (proc_mask : Nat) (op : op_handler_t) : Status × FemuCtrl :=
  let r1 : Status × FemuCtrl × Bool :=
    if proc_mask &&& NVME_PROC_CLOSED_ZONES ≠ 0 then visitZones op n.closed_zones NVME_SUCCESS n
    else (NVME_SUCCESS, n, false)
  if r1.2.2 then (r1.1, r1.2.1)
  else
    let r2 : Status × FemuCtrl × Bool :=
      if proc_mask &&& NVME_PROC_OPENED_ZONES ≠ 0 then
        visitZones op r1.2.1.imp_open_zones r1.1 r1.2.1
      else r1
    if r2.2.2 then (r2.1, r2.2.1)
    else
      let r3 : Status × FemuCtrl × Bool :=
        if proc_mask &&& NVME_PROC_OPENED_ZONES ≠ 0 then
          visitZones op r2.2.1.exp_open_zones r2.1 r2.2.1
        else r2
      if r3.2.2 then (r3.1, r3.2.1)
      else
        let r4 : Status × FemuCtrl × Bool :=
          if proc_mask &&& NVME_PROC_FULL_ZONES ≠ 0 then
            visitZones op r3.2.1.full_zones r3.1 r3.2.1
          else r3
        (r4.1, r4.2.1)

/-- The array scan for a mask that selects read-only zones only: the zones
`zone, zone + 1, ...` are looked at in turn, `i` of them, and the handler runs
on those that are `READ_ONLY` at that moment; a zone that is skipped counts as
success. -/
def visitReadOnly (op : op_handler_t) : Nat → Nat → Status → FemuCtrl → Status × FemuCtrl
  | 0, _, status, n => (status, n)
  | i + 1, zone, _, n =>
    if (zoneAt n zone).d.zs = NvmeZoneState.READ_ONLY then
      if (op n zone NvmeZoneState.READ_ONLY).1 ≠ NVME_SUCCESS ∧
          (op n zone NvmeZoneState.READ_ONLY).1 ≠ NVME_NO_COMPLETE then
        op n zone NvmeZoneState.READ_ONLY
      else visitReadOnly op i (zone + 1) (op n zone NvmeZoneState.READ_ONLY).1
        (op n zone NvmeZoneState.READ_ONLY).2
    else visitReadOnly op i (zone + 1) NVME_SUCCESS n

/-- A handler that, given a zone of the array and that zone's state, keeps the
size of the array and leaves every other zone as it is. -/
def HandlerLocal (op : op_handler_t) : Prop :=
  ∀ n zi, zi < n.zone_array.length →
    (op n zi (zoneAt n zi).d.zs).2.zone_array.length = n.zone_array.length ∧
    ∀ zj, zj ≠ zi → zoneAt (op n zi (zoneAt n zi).d.zs).2 zj = zoneAt n zj

/-- Whether the mask selects a zone in state `st` (the `switch` of
`zns_bulk_proc_zone`). -/
def maskSelects (proc_mask : Nat) (st : NvmeZoneState) : Prop :=
  match st with
  | NvmeZoneState.IMPLICITLY_OPEN => proc_mask &&& NVME_PROC_OPENED_ZONES ≠ 0
  | NvmeZoneState.EXPLICITLY_OPEN => proc_mask &&& NVME_PROC_OPENED_ZONES ≠ 0
  | NvmeZoneState.CLOSED => proc_mask &&& NVME_PROC_CLOSED_ZONES ≠ 0
  | NvmeZoneState.READ_ONLY => proc_mask &&& NVME_PROC_READ_ONLY_ZONES ≠ 0
  | NvmeZoneState.FULL => proc_mask &&& NVME_PROC_FULL_ZONES ≠ 0
  | _ => False

/-- Both counters equal the number of zones that hold the resource. -/
def Tracked (n : FemuCtrl) : Prop :=
  n.nr_open_zones = openCount n ∧ n.nr_active_zones = activeCount n

/-- A zone after a reset: both pointers at the zone start, state `EMPTY`,
attributes cleared. -/
def resetZone (z : NvmeZone) : NvmeZone := assignZone (rewindZone z) NvmeZoneState.EMPTY

/-- The states `zns_aio_zone_reset_cb` rewinds a zone from. -/
def Resettable (st : NvmeZoneState) : Prop :=
  st = NvmeZoneState.IMPLICITLY_OPEN ∨ st = NvmeZoneState.EXPLICITLY_OPEN ∨
    st = NvmeZoneState.CLOSED ∨ st = NvmeZoneState.FULL

/-- The status C6 states for `zns_check_zone_write`: the first applicable one
in the claimed order, the sums being the 64-bit sums of the C expressions. -/
def check_zone_write_first_applicable (n : FemuCtrl) (zi : Nat) (slba nlb : Nat)
    (append : Bool) : Status :=
  let zone := zoneAt n zi
  if (slba + nlb) % U64 > (zone.d.zslba + zone.d.zcap) % U64 then
    ⟨NvmeStatusCode.ZONE_BOUNDARY_ERROR, false⟩
  else if zone.d.zs = NvmeZoneState.FULL then ⟨NvmeStatusCode.ZONE_FULL, false⟩
  else if zone.d.zs = NvmeZoneState.OFFLINE then ⟨NvmeStatusCode.ZONE_OFFLINE, false⟩
  else if zone.d.zs = NvmeZoneState.READ_ONLY then ⟨NvmeStatusCode.ZONE_READ_ONLY, false⟩
  else if append then
    if slba ≠ zone.d.zslba ∨ zns_l2b n nlb > n.page_size <<< n.zasl then
      ⟨NvmeStatusCode.INVALID_FIELD, false⟩
    else NVME_SUCCESS
  else if slba ≠ zone.w_ptr then ⟨NvmeStatusCode.ZONE_INVALID_WRITE, false⟩
  else NVME_SUCCESS

/-- The zone layout `zns_init_zoned_state` sets up: zones of `zone_size > 0`
blocks laid end to end from block 0, one array slot per zone, a capacity that
fits 64 bits, and a `zone_size_log2` that is the logarithm when it is used. -/
def ZoneGeom (n : FemuCtrl) : Prop :=
  0 < n.zone_size ∧ n.zone_array.length = n.num_zones ∧ n.num_zones < U32 ∧
    n.num_zones * n.zone_size < U64 ∧
    (0 < n.zone_size_log2 → n.zone_size = 2 ^ n.zone_size_log2) ∧
    ∀ i, i < n.num_zones → (zoneAt n i).d.zslba = i * n.zone_size

/-- The delay `zns_advance_status` charges for a command kind. -/
def nandDelay (n : FemuCtrl) : NandOp → Nat
  | NandOp.NAND_READ => n.zns_read
  | NandOp.NAND_WRITE => n.zns_write
  | NandOp.NAND_ERASE => 2000000
  | NandOp.NAND_OTHER => 0

/-- The submission time `zns_advance_status` works with: the command's
`stime`, or the clock value when `stime` is 0. -/
def effectiveStime (n : FemuCtrl) (ncmd : nand_cmd) : Nat :=
  if ncmd.stime = 0 then n.clock_ns n.clock_reads else ncmd.stime

/-- The controller after `k` calls of `advance_read_pointer`. -/
def advance_read_pointer_times : Nat → FemuCtrl → Option FemuCtrl
  | 0, n => some n
  | k + 1, n =>
    match advance_read_pointer n with
    | none => none
    | some m => advance_read_pointer_times k m

/-- The zone size in bytes `zns_init_zone_geometry` works with: the configured
value, or 128 MiB when that is 0. -/
def zoneSizeBytes (zone_size_bs : Nat) : Nat :=
  if zone_size_bs = 0 then 128 * 2 ^ 20 else zone_size_bs

/-- The zone capacity in bytes `zns_init_zone_geometry` works with: the
configured value, or the zone size in bytes when that is 0. -/
def zoneCapBytes (zone_size_bs zone_cap_bs : Nat) : Nat :=
  if zone_cap_bs = 0 then zoneSizeBytes zone_size_bs else zone_cap_bs

/-- The starting LBA of a zone management command, from dwords 10 and 11. -/
def reportSlba (req : NvmeRequest) : Nat :=
  (req.cdw11 % U32) * U32 + req.cdw10 % U32

/-- The byte budget of a zone report, `(cdw12 + 1) << 2` as a 32-bit value. -/
def reportDataSize (req : NvmeRequest) : Nat :=
  ((req.cdw12 % U32 + 1) * 4) % U32

/-- The report action `zra` (0 = report, 1 = extended report). -/
def reportZra (req : NvmeRequest) : Nat :=
  (req.cdw13 % U32) &&& 255

/-- The state filter `zrasf` of a zone report. -/
def reportZrasf (req : NvmeRequest) : Nat :=
  ((req.cdw13 % U32) >>> 8) &&& 255

/-- The partial flag of a zone report. -/
def reportPartial (req : NvmeRequest) : Bool :=
  ((req.cdw13 % U32) >>> 16) &&& 1 ≠ 0

/-- The number of entries the byte budget has room for:
`(data_size - header size) / zone entry size`. -/
def reportMaxZones (n : FemuCtrl) (req : NvmeRequest) : Nat :=
  (reportDataSize req - 64) / (if reportZra req = 1 then 64 + n.zd_extension_size else 64)

/-- A zone report request that passes every check of `zns_zone_mgmt_recv`. -/
def ReportRequestValid (n : FemuCtrl) (req : NvmeRequest) : Prop :=
  n.zoned = true ∧ reportSlba req < n.nsze ∧
    (reportZra req = 0 ∨ (reportZra req = 1 ∧ n.zd_extension_size ≠ 0)) ∧
    reportZrasf req ≤ 7 ∧ 64 ≤ reportDataSize req ∧
    nvme_check_mdts n (reportDataSize req) = NVME_SUCCESS

/-- The indices of the zones from `s` to the last zone that match filter `f`,
in ascending order. -/
def reportMatches (n : FemuCtrl) (f s : Nat) : List Nat :=
  (List.range' s (n.num_zones - s)).filter (fun i => zns_zone_matches_filter f (zoneAt n i))

/-- The report entry of zone `i`: the stored descriptor, with the write pointer
replaced by all ones when it is not valid, and for an extended report of a zone
with the extension-valid attribute the zone whose extension bytes follow. -/
def reportEntry (n : FemuCtrl) (wp_valid : wp_valid_t) (extended : Bool) (i : Nat) :
    NvmeZoneReportEntry :=
  ⟨{ (zoneAt n i).d with wp := if wp_valid (zoneAt n i) then (zoneAt n i).d.wp else U64 - 1 },
    if extended ∧ (zoneAt n i).d.za &&& NVME_ZA_ZD_EXT_VALID ≠ 0 then some i else none⟩

/-- The pages of a read in page order, as the loop of `zns_read` handles them:
each page takes its key from the cursor, advances the cursor, and is charged by
`zns_advance_status` on the die of the key. The result lists the key and the
latency of every page and gives the controller afterwards. -/
def readTrace (stime : Nat) : Nat → Nat → FemuCtrl → Option (List (ppa × Nat) × FemuCtrl)
  | 0, _, n => some ([], n)
  | k + 1, lpn, n =>
    match lpn_to_ppa n lpn with
    | none => none
    | some p =>
      match advance_read_pointer n with
      | none => none
      | some n1 =>
        (readTrace stime k (lpn + 1) (zns_advance_status n1 ⟨NandOp.NAND_READ, stime⟩ p).2).map
          (fun t => ((p, (zns_advance_status n1 ⟨NandOp.NAND_READ, stime⟩ p).1) :: t.1, t.2))

/-- Two controllers with the same placement cursor and the same channel and die
counts. -/
def SameCursor (a b : FemuCtrl) : Prop :=
  a.zns.wp = b.zns.wp ∧ a.zns.num_ch = b.zns.num_ch ∧ a.zns.num_lun = b.zns.num_lun

/-- The copies a walk over the segments `l` makes when it starts at segment
index `idx` with backend offset `m`: one copy per segment, in order, of the
whole segment; the next offset is `lbal[idx + 1]` in OCSSD mode and the offset
plus the segment length otherwise. -/
def walkCopies (mode : FemuMode) (lbal : List Nat) (is_write : Bool) :
    List ScatterGatherEntry → Nat → Nat → List DmaCopy
  | [], _, _ => []
  | e :: rest, idx, m =>
    ⟨e.base, m, e.len, is_write⟩ ::
      walkCopies mode lbal is_write rest (idx + 1)
        (if mode = FemuMode.OCSSD then lbal.getD (idx + 1) 0 else (m + e.len) % U64)

/-- The number of zones of the array in state `IMPLICITLY_OPEN` or
`EXPLICITLY_OPEN`: the zones that hold an open reservation. -/
def openZoneCount (n : FemuCtrl) : Nat :=
  n.zone_array.countP (fun z => decide (z.d.zs = NvmeZoneState.IMPLICITLY_OPEN ∨
    z.d.zs = NvmeZoneState.EXPLICITLY_OPEN))

/-- The number of zones of the array in state `IMPLICITLY_OPEN`,
`EXPLICITLY_OPEN` or `CLOSED`: the zones that hold an active reservation. -/
def activeZoneCount (n : FemuCtrl) : Nat :=
  n.zone_array.countP (fun z => decide (z.d.zs = NvmeZoneState.IMPLICITLY_OPEN ∨
    z.d.zs = NvmeZoneState.EXPLICITLY_OPEN ∨ z.d.zs = NvmeZoneState.CLOSED))

/-- A handler that keeps the property `P` when it is given a zone of the array
together with that zone's state. -/
def HandlerKeeps (P : FemuCtrl → Prop) (op : op_handler_t) : Prop :=
  ∀ n zi, P n → zi < n.zone_array.length → P (op n zi (zoneAt n zi).d.zs).2

/-- What every state reached from the initial one has, whatever the limits:
the lists agree with the zone states, the zone array fits a 32-bit count, both
counters equal the number of zones holding the resource, and no zone is
`READ_ONLY` or `OFFLINE`. -/
def Counted (n : FemuCtrl) : Prop :=
  QueuesOk n ∧ n.zone_array.length < U32 ∧ Tracked n ∧
    ∀ zj, (zoneAt n zj).d.zs ≠ NvmeZoneState.READ_ONLY ∧
      (zoneAt n zj).d.zs ≠ NvmeZoneState.OFFLINE

/-- Two controllers whose zone arrays have the same length and the same start
in every zone. -/
def SameStarts (n m : FemuCtrl) : Prop :=
  m.zone_array.length = n.zone_array.length ∧
    ∀ zj, (zoneAt m zj).d.zslba = (zoneAt n zj).d.zslba

/-- The timing arrays have the shape `zns_init_params` gives them: `num_ch`
channels of `num_lun` dies each. -/
def DieArray (n : FemuCtrl) : Prop :=
  n.zns.ch.length = n.zns.num_ch ∧
    ∀ c, c < n.zns.num_ch → (n.zns.ch.getD c default).fc.length = n.zns.num_lun

/-- The watermark `next_fc_avail_time` of the die `(c, l)`. -/
def dieTime (n : FemuCtrl) (c l : Nat) : Nat :=
  (get_fc n.zns ⟨c, l, 0⟩).next_fc_avail_time

/-- The channel and the die the placement cursor points to after `a` advances
from the cursor of `n`. -/
def cursorCh (n : FemuCtrl) (a : Nat) : Nat :=
  (n.zns.wp.ch + a) % n.zns.num_ch

/-- The die index of the cursor after `a` advances from the cursor of `n`. -/
def cursorLun (n : FemuCtrl) (a : Nat) : Nat :=
  (n.zns.wp.lun + (n.zns.wp.ch + a) / n.zns.num_ch) % n.zns.num_lun

/-- The state of the page loop of a read with submission time `stime` after `j`
pages, started with every die free at `stime`: the cursor is in range, the
arrays have their shape, and the die the cursor reaches after `a < num_ch *
num_lun` further advances has served `(j + a) / (num_ch * num_lun)` pages of
the request, its watermark being `stime` plus that many read delays (at most
`stime` when it has served none). -/
def RoundInv (stime j : Nat) (s : FemuCtrl) : Prop :=
  0 < s.zns.num_ch ∧ s.zns.num_ch < 256 ∧ 0 < s.zns.num_lun ∧ s.zns.num_lun < 256 ∧
  s.zns.wp.ch < s.zns.num_ch ∧ s.zns.wp.lun < s.zns.num_lun ∧ DieArray s ∧
  ∀ a, a < s.zns.num_ch * s.zns.num_lun →
    ((j + a) / (s.zns.num_ch * s.zns.num_lun) = 0 →
      dieTime s (cursorCh s a) (cursorLun s a) ≤ stime) ∧
    (0 < (j + a) / (s.zns.num_ch * s.zns.num_lun) →
      dieTime s (cursorCh s a) (cursorLun s a) =
        stime + (j + a) / (s.zns.num_ch * s.zns.num_lun) * s.zns_read)

/-! # Theorems -/

/-! ## Basic facts about zone stores and state assignment -/

theorem zoneAt_setZone (n : FemuCtrl) (zi zj : Nat) (z : NvmeZone) :
    zoneAt (setZone n zi z) zj =
      if zj = zi ∧ zi < n.zone_array.length then z else zoneAt n zj := by
  unfold zoneAt setZone
  simp only [List.getD_eq_getElem?_getD, List.getElem?_set]
  by_cases h : zi = zj
  · subst h
    by_cases hl : zi < n.zone_array.length
    · simp [hl]
    · simp [hl, List.getElem?_eq_none (Nat.le_of_not_lt hl)]
  · have h' : ¬ zj = zi := fun e => h e.symm
    simp [h, h']

theorem length_setZone (n : FemuCtrl) (zi : Nat) (z : NvmeZone) :
    (setZone n zi z).zone_array.length = n.zone_array.length := by
  simp [setZone]

theorem unlink_eq (n : FemuCtrl) (zi : Nat) :
    zns_assign_unlink n zi =
      match zns_get_zone_state (zoneAt n zi) with
      | NvmeZoneState.EXPLICITLY_OPEN => { n with exp_open_zones := n.exp_open_zones.erase zi }
      | NvmeZoneState.IMPLICITLY_OPEN => { n with imp_open_zones := n.imp_open_zones.erase zi }
      | NvmeZoneState.CLOSED => { n with closed_zones := n.closed_zones.erase zi }
      | NvmeZoneState.FULL => { n with full_zones := n.full_zones.erase zi }
      | _ => n := by
  unfold zns_assign_unlink
  by_cases h : QTAILQ_IN_USE n zi = true
  · rw [if_pos h]
  · rw [if_neg h]
    simp only [QTAILQ_IN_USE, Bool.or_eq_true, decide_eq_true_eq, not_or] at h
    obtain ⟨⟨⟨h1, h2⟩, h3⟩, h4⟩ := h
    cases zns_get_zone_state (zoneAt n zi) <;>
      simp only [List.erase_of_not_mem h1, List.erase_of_not_mem h2,
        List.erase_of_not_mem h3, List.erase_of_not_mem h4]

theorem setZone_setZone (n : FemuCtrl) (zi : Nat) (z1 z2 : NvmeZone) :
    setZone (setZone n zi z1) zi z2 = setZone n zi z2 := by
  simp [setZone, List.set_set]

theorem link_eq (m : FemuCtrl) (zi : Nat) (st : NvmeZoneState) :
    zns_assign_link m zi st =
      { m with
        zone_array := m.zone_array.set zi (assignZone (zoneAt m zi) st)
        exp_open_zones := queueAfter m.exp_open_zones zi false
          (decide (st = NvmeZoneState.EXPLICITLY_OPEN))
        imp_open_zones := queueAfter m.imp_open_zones zi false
          (decide (st = NvmeZoneState.IMPLICITLY_OPEN))
        closed_zones := queueAfter m.closed_zones zi false
          (decide (st = NvmeZoneState.CLOSED))
        full_zones := queueAfter m.full_zones zi false
          (decide (st = NvmeZoneState.FULL)) } := by
  unfold zns_assign_link
  by_cases hl : zi < m.zone_array.length
  · cases st <;>
      simp only [zoneAt_setZone, setZone_setZone, hl, and_self, if_true] <;>
      simp [queueAfter, setZone, assignZone, zns_set_zone_state]
  · have hs : ∀ (z : NvmeZone), m.zone_array.set zi z = m.zone_array := by
      intro z; exact List.set_eq_of_length_le (Nat.le_of_not_lt hl)
    cases st <;> simp [queueAfter, setZone, hs]

theorem assign_eq (n : FemuCtrl) (zi : Nat) (st : NvmeZoneState) :
    zns_assign_zone_state n zi st =
      { n with
        zone_array := n.zone_array.set zi (assignZone (zoneAt n zi) st)
        exp_open_zones := queueAfter n.exp_open_zones zi
          (decide ((zoneAt n zi).d.zs = NvmeZoneState.EXPLICITLY_OPEN))
          (decide (st = NvmeZoneState.EXPLICITLY_OPEN))
        imp_open_zones := queueAfter n.imp_open_zones zi
          (decide ((zoneAt n zi).d.zs = NvmeZoneState.IMPLICITLY_OPEN))
          (decide (st = NvmeZoneState.IMPLICITLY_OPEN))
        closed_zones := queueAfter n.closed_zones zi
          (decide ((zoneAt n zi).d.zs = NvmeZoneState.CLOSED))
          (decide (st = NvmeZoneState.CLOSED))
        full_zones := queueAfter n.full_zones zi
          (decide ((zoneAt n zi).d.zs = NvmeZoneState.FULL))
          (decide (st = NvmeZoneState.FULL)) } := by
  unfold zns_assign_zone_state
  rw [link_eq, unlink_eq]
  simp only [zns_get_zone_state]
  cases hos : (zoneAt n zi).d.zs <;> simp [queueAfter, zoneAt, hos]

theorem queueAfter_spec (l : List Nat) (zi : Nat) (rem add : Bool) (hnd : l.Nodup)
    (hrem : zi ∈ l ↔ rem = true) :
    (∀ zj, zj ∈ queueAfter l zi rem add ↔ (zj ≠ zi ∧ zj ∈ l) ∨ (zj = zi ∧ add = true)) ∧
      (queueAfter l zi rem add).Nodup ∧
      (queueAfter l zi rem add).length + rem.toNat = l.length + add.toNat := by
  cases rem
  · have hni : zi ∉ l := by simpa using hrem
    cases add
    · refine ⟨?_, ?_, ?_⟩
      · intro zj
        simp only [queueAfter, Bool.false_eq_true, if_false, List.append_nil, and_false, or_false]
        constructor
        · intro h; exact ⟨fun e => hni (e ▸ h), h⟩
        · intro h; exact h.2
      · simpa [queueAfter] using hnd
      · simp [queueAfter]
    · refine ⟨?_, ?_, ?_⟩
      · intro zj
        simp only [queueAfter, Bool.false_eq_true, if_false, if_true, List.mem_append,
          List.mem_singleton, and_true]
        constructor
        · rintro (h | h)
          · exact Or.inl ⟨fun e => hni (e ▸ h), h⟩
          · exact Or.inr h
        · rintro (h | h)
          · exact Or.inl h.2
          · exact Or.inr h
      · simp only [queueAfter, Bool.false_eq_true, if_false, if_true]
        rw [List.nodup_append]
        refine ⟨hnd, List.nodup_singleton zi, ?_⟩
        intro a ha hb
        simp only [List.mem_singleton] at hb
        exact hni (hb ▸ ha)
      · simp [queueAfter]
  · have hi : zi ∈ l := hrem.2 rfl
    have hlen : (l.erase zi).length + 1 = l.length := by
      rw [List.length_erase_of_mem hi]
      have : 0 < l.length := List.length_pos_of_mem hi
      omega
    cases add
    · refine ⟨?_, ?_, ?_⟩
      · intro zj
        simp only [queueAfter, if_true, Bool.false_eq_true, if_false, List.append_nil,
          and_false, or_false]
        exact hnd.mem_erase_iff
      · simpa [queueAfter] using hnd.erase zi
      · simpa [queueAfter] using hlen
    · refine ⟨?_, ?_, ?_⟩
      · intro zj
        simp only [queueAfter, if_true, List.mem_append, List.mem_singleton, and_true]
        rw [hnd.mem_erase_iff]
      · simp only [queueAfter, if_true]
        rw [List.nodup_append]
        refine ⟨hnd.erase zi, List.nodup_singleton zi, ?_⟩
        intro a ha hb
        simp only [List.mem_singleton] at hb
        subst hb
        exact (hnd.mem_erase_iff.1 ha).1 rfl
      · simp only [queueAfter, if_true, List.length_append, List.length_singleton,
          Bool.toNat_true]
        omega

theorem inState_assign (n : FemuCtrl) (zi zj : Nat) (st X : NvmeZoneState)
    (hl : zi < n.zone_array.length) :
    inState (zns_assign_zone_state n zi st) zj X ↔
      (zj ≠ zi ∧ inState n zj X) ∨ (zj = zi ∧ st = X) := by
  rw [assign_eq]
  unfold inState
  have hz : ∀ (m : FemuCtrl) (arr : List NvmeZone), m.zone_array = arr →
      zoneAt m zj = arr.getD zj default := by
    intro m arr h; simp [zoneAt, h]
  rw [hz _ _ rfl]
  simp only [List.length_set, List.getD_eq_getElem?_getD, List.getElem?_set]
  by_cases h : zj = zi
  · subst h
    simp [hl, assignZone]
  · have h' : ¬ zi = zj := fun e => h e.symm
    simp [h, h', zoneAt, List.getD_eq_getElem?_getD]

theorem assign_spec (n : FemuCtrl) (zi : Nat) (st : NvmeZoneState) (hq : QueuesOk n)
    (hl : zi < n.zone_array.length) :
    QueuesOk (zns_assign_zone_state n zi st) ∧
      (zns_assign_zone_state n zi st).imp_open_zones.length +
          (decide ((zoneAt n zi).d.zs = NvmeZoneState.IMPLICITLY_OPEN)).toNat =
        n.imp_open_zones.length + (decide (st = NvmeZoneState.IMPLICITLY_OPEN)).toNat ∧
      (zns_assign_zone_state n zi st).exp_open_zones.length +
          (decide ((zoneAt n zi).d.zs = NvmeZoneState.EXPLICITLY_OPEN)).toNat =
        n.exp_open_zones.length + (decide (st = NvmeZoneState.EXPLICITLY_OPEN)).toNat ∧
      (zns_assign_zone_state n zi st).closed_zones.length +
          (decide ((zoneAt n zi).d.zs = NvmeZoneState.CLOSED)).toNat =
        n.closed_zones.length + (decide (st = NvmeZoneState.CLOSED)).toNat ∧
      (zns_assign_zone_state n zi st).full_zones.length +
          (decide ((zoneAt n zi).d.zs = NvmeZoneState.FULL)).toNat =
        n.full_zones.length + (decide (st = NvmeZoneState.FULL)).toNat := by
  obtain ⟨h1, h2, h3, h4, d1, d2, d3, d4⟩ := hq
  have key : ∀ (l : List Nat) (X : NvmeZoneState), l.Nodup → (∀ zj, zj ∈ l ↔ inState n zj X) →
      (∀ zj, zj ∈ queueAfter l zi (decide ((zoneAt n zi).d.zs = X)) (decide (st = X)) ↔
        inState (zns_assign_zone_state n zi st) zj X) ∧
      (queueAfter l zi (decide ((zoneAt n zi).d.zs = X)) (decide (st = X))).Nodup ∧
      (queueAfter l zi (decide ((zoneAt n zi).d.zs = X)) (decide (st = X))).length +
          (decide ((zoneAt n zi).d.zs = X)).toNat = l.length + (decide (st = X)).toNat := by
    intro l X hnd hm
    have hrem : zi ∈ l ↔ decide ((zoneAt n zi).d.zs = X) = true := by
      rw [hm zi]; simp [inState, hl]
    obtain ⟨a, b, c⟩ := queueAfter_spec l zi _ (decide (st = X)) hnd hrem
    refine ⟨?_, b, c⟩
    intro zj
    rw [a zj, inState_assign n zi zj st X hl, hm zj]
    simp
  obtain ⟨a1, b1, c1⟩ := key _ _ d1 h1
  obtain ⟨a2, b2, c2⟩ := key _ _ d2 h2
  obtain ⟨a3, b3, c3⟩ := key _ _ d3 h3
  obtain ⟨a4, b4, c4⟩ := key _ _ d4 h4
  have e := assign_eq n zi st
  have ei : (zns_assign_zone_state n zi st).imp_open_zones = queueAfter n.imp_open_zones zi
      (decide ((zoneAt n zi).d.zs = NvmeZoneState.IMPLICITLY_OPEN))
      (decide (st = NvmeZoneState.IMPLICITLY_OPEN)) := by rw [e]
  have ee : (zns_assign_zone_state n zi st).exp_open_zones = queueAfter n.exp_open_zones zi
      (decide ((zoneAt n zi).d.zs = NvmeZoneState.EXPLICITLY_OPEN))
      (decide (st = NvmeZoneState.EXPLICITLY_OPEN)) := by rw [e]
  have ec : (zns_assign_zone_state n zi st).closed_zones = queueAfter n.closed_zones zi
      (decide ((zoneAt n zi).d.zs = NvmeZoneState.CLOSED))
      (decide (st = NvmeZoneState.CLOSED)) := by rw [e]
  have ef : (zns_assign_zone_state n zi st).full_zones = queueAfter n.full_zones zi
      (decide ((zoneAt n zi).d.zs = NvmeZoneState.FULL))
      (decide (st = NvmeZoneState.FULL)) := by rw [e]
  unfold QueuesOk
  rw [ei, ee, ec, ef]
  exact ⟨⟨a1, a2, a3, a4, b1, b2, b3, b4⟩, c1, c2, c3, c4⟩

theorem nodup_length_le (l : List Nat) (N : Nat) (hnd : l.Nodup) (h : ∀ x ∈ l, x < N) :
    l.length ≤ N := by
  have hsub : l.toFinset ⊆ Finset.range N := by
    intro x hx
    simp only [List.mem_toFinset] at hx
    simpa using h x hx
  have hc := Finset.card_le_card hsub
  rw [List.toFinset_card_of_nodup hnd, Finset.card_range] at hc
  exact hc

/-- Room left in the array by a zone that holds no open resource, and by one
that holds no active resource. -/
theorem count_room (n : FemuCtrl) (zi : Nat) (hq : QueuesOk n)
    (hl : zi < n.zone_array.length) :
    openCount n + (1 - isOpen (zoneAt n zi).d.zs) ≤ n.zone_array.length ∧
      activeCount n + (1 - isActive (zoneAt n zi).d.zs) ≤ n.zone_array.length := by
  obtain ⟨h1, h2, h3, _, d1, d2, d3, _⟩ := hq
  have hdis12 : ∀ a ∈ n.imp_open_zones, a ∉ n.exp_open_zones := by
    intro a ha hb
    have := ((h1 a).1 ha).2
    have := ((h2 a).1 hb).2
    simp_all
  have hdis13 : ∀ a ∈ n.imp_open_zones, a ∉ n.closed_zones := by
    intro a ha hb
    have := ((h1 a).1 ha).2
    have := ((h3 a).1 hb).2
    simp_all
  have hdis23 : ∀ a ∈ n.exp_open_zones, a ∉ n.closed_zones := by
    intro a ha hb
    have := ((h2 a).1 ha).2
    have := ((h3 a).1 hb).2
    simp_all
  have nd12 : (n.imp_open_zones ++ n.exp_open_zones).Nodup := by
    rw [List.nodup_append]
    exact ⟨d1, d2, fun a ha hb => hdis12 a ha hb⟩
  have nd123 : (n.imp_open_zones ++ n.exp_open_zones ++ n.closed_zones).Nodup := by
    rw [List.nodup_append]
    refine ⟨nd12, d3, ?_⟩
    intro a ha hb
    rcases List.mem_append.1 ha with ha | ha
    · exact hdis13 a ha hb
    · exact hdis23 a ha hb
  have lt12 : ∀ x ∈ n.imp_open_zones ++ n.exp_open_zones, x < n.zone_array.length := by
    intro x hx
    rcases List.mem_append.1 hx with hx | hx
    · exact ((h1 x).1 hx).1
    · exact ((h2 x).1 hx).1
  have lt123 : ∀ x ∈ n.imp_open_zones ++ n.exp_open_zones ++ n.closed_zones,
      x < n.zone_array.length := by
    intro x hx
    rcases List.mem_append.1 hx with hx | hx
    · exact lt12 x hx
    · exact ((h3 x).1 hx).1
  constructor
  · by_cases ho : isOpen (zoneAt n zi).d.zs = 0
    · have hz1 : zi ∉ n.imp_open_zones := by
        intro hm
        have := ((h1 zi).1 hm).2
        simp [isOpen, this] at ho
      have hz2 : zi ∉ n.exp_open_zones := by
        intro hm
        have := ((h2 zi).1 hm).2
        simp [isOpen, this] at ho
      have nd : (zi :: (n.imp_open_zones ++ n.exp_open_zones)).Nodup := by
        rw [List.nodup_cons]
        exact ⟨by simp [hz1, hz2], nd12⟩
      have := nodup_length_le _ n.zone_array.length nd (by
        intro x hx
        rcases List.mem_cons.1 hx with hx | hx
        · exact hx ▸ hl
        · exact lt12 x hx)
      simp only [List.length_cons, List.length_append] at this
      unfold openCount
      omega
    · have := nodup_length_le _ n.zone_array.length nd12 lt12
      simp only [List.length_append] at this
      unfold openCount
      omega
  · by_cases ha : isActive (zoneAt n zi).d.zs = 0
    · have hz1 : zi ∉ n.imp_open_zones := by
        intro hm
        have := ((h1 zi).1 hm).2
        simp [isActive, isOpen, this] at ha
      have hz2 : zi ∉ n.exp_open_zones := by
        intro hm
        have := ((h2 zi).1 hm).2
        simp [isActive, isOpen, this] at ha
      have hz3 : zi ∉ n.closed_zones := by
        intro hm
        have := ((h3 zi).1 hm).2
        simp [isActive, isOpen, this] at ha
      have nd : (zi :: (n.imp_open_zones ++ n.exp_open_zones ++ n.closed_zones)).Nodup := by
        rw [List.nodup_cons]
        exact ⟨by simp [hz1, hz2, hz3], nd123⟩
      have := nodup_length_le _ n.zone_array.length nd (by
        intro x hx
        rcases List.mem_cons.1 hx with hx | hx
        · exact hx ▸ hl
        · exact lt123 x hx)
      simp only [List.length_cons, List.length_append] at this
      unfold activeCount openCount
      omega
    · have := nodup_length_le _ n.zone_array.length nd123 lt123
      simp only [List.length_append] at this
      unfold activeCount openCount
      omega

theorem assign_frame (n : FemuCtrl) (zi : Nat) (st : NvmeZoneState) :
    (zns_assign_zone_state n zi st).nr_open_zones = n.nr_open_zones ∧
    (zns_assign_zone_state n zi st).nr_active_zones = n.nr_active_zones ∧
    (zns_assign_zone_state n zi st).max_open_zones = n.max_open_zones ∧
    (zns_assign_zone_state n zi st).max_active_zones = n.max_active_zones ∧
    (zns_assign_zone_state n zi st).zone_array.length = n.zone_array.length := by
  rw [assign_eq]
  simp

theorem Inv_assign (m : FemuCtrl) (zi : Nat) (st : NvmeZoneState) (hq : QueuesOk m)
    (hlen : m.zone_array.length < U32) (hl : zi < m.zone_array.length)
    (ho : m.max_open_zones ≠ 0 →
      m.nr_open_zones + isOpen (zoneAt m zi).d.zs = openCount m + isOpen st ∧
        m.nr_open_zones ≤ m.max_open_zones)
    (ha : m.max_active_zones ≠ 0 →
      m.nr_active_zones + isActive (zoneAt m zi).d.zs = activeCount m + isActive st ∧
        m.nr_active_zones ≤ m.max_active_zones) :
    Inv (zns_assign_zone_state m zi st) := by
  obtain ⟨q, c1, c2, c3, _⟩ := assign_spec m zi st hq hl
  obtain ⟨f1, f2, f3, f4, f5⟩ := assign_frame m zi st
  refine ⟨q, by rw [f5]; exact hlen, ?_, ?_⟩
  · intro hmax
    rw [f3] at hmax
    obtain ⟨e, le⟩ := ho hmax
    rw [f1, f3]
    refine ⟨?_, le⟩
    unfold openCount isOpen at *
    omega
  · intro hmax
    rw [f4] at hmax
    obtain ⟨e, le⟩ := ha hmax
    rw [f2, f4]
    refine ⟨?_, le⟩
    unfold activeCount openCount isActive isOpen at *
    omega

theorem SameQ.refl (n : FemuCtrl) : SameQ n n :=
  ⟨rfl, rfl, rfl, rfl, rfl, fun _ => rfl, rfl, rfl⟩

theorem SameQ.inc_open {n m : FemuCtrl} (h : SameQ n m) : SameQ n (zns_aor_inc_open m) := h

theorem SameQ.dec_open {n m : FemuCtrl} (h : SameQ n m) : SameQ n (zns_aor_dec_open m) := h

theorem SameQ.inc_active {n m : FemuCtrl} (h : SameQ n m) : SameQ n (zns_aor_inc_active m) := h

theorem SameQ.dec_active {n m : FemuCtrl} (h : SameQ n m) : SameQ n (zns_aor_dec_active m) := h

theorem SameQ.setZone {n m : FemuCtrl} (h : SameQ n m) (zi : Nat) (z : NvmeZone)
    (hz : z.d.zs = (zoneAt m zi).d.zs) : SameQ n (setZone m zi z) := by
  obtain ⟨h1, h2, h3, h4, h5, h6, h7, h8⟩ := h
  refine ⟨h1, h2, h3, h4, ?_, ?_, h7, h8⟩
  · rw [length_setZone]; exact h5
  · intro zj
    rw [zoneAt_setZone]
    split
    · next hc => rw [hz, ← h6, hc.1]
    · exact h6 zj

theorem SameQ.queuesOk {n m : FemuCtrl} (h : SameQ n m) (hq : QueuesOk n) : QueuesOk m := by
  obtain ⟨h1, h2, h3, h4, h5, h6, _, _⟩ := h
  unfold QueuesOk inState at *
  rw [h1, h2, h3, h4, h5]
  simp only [h6]
  exact hq

theorem SameQ.counts {n m : FemuCtrl} (h : SameQ n m) :
    openCount m = openCount n ∧ activeCount m = activeCount n := by
  obtain ⟨h1, h2, h3, _, _, _, _, _⟩ := h
  simp [openCount, activeCount, h1, h2, h3]

/-- A zone in an open (active) state is counted among the open (active) zones. -/
theorem count_pos (n : FemuCtrl) (zi : Nat) (hq : QueuesOk n)
    (hl : zi < n.zone_array.length) :
    isOpen (zoneAt n zi).d.zs ≤ openCount n ∧ isActive (zoneAt n zi).d.zs ≤ activeCount n := by
  obtain ⟨h1, h2, h3, _, _, _, _, _⟩ := hq
  have p1 : (zoneAt n zi).d.zs = NvmeZoneState.IMPLICITLY_OPEN → 0 < n.imp_open_zones.length :=
    fun e => List.length_pos_of_mem ((h1 zi).2 ⟨hl, e⟩)
  have p2 : (zoneAt n zi).d.zs = NvmeZoneState.EXPLICITLY_OPEN → 0 < n.exp_open_zones.length :=
    fun e => List.length_pos_of_mem ((h2 zi).2 ⟨hl, e⟩)
  have p3 : (zoneAt n zi).d.zs = NvmeZoneState.CLOSED → 0 < n.closed_zones.length :=
    fun e => List.length_pos_of_mem ((h3 zi).2 ⟨hl, e⟩)
  unfold isActive isOpen activeCount openCount
  cases hs : (zoneAt n zi).d.zs <;> simp_all <;> omega

/-- The general transition step: starting from a state `n` with the invariant,
a state `m` that differs from it in counters and write pointers only, followed
by the assignment of the state `st` to zone `zi`, has the invariant again when
the counters were moved by what the old and the new state of the zone hold. -/
theorem Inv_transition (n m : FemuCtrl) (zi : Nat) (st : NvmeZoneState) (hinv : Inv n)
    (hs : SameQ n m) (hl : zi < n.zone_array.length)
    (ho : n.max_open_zones ≠ 0 →
      m.nr_open_zones + isOpen (zoneAt n zi).d.zs = n.nr_open_zones + isOpen st ∧
        m.nr_open_zones ≤ n.max_open_zones)
    (ha : n.max_active_zones ≠ 0 →
      m.nr_active_zones + isActive (zoneAt n zi).d.zs = n.nr_active_zones + isActive st ∧
        m.nr_active_zones ≤ n.max_active_zones) :
    Inv (zns_assign_zone_state m zi st) := by
  obtain ⟨hq, hlen, io, ia⟩ := hinv
  obtain ⟨c1, c2⟩ := hs.counts
  have hs' := hs
  obtain ⟨_, _, _, _, h5, h6, h7, h8⟩ := hs'
  apply Inv_assign m zi st (hs.queuesOk hq) (by rw [h5]; exact hlen) (by rw [h5]; exact hl)
  · intro hm
    rw [h7] at hm
    rw [h6, h7, c1]
    obtain ⟨e, le⟩ := ho hm
    obtain ⟨e', _⟩ := io hm
    exact ⟨by omega, le⟩
  · intro hm
    rw [h8] at hm
    rw [h6, h8, c2]
    obtain ⟨e, le⟩ := ha hm
    obtain ⟨e', _⟩ := ia hm
    exact ⟨by omega, le⟩

/-- A state that differs from one with the invariant in write pointers and
other uncounted fields only has the invariant too. -/
theorem Inv_same (n m : FemuCtrl) (hinv : Inv n) (hs : SameQ n m)
    (ho : m.nr_open_zones = n.nr_open_zones) (ha : m.nr_active_zones = n.nr_active_zones) :
    Inv m := by
  obtain ⟨hq, hlen, io, ia⟩ := hinv
  obtain ⟨c1, c2⟩ := hs.counts
  have hs' := hs
  obtain ⟨_, _, _, _, h5, h6, h7, h8⟩ := hs'
  refine ⟨hs.queuesOk hq, by rw [h5]; exact hlen, ?_, ?_⟩
  · rw [h7, ho, c1]; exact io
  · rw [h8, ha, c2]; exact ia

/-- Counter bounds available in a state with the invariant. -/
theorem Inv_bounds (n : FemuCtrl) (zi : Nat) (hinv : Inv n) (hl : zi < n.zone_array.length) :
    (n.max_open_zones ≠ 0 →
      n.nr_open_zones + (1 - isOpen (zoneAt n zi).d.zs) < U32 ∧
        isOpen (zoneAt n zi).d.zs ≤ n.nr_open_zones ∧ n.nr_open_zones ≤ n.max_open_zones) ∧
    (n.max_active_zones ≠ 0 →
      n.nr_active_zones + (1 - isActive (zoneAt n zi).d.zs) < U32 ∧
        isActive (zoneAt n zi).d.zs ≤ n.nr_active_zones ∧
        n.nr_active_zones ≤ n.max_active_zones) := by
  obtain ⟨hq, hlen, io, ia⟩ := hinv
  obtain ⟨r1, r2⟩ := count_room n zi hq hl
  obtain ⟨p1, p2⟩ := count_pos n zi hq hl
  constructor
  · intro hm
    obtain ⟨e, le⟩ := io hm
    exact ⟨by omega, by omega, le⟩
  · intro hm
    obtain ⟨e, le⟩ := ia hm
    exact ⟨by omega, by omega, le⟩

theorem aor_check_success (n : FemuCtrl) (act opn : Nat) :
    zns_aor_check n act opn = NVME_SUCCESS ↔
      (n.max_active_zones ≠ 0 → (n.nr_active_zones + act) % U32 ≤ n.max_active_zones) ∧
      (n.max_open_zones ≠ 0 → (n.nr_open_zones + opn) % U32 ≤ n.max_open_zones) := by
  unfold zns_aor_check NVME_SUCCESS
  by_cases h1 : n.max_active_zones ≠ 0 ∧ (n.nr_active_zones + act) % U32 > n.max_active_zones
  · rw [if_pos h1]
    simp only [Status.mk.injEq, reduceCtorEq, false_and, false_iff, not_and]
    intro h
    have := h h1.1
    omega
  · rw [if_neg h1]
    by_cases h2 : n.max_open_zones ≠ 0 ∧ (n.nr_open_zones + opn) % U32 > n.max_open_zones
    · rw [if_pos h2]
      simp only [Status.mk.injEq, reduceCtorEq, false_and, false_iff, not_and]
      intro _ h
      have := h h2.1
      omega
    · rw [if_neg h2]
      simp only [true_iff]
      constructor
      · intro hm
        by_contra hc
        exact h1 ⟨hm, by omega⟩
      · intro hm
        by_contra hc
        exact h2 ⟨hm, by omega⟩

theorem auto_transition_eq (n : FemuCtrl) (hq : QueuesOk n) :
    zns_auto_transition_zone n =
      if n.max_open_zones ≠ 0 ∧ n.nr_open_zones = n.max_open_zones then
        match n.imp_open_zones.head? with
        | some zi => zns_assign_zone_state (zns_aor_dec_open n) zi NvmeZoneState.CLOSED
        | none => n
      else n := by
  unfold zns_auto_transition_zone
  split
  · cases hh : n.imp_open_zones.head? with
    | none => rfl
    | some zi =>
      simp only
      have hmem : zi ∈ n.imp_open_zones := List.mem_of_mem_head? hh
      obtain ⟨h1, _, _, _, d1, _, _, _⟩ := hq
      have hst : (zoneAt n zi).d.zs = NvmeZoneState.IMPLICITLY_OPEN := ((h1 zi).1 hmem).2
      have hni : zi ∉ n.imp_open_zones.erase zi := fun h => (d1.mem_erase_iff.1 h).1 rfl
      rw [assign_eq, assign_eq]
      have z1 : zoneAt (zns_aor_dec_open { n with imp_open_zones := n.imp_open_zones.erase zi }) zi
          = zoneAt n zi := rfl
      have z2 : zoneAt (zns_aor_dec_open n) zi = zoneAt n zi := rfl
      rw [z1, z2]
      simp [hst, queueAfter, zns_aor_dec_open, List.erase_of_not_mem hni]
  · rfl

theorem Inv_auto_transition (n : FemuCtrl) (hinv : Inv n) : Inv (zns_auto_transition_zone n) := by
  rw [auto_transition_eq n hinv.1]
  split
  · next hc =>
    cases hh : n.imp_open_zones.head? with
    | none => exact hinv
    | some zi =>
      simp only
      have hmem : zi ∈ n.imp_open_zones := List.mem_of_mem_head? hh
      have hin := (hinv.1.1 zi).1 hmem
      obtain ⟨bo, ba⟩ := Inv_bounds n zi hinv hin.1
      apply Inv_transition n _ zi _ hinv (SameQ.refl n).dec_open hin.1
      · intro hm
        obtain ⟨b1, b2, b3⟩ := bo hm
        rw [hin.2] at b1 b2 ⊢
        simp only [zns_aor_dec_open, isOpen, U32] at *
        simp at *
        split <;> omega
      · intro hm
        obtain ⟨b1, b2, b3⟩ := ba hm
        rw [hin.2]
        simp only [zns_aor_dec_open, isActive, isOpen] at *
        simp at *
        omega
  · exact hinv

/-- The zone records other than the one assigned are left alone, and the
assigned record keeps everything but its state and attributes. -/
theorem zoneAt_assign (n : FemuCtrl) (zi zj : Nat) (st : NvmeZoneState) :
    zoneAt (zns_assign_zone_state n zi st) zj =
      if zj = zi ∧ zi < n.zone_array.length then assignZone (zoneAt n zi) st else zoneAt n zj := by
  rw [assign_eq]
  exact zoneAt_setZone n zi zj _

theorem auto_transition_zoneAt (n : FemuCtrl) (zi : Nat) (hinv : Inv n)
    (hs : (zoneAt n zi).d.zs ≠ NvmeZoneState.IMPLICITLY_OPEN) :
    zoneAt (zns_auto_transition_zone n) zi = zoneAt n zi ∧
      (zns_auto_transition_zone n).zone_array.length = n.zone_array.length := by
  rw [auto_transition_eq n hinv.1]
  split
  · cases hh : n.imp_open_zones.head? with
    | none => exact ⟨rfl, rfl⟩
    | some h =>
      simp only
      have hmem : h ∈ n.imp_open_zones := List.mem_of_mem_head? hh
      have hin := (hinv.1.1 h).1 hmem
      refine ⟨?_, (assign_frame _ _ _).2.2.2.2⟩
      rw [zoneAt_assign]
      have hne : ¬ zi = h := fun e => hs (e ▸ hin.2)
      simp only [hne, false_and, if_false]
      rfl
  · exact ⟨rfl, rfl⟩

theorem Inv_advance (n : FemuCtrl) (zi nlb : Nat) (hinv : Inv n)
    (hl : zi < n.zone_array.length)
    (he : (zoneAt n zi).d.zs = NvmeZoneState.EMPTY → zns_aor_check n 1 1 = NVME_SUCCESS)
    (hc : (zoneAt n zi).d.zs = NvmeZoneState.CLOSED → zns_aor_check n 0 1 = NVME_SUCCESS) :
    Inv (zns_advance_zone_wp n zi nlb).2 := by
  have hsq : SameQ n (setZone n zi { zoneAt n zi with w_ptr := ((zoneAt n zi).w_ptr + nlb) % U64 }) :=
    (SameQ.refl n).setZone zi _ rfl
  have hst : (zoneAt (setZone n zi { zoneAt n zi with w_ptr := ((zoneAt n zi).w_ptr + nlb) % U64 })
      zi).d.zs = (zoneAt n zi).d.zs := hsq.2.2.2.2.2.1 zi
  obtain ⟨bo, ba⟩ := Inv_bounds n zi hinv hl
  unfold zns_advance_zone_wp
  simp only [zns_get_zone_state, hst]
  split
  · cases hs : (zoneAt n zi).d.zs with
    | EMPTY =>
      simp only
      obtain ⟨ca, co⟩ := (aor_check_success n 1 1).1 (he hs)
      apply Inv_transition n _ zi _ hinv hsq.inc_active.inc_open hl
      · intro hm
        obtain ⟨b1, b2, b3⟩ := bo hm
        have co' := co hm
        rw [hs] at b1 b2 ⊢
        simp only [zns_aor_inc_open, zns_aor_inc_active, setZone, isOpen, U32] at *
        simp at *
        omega
      · intro hm
        obtain ⟨b1, b2, b3⟩ := ba hm
        have ca' := ca hm
        rw [hs] at b1 b2 ⊢
        simp only [zns_aor_inc_open, zns_aor_inc_active, setZone, isActive, isOpen, U32] at *
        simp at *
        omega
    | CLOSED =>
      simp only
      obtain ⟨ca, co⟩ := (aor_check_success n 0 1).1 (hc hs)
      apply Inv_transition n _ zi _ hinv hsq.inc_open hl
      · intro hm
        obtain ⟨b1, b2, b3⟩ := bo hm
        have co' := co hm
        rw [hs] at b1 b2 ⊢
        simp only [zns_aor_inc_open, setZone, isOpen, U32] at *
        simp at *
        omega
      · intro hm
        obtain ⟨b1, b2, b3⟩ := ba hm
        rw [hs] at b1 b2 ⊢
        simp only [zns_aor_inc_open, setZone, isActive, isOpen, U32] at *
        simp at *
        omega
    | _ => exact Inv_same n _ hinv hsq rfl rfl
  · exact Inv_same n _ hinv hsq rfl rfl

theorem Inv_release (n m : FemuCtrl) (zi : Nat) (st : NvmeZoneState) (hinv : Inv n)
    (hl : zi < n.zone_array.length) (hs : SameQ n m)
    (ho : m.nr_open_zones = (releaseFor (zoneAt n zi).d.zs n).nr_open_zones)
    (ha : m.nr_active_zones = (releaseFor (zoneAt n zi).d.zs n).nr_active_zones)
    (hst : isActive st = 0) : Inv (zns_assign_zone_state m zi st) := by
  obtain ⟨bo, ba⟩ := Inv_bounds n zi hinv hl
  have hso : isOpen st = 0 := by unfold isActive at hst; omega
  apply Inv_transition n m zi st hinv hs hl
  · intro hm
    obtain ⟨b1, b2, b3⟩ := bo hm
    rw [ho, hso]
    cases hos : (zoneAt n zi).d.zs <;> rw [hos] at b1 b2 <;>
      simp only [releaseFor, zns_aor_dec_open, zns_aor_dec_active, isOpen, U32] at * <;>
      simp at * <;> (try split) <;> omega
  · intro hm
    obtain ⟨b1, b2, b3⟩ := ba hm
    rw [ha, hst]
    cases hos : (zoneAt n zi).d.zs <;> rw [hos] at b1 b2 <;>
      simp only [releaseFor, zns_aor_dec_open, zns_aor_dec_active, isActive, isOpen, U32] at * <;>
      simp at * <;> (try split) <;> omega

theorem get_zone_lt (n : FemuCtrl) (slba zi : Nat) (h : zns_get_zone_by_slba n slba = some zi) :
    zi < n.zone_array.length := by
  unfold zns_get_zone_by_slba at h
  cases hz : zns_zone_idx n slba with
  | none => simp [hz] at h
  | some idx =>
    simp only [hz] at h
    split at h
    · next hc => simp only [Option.some.injEq] at h; exact h ▸ hc.2
    · simp at h

theorem Inv_finalize (n n' : FemuCtrl) (req req' : NvmeRequest) (failed : Bool) (hinv : Inv n)
    (h : zns_finalize_zoned_write n req failed = some (n', req')) : Inv n' := by
  unfold zns_finalize_zoned_write at h
  cases hz : zns_get_zone_by_slba n req.cmd.slba with
  | none => simp [hz] at h
  | some zi =>
  have hl := get_zone_lt n _ zi hz
  have hsq : SameQ n (setZone n zi { zoneAt n zi with
      d := { (zoneAt n zi).d with wp := ((zoneAt n zi).d.wp + (req.cmd.nlb + 1)) % U64 } }) :=
    (SameQ.refl n).setZone zi _ rfl
  have hst := hsq.2.2.2.2.2.1 zi
  cases failed <;> simp only [hz, Bool.false_eq_true, if_false, if_true] at h <;>
  · split at h
    · split at h
      · next hs =>
        have hs' : (zoneAt n zi).d.zs = NvmeZoneState.IMPLICITLY_OPEN := hst ▸ hs
        simp only [Option.some.injEq, Prod.mk.injEq] at h
        obtain ⟨h1, _⟩ := h
        subst h1
        exact Inv_release n _ zi _ hinv hl hsq.dec_open.dec_active (by rw [hs']; rfl)
          (by rw [hs']; rfl) (by decide)
      · next hs =>
        have hs' : (zoneAt n zi).d.zs = NvmeZoneState.EXPLICITLY_OPEN := hst ▸ hs
        simp only [Option.some.injEq, Prod.mk.injEq] at h
        obtain ⟨h1, _⟩ := h
        subst h1
        exact Inv_release n _ zi _ hinv hl hsq.dec_open.dec_active (by rw [hs']; rfl)
          (by rw [hs']; rfl) (by decide)
      · next hs =>
        have hs' : (zoneAt n zi).d.zs = NvmeZoneState.CLOSED := hst ▸ hs
        simp only [Option.some.injEq, Prod.mk.injEq] at h
        obtain ⟨h1, _⟩ := h
        subst h1
        exact Inv_release n _ zi _ hinv hl hsq.dec_active (by rw [hs']; rfl)
          (by rw [hs']; rfl) (by decide)
      · next hs =>
        have hs' : (zoneAt n zi).d.zs = NvmeZoneState.EMPTY := hst ▸ hs
        simp only [Option.some.injEq, Prod.mk.injEq] at h
        obtain ⟨h1, _⟩ := h
        subst h1
        exact Inv_release n _ zi _ hinv hl hsq (by rw [hs']; rfl)
          (by rw [hs']; rfl) (by decide)
      · simp only [Option.some.injEq, Prod.mk.injEq] at h
        obtain ⟨h1, _⟩ := h
        subst h1
        exact Inv_same n _ hinv hsq rfl rfl
      · simp at h
    · simp only [Option.some.injEq, Prod.mk.injEq] at h
      obtain ⟨h1, _⟩ := h
      subst h1
      exact Inv_same n _ hinv hsq rfl rfl

theorem Inv_auto_open (n : FemuCtrl) (zi : Nat) (hinv : Inv n) :
    Inv (zns_auto_open_zone n zi).2 := by
  unfold zns_auto_open_zone
  split <;> first | exact Inv_auto_transition n hinv | exact hinv

theorem auto_open_success (n : FemuCtrl) (zi : Nat) (hinv : Inv n)
    (h : (zns_auto_open_zone n zi).1 = NVME_SUCCESS) :
    zoneAt (zns_auto_open_zone n zi).2 zi = zoneAt n zi ∧
    (zns_auto_open_zone n zi).2.zone_array.length = n.zone_array.length ∧
    ((zoneAt n zi).d.zs = NvmeZoneState.EMPTY →
      zns_aor_check (zns_auto_open_zone n zi).2 1 1 = NVME_SUCCESS) ∧
    ((zoneAt n zi).d.zs = NvmeZoneState.CLOSED →
      zns_aor_check (zns_auto_open_zone n zi).2 0 1 = NVME_SUCCESS) := by
  unfold zns_auto_open_zone at h ⊢
  simp only [zns_get_zone_state] at h ⊢
  cases hs : (zoneAt n zi).d.zs with
  | EMPTY =>
    simp only [hs] at h ⊢
    obtain ⟨a, b⟩ := auto_transition_zoneAt n zi hinv (by rw [hs]; simp)
    exact ⟨a, b, fun _ => h, fun e => by simp at e⟩
  | CLOSED =>
    simp only [hs] at h ⊢
    obtain ⟨a, b⟩ := auto_transition_zoneAt n zi hinv (by rw [hs]; simp)
    exact ⟨a, b, fun e => by simp at e, fun _ => h⟩
  | IMPLICITLY_OPEN => exact ⟨rfl, rfl, fun e => by simp at e, fun e => by simp at e⟩
  | EXPLICITLY_OPEN => exact ⟨rfl, rfl, fun e => by simp at e, fun e => by simp at e⟩
  | READ_ONLY => exact ⟨rfl, rfl, fun e => by simp at e, fun e => by simp at e⟩
  | FULL => exact ⟨rfl, rfl, fun e => by simp at e, fun e => by simp at e⟩
  | OFFLINE => exact ⟨rfl, rfl, fun e => by simp at e, fun e => by simp at e⟩

/-- The ways a call of `zns_do_write` that returns can have run: which check
stopped it, or that it ran to the end, with the state it leaves in each case. -/
theorem do_write_cases (n : FemuCtrl) (req : NvmeRequest) (append wrz : Bool) (out : WriteOut)
    (h : zns_do_write n req append wrz = some out) :
    n.zoned = true ∧
    ((wrz = false ∧ nvme_check_mdts n (zns_l2b n (req.cmd.nlb + 1)) ≠ NVME_SUCCESS ∧
        out = ⟨(nvme_check_mdts n (zns_l2b n (req.cmd.nlb + 1))).orDNR, n,
          { req with is_write := true }, none⟩) ∨
     ((wrz = true ∨ nvme_check_mdts n (zns_l2b n (req.cmd.nlb + 1)) = NVME_SUCCESS) ∧
      ((zns_check_bounds n req.cmd.slba (req.cmd.nlb + 1) ≠ NVME_SUCCESS ∧
          out = ⟨(zns_check_bounds n req.cmd.slba (req.cmd.nlb + 1)).orDNR, n,
            { req with is_write := true }, none⟩) ∨
       (zns_check_bounds n req.cmd.slba (req.cmd.nlb + 1) = NVME_SUCCESS ∧
        ∃ zi, zns_get_zone_by_slba n req.cmd.slba = some zi ∧
        ((zns_check_zone_write n zi req.cmd.slba (req.cmd.nlb + 1) append ≠ NVME_SUCCESS ∧
            out = ⟨(zns_check_zone_write n zi req.cmd.slba (req.cmd.nlb + 1) append).orDNR, n,
              { req with is_write := true }, none⟩) ∨
         (zns_check_zone_write n zi req.cmd.slba (req.cmd.nlb + 1) append = NVME_SUCCESS ∧
          (((zns_auto_open_zone n zi).1 ≠ NVME_SUCCESS ∧
              out = ⟨(zns_auto_open_zone n zi).1.orDNR, (zns_auto_open_zone n zi).2,
                { req with is_write := true }, none⟩) ∨
           ((zns_auto_open_zone n zi).1 = NVME_SUCCESS ∧
            ((wrz = false ∧
                zns_map_dptr { req with is_write := true, cqe_slba :=
                  (zns_advance_zone_wp (zns_auto_open_zone n zi).2 zi (req.cmd.nlb + 1)).1 }
                  ≠ NVME_SUCCESS ∧
                out = ⟨(zns_map_dptr { req with is_write := true, cqe_slba :=
                    (zns_advance_zone_wp (zns_auto_open_zone n zi).2 zi
                      (req.cmd.nlb + 1)).1 }).orDNR,
                  (zns_advance_zone_wp (zns_auto_open_zone n zi).2 zi (req.cmd.nlb + 1)).2,
                  { req with is_write := true, cqe_slba :=
                    (zns_advance_zone_wp (zns_auto_open_zone n zi).2 zi (req.cmd.nlb + 1)).1 },
                  none⟩) ∨
             ((wrz = true ∨
                zns_map_dptr { req with is_write := true, cqe_slba :=
                  (zns_advance_zone_wp (zns_auto_open_zone n zi).2 zi (req.cmd.nlb + 1)).1 }
                  = NVME_SUCCESS) ∧
              ∃ n3 req3,
                zns_finalize_zoned_write
                  (zns_advance_zone_wp (zns_auto_open_zone n zi).2 zi (req.cmd.nlb + 1)).2
                  { req with is_write := true, cqe_slba :=
                    (zns_advance_zone_wp (zns_auto_open_zone n zi).2 zi (req.cmd.nlb + 1)).1 }
                  false = some (n3, req3) ∧
                out = ⟨NVME_SUCCESS, n3, req3,
                  if wrz then none
                  else some (zns_l2b
                    (zns_advance_zone_wp (zns_auto_open_zone n zi).2 zi (req.cmd.nlb + 1)).2
                    (if append then (zoneAt (zns_auto_open_zone n zi).2 zi).w_ptr
                      else req.cmd.slba))⟩)))))))))) := by
  unfold zns_do_write at h
  by_cases hz : n.zoned = true
  swap
  · simp [hz] at h
  refine ⟨hz, ?_⟩
  simp only [hz, not_true_eq_false, if_false] at h
  cases wrz with
  | false =>
    simp only [Bool.false_eq_true, if_false] at h ⊢
    by_cases h1 : nvme_check_mdts n (zns_l2b n (req.cmd.nlb + 1)) = NVME_SUCCESS
    swap
    · simp only [ne_eq, h1, not_false_eq_true, if_true, Option.some.injEq] at h
      exact Or.inl ⟨trivial, h1, h.symm⟩
    simp only [ne_eq, h1, not_true_eq_false, if_false] at h
    refine Or.inr ⟨Or.inr h1, ?_⟩
    by_cases h2 : zns_check_bounds n req.cmd.slba (req.cmd.nlb + 1) = NVME_SUCCESS
    swap
    · simp only [h2, not_false_eq_true, if_true, Option.some.injEq] at h
      exact Or.inl ⟨h2, h.symm⟩
    simp only [h2, not_true_eq_false, if_false] at h
    refine Or.inr ⟨h2, ?_⟩
    cases hzi : zns_get_zone_by_slba n req.cmd.slba with
    | none => simp [hzi] at h
    | some zi =>
      simp only [hzi] at h
      refine ⟨zi, rfl, ?_⟩
      by_cases h3 : zns_check_zone_write n zi req.cmd.slba (req.cmd.nlb + 1) append = NVME_SUCCESS
      swap
      · simp only [h3, not_false_eq_true, if_true, Option.some.injEq] at h
        exact Or.inl ⟨h3, h.symm⟩
      simp only [h3, not_true_eq_false, if_false] at h
      refine Or.inr ⟨h3, ?_⟩
      by_cases h4 : (zns_auto_open_zone n zi).1 = NVME_SUCCESS
      swap
      · simp only [h4, not_false_eq_true, if_true, Option.some.injEq] at h
        exact Or.inl ⟨h4, h.symm⟩
      simp only [h4, not_true_eq_false, if_false] at h
      refine Or.inr ⟨h4, ?_⟩
      by_cases h5 : zns_map_dptr { req with is_write := true, cqe_slba :=
          (zns_advance_zone_wp (zns_auto_open_zone n zi).2 zi (req.cmd.nlb + 1)).1 } = NVME_SUCCESS
      swap
      · simp only [h5, not_false_eq_true, if_true, Option.some.injEq] at h
        exact Or.inl ⟨trivial, h5, h.symm⟩
      simp only [h5, not_true_eq_false, if_false] at h
      refine Or.inr ⟨Or.inr h5, ?_⟩
      cases hf : zns_finalize_zoned_write
          (zns_advance_zone_wp (zns_auto_open_zone n zi).2 zi (req.cmd.nlb + 1)).2
          { req with is_write := true, cqe_slba :=
            (zns_advance_zone_wp (zns_auto_open_zone n zi).2 zi (req.cmd.nlb + 1)).1 } false with
      | none => simp [hf] at h
      | some r =>
        obtain ⟨n3, req3⟩ := r
        simp only [hf, Option.some.injEq] at h
        exact ⟨n3, req3, rfl, h.symm⟩
  | true =>
    simp only [if_true, ne_eq, not_true_eq_false, if_false] at h ⊢
    refine Or.inr ⟨Or.inl trivial, ?_⟩
    by_cases h2 : zns_check_bounds n req.cmd.slba (req.cmd.nlb + 1) = NVME_SUCCESS
    swap
    · simp only [h2, not_false_eq_true, if_true, Option.some.injEq] at h
      exact Or.inl ⟨h2, h.symm⟩
    simp only [h2, not_true_eq_false, if_false] at h
    refine Or.inr ⟨h2, ?_⟩
    cases hzi : zns_get_zone_by_slba n req.cmd.slba with
    | none => simp [hzi] at h
    | some zi =>
      simp only [hzi] at h
      refine ⟨zi, rfl, ?_⟩
      by_cases h3 : zns_check_zone_write n zi req.cmd.slba (req.cmd.nlb + 1) append = NVME_SUCCESS
      swap
      · simp only [h3, not_false_eq_true, if_true, Option.some.injEq] at h
        exact Or.inl ⟨h3, h.symm⟩
      simp only [h3, not_true_eq_false, if_false] at h
      refine Or.inr ⟨h3, ?_⟩
      by_cases h4 : (zns_auto_open_zone n zi).1 = NVME_SUCCESS
      swap
      · simp only [h4, not_false_eq_true, if_true, Option.some.injEq] at h
        exact Or.inl ⟨h4, h.symm⟩
      simp only [h4, not_true_eq_false, if_false] at h
      refine Or.inr ⟨h4, ?_⟩
      refine Or.inr ⟨Or.inl trivial, ?_⟩
      cases hf : zns_finalize_zoned_write
          (zns_advance_zone_wp (zns_auto_open_zone n zi).2 zi (req.cmd.nlb + 1)).2
          { req with is_write := true, cqe_slba :=
            (zns_advance_zone_wp (zns_auto_open_zone n zi).2 zi (req.cmd.nlb + 1)).1 } false with
      | none => simp [hf] at h
      | some r =>
        obtain ⟨n3, req3⟩ := r
        simp only [hf, Option.some.injEq] at h
        exact ⟨n3, req3, rfl, h.symm⟩

theorem Inv_do_write (n : FemuCtrl) (req : NvmeRequest) (append wrz : Bool) (out : WriteOut)
    (hinv : Inv n) (h : zns_do_write n req append wrz = some out) : Inv out.n := by
  obtain ⟨_, hc⟩ := do_write_cases n req append wrz out h
  rcases hc with ⟨_, _, e⟩ | ⟨_, ⟨_, e⟩ | ⟨_, zi, hz, hc⟩⟩
  · rw [e]; exact hinv
  · rw [e]; exact hinv
  have hl := get_zone_lt n _ zi hz
  rcases hc with ⟨_, e⟩ | ⟨_, ⟨_, e⟩ | ⟨hao, hc⟩⟩
  · rw [e]; exact hinv
  · rw [e]; exact Inv_auto_open n zi hinv
  obtain ⟨a, b, c, d⟩ := auto_open_success n zi hinv hao
  have hinv2 : Inv (zns_advance_zone_wp (zns_auto_open_zone n zi).2 zi (req.cmd.nlb + 1)).2 :=
    Inv_advance _ zi _ (Inv_auto_open n zi hinv) (by rw [b]; exact hl)
      (by rw [a]; exact c) (by rw [a]; exact d)
  rcases hc with ⟨_, _, e⟩ | ⟨_, n3, req3, hf, e⟩
  · rw [e]; exact hinv2
  · rw [e]; exact Inv_finalize _ n3 _ req3 false hinv2 hf

/-! ### The timing model leaves the zone state machine alone -/

theorem advance_status_frame (n : FemuCtrl) (c : nand_cmd) (p : ppa) :
    SameQ n (zns_advance_status n c p).2 ∧
      (zns_advance_status n c p).2.nr_open_zones = n.nr_open_zones ∧
      (zns_advance_status n c p).2.nr_active_zones = n.nr_active_zones ∧
      (zns_advance_status n c p).2.zone_array = n.zone_array := by
  unfold zns_advance_status
  cases c.cmd <;> by_cases hs : c.stime = 0 <;> simp only [hs, if_true, if_false] <;>
    exact ⟨⟨rfl, rfl, rfl, rfl, rfl, fun _ => rfl, rfl, rfl⟩, trivial, trivial, trivial⟩

theorem reset_erase_frame (n : FemuCtrl) (blk : Nat) :
    SameQ n (zns_reset_erase n blk) ∧
      (zns_reset_erase n blk).nr_open_zones = n.nr_open_zones ∧
      (zns_reset_erase n blk).nr_active_zones = n.nr_active_zones ∧
      (zns_reset_erase n blk).zone_array = n.zone_array := by
  unfold zns_reset_erase
  have inner : ∀ (l : List Nat) (ch : Nat) (m : FemuCtrl),
      (SameQ n m ∧ m.nr_open_zones = n.nr_open_zones ∧ m.nr_active_zones = n.nr_active_zones ∧
        m.zone_array = n.zone_array) →
      (fun r : FemuCtrl => SameQ n r ∧ r.nr_open_zones = n.nr_open_zones ∧
        r.nr_active_zones = n.nr_active_zones ∧ r.zone_array = n.zone_array)
        (l.foldl (fun n lun =>
          (zns_advance_status n ⟨NandOp.NAND_ERASE, 0⟩ ⟨ch, lun, blk⟩).2) m) := by
    intro l ch
    induction l with
    | nil => intro m hm; exact hm
    | cons lun rest ih =>
      intro m hm
      simp only [List.foldl_cons]
      apply ih
      obtain ⟨f1, f2, f3, f4⟩ := advance_status_frame m ⟨NandOp.NAND_ERASE, 0⟩ ⟨ch, lun, blk⟩
      obtain ⟨g1, g2, g3, g4⟩ := hm
      refine ⟨?_, by rw [f2, g2], by rw [f3, g3], by rw [f4, g4]⟩
      obtain ⟨a1, a2, a3, a4, a5, a6, a7, a8⟩ := f1
      obtain ⟨b1, b2, b3, b4, b5, b6, b7, b8⟩ := g1
      exact ⟨a1.trans b1, a2.trans b2, a3.trans b3, a4.trans b4, a5.trans b5,
        fun zj => (a6 zj).trans (b6 zj), a7.trans b7, a8.trans b8⟩
  have outer : ∀ (luns l : List Nat) (m : FemuCtrl),
      (SameQ n m ∧ m.nr_open_zones = n.nr_open_zones ∧ m.nr_active_zones = n.nr_active_zones ∧
        m.zone_array = n.zone_array) →
      (fun r : FemuCtrl => SameQ n r ∧ r.nr_open_zones = n.nr_open_zones ∧
        r.nr_active_zones = n.nr_active_zones ∧ r.zone_array = n.zone_array)
        (l.foldl (fun n ch => luns.foldl (fun n lun =>
          (zns_advance_status n ⟨NandOp.NAND_ERASE, 0⟩ ⟨ch, lun, blk⟩).2) n) m) := by
    intro luns l
    induction l with
    | nil => intro m hm; exact hm
    | cons ch rest ih =>
      intro m hm
      simp only [List.foldl_cons]
      exact ih _ (inner _ ch m hm)
  exact outer _ _ n ⟨SameQ.refl n, rfl, rfl, rfl⟩

/-- Variant of `Inv_same` that asks for the counters of configured limits only. -/
theorem Inv_same_capped (n m : FemuCtrl) (hinv : Inv n) (hs : SameQ n m)
    (ho : n.max_open_zones ≠ 0 → m.nr_open_zones = n.nr_open_zones)
    (ha : n.max_active_zones ≠ 0 → m.nr_active_zones = n.nr_active_zones) : Inv m := by
  obtain ⟨hq, hlen, io, ia⟩ := hinv
  obtain ⟨c1, c2⟩ := hs.counts
  have hs' := hs
  obtain ⟨_, _, _, _, h5, h6, h7, h8⟩ := hs'
  refine ⟨hs.queuesOk hq, by rw [h5]; exact hlen, ?_, ?_⟩
  · intro hm
    rw [h7] at hm
    rw [h7, ho hm, c1]; exact io hm
  · intro hm
    rw [h8] at hm
    rw [h8, ha hm, c2]; exact ia hm

theorem Inv_open_zone (n : FemuCtrl) (zi : Nat) (hinv : Inv n) (hl : zi < n.zone_array.length) :
    Inv (zns_open_zone n zi (zoneAt n zi).d.zs).2 := by
  obtain ⟨bo, ba⟩ := Inv_bounds n zi hinv hl
  cases hs : (zoneAt n zi).d.zs with
  | EMPTY =>
    unfold zns_open_zone
    simp only
    by_cases h1 : zns_aor_check n 1 0 = NVME_SUCCESS
    swap
    · simp only [ne_eq, h1, not_false_eq_true, if_true]; exact hinv
    simp only [ne_eq, h1, not_true_eq_false, if_false]
    obtain ⟨ca, _⟩ := (aor_check_success n 1 0).1 h1
    unfold zns_open_zone_closed
    by_cases h2 : zns_aor_check (zns_aor_inc_active n) 0 1 = NVME_SUCCESS
    swap
    · simp only [ne_eq, h2, not_false_eq_true, if_true]
      apply Inv_same_capped n _ hinv (SameQ.refl n).inc_active.dec_active
      · intro _; rfl
      · intro hm
        obtain ⟨b1, b2, b3⟩ := ba hm
        have ca' := ca hm
        rw [hs] at b1
        simp only [zns_aor_inc_active, zns_aor_dec_active, isActive, isOpen, U32] at *
        simp at *
        split <;> omega
    simp only [ne_eq, h2, not_true_eq_false, if_false]
    obtain ⟨_, co⟩ := (aor_check_success (zns_aor_inc_active n) 0 1).1 h2
    apply Inv_transition n _ zi _ hinv (SameQ.refl n).inc_active.inc_open hl
    · intro hm
      obtain ⟨b1, b2, b3⟩ := bo hm
      have co' := co hm
      rw [hs] at b1 b2 ⊢
      simp only [zns_aor_inc_open, zns_aor_inc_active, isOpen, U32] at *
      simp at *
      omega
    · intro hm
      obtain ⟨b1, b2, b3⟩ := ba hm
      have ca' := ca hm
      rw [hs] at b1 b2 ⊢
      simp only [zns_aor_inc_open, zns_aor_inc_active, isActive, isOpen, U32] at *
      simp at *
      omega
  | CLOSED =>
    unfold zns_open_zone zns_open_zone_closed
    simp only
    by_cases h2 : zns_aor_check n 0 1 = NVME_SUCCESS
    swap
    · simp only [ne_eq, h2, not_false_eq_true, if_true, reduceCtorEq, if_false]; exact hinv
    simp only [ne_eq, h2, not_true_eq_false, if_false]
    obtain ⟨_, co⟩ := (aor_check_success n 0 1).1 h2
    apply Inv_transition n _ zi _ hinv (SameQ.refl n).inc_open hl
    · intro hm
      obtain ⟨b1, b2, b3⟩ := bo hm
      have co' := co hm
      rw [hs] at b1 b2 ⊢
      simp only [zns_aor_inc_open, isOpen, U32] at *
      simp at *
      omega
    · intro hm
      obtain ⟨b1, b2, b3⟩ := ba hm
      rw [hs]
      exact ⟨rfl, b3⟩
  | IMPLICITLY_OPEN =>
    unfold zns_open_zone
    simp only
    apply Inv_transition n _ zi _ hinv (SameQ.refl n) hl
    · intro hm; rw [hs]; exact ⟨rfl, (bo hm).2.2⟩
    · intro hm; rw [hs]; exact ⟨rfl, (ba hm).2.2⟩
  | EXPLICITLY_OPEN => exact hinv
  | READ_ONLY => exact hinv
  | FULL => exact hinv
  | OFFLINE => exact hinv

theorem Inv_close_zone (n : FemuCtrl) (zi : Nat) (hinv : Inv n) (hl : zi < n.zone_array.length) :
    Inv (zns_close_zone n zi (zoneAt n zi).d.zs).2 := by
  obtain ⟨bo, ba⟩ := Inv_bounds n zi hinv hl
  have key : isOpen (zoneAt n zi).d.zs = 1 →
      Inv (zns_assign_zone_state (zns_aor_dec_open n) zi NvmeZoneState.CLOSED) := by
    intro h1
    have h2 : isActive (zoneAt n zi).d.zs = 1 := by
      unfold isActive isOpen at *
      cases hs : (zoneAt n zi).d.zs <;> simp [hs] at h1 ⊢
    apply Inv_transition n _ zi _ hinv (SameQ.refl n).dec_open hl
    · intro hm
      obtain ⟨b1, b2, b3⟩ := bo hm
      rw [h1] at b1 b2 ⊢
      simp only [zns_aor_dec_open, isOpen, U32] at *
      simp at *
      split <;> omega
    · intro hm
      obtain ⟨b1, b2, b3⟩ := ba hm
      rw [h2]
      exact ⟨rfl, b3⟩
  cases hs : (zoneAt n zi).d.zs with
  | IMPLICITLY_OPEN => exact key (by rw [hs]; rfl)
  | EXPLICITLY_OPEN => exact key (by rw [hs]; rfl)
  | _ => exact hinv

theorem Inv_finish_zone (n : FemuCtrl) (zi : Nat) (hinv : Inv n) (hl : zi < n.zone_array.length) :
    Inv (zns_finish_zone n zi (zoneAt n zi).d.zs).2 := by
  have key : ∀ m : FemuCtrl, SameQ n m →
      m.nr_open_zones = (releaseFor (zoneAt n zi).d.zs n).nr_open_zones →
      m.nr_active_zones = (releaseFor (zoneAt n zi).d.zs n).nr_active_zones →
      Inv (zns_finish_zone_empty m zi) := by
    intro m hs ho ha
    unfold zns_finish_zone_empty
    refine Inv_release n _ zi _ hinv hl ?_ ho ha (by decide)
    refine SameQ.setZone (SameQ.setZone hs _ _ ?_) _ _ ?_ <;> rfl
  cases hs : (zoneAt n zi).d.zs with
  | IMPLICITLY_OPEN =>
    exact key _ (SameQ.refl n).dec_open.dec_active (by rw [hs]; rfl) (by rw [hs]; rfl)
  | EXPLICITLY_OPEN =>
    exact key _ (SameQ.refl n).dec_open.dec_active (by rw [hs]; rfl) (by rw [hs]; rfl)
  | CLOSED => exact key _ (SameQ.refl n).dec_active (by rw [hs]; rfl) (by rw [hs]; rfl)
  | EMPTY => exact key _ (SameQ.refl n) (by rw [hs]; rfl) (by rw [hs]; rfl)
  | _ => exact hinv

theorem Inv_reset_cb (n : FemuCtrl) (zi : Nat) (hinv : Inv n) (hl : zi < n.zone_array.length) :
    Inv (zns_aio_zone_reset_cb n zi) := by
  have key : ∀ m : FemuCtrl, SameQ n m →
      m.nr_open_zones = (releaseFor (zoneAt n zi).d.zs n).nr_open_zones →
      m.nr_active_zones = (releaseFor (zoneAt n zi).d.zs n).nr_active_zones →
      Inv (zns_assign_zone_state
        (setZone (setZone m zi { zoneAt m zi with w_ptr := (zoneAt m zi).d.zslba }) zi
          { zoneAt (setZone m zi { zoneAt m zi with w_ptr := (zoneAt m zi).d.zslba }) zi with
            d := { (zoneAt (setZone m zi
              { zoneAt m zi with w_ptr := (zoneAt m zi).d.zslba }) zi).d with
              wp := (zoneAt (setZone m zi
                { zoneAt m zi with w_ptr := (zoneAt m zi).d.zslba }) zi).w_ptr } })
        zi NvmeZoneState.EMPTY) := by
    intro m hs ho ha
    refine Inv_release n _ zi _ hinv hl ?_ ho ha (by decide)
    refine SameQ.setZone (SameQ.setZone hs _ _ ?_) _ _ ?_ <;> rfl
  unfold zns_aio_zone_reset_cb
  simp only [zns_get_zone_state]
  have fin : ∀ m : FemuCtrl, Inv m → ∀ blk, Inv (zns_reset_erase m blk) := by
    intro m hm blk
    obtain ⟨f1, f2, f3, _⟩ := reset_erase_frame m blk
    exact Inv_same m _ hm f1 f2 f3
  apply fin
  cases hs : (zoneAt n zi).d.zs with
  | IMPLICITLY_OPEN =>
    exact key _ (SameQ.refl n).dec_open.dec_active (by rw [hs]; rfl) (by rw [hs]; rfl)
  | EXPLICITLY_OPEN =>
    exact key _ (SameQ.refl n).dec_open.dec_active (by rw [hs]; rfl) (by rw [hs]; rfl)
  | CLOSED => exact key _ (SameQ.refl n).dec_active (by rw [hs]; rfl) (by rw [hs]; rfl)
  | FULL => exact key _ (SameQ.refl n) (by rw [hs]; rfl) (by rw [hs]; rfl)
  | _ => exact hinv

theorem Inv_reset_zone (n : FemuCtrl) (zi : Nat) (hinv : Inv n) (hl : zi < n.zone_array.length) :
    Inv (zns_reset_zone n zi (zoneAt n zi).d.zs).2 := by
  unfold zns_reset_zone
  cases (zoneAt n zi).d.zs <;> first | exact hinv | exact Inv_reset_cb n zi hinv hl

theorem Inv_offline_zone (n : FemuCtrl) (zi : Nat) (hinv : Inv n)
    (hl : zi < n.zone_array.length) :
    Inv (zns_offline_zone n zi (zoneAt n zi).d.zs).2 := by
  cases hs : (zoneAt n zi).d.zs with
  | READ_ONLY =>
    exact Inv_release n _ zi _ hinv hl (SameQ.refl n) (by rw [hs]; rfl) (by rw [hs]; rfl)
      (by decide)
  | _ => exact hinv

theorem Inv_set_zd_ext (n : FemuCtrl) (zi : Nat) (hinv : Inv n)
    (hl : zi < n.zone_array.length) : Inv (zns_set_zd_ext n zi).2 := by
  obtain ⟨bo, ba⟩ := Inv_bounds n zi hinv hl
  unfold zns_set_zd_ext
  simp only [zns_get_zone_state]
  by_cases hs : (zoneAt n zi).d.zs = NvmeZoneState.EMPTY
  swap
  · simp only [hs, if_false]; exact hinv
  simp only [hs, if_true]
  by_cases h1 : zns_aor_check n 1 0 = NVME_SUCCESS
  swap
  · simp only [ne_eq, h1, not_false_eq_true, if_true]; exact hinv
  simp only [ne_eq, h1, not_true_eq_false, if_false]
  obtain ⟨ca, _⟩ := (aor_check_success n 1 0).1 h1
  refine Inv_transition n _ zi _ hinv ?_ hl ?_ ?_
  · refine SameQ.setZone (SameQ.refl n).inc_active _ _ ?_; rfl
  · intro hm
    obtain ⟨b1, b2, b3⟩ := bo hm
    rw [hs]
    exact ⟨rfl, b3⟩
  · intro hm
    obtain ⟨b1, b2, b3⟩ := ba hm
    have ca' := ca hm
    rw [hs] at b1 b2 ⊢
    simp only [zns_aor_inc_active, setZone, isActive, isOpen, U32] at *
    simp at *
    omega

theorem zoneAt_out_of_range (n : FemuCtrl) (zi : Nat) (h : n.zone_array.length ≤ zi) :
    (zoneAt n zi).d.zs = NvmeZoneState.EMPTY := by
  unfold zoneAt
  rw [List.getD_eq_default _ _ h]
  rfl

theorem Inv_bulk_proc_zone (op : op_handler_t) (hop : HandlerOk op) (n : FemuCtrl) (zi mask : Nat)
    (hinv : Inv n) : Inv (zns_bulk_proc_zone n zi mask op).2 := by
  unfold zns_bulk_proc_zone
  simp only [zns_get_zone_state]
  split
  · by_cases hl : zi < n.zone_array.length
    · exact hop n zi hinv hl
    · next hp =>
      rw [zoneAt_out_of_range n zi (Nat.le_of_not_lt hl)] at hp
      simp at hp
  · exact hinv

theorem Inv_bulk_foreach (op : op_handler_t) (hop : HandlerOk op) (mask : Nat) (l : List Nat) :
    ∀ (st : Status) (n : FemuCtrl), Inv n → Inv (zns_bulk_foreach mask op l st n).2.1 := by
  induction l with
  | nil => intro st n h; exact h
  | cons zi rest ih =>
    intro st n h
    unfold zns_bulk_foreach
    simp only
    split
    · exact Inv_bulk_proc_zone op hop n zi mask h
    · exact ih _ _ (Inv_bulk_proc_zone op hop n zi mask h)

theorem Inv_bulk_scan (op : op_handler_t) (hop : HandlerOk op) (mask : Nat) (i : Nat) :
    ∀ (zone : Nat) (st : Status) (n : FemuCtrl) (r : Status × FemuCtrl), Inv n →
      zns_bulk_scan mask op i zone st n = some r → Inv r.2 := by
  induction i with
  | zero =>
    intro zone st n r h hr
    simp only [zns_bulk_scan, Option.some.injEq] at hr
    rw [← hr]; exact h
  | succ i ih =>
    intro zone st n r h hr
    unfold zns_bulk_scan at hr
    split at hr
    · simp only at hr
      split at hr
      · simp only [Option.some.injEq] at hr
        rw [← hr]; exact Inv_bulk_proc_zone op hop n zone mask h
      · exact ih _ _ _ r (Inv_bulk_proc_zone op hop n zone mask h) hr
    · simp at hr

theorem Inv_do_zone_op (op : op_handler_t) (hop : HandlerOk op) (n : FemuCtrl) (zone mask : Nat)
    (r : Status × FemuCtrl) (hinv : Inv n) (h : zns_do_zone_op n zone mask op = some r) :
    Inv r.2 := by
  unfold zns_do_zone_op at h
  split at h
  · split at h
    · next hl =>
      simp only [Option.some.injEq] at h
      rw [← h]; exact hop n zone hinv hl
    · simp at h
  · have i1 : Inv (if mask &&& NVME_PROC_CLOSED_ZONES ≠ 0 then
          zns_bulk_foreach mask op n.closed_zones NVME_SUCCESS n
        else (NVME_SUCCESS, n, false)).2.1 := by
      split
      · exact Inv_bulk_foreach op hop mask _ _ _ hinv
      · exact hinv
    generalize (if mask &&& NVME_PROC_CLOSED_ZONES ≠ 0 then
          zns_bulk_foreach mask op n.closed_zones NVME_SUCCESS n
        else (NVME_SUCCESS, n, false)) = r1 at h i1
    simp only at h
    split at h
    · simp only [Option.some.injEq] at h
      rw [← h]; exact i1
    · have i2 : Inv (if mask &&& NVME_PROC_OPENED_ZONES ≠ 0 then
            if (zns_bulk_foreach mask op r1.2.1.imp_open_zones r1.1 r1.2.1).2.2 = true then
              zns_bulk_foreach mask op r1.2.1.imp_open_zones r1.1 r1.2.1
            else zns_bulk_foreach mask op
              (zns_bulk_foreach mask op r1.2.1.imp_open_zones r1.1 r1.2.1).2.1.exp_open_zones
              (zns_bulk_foreach mask op r1.2.1.imp_open_zones r1.1 r1.2.1).1
              (zns_bulk_foreach mask op r1.2.1.imp_open_zones r1.1 r1.2.1).2.1
          else r1).2.1 := by
        split
        · split
          · exact Inv_bulk_foreach op hop mask _ _ _ i1
          · exact Inv_bulk_foreach op hop mask _ _ _ (Inv_bulk_foreach op hop mask _ _ _ i1)
        · exact i1
      generalize (if mask &&& NVME_PROC_OPENED_ZONES ≠ 0 then
            if (zns_bulk_foreach mask op r1.2.1.imp_open_zones r1.1 r1.2.1).2.2 = true then
              zns_bulk_foreach mask op r1.2.1.imp_open_zones r1.1 r1.2.1
            else zns_bulk_foreach mask op
              (zns_bulk_foreach mask op r1.2.1.imp_open_zones r1.1 r1.2.1).2.1.exp_open_zones
              (zns_bulk_foreach mask op r1.2.1.imp_open_zones r1.1 r1.2.1).1
              (zns_bulk_foreach mask op r1.2.1.imp_open_zones r1.1 r1.2.1).2.1
          else r1) = r2 at h i2
      split at h
      · simp only [Option.some.injEq] at h
        rw [← h]; exact i2
      · have i3 : Inv (if mask &&& NVME_PROC_FULL_ZONES ≠ 0 then
              zns_bulk_foreach mask op r2.2.1.full_zones r2.1 r2.2.1
            else r2).2.1 := by
          split
          · exact Inv_bulk_foreach op hop mask _ _ _ i2
          · exact i2
        generalize (if mask &&& NVME_PROC_FULL_ZONES ≠ 0 then
              zns_bulk_foreach mask op r2.2.1.full_zones r2.1 r2.2.1
            else r2) = r3 at h i3
        split at h
        · simp only [Option.some.injEq] at h
          rw [← h]; exact i3
        · split at h
          · split at h
            · split at h
              · simp only [Option.some.injEq] at h
                rw [← h]; exact i3
              · simp at h
            · exact Inv_bulk_scan op hop mask _ _ _ _ r i3 h
          · simp only [Option.some.injEq] at h
            rw [← h]; exact i3

theorem handlerOk_fn (h : ZoneHandler) : HandlerOk h.fn := by
  intro n zi hinv hl
  cases h
  · exact Inv_open_zone n zi hinv hl
  · exact Inv_close_zone n zi hinv hl
  · exact Inv_finish_zone n zi hinv hl
  · exact Inv_reset_zone n zi hinv hl
  · exact Inv_offline_zone n zi hinv hl

theorem Inv_coreOp (n n' : FemuCtrl) (op : CoreOp) (hinv : Inv n) (h : op.run n = some n') :
    Inv n' := by
  cases op with
  | write req append wrz =>
    simp only [CoreOp.run, Option.map_eq_some'] at h
    obtain ⟨out, ho, e⟩ := h
    rw [← e]; exact Inv_do_write n req append wrz out hinv ho
  | zone_op zone mask hd =>
    simp only [CoreOp.run, Option.map_eq_some'] at h
    obtain ⟨r, hr, e⟩ := h
    rw [← e]; exact Inv_do_zone_op hd.fn (handlerOk_fn hd) n zone mask r hinv hr
  | set_zd_ext zone =>
    simp only [CoreOp.run] at h
    split at h
    · next hl =>
      simp only [Option.some.injEq] at h
      rw [← h]; exact Inv_set_zd_ext n zone hinv hl
    · simp at h

theorem Inv_runOps (ops : List CoreOp) :
    ∀ (n n' : FemuCtrl), Inv n → runOps n ops = some n' → Inv n' := by
  induction ops with
  | nil =>
    intro n n' hinv h
    simp only [runOps, Option.some.injEq] at h
    rw [← h]; exact hinv
  | cons op rest ih =>
    intro n n' hinv h
    unfold runOps at h
    split at h
    · simp at h
    · next n1 h1 => exact ih n1 n' (Inv_coreOp n n1 op hinv h1) h

theorem init_zones_spec (zcap capacity : Nat) (i : Nat) :
    ∀ (start zone_size : Nat),
      (zns_init_zones zcap capacity i start zone_size).length = i ∧
      ∀ z ∈ zns_init_zones zcap capacity i start zone_size,
        z.d.zs = NvmeZoneState.EMPTY ∧ z.w_ptr = z.d.zslba ∧ z.d.wp = z.d.zslba := by
  induction i with
  | zero => intro start zone_size; simp [zns_init_zones]
  | succ i ih =>
    intro start zone_size
    unfold zns_init_zones
    simp only [List.length_cons, List.mem_cons]
    refine ⟨by rw [(ih _ _).1], ?_⟩
    intro z hz
    rcases hz with hz | hz
    · subst hz; exact ⟨rfl, rfl, rfl⟩
    · exact (ih _ _).2 z hz

theorem Inv_init (n0 : FemuCtrl) (ho : n0.nr_open_zones = 0) (ha : n0.nr_active_zones = 0)
    (hz : n0.num_zones < U32) : Inv (zns_init_zoned_state n0) := by
  obtain ⟨hlen, hall⟩ := init_zones_spec n0.zone_capacity ((n0.num_zones * n0.zone_size) % U64)
    n0.num_zones 0 n0.zone_size
  have hst : ∀ zi, (zoneAt (zns_init_zoned_state n0) zi).d.zs = NvmeZoneState.EMPTY := by
    intro zi
    by_cases hl : zi < (zns_init_zoned_state n0).zone_array.length
    · have hm : zoneAt (zns_init_zoned_state n0) zi ∈
          zns_init_zones n0.zone_capacity ((n0.num_zones * n0.zone_size) % U64)
            n0.num_zones 0 n0.zone_size := by
        unfold zoneAt
        rw [List.getD_eq_getElem _ _ hl]
        exact List.getElem_mem _
      exact (hall _ hm).1
    · exact zoneAt_out_of_range _ zi (Nat.le_of_not_lt hl)
  refine ⟨?_, ?_, ?_, ?_⟩
  · unfold QueuesOk inState
    simp only [hst]
    simp [zns_init_zoned_state]
  · show (zns_init_zones _ _ _ _ _).length < U32
    rw [hlen]; exact hz
  · intro _
    show n0.nr_open_zones = _ ∧ n0.nr_open_zones ≤ _
    rw [ho]
    simp [openCount, zns_init_zoned_state]
  · intro _
    show n0.nr_active_zones = _ ∧ n0.nr_active_zones ≤ _
    rw [ha]
    simp [activeCount, openCount, zns_init_zoned_state]

theorem Inv_afterOps (n : FemuCtrl) (ops : List CoreOp) (hinv : Inv n) : Inv (afterOps n ops) := by
  unfold afterOps
  cases h : runOps n ops with
  | none => exact hinv
  | some m => exact Inv_runOps ops n m hinv h

theorem Inv_exampleCtrl (a b c d : Nat) (h : a < U32) : Inv (exampleCtrl a b c d) :=
  Inv_init (exampleConfig a b c d) rfl rfl h

/-! ### What the write path leaves alone -/

theorem SameGeom.same (n : FemuCtrl) : SameGeom n n :=
  ⟨rfl, rfl, rfl, rfl, rfl, rfl, rfl, rfl, rfl, rfl, rfl, rfl, fun _ => ⟨rfl, rfl⟩⟩

theorem SameGeom.trans {a b c : FemuCtrl} (h1 : SameGeom a b) (h2 : SameGeom b c) :
    SameGeom a c := by
  obtain ⟨a1, a2, a3, a4, a5, a6, a7, a8, a9, a10, a11, a12, a13⟩ := h1
  obtain ⟨b1, b2, b3, b4, b5, b6, b7, b8, b9, b10, b11, b12, b13⟩ := h2
  exact ⟨b1.trans a1, b2.trans a2, b3.trans a3, b4.trans a4, b5.trans a5, b6.trans a6,
    b7.trans a7, b8.trans a8, b9.trans a9, b10.trans a10, b11.trans a11, b12.trans a12,
    fun zj => ⟨(b13 zj).1.trans (a13 zj).1, (b13 zj).2.trans (a13 zj).2⟩⟩

theorem SameGeom.of_setZone (n : FemuCtrl) (zi : Nat) (z : NvmeZone)
    (h1 : z.d.zslba = (zoneAt n zi).d.zslba) (h2 : z.d.zcap = (zoneAt n zi).d.zcap) :
    SameGeom n (setZone n zi z) := by
  refine ⟨rfl, rfl, rfl, rfl, rfl, rfl, rfl, rfl, rfl, rfl, rfl, length_setZone n zi z, ?_⟩
  intro zj
  rw [zoneAt_setZone]
  split
  · next hc => rw [hc.1]; exact ⟨h1, h2⟩
  · exact ⟨rfl, rfl⟩

theorem SameGeom.assign (n : FemuCtrl) (zi : Nat) (st : NvmeZoneState) :
    SameGeom n (zns_assign_zone_state n zi st) := by
  rw [assign_eq]
  refine ⟨rfl, rfl, rfl, rfl, rfl, rfl, rfl, rfl, rfl, rfl, rfl, by simp, ?_⟩
  intro zj
  have := zoneAt_setZone n zi zj (assignZone (zoneAt n zi) st)
  unfold FEMU.setZone at this
  unfold zoneAt at this ⊢
  simp only at this ⊢
  rw [this]
  split
  · next hc => rw [hc.1]; exact ⟨rfl, rfl⟩
  · exact ⟨rfl, rfl⟩

/-- The write pointers of every zone, which state assignment never touches. -/
theorem assign_ptrs (n : FemuCtrl) (zi zj : Nat) (st : NvmeZoneState) :
    (zoneAt (zns_assign_zone_state n zi st) zj).w_ptr = (zoneAt n zj).w_ptr ∧
      (zoneAt (zns_assign_zone_state n zi st) zj).d.wp = (zoneAt n zj).d.wp := by
  rw [zoneAt_assign]
  split
  · next hc => rw [hc.1]; exact ⟨rfl, rfl⟩
  · exact ⟨rfl, rfl⟩

theorem SameGeom.auto_transition (n : FemuCtrl) : SameGeom n (zns_auto_transition_zone n) := by
  unfold zns_auto_transition_zone
  split
  · split
    · next zi _ =>
      have h := SameGeom.assign
        (zns_aor_dec_open { n with imp_open_zones := n.imp_open_zones.erase zi }) zi
        NvmeZoneState.CLOSED
      exact SameGeom.trans
        (⟨rfl, rfl, rfl, rfl, rfl, rfl, rfl, rfl, rfl, rfl, rfl, rfl, fun _ => ⟨rfl, rfl⟩⟩ :
          SameGeom n (zns_aor_dec_open { n with imp_open_zones := n.imp_open_zones.erase zi }))
        h
    · exact SameGeom.same n
  · exact SameGeom.same n

theorem auto_transition_ptrs (n : FemuCtrl) (zj : Nat) :
    (zoneAt (zns_auto_transition_zone n) zj).w_ptr = (zoneAt n zj).w_ptr ∧
      (zoneAt (zns_auto_transition_zone n) zj).d.wp = (zoneAt n zj).d.wp := by
  unfold zns_auto_transition_zone
  split
  · split
    · next zi _ =>
      exact assign_ptrs
        (zns_aor_dec_open { n with imp_open_zones := n.imp_open_zones.erase zi }) zi zj
        NvmeZoneState.CLOSED
    · exact ⟨rfl, rfl⟩
  · exact ⟨rfl, rfl⟩

theorem SameGeom.auto_open (n : FemuCtrl) (zi : Nat) : SameGeom n (zns_auto_open_zone n zi).2 := by
  unfold zns_auto_open_zone
  split <;> first | exact SameGeom.auto_transition n | exact SameGeom.same n

theorem auto_open_ptrs (n : FemuCtrl) (zi zj : Nat) :
    (zoneAt (zns_auto_open_zone n zi).2 zj).w_ptr = (zoneAt n zj).w_ptr ∧
      (zoneAt (zns_auto_open_zone n zi).2 zj).d.wp = (zoneAt n zj).d.wp := by
  unfold zns_auto_open_zone
  split <;> first | exact auto_transition_ptrs n zj | exact ⟨rfl, rfl⟩

theorem inc_dec_geom (n : FemuCtrl) :
    SameGeom n (zns_aor_inc_open n) ∧ SameGeom n (zns_aor_dec_open n) ∧
      SameGeom n (zns_aor_inc_active n) ∧ SameGeom n (zns_aor_dec_active n) :=
  ⟨⟨rfl, rfl, rfl, rfl, rfl, rfl, rfl, rfl, rfl, rfl, rfl, rfl, fun _ => ⟨rfl, rfl⟩⟩,
    ⟨rfl, rfl, rfl, rfl, rfl, rfl, rfl, rfl, rfl, rfl, rfl, rfl, fun _ => ⟨rfl, rfl⟩⟩,
    ⟨rfl, rfl, rfl, rfl, rfl, rfl, rfl, rfl, rfl, rfl, rfl, rfl, fun _ => ⟨rfl, rfl⟩⟩,
    ⟨rfl, rfl, rfl, rfl, rfl, rfl, rfl, rfl, rfl, rfl, rfl, rfl, fun _ => ⟨rfl, rfl⟩⟩⟩

/-- What `zns_advance_zone_wp` does to the zone array: the result is the old
`w_ptr`, the zone written gets `w_ptr + nlb` (64-bit), `d.wp` and all other
zones keep their pointers, and geometry is kept. -/
theorem advance_spec (n : FemuCtrl) (zi nlb : Nat) (hl : zi < n.zone_array.length) :
    (zns_advance_zone_wp n zi nlb).1 = (zoneAt n zi).w_ptr ∧
      SameGeom n (zns_advance_zone_wp n zi nlb).2 ∧
      (zoneAt (zns_advance_zone_wp n zi nlb).2 zi).w_ptr = ((zoneAt n zi).w_ptr + nlb) % U64 ∧
      (∀ zj, (zoneAt (zns_advance_zone_wp n zi nlb).2 zj).d.wp = (zoneAt n zj).d.wp) ∧
      (∀ zj, zj ≠ zi →
        (zoneAt (zns_advance_zone_wp n zi nlb).2 zj).w_ptr = (zoneAt n zj).w_ptr) := by
  have g1 : SameGeom n (setZone n zi { zoneAt n zi with w_ptr := ((zoneAt n zi).w_ptr + nlb) % U64 }) :=
    SameGeom.of_setZone n zi _ rfl rfl
  have w1 : (zoneAt (setZone n zi { zoneAt n zi with
      w_ptr := ((zoneAt n zi).w_ptr + nlb) % U64 }) zi).w_ptr = ((zoneAt n zi).w_ptr + nlb) % U64 := by
    rw [zoneAt_setZone]; simp [hl]
  have d1 : ∀ zj, (zoneAt (setZone n zi { zoneAt n zi with
      w_ptr := ((zoneAt n zi).w_ptr + nlb) % U64 }) zj).d.wp = (zoneAt n zj).d.wp := by
    intro zj
    rw [zoneAt_setZone]
    split
    · next hc => rw [hc.1]
    · rfl
  have o1 : ∀ zj, zj ≠ zi → (zoneAt (setZone n zi { zoneAt n zi with
      w_ptr := ((zoneAt n zi).w_ptr + nlb) % U64 }) zj).w_ptr = (zoneAt n zj).w_ptr := by
    intro zj hne
    rw [zoneAt_setZone]
    simp [hne]
  unfold zns_advance_zone_wp
  simp only
  split
  · split
    · refine ⟨rfl, ?_, ?_, ?_, ?_⟩
      · exact g1.trans (((inc_dec_geom _).2.2.1.trans (inc_dec_geom _).1).trans
          (SameGeom.assign _ zi _))
      · rw [(assign_ptrs _ zi zi _).1]; exact w1
      · intro zj; rw [(assign_ptrs _ zi zj _).2]; exact d1 zj
      · intro zj hne; rw [(assign_ptrs _ zi zj _).1]; exact o1 zj hne
    · refine ⟨rfl, ?_, ?_, ?_, ?_⟩
      · exact g1.trans ((inc_dec_geom _).1.trans (SameGeom.assign _ zi _))
      · rw [(assign_ptrs _ zi zi _).1]; exact w1
      · intro zj; rw [(assign_ptrs _ zi zj _).2]; exact d1 zj
      · intro zj hne; rw [(assign_ptrs _ zi zj _).1]; exact o1 zj hne
    · exact ⟨rfl, g1, w1, d1, o1⟩
  · exact ⟨rfl, g1, w1, d1, o1⟩

theorem get_zone_congr (n m : FemuCtrl) (h : SameGeom n m) (slba : Nat) :
    zns_get_zone_by_slba m slba = zns_get_zone_by_slba n slba := by
  obtain ⟨_, a2, a3, a4, _, _, _, _, _, _, _, a12, _⟩ := h
  unfold zns_get_zone_by_slba zns_zone_idx
  rw [a2, a3, a4, a12]

theorem l2b_congr (n m : FemuCtrl) (h : SameGeom n m) (lba : Nat) :
    zns_l2b m lba = zns_l2b n lba := by
  unfold zns_l2b
  rw [h.2.2.2.2.1]

theorem boundary_congr (n m : FemuCtrl) (h : SameGeom n m) (zj : Nat) :
    zns_zone_wr_boundary (zoneAt m zj) = zns_zone_wr_boundary (zoneAt n zj) := by
  unfold zns_zone_wr_boundary
  rw [(h.2.2.2.2.2.2.2.2.2.2.2.2 zj).1, (h.2.2.2.2.2.2.2.2.2.2.2.2 zj).2]

/-- What `zns_finalize_zoned_write` does to the zone array: the request is
returned as it came (`failed = false`), the zone of the command gets
`d.wp + nlb` (64-bit), every `w_ptr` is kept, and geometry is kept. -/
theorem finalize_spec (n n' : FemuCtrl) (req req' : NvmeRequest) (zi : Nat)
    (hz : zns_get_zone_by_slba n req.cmd.slba = some zi)
    (h : zns_finalize_zoned_write n req false = some (n', req')) :
    req' = req ∧ SameGeom n n' ∧
      (zoneAt n' zi).d.wp = ((zoneAt n zi).d.wp + (req.cmd.nlb + 1)) % U64 ∧
      (∀ zj, (zoneAt n' zj).w_ptr = (zoneAt n zj).w_ptr) := by
  have hl := get_zone_lt n _ zi hz
  have g1 : SameGeom n (setZone n zi { zoneAt n zi with
      d := { (zoneAt n zi).d with wp := ((zoneAt n zi).d.wp + (req.cmd.nlb + 1)) % U64 } }) :=
    SameGeom.of_setZone n zi _ rfl rfl
  have w1 : (zoneAt (setZone n zi { zoneAt n zi with
      d := { (zoneAt n zi).d with wp := ((zoneAt n zi).d.wp + (req.cmd.nlb + 1)) % U64 } })
      zi).d.wp = ((zoneAt n zi).d.wp + (req.cmd.nlb + 1)) % U64 := by
    rw [zoneAt_setZone]; simp [hl]
  have p1 : ∀ zj, (zoneAt (setZone n zi { zoneAt n zi with
      d := { (zoneAt n zi).d with wp := ((zoneAt n zi).d.wp + (req.cmd.nlb + 1)) % U64 } })
      zj).w_ptr = (zoneAt n zj).w_ptr := by
    intro zj
    rw [zoneAt_setZone]
    split
    · next hc => rw [hc.1]
    · rfl
  unfold zns_finalize_zoned_write at h
  simp only [hz, Bool.false_eq_true, if_false] at h
  split at h
  · split at h <;> simp only [Option.some.injEq, Prod.mk.injEq, reduceCtorEq] at h
    · obtain ⟨e1, e2⟩ := h
      subst e1
      refine ⟨e2.symm, ?_, ?_, ?_⟩
      · exact g1.trans (((inc_dec_geom _).2.1.trans (inc_dec_geom _).2.2.2).trans
          (SameGeom.assign _ zi _))
      · rw [(assign_ptrs _ zi zi _).2]; exact w1
      · intro zj; rw [(assign_ptrs _ zi zj _).1]; exact p1 zj
    · obtain ⟨e1, e2⟩ := h
      subst e1
      refine ⟨e2.symm, ?_, ?_, ?_⟩
      · exact g1.trans (((inc_dec_geom _).2.1.trans (inc_dec_geom _).2.2.2).trans
          (SameGeom.assign _ zi _))
      · rw [(assign_ptrs _ zi zi _).2]; exact w1
      · intro zj; rw [(assign_ptrs _ zi zj _).1]; exact p1 zj
    · obtain ⟨e1, e2⟩ := h
      subst e1
      refine ⟨e2.symm, ?_, ?_, ?_⟩
      · exact g1.trans ((inc_dec_geom _).2.2.2.trans (SameGeom.assign _ zi _))
      · rw [(assign_ptrs _ zi zi _).2]; exact w1
      · intro zj; rw [(assign_ptrs _ zi zj _).1]; exact p1 zj
    · obtain ⟨e1, e2⟩ := h
      subst e1
      refine ⟨e2.symm, ?_, ?_, ?_⟩
      · exact g1.trans (SameGeom.assign _ zi _)
      · rw [(assign_ptrs _ zi zi _).2]; exact w1
      · intro zj; rw [(assign_ptrs _ zi zj _).1]; exact p1 zj
    · obtain ⟨e1, e2⟩ := h
      subst e1
      exact ⟨e2.symm, g1, w1, p1⟩
  · simp only [Option.some.injEq, Prod.mk.injEq] at h
    obtain ⟨e1, e2⟩ := h
    subst e1
    exact ⟨e2.symm, g1, w1, p1⟩

/-! ### Effects of state assignment and of the automatic close -/

theorem assign_lists (n : FemuCtrl) (zi : Nat) (st : NvmeZoneState) :
    (zns_assign_zone_state n zi st).imp_open_zones = queueAfter n.imp_open_zones zi
        (decide ((zoneAt n zi).d.zs = NvmeZoneState.IMPLICITLY_OPEN))
        (decide (st = NvmeZoneState.IMPLICITLY_OPEN)) ∧
    (zns_assign_zone_state n zi st).exp_open_zones = queueAfter n.exp_open_zones zi
        (decide ((zoneAt n zi).d.zs = NvmeZoneState.EXPLICITLY_OPEN))
        (decide (st = NvmeZoneState.EXPLICITLY_OPEN)) ∧
    (zns_assign_zone_state n zi st).closed_zones = queueAfter n.closed_zones zi
        (decide ((zoneAt n zi).d.zs = NvmeZoneState.CLOSED))
        (decide (st = NvmeZoneState.CLOSED)) ∧
    (zns_assign_zone_state n zi st).full_zones = queueAfter n.full_zones zi
        (decide ((zoneAt n zi).d.zs = NvmeZoneState.FULL))
        (decide (st = NvmeZoneState.FULL)) := by
  rw [assign_eq]
  exact ⟨rfl, rfl, rfl, rfl⟩

theorem queueAfter_keep (l : List Nat) (zi : Nat) : queueAfter l zi false false = l := by
  simp [queueAfter]

theorem queueAfter_add (l : List Nat) (zi : Nat) : queueAfter l zi false true = l ++ [zi] := by
  simp [queueAfter]

theorem queueAfter_rem (l : List Nat) (zi : Nat) : queueAfter l zi true false = l.erase zi := by
  simp [queueAfter]

theorem orDNR_ne_success (s : Status) : s.orDNR ≠ NVME_SUCCESS := by
  intro e
  have := congrArg Status.dnr e
  simp [Status.orDNR, NVME_SUCCESS] at this

/-- The two ways `zns_auto_transition_zone` can run in a state with the
invariant: nothing happens, or the open limit is reached and the head `h` of
the implicitly-open list is closed. -/
theorem auto_transition_cases (n : FemuCtrl) (hinv : Inv n) :
    (zns_auto_transition_zone n = n ∧
      ¬ (n.max_open_zones ≠ 0 ∧ n.nr_open_zones = n.max_open_zones ∧ n.imp_open_zones ≠ [])) ∨
    (∃ h t, n.imp_open_zones = h :: t ∧ n.max_open_zones ≠ 0 ∧
      n.nr_open_zones = n.max_open_zones ∧
      zns_auto_transition_zone n =
        zns_assign_zone_state (zns_aor_dec_open n) h NvmeZoneState.CLOSED ∧
      (zoneAt n h).d.zs = NvmeZoneState.IMPLICITLY_OPEN ∧ h < n.zone_array.length ∧
      1 ≤ n.nr_open_zones ∧ n.nr_open_zones < U32) := by
  rw [auto_transition_eq n hinv.1]
  by_cases hc : n.max_open_zones ≠ 0 ∧ n.nr_open_zones = n.max_open_zones
  · rw [if_pos hc]
    cases hl : n.imp_open_zones with
    | nil =>
      left
      simp only [List.head?_nil]
      exact ⟨trivial, fun h => h.2.2 rfl⟩
    | cons h t =>
      right
      have hmem : h ∈ n.imp_open_zones := by rw [hl]; exact List.mem_cons_self h t
      have hin := (hinv.1.1 h).1 hmem
      obtain ⟨b1, b2, _⟩ := (Inv_bounds n h hinv hin.1).1 hc.1
      rw [hin.2] at b1 b2
      refine ⟨h, t, rfl, hc.1, hc.2, ?_, hin.2, hin.1, ?_, ?_⟩
      · simp only [List.head?_cons]
      · simpa [isOpen] using b2
      · simp only [isOpen] at b1
        simp at b1
        exact b1
  · rw [if_neg hc]
    left
    exact ⟨rfl, fun h => hc ⟨h.1, h.2.1⟩⟩

/-- The state after the automatic close of the head `h` of the implicitly-open
list, field by field. -/
theorem auto_close_effect (n : FemuCtrl) (h : Nat) (t : List Nat) (hinv : Inv n)
    (hl : n.imp_open_zones = h :: t)
    (hs : (zoneAt n h).d.zs = NvmeZoneState.IMPLICITLY_OPEN) (hlt : h < n.zone_array.length)
    (hpos : 1 ≤ n.nr_open_zones) :
    (zns_assign_zone_state (zns_aor_dec_open n) h NvmeZoneState.CLOSED).nr_open_zones + 1 =
        n.nr_open_zones ∧
    (zns_assign_zone_state (zns_aor_dec_open n) h NvmeZoneState.CLOSED).nr_active_zones =
        n.nr_active_zones ∧
    (zns_assign_zone_state (zns_aor_dec_open n) h NvmeZoneState.CLOSED).imp_open_zones = t ∧
    (zns_assign_zone_state (zns_aor_dec_open n) h NvmeZoneState.CLOSED).exp_open_zones =
        n.exp_open_zones ∧
    (zns_assign_zone_state (zns_aor_dec_open n) h NvmeZoneState.CLOSED).closed_zones =
        n.closed_zones ++ [h] ∧
    (zns_assign_zone_state (zns_aor_dec_open n) h NvmeZoneState.CLOSED).full_zones =
        n.full_zones ∧
    (zoneAt (zns_assign_zone_state (zns_aor_dec_open n) h NvmeZoneState.CLOSED) h).d.zs =
        NvmeZoneState.CLOSED ∧
    (∀ zj, zj ≠ h →
      zoneAt (zns_assign_zone_state (zns_aor_dec_open n) h NvmeZoneState.CLOSED) zj =
        zoneAt n zj) := by
  obtain ⟨f1, f2, _, _, _⟩ := assign_frame (zns_aor_dec_open n) h NvmeZoneState.CLOSED
  obtain ⟨l1, l2, l3, l4⟩ := assign_lists (zns_aor_dec_open n) h NvmeZoneState.CLOSED
  have hz : zoneAt (zns_aor_dec_open n) h = zoneAt n h := rfl
  rw [hz, hs] at l1 l2 l3 l4
  have hnd : (h :: t).Nodup := hl ▸ hinv.1.2.2.2.2.1
  have hnt : h ∉ t := (List.nodup_cons.1 hnd).1
  refine ⟨?_, ?_, ?_, ?_, ?_, ?_, ?_, ?_⟩
  · rw [f1]
    simp only [zns_aor_dec_open]
    split <;> omega
  · rw [f2]; rfl
  · rw [l1]
    show queueAfter n.imp_open_zones h _ _ = t
    rw [hl]
    simp [queueAfter]
  · rw [l2]; simp [queueAfter]; rfl
  · rw [l3]; simp [queueAfter]; rfl
  · rw [l4]; simp [queueAfter]; rfl
  · rw [zoneAt_assign]
    have : h < (zns_aor_dec_open n).zone_array.length := hlt
    simp [this, assignZone]
  · intro zj hne
    rw [zoneAt_assign]
    simp [hne]
    rfl

/-! ### Closed forms of the two halves of a write -/

theorem zoneAt_bumpWptr (n : FemuCtrl) (zi nlb zj : Nat) :
    zoneAt (bumpWptr n zi nlb) zj =
      if zj = zi ∧ zi < n.zone_array.length then
        { zoneAt n zi with w_ptr := ((zoneAt n zi).w_ptr + nlb) % U64 }
      else zoneAt n zj :=
  zoneAt_setZone n zi zj _

theorem zoneAt_bumpWp (n : FemuCtrl) (zi nlb zj : Nat) :
    zoneAt (bumpWp n zi nlb) zj =
      if zj = zi ∧ zi < n.zone_array.length then
        { zoneAt n zi with
          d := { (zoneAt n zi).d with wp := ((zoneAt n zi).d.wp + nlb) % U64 } }
      else zoneAt n zj :=
  zoneAt_setZone n zi zj _

theorem bump_state (n : FemuCtrl) (zi nlb zj : Nat) :
    (zoneAt (bumpWptr n zi nlb) zj).d = (zoneAt n zj).d ∧
      (zoneAt (bumpWp n zi nlb) zj).d.zs = (zoneAt n zj).d.zs ∧
      (zoneAt (bumpWp n zi nlb) zj).d.zslba = (zoneAt n zj).d.zslba ∧
      (zoneAt (bumpWp n zi nlb) zj).d.zcap = (zoneAt n zj).d.zcap ∧
      (zoneAt (bumpWp n zi nlb) zj).w_ptr = (zoneAt n zj).w_ptr := by
  rw [zoneAt_bumpWptr, zoneAt_bumpWp]
  by_cases hc : zj = zi ∧ zi < n.zone_array.length
  · rw [if_pos hc, if_pos hc, hc.1]
    exact ⟨rfl, rfl, rfl, rfl, rfl⟩
  · rw [if_neg hc, if_neg hc]
    exact ⟨rfl, rfl, rfl, rfl, rfl⟩

/-- The three ways `zns_advance_zone_wp` ends. -/
theorem advance_cases (n : FemuCtrl) (zi nlb : Nat) (hl : zi < n.zone_array.length) :
    (zns_advance_zone_wp n zi nlb).2 =
      if ((zoneAt n zi).w_ptr + nlb) % U64 < zns_zone_wr_boundary (zoneAt n zi) then
        match (zoneAt n zi).d.zs with
        | NvmeZoneState.EMPTY =>
          zns_assign_zone_state (zns_aor_inc_open (zns_aor_inc_active (bumpWptr n zi nlb))) zi
            NvmeZoneState.IMPLICITLY_OPEN
        | NvmeZoneState.CLOSED =>
          zns_assign_zone_state (zns_aor_inc_open (bumpWptr n zi nlb)) zi
            NvmeZoneState.IMPLICITLY_OPEN
        | _ => bumpWptr n zi nlb
      else bumpWptr n zi nlb := by
  have hz : zoneAt (bumpWptr n zi nlb) zi =
      { zoneAt n zi with w_ptr := ((zoneAt n zi).w_ptr + nlb) % U64 } := by
    rw [zoneAt_bumpWptr]; simp [hl]
  unfold zns_advance_zone_wp
  simp only
  change (if (zoneAt (bumpWptr n zi nlb) zi).w_ptr <
      zns_zone_wr_boundary (zoneAt (bumpWptr n zi nlb) zi) then
        match zns_get_zone_state (zoneAt (bumpWptr n zi nlb) zi) with
        | NvmeZoneState.EMPTY =>
          ((zoneAt n zi).w_ptr, zns_assign_zone_state
            (zns_aor_inc_open (zns_aor_inc_active (bumpWptr n zi nlb))) zi
            NvmeZoneState.IMPLICITLY_OPEN)
        | NvmeZoneState.CLOSED =>
          ((zoneAt n zi).w_ptr, zns_assign_zone_state (zns_aor_inc_open (bumpWptr n zi nlb)) zi
            NvmeZoneState.IMPLICITLY_OPEN)
        | _ => ((zoneAt n zi).w_ptr, bumpWptr n zi nlb)
      else ((zoneAt n zi).w_ptr, bumpWptr n zi nlb)).2 = _
  rw [hz]
  simp only [zns_zone_wr_boundary, zns_get_zone_state]
  split
  · cases (zoneAt n zi).d.zs <;> rfl
  · rfl

/-- The ways `zns_finalize_zoned_write` ends, by the state of the zone and by
whether `d.wp` reaches the write boundary. -/
theorem finalize_cases (n n' : FemuCtrl) (req req' : NvmeRequest) (zi : Nat)
    (hz : zns_get_zone_by_slba n req.cmd.slba = some zi)
    (h : zns_finalize_zoned_write n req false = some (n', req')) :
    n' =
      if ((zoneAt n zi).d.wp + (req.cmd.nlb + 1)) % U64 = zns_zone_wr_boundary (zoneAt n zi) then
        match (zoneAt n zi).d.zs with
        | NvmeZoneState.IMPLICITLY_OPEN =>
          zns_assign_zone_state
            (zns_aor_dec_active (zns_aor_dec_open (bumpWp n zi (req.cmd.nlb + 1)))) zi
            NvmeZoneState.FULL
        | NvmeZoneState.EXPLICITLY_OPEN =>
          zns_assign_zone_state
            (zns_aor_dec_active (zns_aor_dec_open (bumpWp n zi (req.cmd.nlb + 1)))) zi
            NvmeZoneState.FULL
        | NvmeZoneState.CLOSED =>
          zns_assign_zone_state (zns_aor_dec_active (bumpWp n zi (req.cmd.nlb + 1))) zi
            NvmeZoneState.FULL
        | NvmeZoneState.EMPTY =>
          zns_assign_zone_state (bumpWp n zi (req.cmd.nlb + 1)) zi NvmeZoneState.FULL
        | _ => bumpWp n zi (req.cmd.nlb + 1)
      else bumpWp n zi (req.cmd.nlb + 1) := by
  have hl := get_zone_lt n _ zi hz
  have hzz : zoneAt (bumpWp n zi (req.cmd.nlb + 1)) zi =
      { zoneAt n zi with
        d := { (zoneAt n zi).d with wp := ((zoneAt n zi).d.wp + (req.cmd.nlb + 1)) % U64 } } := by
    rw [zoneAt_bumpWp]; simp [hl]
  unfold zns_finalize_zoned_write at h
  simp only [hz, Bool.false_eq_true, if_false] at h
  change (if (zoneAt (bumpWp n zi (req.cmd.nlb + 1)) zi).d.wp =
      zns_zone_wr_boundary (zoneAt (bumpWp n zi (req.cmd.nlb + 1)) zi) then
        match zns_get_zone_state (zoneAt (bumpWp n zi (req.cmd.nlb + 1)) zi) with
        | NvmeZoneState.IMPLICITLY_OPEN =>
          some (zns_assign_zone_state
            (zns_aor_dec_active (zns_aor_dec_open (bumpWp n zi (req.cmd.nlb + 1)))) zi
            NvmeZoneState.FULL, req)
        | NvmeZoneState.EXPLICITLY_OPEN =>
          some (zns_assign_zone_state
            (zns_aor_dec_active (zns_aor_dec_open (bumpWp n zi (req.cmd.nlb + 1)))) zi
            NvmeZoneState.FULL, req)
        | NvmeZoneState.CLOSED =>
          some (zns_assign_zone_state (zns_aor_dec_active (bumpWp n zi (req.cmd.nlb + 1))) zi
            NvmeZoneState.FULL, req)
        | NvmeZoneState.EMPTY =>
          some (zns_assign_zone_state (bumpWp n zi (req.cmd.nlb + 1)) zi NvmeZoneState.FULL, req)
        | NvmeZoneState.FULL => some (bumpWp n zi (req.cmd.nlb + 1), req)
        | _ => none
      else some (bumpWp n zi (req.cmd.nlb + 1), req)) = some (n', req') at h
  rw [hzz] at h
  simp only [zns_zone_wr_boundary, zns_get_zone_state] at h ⊢
  split at h
  · next hc =>
    rw [if_pos hc]
    cases hs : (zoneAt n zi).d.zs <;> simp only [hs, Option.some.injEq, Prod.mk.injEq,
      reduceCtorEq] at h ⊢ <;> exact h.1.symm
  · next hc =>
    rw [if_neg hc]
    simp only [Option.some.injEq, Prod.mk.injEq] at h
    exact h.1.symm

/-- A successful `zns_do_write` went through every stage. -/
theorem do_write_success (n : FemuCtrl) (req : NvmeRequest) (append wrz : Bool) (out : WriteOut)
    (zi : Nat) (hz : zns_get_zone_by_slba n req.cmd.slba = some zi)
    (h : zns_do_write n req append wrz = some out) (hs : out.status = NVME_SUCCESS) :
    zns_check_zone_write n zi req.cmd.slba (req.cmd.nlb + 1) append = NVME_SUCCESS ∧
    (zns_auto_open_zone n zi).1 = NVME_SUCCESS ∧
    ∃ req3, zns_finalize_zoned_write
      (zns_advance_zone_wp (zns_auto_open_zone n zi).2 zi (req.cmd.nlb + 1)).2
      { req with is_write := true, cqe_slba :=
        (zns_advance_zone_wp (zns_auto_open_zone n zi).2 zi (req.cmd.nlb + 1)).1 }
      false = some (out.n, req3) := by
  obtain ⟨_, hc⟩ := do_write_cases n req append wrz out h
  rcases hc with ⟨_, _, e⟩ | ⟨_, ⟨_, e⟩ | ⟨_, zi', hz', hc⟩⟩
  · rw [e] at hs; exact absurd hs (orDNR_ne_success _)
  · rw [e] at hs; exact absurd hs (orDNR_ne_success _)
  have hzi : zi' = zi := by rw [hz] at hz'; exact (Option.some.inj hz').symm
  subst hzi
  rcases hc with ⟨_, e⟩ | ⟨h3, ⟨_, e⟩ | ⟨h4, hc⟩⟩
  · rw [e] at hs; exact absurd hs (orDNR_ne_success _)
  · rw [e] at hs; exact absurd hs (orDNR_ne_success _)
  rcases hc with ⟨_, _, e⟩ | ⟨_, n3, req3, hf, e⟩
  · rw [e] at hs; exact absurd hs (orDNR_ne_success _)
  · refine ⟨h3, h4, req3, ?_⟩
    rw [e]; exact hf

/-- The implicit open done by `zns_advance_zone_wp` on an `EMPTY` or `CLOSED`
zone that the write does not fill, field by field. -/
theorem advance_open_effect (n : FemuCtrl) (zi nlb : Nat) (hl : zi < n.zone_array.length)
    (hlt : ((zoneAt n zi).w_ptr + nlb) % U64 < zns_zone_wr_boundary (zoneAt n zi))
    (hst : (zoneAt n zi).d.zs = NvmeZoneState.EMPTY ∨ (zoneAt n zi).d.zs = NvmeZoneState.CLOSED) :
    (zoneAt (zns_advance_zone_wp n zi nlb).2 zi).d.zs = NvmeZoneState.IMPLICITLY_OPEN ∧
    (∀ zj, zj ≠ zi → zoneAt (zns_advance_zone_wp n zi nlb).2 zj = zoneAt n zj) ∧
    (zns_advance_zone_wp n zi nlb).2.nr_open_zones = (n.nr_open_zones + 1) % U32 ∧
    (zns_advance_zone_wp n zi nlb).2.nr_active_zones =
      (if (zoneAt n zi).d.zs = NvmeZoneState.EMPTY then (n.nr_active_zones + 1) % U32
        else n.nr_active_zones) ∧
    (zns_advance_zone_wp n zi nlb).2.imp_open_zones = n.imp_open_zones ++ [zi] ∧
    (zns_advance_zone_wp n zi nlb).2.exp_open_zones = n.exp_open_zones ∧
    (zns_advance_zone_wp n zi nlb).2.closed_zones =
      (if (zoneAt n zi).d.zs = NvmeZoneState.CLOSED then n.closed_zones.erase zi
        else n.closed_zones) ∧
    (zns_advance_zone_wp n zi nlb).2.full_zones = n.full_zones := by
  have hb := (bump_state n zi nlb zi).1
  have key : ∀ m : FemuCtrl, m.zone_array = (bumpWptr n zi nlb).zone_array →
      m.imp_open_zones = n.imp_open_zones → m.exp_open_zones = n.exp_open_zones →
      m.closed_zones = n.closed_zones → m.full_zones = n.full_zones →
      (zoneAt (zns_assign_zone_state m zi NvmeZoneState.IMPLICITLY_OPEN) zi).d.zs =
          NvmeZoneState.IMPLICITLY_OPEN ∧
      (∀ zj, zj ≠ zi →
        zoneAt (zns_assign_zone_state m zi NvmeZoneState.IMPLICITLY_OPEN) zj = zoneAt n zj) ∧
      (zns_assign_zone_state m zi NvmeZoneState.IMPLICITLY_OPEN).nr_open_zones =
        m.nr_open_zones ∧
      (zns_assign_zone_state m zi NvmeZoneState.IMPLICITLY_OPEN).nr_active_zones =
        m.nr_active_zones ∧
      (zns_assign_zone_state m zi NvmeZoneState.IMPLICITLY_OPEN).imp_open_zones =
        n.imp_open_zones ++ [zi] ∧
      (zns_assign_zone_state m zi NvmeZoneState.IMPLICITLY_OPEN).exp_open_zones =
        n.exp_open_zones ∧
      (zns_assign_zone_state m zi NvmeZoneState.IMPLICITLY_OPEN).closed_zones =
        (if (zoneAt n zi).d.zs = NvmeZoneState.CLOSED then n.closed_zones.erase zi
          else n.closed_zones) ∧
      (zns_assign_zone_state m zi NvmeZoneState.IMPLICITLY_OPEN).full_zones =
        n.full_zones := by
    intro m hm e1 e2 e3 e4
    have hzm : ∀ zj, zoneAt m zj = zoneAt (bumpWptr n zi nlb) zj := by
      intro zj; unfold zoneAt; rw [hm]
    have hlm : zi < m.zone_array.length := by
      rw [hm]; unfold bumpWptr; rw [length_setZone]; exact hl
    obtain ⟨f1, f2, _, _, _⟩ := assign_frame m zi NvmeZoneState.IMPLICITLY_OPEN
    obtain ⟨l1, l2, l3, l4⟩ := assign_lists m zi NvmeZoneState.IMPLICITLY_OPEN
    have hs : (zoneAt m zi).d.zs = (zoneAt n zi).d.zs := by rw [hzm, hb]
    rw [hs, e1] at l1
    rw [hs, e2] at l2
    rw [hs, e3] at l3
    rw [hs, e4] at l4
    refine ⟨?_, ?_, f1, f2, ?_, ?_, ?_, ?_⟩
    · rw [zoneAt_assign]; simp [hlm, assignZone]
    · intro zj hne
      rw [zoneAt_assign]
      simp only [hne, false_and, if_false]
      rw [hzm, zoneAt_bumpWptr]
      simp [hne]
    · rw [l1]
      rcases hst with h | h <;> rw [h] <;> simp [queueAfter]
    · rw [l2]
      rcases hst with h | h <;> rw [h] <;> simp [queueAfter]
    · rw [l3]
      rcases hst with h | h <;> rw [h] <;> simp [queueAfter]
    · rw [l4]
      rcases hst with h | h <;> rw [h] <;> simp [queueAfter]
  rw [advance_cases n zi nlb hl, if_pos hlt]
  rcases hst with h | h
  · rw [h]
    simp only
    obtain ⟨k1, k2, k3, k4, k5, k6, k7, k8⟩ :=
      key (zns_aor_inc_open (zns_aor_inc_active (bumpWptr n zi nlb))) rfl rfl rfl rfl rfl
    rw [h] at k7
    exact ⟨k1, k2, k3.trans rfl, by rw [k4]; simp; rfl, k5, k6, k7, k8⟩
  · rw [h]
    simp only
    obtain ⟨k1, k2, k3, k4, k5, k6, k7, k8⟩ :=
      key (zns_aor_inc_open (bumpWptr n zi nlb)) rfl rfl rfl rfl rfl
    rw [h] at k7
    exact ⟨k1, k2, k3.trans rfl, by rw [k4]; simp; rfl, k5, k6, k7, k8⟩

/-! ### Closed forms of finish and reset -/

theorem zoneAt_congr (a b : FemuCtrl) (h : a.zone_array = b.zone_array) (zj : Nat) :
    zoneAt a zj = zoneAt b zj := by
  unfold zoneAt
  rw [h]

/-- The zone `zi` after `zns_assign_zone_state` gave it the state `st`: the
state is `st`, pointers and geometry are kept, and every other zone is as
before. -/
theorem assign_zone_effect (m : FemuCtrl) (zi : Nat) (st : NvmeZoneState)
    (hl : zi < m.zone_array.length) :
    (zoneAt (zns_assign_zone_state m zi st) zi).d.zs = st ∧
    (zoneAt (zns_assign_zone_state m zi st) zi).w_ptr = (zoneAt m zi).w_ptr ∧
    (zoneAt (zns_assign_zone_state m zi st) zi).d.wp = (zoneAt m zi).d.wp ∧
    (zoneAt (zns_assign_zone_state m zi st) zi).d.zslba = (zoneAt m zi).d.zslba ∧
    (zoneAt (zns_assign_zone_state m zi st) zi).d.zcap = (zoneAt m zi).d.zcap ∧
    (zoneAt (zns_assign_zone_state m zi st) zi).d.za =
      (if st = NvmeZoneState.EMPTY ∨ st = NvmeZoneState.OFFLINE then 0 else (zoneAt m zi).d.za) ∧
    ∀ zj, zj ≠ zi → zoneAt (zns_assign_zone_state m zi st) zj = zoneAt m zj := by
  refine ⟨?_, ?_, ?_, ?_, ?_, ?_, ?_⟩
  all_goals first
    | (intro zj hne; rw [zoneAt_assign]; simp [hne])
    | (rw [zoneAt_assign]; simp [hl, assignZone])

theorem dec_inc_active (n : FemuCtrl) (hw : n.nr_active_zones < U32) :
    zns_aor_dec_active (zns_aor_inc_active n) = n := by
  have hv : (if (n.nr_active_zones + 1) % U32 = 0 then U32 - 1
      else (n.nr_active_zones + 1) % U32 - 1) = n.nr_active_zones := by
    by_cases h : n.nr_active_zones + 1 = U32
    · rw [h, Nat.mod_self, if_pos rfl]; omega
    · rw [Nat.mod_eq_of_lt (by omega), if_neg (by omega)]; omega
  unfold zns_aor_dec_active zns_aor_inc_active
  simp only [hv]

/-- Storing the zone `Z` at `zi` and then assigning the state `st`. -/
theorem set_assign_effect (m : FemuCtrl) (zi : Nat) (Z : NvmeZone) (st : NvmeZoneState)
    (hl : zi < m.zone_array.length) :
    zoneAt (zns_assign_zone_state (setZone m zi Z) zi st) zi = assignZone Z st ∧
    (∀ zj, zj ≠ zi → zoneAt (zns_assign_zone_state (setZone m zi Z) zi st) zj = zoneAt m zj) ∧
    (zns_assign_zone_state (setZone m zi Z) zi st).nr_open_zones = m.nr_open_zones ∧
    (zns_assign_zone_state (setZone m zi Z) zi st).nr_active_zones = m.nr_active_zones ∧
    (zns_assign_zone_state (setZone m zi Z) zi st).imp_open_zones =
      queueAfter m.imp_open_zones zi (decide (Z.d.zs = NvmeZoneState.IMPLICITLY_OPEN))
        (decide (st = NvmeZoneState.IMPLICITLY_OPEN)) ∧
    (zns_assign_zone_state (setZone m zi Z) zi st).exp_open_zones =
      queueAfter m.exp_open_zones zi (decide (Z.d.zs = NvmeZoneState.EXPLICITLY_OPEN))
        (decide (st = NvmeZoneState.EXPLICITLY_OPEN)) ∧
    (zns_assign_zone_state (setZone m zi Z) zi st).closed_zones =
      queueAfter m.closed_zones zi (decide (Z.d.zs = NvmeZoneState.CLOSED))
        (decide (st = NvmeZoneState.CLOSED)) ∧
    (zns_assign_zone_state (setZone m zi Z) zi st).full_zones =
      queueAfter m.full_zones zi (decide (Z.d.zs = NvmeZoneState.FULL))
        (decide (st = NvmeZoneState.FULL)) ∧
    (zns_assign_zone_state (setZone m zi Z) zi st).zone_array.length = m.zone_array.length := by
  have hl2 : zi < (setZone m zi Z).zone_array.length := by rw [length_setZone]; exact hl
  have hz : zoneAt (setZone m zi Z) zi = Z := by rw [zoneAt_setZone]; simp [hl]
  obtain ⟨f1, f2, _, _, f5⟩ := assign_frame (setZone m zi Z) zi st
  obtain ⟨l1, l2, l3, l4⟩ := assign_lists (setZone m zi Z) zi st
  rw [hz] at l1 l2 l3 l4
  refine ⟨?_, ?_, f1, f2, l1, l2, l3, l4, by rw [f5, length_setZone]⟩
  · rw [zoneAt_assign, if_pos ⟨rfl, hl2⟩, hz]
  · intro zj hne
    rw [zoneAt_assign, if_neg (fun c => hne c.1), zoneAt_setZone, if_neg (fun c => hne c.1)]

theorem finish_empty_eq (m : FemuCtrl) (zi : Nat) (hl : zi < m.zone_array.length) :
    zns_finish_zone_empty m zi =
      zns_assign_zone_state (setZone m zi (fillZone (zoneAt m zi))) zi NvmeZoneState.FULL := by
  unfold zns_finish_zone_empty
  simp only [setZone_setZone]
  rw [zoneAt_setZone, if_pos ⟨rfl, hl⟩]
  rfl

theorem rewind_eq (m : FemuCtrl) (zi : Nat) (hl : zi < m.zone_array.length) :
    zns_assign_zone_state
      (setZone (setZone m zi { zoneAt m zi with w_ptr := (zoneAt m zi).d.zslba }) zi
        { zoneAt (setZone m zi { zoneAt m zi with w_ptr := (zoneAt m zi).d.zslba }) zi with
          d := { (zoneAt (setZone m zi
            { zoneAt m zi with w_ptr := (zoneAt m zi).d.zslba }) zi).d with
            wp := (zoneAt (setZone m zi
              { zoneAt m zi with w_ptr := (zoneAt m zi).d.zslba }) zi).w_ptr } })
      zi NvmeZoneState.EMPTY =
      zns_assign_zone_state (setZone m zi (rewindZone (zoneAt m zi))) zi NvmeZoneState.EMPTY := by
  simp only [setZone_setZone]
  rw [zoneAt_setZone, if_pos ⟨rfl, hl⟩]
  rfl

/-- The function `zns_aio_zone_reset_cb` on a zone in one of the four states it
rewinds: the controller before the erase is charged. -/
theorem reset_cb_eq (n : FemuCtrl) (zi : Nat) (hl : zi < n.zone_array.length)
    (hs : (zoneAt n zi).d.zs = NvmeZoneState.IMPLICITLY_OPEN ∨
      (zoneAt n zi).d.zs = NvmeZoneState.EXPLICITLY_OPEN ∨
      (zoneAt n zi).d.zs = NvmeZoneState.CLOSED ∨ (zoneAt n zi).d.zs = NvmeZoneState.FULL) :
    ∃ blk, zns_aio_zone_reset_cb n zi =
      zns_reset_erase (zns_assign_zone_state
        (setZone (releaseFor (zoneAt n zi).d.zs n) zi (rewindZone (zoneAt n zi))) zi
        NvmeZoneState.EMPTY) blk := by
  unfold zns_aio_zone_reset_cb
  simp only [zns_get_zone_state]
  rcases hs with h | h | h | h
  · simp only [h, releaseFor]
    rw [rewind_eq (zns_aor_dec_active (zns_aor_dec_open n)) zi hl]
    exact ⟨_, rfl⟩
  · simp only [h, releaseFor]
    rw [rewind_eq (zns_aor_dec_active (zns_aor_dec_open n)) zi hl]
    exact ⟨_, rfl⟩
  · simp only [h, releaseFor]
    rw [rewind_eq (zns_aor_dec_active n) zi hl]
    exact ⟨_, rfl⟩
  · simp only [h, releaseFor]
    rw [rewind_eq n zi hl]
    exact ⟨_, rfl⟩

/-- What `zns_aio_zone_reset_cb` does to a zone in one of the four states it
rewinds, field by field. -/
theorem reset_cb_effect (n : FemuCtrl) (zi : Nat) (hl : zi < n.zone_array.length)
    (hs : (zoneAt n zi).d.zs = NvmeZoneState.IMPLICITLY_OPEN ∨
      (zoneAt n zi).d.zs = NvmeZoneState.EXPLICITLY_OPEN ∨
      (zoneAt n zi).d.zs = NvmeZoneState.CLOSED ∨ (zoneAt n zi).d.zs = NvmeZoneState.FULL) :
    zoneAt (zns_aio_zone_reset_cb n zi) zi =
      assignZone (rewindZone (zoneAt n zi)) NvmeZoneState.EMPTY ∧
    (∀ zj, zj ≠ zi → zoneAt (zns_aio_zone_reset_cb n zi) zj = zoneAt n zj) ∧
    (zns_aio_zone_reset_cb n zi).nr_open_zones =
      (releaseFor (zoneAt n zi).d.zs n).nr_open_zones ∧
    (zns_aio_zone_reset_cb n zi).nr_active_zones =
      (releaseFor (zoneAt n zi).d.zs n).nr_active_zones ∧
    (zns_aio_zone_reset_cb n zi).imp_open_zones = queueAfter n.imp_open_zones zi
      (decide ((zoneAt n zi).d.zs = NvmeZoneState.IMPLICITLY_OPEN)) false ∧
    (zns_aio_zone_reset_cb n zi).exp_open_zones = queueAfter n.exp_open_zones zi
      (decide ((zoneAt n zi).d.zs = NvmeZoneState.EXPLICITLY_OPEN)) false ∧
    (zns_aio_zone_reset_cb n zi).closed_zones = queueAfter n.closed_zones zi
      (decide ((zoneAt n zi).d.zs = NvmeZoneState.CLOSED)) false ∧
    (zns_aio_zone_reset_cb n zi).full_zones = queueAfter n.full_zones zi
      (decide ((zoneAt n zi).d.zs = NvmeZoneState.FULL)) false ∧
    (zns_aio_zone_reset_cb n zi).zone_array.length = n.zone_array.length := by
  obtain ⟨blk, e⟩ := reset_cb_eq n zi hl hs
  have hm : ∀ st, (releaseFor st n).zone_array = n.zone_array ∧
      (releaseFor st n).imp_open_zones = n.imp_open_zones ∧
      (releaseFor st n).exp_open_zones = n.exp_open_zones ∧
      (releaseFor st n).closed_zones = n.closed_zones ∧
      (releaseFor st n).full_zones = n.full_zones := by
    intro st; cases st <;> exact ⟨rfl, rfl, rfl, rfl, rfl⟩
  obtain ⟨m1, m2, m3, m4, m5⟩ := hm (zoneAt n zi).d.zs
  have hzm : ∀ zj, zoneAt (releaseFor (zoneAt n zi).d.zs n) zj = zoneAt n zj := by
    intro zj; exact zoneAt_congr _ _ m1 zj
  obtain ⟨a1, a2, a3, a4, a5, a6, a7, a8, a9⟩ :=
    set_assign_effect (releaseFor (zoneAt n zi).d.zs n) zi (rewindZone (zoneAt n zi))
      NvmeZoneState.EMPTY (by rw [m1]; exact hl)
  obtain ⟨⟨q1, q2, q3, q4, _⟩, c1, c2, c3⟩ := reset_erase_frame (zns_assign_zone_state
    (setZone (releaseFor (zoneAt n zi).d.zs n) zi (rewindZone (zoneAt n zi))) zi
    NvmeZoneState.EMPTY) blk
  have hza : ∀ zj, zoneAt (zns_aio_zone_reset_cb n zi) zj = zoneAt (zns_assign_zone_state
      (setZone (releaseFor (zoneAt n zi).d.zs n) zi (rewindZone (zoneAt n zi))) zi
      NvmeZoneState.EMPTY) zj := by
    intro zj; exact zoneAt_congr _ _ (by rw [e, c3]) zj
  have hrw : (rewindZone (zoneAt n zi)).d.zs = (zoneAt n zi).d.zs := rfl
  rw [hrw, m2] at a5
  rw [hrw, m3] at a6
  rw [hrw, m4] at a7
  rw [hrw, m5] at a8
  refine ⟨by rw [hza, a1], fun zj hne => by rw [hza, a2 zj hne, hzm], by rw [e, c1, a3],
    by rw [e, c2, a4], by rw [e, q1, a5]; rfl, by rw [e, q2, a6]; rfl, by rw [e, q3, a7]; rfl,
    by rw [e, q4, a8]; rfl, by rw [e, c3, a9, m1]⟩

/-- What `zns_finish_zone_empty` does, field by field. -/
theorem finish_empty_effect (m : FemuCtrl) (zi : Nat) (hl : zi < m.zone_array.length) :
    zoneAt (zns_finish_zone_empty m zi) zi =
      assignZone (fillZone (zoneAt m zi)) NvmeZoneState.FULL ∧
    (∀ zj, zj ≠ zi → zoneAt (zns_finish_zone_empty m zi) zj = zoneAt m zj) ∧
    (zns_finish_zone_empty m zi).nr_open_zones = m.nr_open_zones ∧
    (zns_finish_zone_empty m zi).nr_active_zones = m.nr_active_zones ∧
    (zns_finish_zone_empty m zi).imp_open_zones = queueAfter m.imp_open_zones zi
      (decide ((zoneAt m zi).d.zs = NvmeZoneState.IMPLICITLY_OPEN)) false ∧
    (zns_finish_zone_empty m zi).exp_open_zones = queueAfter m.exp_open_zones zi
      (decide ((zoneAt m zi).d.zs = NvmeZoneState.EXPLICITLY_OPEN)) false ∧
    (zns_finish_zone_empty m zi).closed_zones = queueAfter m.closed_zones zi
      (decide ((zoneAt m zi).d.zs = NvmeZoneState.CLOSED)) false ∧
    (zns_finish_zone_empty m zi).full_zones = queueAfter m.full_zones zi
      (decide ((zoneAt m zi).d.zs = NvmeZoneState.FULL)) true ∧
    (zns_finish_zone_empty m zi).zone_array.length = m.zone_array.length := by
  rw [finish_empty_eq m zi hl]
  obtain ⟨a1, a2, a3, a4, a5, a6, a7, a8, a9⟩ :=
    set_assign_effect m zi (fillZone (zoneAt m zi)) NvmeZoneState.FULL hl
  exact ⟨a1, a2, a3, a4, a5, a6, a7, a8, a9⟩

/-! ### Zone management send on one zone -/

theorem do_zone_op_single (n : FemuCtrl) (zi : Nat) (h : op_handler_t)
    (hl : zi < n.zone_array.length) :
    zns_do_zone_op n zi 0 h = some (h n zi (zoneAt n zi).d.zs) := by
  unfold zns_do_zone_op
  rw [if_pos rfl, if_pos hl]
  rfl

/-- The function `zns_zone_mgmt_send` for a command with the select-all bit
clear whose `slba` is the start of zone `zi`: the action's handler runs on that
zone. -/
theorem mgmt_send_single (n : FemuCtrl) (req : NvmeRequest) (slba zi : Nat)
    (hall : req.cdw13 % U32 &&& 256 = 0)
    (hidx : zns_get_mgmt_zone_slba_idx n req = some (NVME_SUCCESS, slba, zi))
    (hl : zi < n.zone_array.length) (hs : slba = (zoneAt n zi).d.zslba) :
    zns_zone_mgmt_send n req =
      if req.cdw13 % U32 &&& 255 = NVME_ZONE_ACTION_OPEN then
        some (zns_mgmt_send_status (zns_open_zone n zi (zoneAt n zi).d.zs).1,
          (zns_open_zone n zi (zoneAt n zi).d.zs).2)
      else if req.cdw13 % U32 &&& 255 = NVME_ZONE_ACTION_CLOSE then
        some (zns_mgmt_send_status (zns_close_zone n zi (zoneAt n zi).d.zs).1,
          (zns_close_zone n zi (zoneAt n zi).d.zs).2)
      else if req.cdw13 % U32 &&& 255 = NVME_ZONE_ACTION_FINISH then
        some (zns_mgmt_send_status (zns_finish_zone n zi (zoneAt n zi).d.zs).1,
          (zns_finish_zone n zi (zoneAt n zi).d.zs).2)
      else if req.cdw13 % U32 &&& 255 = NVME_ZONE_ACTION_RESET then
        some (NVME_SUCCESS, (zns_reset_zone n zi (zoneAt n zi).d.zs).2)
      else if req.cdw13 % U32 &&& 255 = NVME_ZONE_ACTION_OFFLINE then
        some (zns_mgmt_send_status (zns_offline_zone n zi (zoneAt n zi).d.zs).1,
          (zns_offline_zone n zi (zoneAt n zi).d.zs).2)
      else if req.cdw13 % U32 &&& 255 = NVME_ZONE_ACTION_SET_ZD_EXT then
        if n.zd_extension_size = 0 then some (⟨NvmeStatusCode.INVALID_FIELD, true⟩, n)
        else if req.dma_prp ≠ NVME_SUCCESS then some (req.dma_prp, n)
        else if (zns_set_zd_ext n zi).1 = NVME_SUCCESS then
          some ((zns_set_zd_ext n zi).1, (zns_set_zd_ext n zi).2)
        else some (zns_mgmt_send_status (zns_set_zd_ext n zi).1, (zns_set_zd_ext n zi).2)
      else some (zns_mgmt_send_status ⟨NvmeStatusCode.INVALID_FIELD, false⟩, n) := by
  unfold zns_zone_mgmt_send
  simp only [hall, ne_eq, not_true_eq_false, decide_False, Bool.false_eq_true, not_false_eq_true,
    if_true, if_false, hidx, hl, ← hs, do_zone_op_single n zi _ hl, Option.map_some',
    false_or]

/-! ### Bulk processing as a visit of the zones of a list -/

theorem bulk_proc_selected (n : FemuCtrl) (zi mask : Nat) (op : op_handler_t)
    (h : maskSelects mask (zoneAt n zi).d.zs) :
    zns_bulk_proc_zone n zi mask op = op n zi (zoneAt n zi).d.zs := by
  unfold zns_bulk_proc_zone
  simp only [zns_get_zone_state]
  unfold maskSelects at h
  cases hs : (zoneAt n zi).d.zs <;> simp only [hs] at h ⊢ <;> simp [h]

theorem bulk_proc_skipped (n : FemuCtrl) (zi mask : Nat) (op : op_handler_t)
    (h : ¬ maskSelects mask (zoneAt n zi).d.zs) :
    zns_bulk_proc_zone n zi mask op = (NVME_SUCCESS, n) := by
  unfold zns_bulk_proc_zone
  simp only [zns_get_zone_state]
  unfold maskSelects at h
  cases hs : (zoneAt n zi).d.zs <;> simp only [hs] at h ⊢ <;> simp [h]

/-- A list loop of `zns_do_zone_op` over zones that are all in a state the mask
selects, no zone twice, is the visit of those zones. -/
theorem foreach_eq_visit (mask : Nat) (op : op_handler_t) (hloc : HandlerLocal op)
    (X : NvmeZoneState) (hX : maskSelects mask X) (l : List Nat) :
    ∀ (st : Status) (n : FemuCtrl), l.Nodup → (∀ z ∈ l, inState n z X) →
      zns_bulk_foreach mask op l st n = visitZones op l st n := by
  induction l with
  | nil => intro st n _ _; rfl
  | cons zi rest ih =>
    intro st n hnd hall
    obtain ⟨hl, hs⟩ := hall zi (List.mem_cons_self _ _)
    have hp := bulk_proc_selected n zi mask op (by rw [hs]; exact hX)
    obtain ⟨hlen, hoth⟩ := hloc n zi hl
    have hnd' := List.nodup_cons.1 hnd
    unfold zns_bulk_foreach visitZones
    simp only [hp]
    split
    · rfl
    · apply ih _ _ hnd'.2
      intro z hz
      have hne : z ≠ zi := fun e => hnd'.1 (e ▸ hz)
      obtain ⟨hzl, hzs⟩ := hall z (List.mem_cons_of_mem _ hz)
      exact ⟨by rw [hlen]; exact hzl, by rw [hoth z hne]; exact hzs⟩

theorem Inv_visitZones (op : op_handler_t) (hop : HandlerOk op) (hloc : HandlerLocal op)
    (l : List Nat) :
    ∀ (st : Status) (n : FemuCtrl), Inv n → (∀ z ∈ l, z < n.zone_array.length) →
      Inv (visitZones op l st n).2.1 := by
  induction l with
  | nil => intro st n h _; exact h
  | cons zi rest ih =>
    intro st n h hall
    have hl := hall zi (List.mem_cons_self _ _)
    unfold visitZones
    split
    · exact hop n zi h hl
    · apply ih _ _ (hop n zi h hl)
      intro z hz
      rw [(hloc n zi hl).1]
      exact hall z (List.mem_cons_of_mem _ hz)

theorem assign_local (m n : FemuCtrl) (zi : Nat) (st : NvmeZoneState)
    (hz : m.zone_array = n.zone_array) :
    (zns_assign_zone_state m zi st).zone_array.length = n.zone_array.length ∧
    ∀ zj, zj ≠ zi → zoneAt (zns_assign_zone_state m zi st) zj = zoneAt n zj := by
  refine ⟨by rw [(assign_frame m zi st).2.2.2.2, hz], fun zj hne => ?_⟩
  rw [zoneAt_assign, if_neg (fun c => hne c.1)]
  exact zoneAt_congr _ _ hz zj

theorem same_local (m n : FemuCtrl) (zi : Nat) (hz : m.zone_array = n.zone_array) :
    m.zone_array.length = n.zone_array.length ∧ ∀ zj, zj ≠ zi → zoneAt m zj = zoneAt n zj :=
  ⟨by rw [hz], fun zj _ => zoneAt_congr _ _ hz zj⟩

theorem handlerLocal_open : HandlerLocal zns_open_zone := by
  intro n zi hl
  cases hs : (zoneAt n zi).d.zs with
  | EMPTY =>
    unfold zns_open_zone zns_open_zone_closed
    simp only
    split
    · exact same_local _ _ zi rfl
    · split
      · exact same_local _ _ zi rfl
      · exact assign_local _ _ zi _ rfl
  | CLOSED =>
    unfold zns_open_zone zns_open_zone_closed
    simp only
    split
    · exact same_local _ _ zi rfl
    · exact assign_local _ _ zi _ rfl
  | IMPLICITLY_OPEN => exact assign_local _ _ zi _ rfl
  | EXPLICITLY_OPEN => exact same_local _ _ zi rfl
  | READ_ONLY => exact same_local _ _ zi rfl
  | FULL => exact same_local _ _ zi rfl
  | OFFLINE => exact same_local _ _ zi rfl

theorem handlerLocal_close : HandlerLocal zns_close_zone := by
  intro n zi hl
  cases hs : (zoneAt n zi).d.zs with
  | IMPLICITLY_OPEN => exact assign_local _ _ zi _ rfl
  | EXPLICITLY_OPEN => exact assign_local _ _ zi _ rfl
  | EMPTY => exact same_local _ _ zi rfl
  | CLOSED => exact same_local _ _ zi rfl
  | READ_ONLY => exact same_local _ _ zi rfl
  | FULL => exact same_local _ _ zi rfl
  | OFFLINE => exact same_local _ _ zi rfl

theorem handlerLocal_finish : HandlerLocal zns_finish_zone := by
  intro n zi hl
  have key : ∀ m : FemuCtrl, m.zone_array = n.zone_array →
      (zns_finish_zone_empty m zi).zone_array.length = n.zone_array.length ∧
      ∀ zj, zj ≠ zi → zoneAt (zns_finish_zone_empty m zi) zj = zoneAt n zj := by
    intro m hz
    obtain ⟨_, a2, _, _, _, _, _, _, a9⟩ := finish_empty_effect m zi (by rw [hz]; exact hl)
    exact ⟨by rw [a9, hz], fun zj hne => by rw [a2 zj hne]; exact zoneAt_congr _ _ hz zj⟩
  cases hs : (zoneAt n zi).d.zs with
  | IMPLICITLY_OPEN => exact key _ rfl
  | EXPLICITLY_OPEN => exact key _ rfl
  | EMPTY => exact key _ rfl
  | CLOSED => exact key _ rfl
  | READ_ONLY => exact same_local _ _ zi rfl
  | FULL => exact same_local _ _ zi rfl
  | OFFLINE => exact same_local _ _ zi rfl

theorem handlerLocal_reset : HandlerLocal zns_reset_zone := by
  intro n zi hl
  have key : (zoneAt n zi).d.zs = NvmeZoneState.IMPLICITLY_OPEN ∨
      (zoneAt n zi).d.zs = NvmeZoneState.EXPLICITLY_OPEN ∨
      (zoneAt n zi).d.zs = NvmeZoneState.CLOSED ∨ (zoneAt n zi).d.zs = NvmeZoneState.FULL →
      (zns_aio_zone_reset_cb n zi).zone_array.length = n.zone_array.length ∧
      ∀ zj, zj ≠ zi → zoneAt (zns_aio_zone_reset_cb n zi) zj = zoneAt n zj := by
    intro h
    obtain ⟨_, a2, _, _, _, _, _, _, a9⟩ := reset_cb_effect n zi hl h
    exact ⟨a9, a2⟩
  cases hs : (zoneAt n zi).d.zs with
  | IMPLICITLY_OPEN => exact key (Or.inl hs)
  | EXPLICITLY_OPEN => exact key (Or.inr (Or.inl hs))
  | CLOSED => exact key (Or.inr (Or.inr (Or.inl hs)))
  | FULL => exact key (Or.inr (Or.inr (Or.inr hs)))
  | EMPTY => exact same_local _ _ zi rfl
  | READ_ONLY => exact same_local _ _ zi rfl
  | OFFLINE => exact same_local _ _ zi rfl

theorem handlerLocal_offline : HandlerLocal zns_offline_zone := by
  intro n zi hl
  cases hs : (zoneAt n zi).d.zs with
  | READ_ONLY => exact assign_local _ _ zi _ rfl
  | IMPLICITLY_OPEN => exact same_local _ _ zi rfl
  | EXPLICITLY_OPEN => exact same_local _ _ zi rfl
  | EMPTY => exact same_local _ _ zi rfl
  | CLOSED => exact same_local _ _ zi rfl
  | FULL => exact same_local _ _ zi rfl
  | OFFLINE => exact same_local _ _ zi rfl

theorem handlerLocal_fn (h : ZoneHandler) : HandlerLocal h.fn := by
  cases h
  · exact handlerLocal_open
  · exact handlerLocal_close
  · exact handlerLocal_finish
  · exact handlerLocal_reset
  · exact handlerLocal_offline

theorem list_eq_visit (mask : Nat) (op : op_handler_t) (hloc : HandlerLocal op) (m : FemuCtrl)
    (s : Status) (hinv : Inv m) :
    (mask &&& NVME_PROC_CLOSED_ZONES ≠ 0 →
      zns_bulk_foreach mask op m.closed_zones s m = visitZones op m.closed_zones s m) ∧
    (mask &&& NVME_PROC_OPENED_ZONES ≠ 0 →
      zns_bulk_foreach mask op m.imp_open_zones s m = visitZones op m.imp_open_zones s m) ∧
    (mask &&& NVME_PROC_OPENED_ZONES ≠ 0 →
      zns_bulk_foreach mask op m.exp_open_zones s m = visitZones op m.exp_open_zones s m) ∧
    (mask &&& NVME_PROC_FULL_ZONES ≠ 0 →
      zns_bulk_foreach mask op m.full_zones s m = visitZones op m.full_zones s m) := by
  obtain ⟨q1, q2, q3, q4, d1, d2, d3, d4⟩ := hinv.1
  exact ⟨fun h => foreach_eq_visit mask op hloc NvmeZoneState.CLOSED h _ s m d3
      (fun z hz => (q3 z).1 hz),
    fun h => foreach_eq_visit mask op hloc NvmeZoneState.IMPLICITLY_OPEN h _ s m d1
      (fun z hz => (q1 z).1 hz),
    fun h => foreach_eq_visit mask op hloc NvmeZoneState.EXPLICITLY_OPEN h _ s m d2
      (fun z hz => (q2 z).1 hz),
    fun h => foreach_eq_visit mask op hloc NvmeZoneState.FULL h _ s m d4
      (fun z hz => (q4 z).1 hz)⟩

theorem Inv_visit_lists (op : op_handler_t) (hop : HandlerOk op) (hloc : HandlerLocal op)
    (m : FemuCtrl) (s : Status) (hinv : Inv m) :
    Inv (visitZones op m.closed_zones s m).2.1 ∧ Inv (visitZones op m.imp_open_zones s m).2.1 ∧
      Inv (visitZones op m.exp_open_zones s m).2.1 ∧
      Inv (visitZones op m.full_zones s m).2.1 := by
  obtain ⟨q1, q2, q3, q4, _⟩ := hinv.1
  exact ⟨Inv_visitZones op hop hloc _ s m hinv (fun z hz => ((q3 z).1 hz).1),
    Inv_visitZones op hop hloc _ s m hinv (fun z hz => ((q1 z).1 hz).1),
    Inv_visitZones op hop hloc _ s m hinv (fun z hz => ((q2 z).1 hz).1),
    Inv_visitZones op hop hloc _ s m hinv (fun z hz => ((q4 z).1 hz).1)⟩

/-- The function `zns_do_zone_op` for a non-zero mask without the read-only
bit, in a state with the accounting invariant: the result is the visit of the
lists the mask selects. -/
theorem do_zone_op_eq_visit (op : op_handler_t) (hop : HandlerOk op) (hloc : HandlerLocal op)
    (n : FemuCtrl) (zone mask : Nat) (hinv : Inv n) (hm : mask ≠ 0)
    (hro : mask &&& NVME_PROC_READ_ONLY_ZONES = 0) :
    zns_do_zone_op n zone mask op = some (visitLists n mask op) := by
  have hfull : ∀ r : Status × FemuCtrl × Bool, Inv r.2.1 →
      (if mask &&& NVME_PROC_FULL_ZONES ≠ 0 then
        zns_bulk_foreach mask op r.2.1.full_zones r.1 r.2.1 else r) =
      (if mask &&& NVME_PROC_FULL_ZONES ≠ 0 then
        visitZones op r.2.1.full_zones r.1 r.2.1 else r) := by
    intro r hr
    by_cases hf : mask &&& NVME_PROC_FULL_ZONES ≠ 0
    · rw [if_pos hf, if_pos hf, (list_eq_visit mask op hloc r.2.1 r.1 hr).2.2.2 hf]
    · rw [if_neg hf, if_neg hf]
  have hclosed : ∃ r1 : Status × FemuCtrl × Bool, Inv r1.2.1 ∧
      (if mask &&& NVME_PROC_CLOSED_ZONES ≠ 0 then
        zns_bulk_foreach mask op n.closed_zones NVME_SUCCESS n
        else (NVME_SUCCESS, n, false)) = r1 ∧
      (if mask &&& NVME_PROC_CLOSED_ZONES ≠ 0 then
        visitZones op n.closed_zones NVME_SUCCESS n
        else (NVME_SUCCESS, n, false)) = r1 := by
    by_cases hc : mask &&& NVME_PROC_CLOSED_ZONES ≠ 0
    · refine ⟨visitZones op n.closed_zones NVME_SUCCESS n,
        (Inv_visit_lists op hop hloc n _ hinv).1, ?_, ?_⟩
      · rw [if_pos hc, (list_eq_visit mask op hloc n _ hinv).1 hc]
      · rw [if_pos hc]
    · exact ⟨(NVME_SUCCESS, n, false), hinv, by rw [if_neg hc], by rw [if_neg hc]⟩
  obtain ⟨r1, hinv1, ec, ev⟩ := hclosed
  unfold zns_do_zone_op visitLists
  rw [if_neg hm]
  simp only [ec, ev]
  by_cases hx1 : r1.2.2 = true
  · simp only [hx1, if_true]
  simp only [hx1, if_false, Bool.false_eq_true]
  by_cases ho : mask &&& NVME_PROC_OPENED_ZONES = 0
  · simp only [ho, ne_eq, not_true_eq_false, if_false, hx1, Bool.false_eq_true]
    have hf := hfull r1 hinv1
    simp only [ne_eq] at hf
    simp only [hf, hro, not_true_eq_false, if_false]
    split <;> first | rfl | (split <;> rfl)
  · have e2 := (list_eq_visit mask op hloc r1.2.1 r1.1 hinv1).2.1 ho
    simp only [ho, ne_eq, not_false_eq_true, if_true, e2]
    have hinv2 := (Inv_visit_lists op hop hloc r1.2.1 r1.1 hinv1).2.1
    generalize visitZones op r1.2.1.imp_open_zones r1.1 r1.2.1 = r2 at hinv2 ⊢
    by_cases hx2 : r2.2.2 = true
    · simp only [hx2, if_true]
    have e3 := (list_eq_visit mask op hloc r2.2.1 r2.1 hinv2).2.2.1 ho
    simp only [hx2, if_false, Bool.false_eq_true, e3]
    have hinv3 := (Inv_visit_lists op hop hloc r2.2.1 r2.1 hinv2).2.2.1
    generalize visitZones op r2.2.1.exp_open_zones r2.1 r2.2.1 = r3 at hinv3 ⊢
    by_cases hx3 : r3.2.2 = true
    · simp only [hx3, if_true]
    have hf := hfull r3 hinv3
    simp only [ne_eq] at hf
    simp only [hx3, if_false, Bool.false_eq_true, hf, hro, not_true_eq_false]
    split <;> first | rfl | (split <;> rfl)

/-! ### The read-only scan and open-all -/

theorem scan_eq_visit (op : op_handler_t) (hloc : HandlerLocal op) (i : Nat) :
    ∀ (zone : Nat) (s : Status) (n : FemuCtrl), zone + i ≤ n.zone_array.length →
      zns_bulk_scan NVME_PROC_READ_ONLY_ZONES op i zone s n =
        some (visitReadOnly op i zone s n) := by
  induction i with
  | zero => intro zone s n _; rfl
  | succ i ih =>
    intro zone s n hle
    have hl : zone < n.zone_array.length := by omega
    unfold zns_bulk_scan visitReadOnly
    rw [if_pos hl]
    by_cases hs : (zoneAt n zone).d.zs = NvmeZoneState.READ_ONLY
    · have hp := bulk_proc_selected n zone NVME_PROC_READ_ONLY_ZONES op
        (by rw [hs]; unfold maskSelects; decide)
      rw [hs] at hp
      have hlen := (hloc n zone hl).1
      rw [hs] at hlen
      simp only [hp, hs, if_true]
      split
      · rfl
      · exact ih _ _ _ (by rw [hlen]; omega)
    · have hp := bulk_proc_skipped n zone NVME_PROC_READ_ONLY_ZONES op
        (by
          unfold maskSelects
          cases hz : (zoneAt n zone).d.zs <;> first
            | exact absurd hz hs
            | decide)
      simp only [hp, hs, if_false]
      have hne : ¬ (NVME_SUCCESS ≠ NVME_SUCCESS ∧ NVME_SUCCESS ≠ NVME_NO_COMPLETE) :=
        fun h => h.1 rfl
      rw [if_neg hne]
      exact ih _ _ _ (by omega)

/-- The function `zns_do_zone_op` for the mask that selects read-only zones
only, started at zone 0: the result is the scan of the whole array. -/
theorem do_zone_op_read_only (op : op_handler_t) (hloc : HandlerLocal op) (n : FemuCtrl)
    (hn : n.num_zones ≤ n.zone_array.length) :
    zns_do_zone_op n 0 NVME_PROC_READ_ONLY_ZONES op =
      some (visitReadOnly op n.num_zones 0 NVME_SUCCESS n) := by
  have h := scan_eq_visit op hloc n.num_zones 0 NVME_SUCCESS n (by omega)
  unfold zns_do_zone_op
  simp only [NVME_PROC_READ_ONLY_ZONES, NVME_PROC_CLOSED_ZONES, NVME_PROC_OPENED_ZONES,
    NVME_PROC_FULL_ZONES] at h ⊢
  exact h

/-- Open-all over the closed zones `l` when fewer open slots are free than
there are zones: the loop ends with `ZONE_TOO_MANY_OPEN`, the first
`max_open_zones - nr_open_zones` zones are explicitly open and the others
still closed. -/
theorem open_all_foreach (l : List Nat) :
    ∀ (s : Status) (n : FemuCtrl), Inv n → n.max_open_zones ≠ 0 → l.Nodup →
      (∀ z ∈ l, inState n z NvmeZoneState.CLOSED) →
      n.max_open_zones - n.nr_open_zones < l.length →
      ∃ n', zns_bulk_foreach NVME_PROC_CLOSED_ZONES zns_open_zone l s n =
          (⟨NvmeStatusCode.ZONE_TOO_MANY_OPEN, true⟩, n', true) ∧
        (∀ i zj, l[i]? = some zj → (zoneAt n' zj).d.zs =
          if i < n.max_open_zones - n.nr_open_zones then NvmeZoneState.EXPLICITLY_OPEN
          else NvmeZoneState.CLOSED) ∧
        (∀ zj, zj ∉ l → zoneAt n' zj = zoneAt n zj) := by
  induction l with
  | nil => intro s n _ _ _ _ hk; simp at hk
  | cons z t ih =>
    intro s n hinv hmo hnd hall hk
    obtain ⟨hl, hs⟩ := hall z (List.mem_cons_self _ _)
    have hnd' := List.nodup_cons.1 hnd
    obtain ⟨⟨_, _, hle⟩, hb2⟩ :=
      (fun p => (⟨p.1 hmo, p.2⟩ : _ ∧ _)) (Inv_bounds n z hinv hl)
    have hio : isOpen (zoneAt n z).d.zs = 0 := by rw [hs]; rfl
    have hlenU := hinv.2.1
    have hoc := (hinv.2.2.1 hmo).1
    have hroom := (count_room n z hinv.1 hl).1
    rw [hio] at hroom
    have hp := bulk_proc_selected n z NVME_PROC_CLOSED_ZONES zns_open_zone
      (by rw [hs]; unfold maskSelects; decide)
    rw [hs] at hp
    have hact : ¬ (n.max_active_zones ≠ 0 ∧
        (n.nr_active_zones + 0) % U32 > n.max_active_zones) := by
      rintro ⟨hma, hgt⟩
      obtain ⟨h1, _, h3⟩ := hb2 hma
      rw [Nat.add_zero, Nat.mod_eq_of_lt (by omega)] at hgt
      omega
    have hmod : (n.nr_open_zones + 1) % U32 = n.nr_open_zones + 1 :=
      Nat.mod_eq_of_lt (by omega)
    by_cases hk0 : n.max_open_zones - n.nr_open_zones = 0
    · have hchk : zns_aor_check n 0 1 = ⟨NvmeStatusCode.ZONE_TOO_MANY_OPEN, true⟩ := by
        unfold zns_aor_check
        rw [if_neg hact, if_pos ⟨hmo, by rw [hmod]; omega⟩]
      have hop : zns_open_zone n z NvmeZoneState.CLOSED =
          (⟨NvmeStatusCode.ZONE_TOO_MANY_OPEN, true⟩, n) := by
        unfold zns_open_zone zns_open_zone_closed
        simp only [hchk]
        rfl
      refine ⟨n, ?_, ?_, fun _ _ => rfl⟩
      · unfold zns_bulk_foreach
        simp only [hp, hop]
        rfl
      · intro i zj hi
        rw [hk0, if_neg (Nat.not_lt_zero _)]
        exact (hall zj (List.getElem?_mem hi)).2
    · have hchk : zns_aor_check n 0 1 = NVME_SUCCESS := by
        unfold zns_aor_check
        rw [if_neg hact, if_neg (by rw [hmod]; omega)]
      have hop : zns_open_zone n z NvmeZoneState.CLOSED = (NVME_SUCCESS,
          zns_assign_zone_state (zns_aor_inc_open n) z NvmeZoneState.EXPLICITLY_OPEN) := by
        unfold zns_open_zone zns_open_zone_closed
        simp only [hchk]
        rfl
      have hinv1 : Inv (zns_assign_zone_state (zns_aor_inc_open n) z
          NvmeZoneState.EXPLICITLY_OPEN) := by
        have := Inv_open_zone n z hinv hl
        rw [hs, hop] at this
        exact this
      obtain ⟨z1, _, _, _, _, _, z7⟩ := assign_zone_effect (zns_aor_inc_open n) z
        NvmeZoneState.EXPLICITLY_OPEN hl
      obtain ⟨f1, _, f3, _, f5⟩ := assign_frame (zns_aor_inc_open n) z
        NvmeZoneState.EXPLICITLY_OPEN
      have hno : (zns_assign_zone_state (zns_aor_inc_open n) z
          NvmeZoneState.EXPLICITLY_OPEN).nr_open_zones = n.nr_open_zones + 1 := by
        rw [f1]; exact hmod
      have hmx : (zns_assign_zone_state (zns_aor_inc_open n) z
          NvmeZoneState.EXPLICITLY_OPEN).max_open_zones = n.max_open_zones := f3
      obtain ⟨n', e, st, oth⟩ := ih NVME_SUCCESS _ hinv1 (by rw [hmx]; exact hmo) hnd'.2
        (fun z' hz' => by
          have hne : z' ≠ z := fun e => hnd'.1 (e ▸ hz')
          obtain ⟨a, b⟩ := hall z' (List.mem_cons_of_mem _ hz')
          exact ⟨by rw [f5]; exact a, by rw [z7 z' hne]; exact b⟩)
        (by rw [hmx, hno]; simp only [List.length_cons] at hk; omega)
      refine ⟨n', ?_, ?_, ?_⟩
      · unfold zns_bulk_foreach
        simp only [hp, hop]
        rw [if_neg (fun h => h.1 rfl)]
        exact e
      · intro i zj hi
        cases i with
        | zero =>
          simp only [List.getElem?_cons_zero, Option.some.injEq] at hi
          subst hi
          rw [oth z hnd'.1, z1, if_pos (by omega)]
        | succ i =>
          simp only [List.getElem?_cons_succ] at hi
          rw [st i zj hi, hmx, hno]
          by_cases hlt : i + 1 < n.max_open_zones - n.nr_open_zones
          · rw [if_pos hlt, if_pos (by omega)]
          · rw [if_neg hlt, if_neg (by omega)]
      · intro zj hzj
        have hne : zj ≠ z := fun e => hzj (e ▸ List.mem_cons_self _ _)
        rw [oth zj (fun h => hzj (List.mem_cons_of_mem _ h)), z7 zj hne]
        rfl

/-! ### Reset of every zone -/

theorem length_queueAfter_rem (l : List Nat) (zi : Nat) (h : zi ∈ l) :
    (queueAfter l zi true false).length + 1 = l.length := by
  rw [queueAfter_rem, List.length_erase_of_mem h]
  have := List.length_pos_of_mem h
  omega

theorem Tracked_reset_cb (n : FemuCtrl) (zi : Nat) (hq : QueuesOk n) (ht : Tracked n)
    (hl : zi < n.zone_array.length) (hs : Resettable (zoneAt n zi).d.zs) :
    Tracked (zns_aio_zone_reset_cb n zi) := by
  obtain ⟨_, _, a3, a4, a5, a6, a7, _, _⟩ := reset_cb_effect n zi hl hs
  obtain ⟨q1, q2, q3, _, _⟩ := hq
  obtain ⟨t1, t2⟩ := ht
  unfold Tracked openCount activeCount openCount
  unfold openCount at t1
  unfold activeCount openCount at t2
  rw [a3, a4, a5, a6, a7]
  rcases hs with h | h | h | h
  · have hm : zi ∈ n.imp_open_zones := (q1 zi).2 ⟨hl, h⟩
    have := length_queueAfter_rem _ _ hm
    simp only [h, releaseFor, zns_aor_dec_active, zns_aor_dec_open, decide_True, decide_False,
      reduceCtorEq, queueAfter_keep]
    have hp := List.length_pos_of_mem hm
    rw [if_neg (by omega), if_neg (by omega)]
    omega
  · have hm : zi ∈ n.exp_open_zones := (q2 zi).2 ⟨hl, h⟩
    have := length_queueAfter_rem _ _ hm
    simp only [h, releaseFor, zns_aor_dec_active, zns_aor_dec_open, decide_True, decide_False,
      reduceCtorEq, queueAfter_keep]
    have hp := List.length_pos_of_mem hm
    rw [if_neg (by omega), if_neg (by omega)]
    omega
  · have hm : zi ∈ n.closed_zones := (q3 zi).2 ⟨hl, h⟩
    have := length_queueAfter_rem _ _ hm
    simp only [h, releaseFor, zns_aor_dec_active, decide_True, decide_False,
      reduceCtorEq, queueAfter_keep]
    have hp := List.length_pos_of_mem hm
    rw [if_neg (by omega)]
    omega
  · simp only [h, releaseFor, decide_False, reduceCtorEq, queueAfter_keep]
    exact ⟨t1, t2⟩

/-- Visiting a list of resettable zones with `zns_reset_zone`, relative to a
base controller `n0`: the zones of `P` are already reset, the others are as in
`n0`; afterwards the zones of the list are reset as well, and the visit did not
end early. -/
theorem reset_visit (n0 : FemuCtrl) (l : List Nat) :
    ∀ (s : Status) (m : FemuCtrl) (P : Nat → Prop), Inv m → Tracked m → l.Nodup →
      (∀ z ∈ l, ¬ P z ∧ z < m.zone_array.length ∧ Resettable (zoneAt m z).d.zs) →
      (∀ z, P z → zoneAt m z = resetZone (zoneAt n0 z)) →
      (∀ z, ¬ P z → zoneAt m z = zoneAt n0 z) →
      (visitZones zns_reset_zone l s m).2.2 = false ∧
      ((visitZones zns_reset_zone l s m).1 = NVME_SUCCESS ∨
        (visitZones zns_reset_zone l s m).1 = s) ∧
      Inv (visitZones zns_reset_zone l s m).2.1 ∧
      Tracked (visitZones zns_reset_zone l s m).2.1 ∧
      (visitZones zns_reset_zone l s m).2.1.zone_array.length = m.zone_array.length ∧
      (∀ z, P z ∨ z ∈ l →
        zoneAt (visitZones zns_reset_zone l s m).2.1 z = resetZone (zoneAt n0 z)) ∧
      (∀ z, ¬ (P z ∨ z ∈ l) →
        zoneAt (visitZones zns_reset_zone l s m).2.1 z = zoneAt n0 z) := by
  induction l with
  | nil =>
    intro s m P hinv ht _ _ hP hN
    refine ⟨rfl, Or.inr rfl, hinv, ht, rfl, ?_, ?_⟩
    · intro z hz
      rcases hz with h | h
      · exact hP z h
      · simp at h
    · intro z hz
      exact hN z (fun h => hz (Or.inl h))
  | cons zi rest ih =>
    intro s m P hinv ht hnd hall hP hN
    obtain ⟨hnp, hl, hs⟩ := hall zi (List.mem_cons_self _ _)
    have hnd' := List.nodup_cons.1 hnd
    have hr : zns_reset_zone m zi (zoneAt m zi).d.zs =
        (NVME_SUCCESS, zns_aio_zone_reset_cb m zi) := by
      rcases hs with h | h | h | h <;> rw [h] <;> rfl
    obtain ⟨a1, a2, _, _, _, _, _, _, a9⟩ := reset_cb_effect m zi hl hs
    have hinv1 := Inv_reset_cb m zi hinv hl
    have ht1 := Tracked_reset_cb m zi hinv.1 ht hl hs
    obtain ⟨b1, b2, b3, b4, b5, b6, b7⟩ := ih NVME_SUCCESS (zns_aio_zone_reset_cb m zi)
      (fun z => P z ∨ z = zi) hinv1 ht1 hnd'.2
      (fun z hz => by
        have hne : z ≠ zi := fun e => hnd'.1 (e ▸ hz)
        obtain ⟨c1, c2, c3⟩ := hall z (List.mem_cons_of_mem _ hz)
        refine ⟨fun h => h.elim c1 hne, by rw [a9]; exact c2, by rw [a2 z hne]; exact c3⟩)
      (fun z hz => by
        by_cases hzi : z = zi
        · subst hzi
          rw [a1, hN z hnp]
          rfl
        · rw [a2 z hzi]
          exact hP z (hz.elim id (fun h => absurd h hzi)))
      (fun z hz => by
        have hzi : z ≠ zi := fun e => hz (Or.inr e)
        rw [a2 z hzi]
        exact hN z (fun h => hz (Or.inl h)))
    unfold visitZones
    simp only [hr]
    rw [if_neg (fun h => h.1 rfl)]
    refine ⟨b1, Or.inl (b2.elim id id), b3, b4, by rw [b5, a9], ?_, ?_⟩
    · intro z hz
      apply b6 z
      rcases hz with h | h
      · exact Or.inl (Or.inl h)
      · rcases List.mem_cons.1 h with h | h
        · exact Or.inl (Or.inr h)
        · exact Or.inr h
    · intro z hz
      apply b7 z
      rintro (h | h)
      · rcases h with h | h
        · exact hz (Or.inl h)
        · exact hz (Or.inr (h ▸ List.mem_cons_self _ _))
      · exact hz (Or.inr (List.mem_cons_of_mem _ h))

theorem resetZone_state (z : NvmeZone) : (resetZone z).d.zs = NvmeZoneState.EMPTY := rfl

theorem resettable_of_list (st X : NvmeZoneState) (h : st = X)
    (hX : X = NvmeZoneState.IMPLICITLY_OPEN ∨ X = NvmeZoneState.EXPLICITLY_OPEN ∨
      X = NvmeZoneState.CLOSED ∨ X = NvmeZoneState.FULL) : Resettable st := by
  unfold Resettable
  rw [h]
  exact hX

/-- One more list of a reset-all: a list that holds exactly the zones that are
in state `X` now, in a controller where the zones of `P` are reset and the
others are as in `n0`. -/
theorem reset_visit_list (n0 m : FemuCtrl) (s : Status) (P : Nat → Prop) (l : List Nat)
    (X : NvmeZoneState)
    (hX : X = NvmeZoneState.IMPLICITLY_OPEN ∨ X = NvmeZoneState.EXPLICITLY_OPEN ∨
      X = NvmeZoneState.CLOSED ∨ X = NvmeZoneState.FULL)
    (hinv : Inv m) (ht : Tracked m) (hnd : l.Nodup) (hmem : ∀ z, z ∈ l ↔ inState m z X)
    (hP : ∀ z, P z → zoneAt m z = resetZone (zoneAt n0 z))
    (hN : ∀ z, ¬ P z → zoneAt m z = zoneAt n0 z) :
    (visitZones zns_reset_zone l s m).2.2 = false ∧
    Inv (visitZones zns_reset_zone l s m).2.1 ∧
    Tracked (visitZones zns_reset_zone l s m).2.1 ∧
    (visitZones zns_reset_zone l s m).2.1.zone_array.length = m.zone_array.length ∧
    (∀ z, P z ∨ inState m z X →
      zoneAt (visitZones zns_reset_zone l s m).2.1 z = resetZone (zoneAt n0 z)) ∧
    (∀ z, ¬ (P z ∨ inState m z X) →
      zoneAt (visitZones zns_reset_zone l s m).2.1 z = zoneAt n0 z) := by
  have hne : X ≠ NvmeZoneState.EMPTY := by
    rcases hX with h | h | h | h <;> rw [h] <;> simp
  obtain ⟨b1, _, b3, b4, b5, b6, b7⟩ := reset_visit n0 l s m P hinv ht hnd
    (fun z hz => by
      obtain ⟨c1, c2⟩ := (hmem z).1 hz
      refine ⟨fun hp => ?_, c1, resettable_of_list _ X c2 hX⟩
      rw [hP z hp, resetZone_state] at c2
      exact hne c2.symm)
    hP hN
  refine ⟨b1, b3, b4, b5, ?_, ?_⟩
  · intro z hz
    exact b6 z (hz.elim Or.inl (fun h => Or.inr ((hmem z).2 h)))
  · intro z hz
    exact b7 z (fun h => hz (h.elim Or.inl (fun h => Or.inr ((hmem z).1 h))))

/-- Reset-all (`zns_do_zone_op` with the opened, closed and full bits and the
handler `zns_reset_zone`) as a visit: every zone that was in one of the four
listed states is reset, the others are as before, the four lists are empty and
both counters are 0. -/
theorem reset_all_effect (n : FemuCtrl) (hinv : Inv n) (ht : Tracked n) :
    (∀ z, z < n.zone_array.length → Resettable (zoneAt n z).d.zs →
      zoneAt (visitLists n (NVME_PROC_OPENED_ZONES ||| NVME_PROC_CLOSED_ZONES |||
        NVME_PROC_FULL_ZONES) zns_reset_zone).2 z = resetZone (zoneAt n z)) ∧
    (∀ z, ¬ Resettable (zoneAt n z).d.zs →
      zoneAt (visitLists n (NVME_PROC_OPENED_ZONES ||| NVME_PROC_CLOSED_ZONES |||
        NVME_PROC_FULL_ZONES) zns_reset_zone).2 z = zoneAt n z) ∧
    (visitLists n (NVME_PROC_OPENED_ZONES ||| NVME_PROC_CLOSED_ZONES |||
      NVME_PROC_FULL_ZONES) zns_reset_zone).2.imp_open_zones = [] ∧
    (visitLists n (NVME_PROC_OPENED_ZONES ||| NVME_PROC_CLOSED_ZONES |||
      NVME_PROC_FULL_ZONES) zns_reset_zone).2.exp_open_zones = [] ∧
    (visitLists n (NVME_PROC_OPENED_ZONES ||| NVME_PROC_CLOSED_ZONES |||
      NVME_PROC_FULL_ZONES) zns_reset_zone).2.closed_zones = [] ∧
    (visitLists n (NVME_PROC_OPENED_ZONES ||| NVME_PROC_CLOSED_ZONES |||
      NVME_PROC_FULL_ZONES) zns_reset_zone).2.full_zones = [] ∧
    (visitLists n (NVME_PROC_OPENED_ZONES ||| NVME_PROC_CLOSED_ZONES |||
      NVME_PROC_FULL_ZONES) zns_reset_zone).2.nr_open_zones = 0 ∧
    (visitLists n (NVME_PROC_OPENED_ZONES ||| NVME_PROC_CLOSED_ZONES |||
      NVME_PROC_FULL_ZONES) zns_reset_zone).2.nr_active_zones = 0 := by
  obtain ⟨q1, q2, q3, q4, d1, d2, d3, d4⟩ := hinv.1
  -- closed list
  obtain ⟨f1, i1, t1, l1, p1, n1⟩ := reset_visit_list n n NVME_SUCCESS (fun _ => False)
    n.closed_zones NvmeZoneState.CLOSED (Or.inr (Or.inr (Or.inl rfl))) hinv ht d3 q3
    (fun _ h => h.elim) (fun _ _ => rfl)
  generalize hr1 : visitZones zns_reset_zone n.closed_zones NVME_SUCCESS n = r1 at f1 i1 t1 l1 p1 n1
  -- implicitly open list
  obtain ⟨f2, i2, t2, l2, p2, n2⟩ := reset_visit_list n r1.2.1 r1.1
    (fun z => False ∨ inState n z NvmeZoneState.CLOSED)
    r1.2.1.imp_open_zones NvmeZoneState.IMPLICITLY_OPEN (Or.inl rfl) i1 t1 i1.1.2.2.2.2.1
    i1.1.1 p1 n1
  generalize hr2 : visitZones zns_reset_zone r1.2.1.imp_open_zones r1.1 r1.2.1 = r2
    at f2 i2 t2 l2 p2 n2
  -- explicitly open list
  obtain ⟨f3, i3, t3, l3, p3, n3⟩ := reset_visit_list n r2.2.1 r2.1
    (fun z => (False ∨ inState n z NvmeZoneState.CLOSED) ∨
      inState r1.2.1 z NvmeZoneState.IMPLICITLY_OPEN)
    r2.2.1.exp_open_zones NvmeZoneState.EXPLICITLY_OPEN (Or.inr (Or.inl rfl)) i2 t2
    i2.1.2.2.2.2.2.1 i2.1.2.1 p2 n2
  generalize hr3 : visitZones zns_reset_zone r2.2.1.exp_open_zones r2.1 r2.2.1 = r3
    at f3 i3 t3 l3 p3 n3
  -- full list
  obtain ⟨f4, i4, t4, l4, p4, n4⟩ := reset_visit_list n r3.2.1 r3.1
    (fun z => ((False ∨ inState n z NvmeZoneState.CLOSED) ∨
      inState r1.2.1 z NvmeZoneState.IMPLICITLY_OPEN) ∨
      inState r2.2.1 z NvmeZoneState.EXPLICITLY_OPEN)
    r3.2.1.full_zones NvmeZoneState.FULL (Or.inr (Or.inr (Or.inr rfl))) i3 t3
    i3.1.2.2.2.2.2.2.2 i3.1.2.2.2.1 p3 n3
  generalize hr4 : visitZones zns_reset_zone r3.2.1.full_zones r3.1 r3.2.1 = r4
    at f4 i4 t4 l4 p4 n4
  have hv : (visitLists n (NVME_PROC_OPENED_ZONES ||| NVME_PROC_CLOSED_ZONES |||
      NVME_PROC_FULL_ZONES) zns_reset_zone).2 = r4.2.1 := by
    unfold visitLists
    simp only [NVME_PROC_OPENED_ZONES, NVME_PROC_CLOSED_ZONES, NVME_PROC_FULL_ZONES]
    have e1 : (1 ||| 2 ||| 8) &&& 2 ≠ 0 := by decide
    have e2 : (1 ||| 2 ||| 8) &&& 1 ≠ 0 := by decide
    have e3 : (1 ||| 2 ||| 8) &&& 8 ≠ 0 := by decide
    simp only [e1, e2, e3, if_true, ne_eq, not_false_eq_true, hr1, f1, Bool.false_eq_true,
      if_false, hr2, f2, hr3, f3, hr4]
  -- the zones that were reset
  have hin : ∀ z, z < n.zone_array.length → Resettable (zoneAt n z).d.zs →
      ((((False ∨ inState n z NvmeZoneState.CLOSED) ∨
        inState r1.2.1 z NvmeZoneState.IMPLICITLY_OPEN) ∨
        inState r2.2.1 z NvmeZoneState.EXPLICITLY_OPEN) ∨
        inState r3.2.1 z NvmeZoneState.FULL) := by
    intro z hz hs
    by_cases c1 : inState n z NvmeZoneState.CLOSED
    · exact Or.inl (Or.inl (Or.inl (Or.inr c1)))
    have e1 : zoneAt r1.2.1 z = zoneAt n z := n1 z (fun h => h.elim id c1)
    by_cases c2 : inState r1.2.1 z NvmeZoneState.IMPLICITLY_OPEN
    · exact Or.inl (Or.inl (Or.inr c2))
    have e2 : zoneAt r2.2.1 z = zoneAt n z :=
      n2 z (fun h => h.elim (fun h => h.elim id c1) c2)
    by_cases c3 : inState r2.2.1 z NvmeZoneState.EXPLICITLY_OPEN
    · exact Or.inl (Or.inr c3)
    have e3 : zoneAt r3.2.1 z = zoneAt n z :=
      n3 z (fun h => h.elim (fun h => h.elim (fun h => h.elim id c1) c2) c3)
    refine Or.inr ⟨by rw [l3, l2, l1]; exact hz, ?_⟩
    rw [e3]
    rcases hs with h | h | h | h
    · exact absurd ⟨by rw [l1]; exact hz, by rw [e1]; exact h⟩ c2
    · exact absurd ⟨by rw [l2, l1]; exact hz, by rw [e2]; exact h⟩ c3
    · exact absurd ⟨hz, h⟩ c1
    · exact h
  have hout : ∀ z, ¬ Resettable (zoneAt n z).d.zs →
      ¬ ((((False ∨ inState n z NvmeZoneState.CLOSED) ∨
        inState r1.2.1 z NvmeZoneState.IMPLICITLY_OPEN) ∨
        inState r2.2.1 z NvmeZoneState.EXPLICITLY_OPEN) ∨
        inState r3.2.1 z NvmeZoneState.FULL) := by
    intro z hs h
    have c1 : ¬ (False ∨ inState n z NvmeZoneState.CLOSED) := by
      rintro (h | h)
      · exact h
      · exact hs (Or.inr (Or.inr (Or.inl h.2)))
    have c2 : ¬ ((False ∨ inState n z NvmeZoneState.CLOSED) ∨
        inState r1.2.1 z NvmeZoneState.IMPLICITLY_OPEN) := by
      rintro (h | h)
      · exact c1 h
      · rw [inState, n1 z c1] at h
        exact hs (Or.inl h.2)
    have c3 : ¬ (((False ∨ inState n z NvmeZoneState.CLOSED) ∨
        inState r1.2.1 z NvmeZoneState.IMPLICITLY_OPEN) ∨
        inState r2.2.1 z NvmeZoneState.EXPLICITLY_OPEN) := by
      rintro (h | h)
      · exact c2 h
      · rw [inState, n2 z c2] at h
        exact hs (Or.inr (Or.inl h.2))
    rcases h with h | h
    · exact c3 h
    · rw [inState, n3 z c3] at h
      exact hs (Or.inr (Or.inr (Or.inr h.2)))
  have hlen : r4.2.1.zone_array.length = n.zone_array.length := by rw [l4, l3, l2, l1]
  have hstate : ∀ z X, inState r4.2.1 z X → X ≠ NvmeZoneState.EMPTY →
      Resettable X → False := by
    intro z X hz hX hR
    by_cases hs : Resettable (zoneAt n z).d.zs
    · have := p4 z (hin z (by rw [← hlen]; exact hz.1) hs)
      rw [inState, this, resetZone_state] at hz
      exact hX hz.2.symm
    · have := n4 z (hout z hs)
      rw [inState, this] at hz
      exact hs (hz.2 ▸ hR)
  obtain ⟨k1, k2, k3, k4, _⟩ := i4.1
  have hi : r4.2.1.imp_open_zones = [] := List.eq_nil_iff_forall_not_mem.2
    (fun z hz => hstate z _ ((k1 z).1 hz) (by simp) (Or.inl rfl))
  have he : r4.2.1.exp_open_zones = [] := List.eq_nil_iff_forall_not_mem.2
    (fun z hz => hstate z _ ((k2 z).1 hz) (by simp) (Or.inr (Or.inl rfl)))
  have hc : r4.2.1.closed_zones = [] := List.eq_nil_iff_forall_not_mem.2
    (fun z hz => hstate z _ ((k3 z).1 hz) (by simp) (Or.inr (Or.inr (Or.inl rfl))))
  have hf : r4.2.1.full_zones = [] := List.eq_nil_iff_forall_not_mem.2
    (fun z hz => hstate z _ ((k4 z).1 hz) (by simp) (Or.inr (Or.inr (Or.inr rfl))))
  rw [hv]
  refine ⟨fun z hz hs => p4 z (hin z hz hs), fun z hs => n4 z (hout z hs), hi, he, hc, hf, ?_, ?_⟩
  · rw [t4.1]; simp [openCount, hi, he]
  · rw [t4.2]; simp [activeCount, openCount, hi, he, hc]

/-- C1: in every state reached from the initial state of `zns_init_zoned_state`
(counters 0) by a finite sequence of core operations, a configured active limit
bounds `nr_active_zones` and a configured open limit bounds `nr_open_zones`. -/
theorem C1_counters_within_limits (n0 : FemuCtrl) (ops : List CoreOp) (n : FemuCtrl)
    (ho : n0.nr_open_zones = 0) (ha : n0.nr_active_zones = 0) (hz : n0.num_zones < U32)
    (hrun : runOps (zns_init_zoned_state n0) ops = some n) :
    (n.max_active_zones ≠ 0 → n.nr_active_zones ≤ n.max_active_zones) ∧
      (n.max_open_zones ≠ 0 → n.nr_open_zones ≤ n.max_open_zones) := by
  have hinv := Inv_runOps ops _ n (Inv_init n0 ho ha hz) hrun
  exact ⟨fun h => (hinv.2.2.2 h).2, fun h => (hinv.2.2.1 h).2⟩

theorem C1_counters_within_limits_witness :
    ∃ n, runOps (zns_init_zoned_state (exampleConfig 2 4 1 1))
        [CoreOp.write (exampleReq 0 0) false false, CoreOp.write (exampleReq 4 0) false false,
          CoreOp.zone_op 0 0 ZoneHandler.OPEN] = some n ∧
      (n.nr_active_zones, n.nr_open_zones) = (1, 1) ∧
      (n.max_active_zones ≠ 0 → n.nr_active_zones ≤ n.max_active_zones) ∧
      (n.max_open_zones ≠ 0 → n.nr_open_zones ≤ n.max_open_zones) := by
  have hm : (runOps (zns_init_zoned_state (exampleConfig 2 4 1 1))
        [CoreOp.write (exampleReq 0 0) false false, CoreOp.write (exampleReq 4 0) false false,
          CoreOp.zone_op 0 0 ZoneHandler.OPEN]).map
        (fun n => (n.nr_active_zones, n.nr_open_zones)) = some (1, 1) := by decide
  obtain ⟨n, hn, hv⟩ := Option.map_eq_some'.1 hm
  exact ⟨n, hn, hv,
    C1_counters_within_limits (exampleConfig 2 4 1 1) _ n rfl rfl (by decide) hn⟩

/-- C2 (the code at the failing input): on two zones of 4 blocks, an append of
2 blocks to the empty zone 0 succeeds and leaves `w_ptr = 2`, inside
`[zslba, zslba + zcap] = [0, 4]`; a second append of 3 blocks (`slba = zslba`,
`nlb <= zcap`) succeeds as well, lands at 2 and leaves both write pointers at
5, past the capacity boundary 4. -/
theorem C2_append_passes_capacity_boundary :
    (zns_do_write (exampleCtrl 2 4 0 0) (exampleReq 0 1) true false).map
        (fun o => (o.status, (zoneAt o.n 0).d.zslba, (zoneAt o.n 0).d.zcap,
          (zoneAt o.n 0).w_ptr)) = some (NVME_SUCCESS, 0, 4, 2) ∧
      ((zns_do_write (exampleCtrl 2 4 0 0) (exampleReq 0 1) true false).bind
        (fun o => zns_do_write o.n (exampleReq 0 2) true false)).map
        (fun o => (o.status, o.req.cqe_slba, (zoneAt o.n 0).w_ptr, (zoneAt o.n 0).d.wp,
          (zoneAt o.n 0).d.zs)) =
        some (NVME_SUCCESS, 2, 5, 5, NvmeZoneState.IMPLICITLY_OPEN) := by
  decide

/-- C3 (the code at the failing input): after the two appends of C2 the write
pointers of zone 0 stand at 5; the finish operation then succeeds and sets
both to the boundary 4, below their value before the operation. -/
theorem C3_finish_lowers_write_pointer :
    (runOps (exampleCtrl 2 4 0 0)
        [CoreOp.write (exampleReq 0 1) true false, CoreOp.write (exampleReq 0 2) true false]).map
        (fun n => ((zoneAt n 0).w_ptr, (zoneAt n 0).d.wp)) = some (5, 5) ∧
      ((runOps (exampleCtrl 2 4 0 0)
        [CoreOp.write (exampleReq 0 1) true false,
          CoreOp.write (exampleReq 0 2) true false]).bind
        (fun n => zns_do_zone_op n 0 0 zns_finish_zone)).map
        (fun r => (r.1, (zoneAt r.2 0).w_ptr, (zoneAt r.2 0).d.wp, (zoneAt r.2 0).d.zs)) =
        some (NVME_SUCCESS, 4, 4, NvmeZoneState.FULL) := by
  decide

/-- C4: a zone append (`zns_do_write` with `append = true`) that returns success
on the zone `zi` of the command, whose write pointer was `p` before the call,
reports `p` as the result SLBA, hands the byte offset of `p` to the backend
(when the backend is called, `wrz = false`, as in `zns_zone_append`), and
leaves the zone's write pointer at the 64-bit sum `p + nlb`, which is `p + nlb`
itself when that sum does not wrap. -/
theorem C4_append_lands_at_write_pointer (n : FemuCtrl) (req : NvmeRequest) (wrz : Bool)
    (out : WriteOut) (zi : Nat) (hz : zns_get_zone_by_slba n req.cmd.slba = some zi)
    (h : zns_do_write n req true wrz = some out) (hs : out.status = NVME_SUCCESS) :
    out.req.cqe_slba = (zoneAt n zi).w_ptr ∧
      out.data_offset = (if wrz then none else some (zns_l2b n (zoneAt n zi).w_ptr)) ∧
      (zoneAt out.n zi).w_ptr = ((zoneAt n zi).w_ptr + (req.cmd.nlb + 1)) % U64 ∧
      ((zoneAt n zi).w_ptr + (req.cmd.nlb + 1) < U64 →
        (zoneAt out.n zi).w_ptr = (zoneAt n zi).w_ptr + (req.cmd.nlb + 1)) := by
  have hl := get_zone_lt n _ zi hz
  obtain ⟨_, hc⟩ := do_write_cases n req true wrz out h
  have ne_of_dnr : ∀ s : Status, s.orDNR ≠ NVME_SUCCESS := by
    intro s e
    have := congrArg Status.dnr e
    simp [Status.orDNR, NVME_SUCCESS] at this
  rcases hc with ⟨_, _, e⟩ | ⟨_, ⟨_, e⟩ | ⟨_, zi', hz', hc⟩⟩
  · rw [e] at hs; exact absurd hs (ne_of_dnr _)
  · rw [e] at hs; exact absurd hs (ne_of_dnr _)
  have hzi : zi' = zi := by rw [hz] at hz'; exact (Option.some.inj hz').symm
  subst hzi
  rcases hc with ⟨_, e⟩ | ⟨_, ⟨_, e⟩ | ⟨_, hc⟩⟩
  · rw [e] at hs; exact absurd hs (ne_of_dnr _)
  · rw [e] at hs; exact absurd hs (ne_of_dnr _)
  rcases hc with ⟨_, _, e⟩ | ⟨_, n3, req3, hf, e⟩
  · rw [e] at hs; exact absurd hs (ne_of_dnr _)
  have g1 := SameGeom.auto_open n zi'
  have hl1 : zi' < (zns_auto_open_zone n zi').2.zone_array.length := by
    rw [g1.2.2.2.2.2.2.2.2.2.2.2.1]; exact hl
  obtain ⟨a1, a2, a3, _, _⟩ := advance_spec (zns_auto_open_zone n zi').2 zi' (req.cmd.nlb + 1) hl1
  have hz2 : zns_get_zone_by_slba
      (zns_advance_zone_wp (zns_auto_open_zone n zi').2 zi' (req.cmd.nlb + 1)).2
      req.cmd.slba = some zi' := by
    rw [get_zone_congr _ _ (g1.trans a2)]; exact hz
  obtain ⟨f1, _, _, f4⟩ := (fun hq => finalize_spec _ n3 _ req3 zi' hq hf) hz2
  have hp := (auto_open_ptrs n zi' zi').1
  subst e
  simp only [if_true]
  have hw : (zoneAt n3 zi').w_ptr = ((zoneAt n zi').w_ptr + (req.cmd.nlb + 1)) % U64 := by
    rw [f4 zi', a3, hp]
  refine ⟨?_, ?_, hw, ?_⟩
  · rw [f1]
    exact a1.trans hp
  · rw [l2b_congr _ _ (g1.trans a2), hp]
  · intro hlt
    rw [hw]
    exact Nat.mod_eq_of_lt hlt

theorem C4_append_lands_at_write_pointer_witness :
    ∃ out, zns_do_write (exampleCtrl 2 4 0 0) (exampleReq 0 1) true false = some out ∧
      out.req.cqe_slba = 0 ∧ out.data_offset = some 0 ∧ (zoneAt out.n 0).w_ptr = 2 := by
  have hm : (zns_do_write (exampleCtrl 2 4 0 0) (exampleReq 0 1) true false).map
      (fun o => o.status) = some NVME_SUCCESS := by decide
  obtain ⟨out, ho, hs⟩ := Option.map_eq_some'.1 hm
  obtain ⟨a, b, c, _⟩ := C4_append_lands_at_write_pointer (exampleCtrl 2 4 0 0)
    (exampleReq 0 1) false out 0 (by decide) ho hs
  refine ⟨out, ho, ?_, ?_, ?_⟩
  · rw [a]; decide
  · rw [b]; decide
  · rw [c]; decide

theorem check_zone_write_state (n : FemuCtrl) (zi slba nlb : Nat) (append : Bool)
    (h : zns_check_zone_write n zi slba nlb append = NVME_SUCCESS) :
    (zoneAt n zi).d.zs = NvmeZoneState.EMPTY ∨ (zoneAt n zi).d.zs = NvmeZoneState.IMPLICITLY_OPEN ∨
      (zoneAt n zi).d.zs = NvmeZoneState.EXPLICITLY_OPEN ∨
      (zoneAt n zi).d.zs = NvmeZoneState.CLOSED := by
  unfold zns_check_zone_write zns_check_zone_state_for_write zns_get_zone_state at h
  simp only at h
  by_cases hb : (slba + nlb) % U64 > zns_zone_wr_boundary (zoneAt n zi)
  · simp [hb, NVME_SUCCESS] at h
  · simp only [hb, if_false] at h
    cases hs : (zoneAt n zi).d.zs <;> simp [hs, NVME_SUCCESS] at h ⊢

/-- The counters and the target zone after the auto-open step: the target is
untouched, `nr_active_zones` is kept, and `nr_open_zones` is one less exactly
when the target is `EMPTY` or `CLOSED`, the open limit is reached and there is
an implicitly open zone to close. -/
theorem auto_open_counters (n : FemuCtrl) (zi : Nat) (hinv : Inv n) :
    zoneAt (zns_auto_open_zone n zi).2 zi = zoneAt n zi ∧
    (zns_auto_open_zone n zi).2.nr_active_zones = n.nr_active_zones ∧
    (zns_auto_open_zone n zi).2.nr_open_zones +
        (if ((zoneAt n zi).d.zs = NvmeZoneState.EMPTY ∨
            (zoneAt n zi).d.zs = NvmeZoneState.CLOSED) ∧ n.max_open_zones ≠ 0 ∧
            n.nr_open_zones = n.max_open_zones ∧ n.imp_open_zones ≠ [] then 1 else 0) =
      n.nr_open_zones := by
  have key : (zoneAt n zi).d.zs = NvmeZoneState.EMPTY ∨
      (zoneAt n zi).d.zs = NvmeZoneState.CLOSED →
      zoneAt (zns_auto_transition_zone n) zi = zoneAt n zi ∧
      (zns_auto_transition_zone n).nr_active_zones = n.nr_active_zones ∧
      (zns_auto_transition_zone n).nr_open_zones +
        (if n.max_open_zones ≠ 0 ∧
            n.nr_open_zones = n.max_open_zones ∧ n.imp_open_zones ≠ [] then 1 else 0) =
        n.nr_open_zones := by
    intro hec
    have hni : (zoneAt n zi).d.zs ≠ NvmeZoneState.IMPLICITLY_OPEN := by
      rcases hec with h | h <;> rw [h] <;> simp
    rcases auto_transition_cases n hinv with ⟨e, hnot⟩ | ⟨h, t, hl, hmo, heq, e, hs, hlt, hpos, _⟩
    · rw [e, if_neg hnot]
      exact ⟨rfl, rfl, rfl⟩
    · obtain ⟨a1, a2, _, _, _, _, _, a8⟩ := auto_close_effect n h t hinv hl hs hlt hpos
      have hzh : zi ≠ h := fun e' => hni (e' ▸ hs)
      rw [e, if_pos ⟨hmo, heq, by rw [hl]; simp⟩]
      exact ⟨a8 zi hzh, a2, a1⟩
  unfold zns_auto_open_zone
  simp only [zns_get_zone_state]
  cases hs : (zoneAt n zi).d.zs with
  | EMPTY =>
    simp only [true_or, true_and]
    exact key (Or.inl hs)
  | CLOSED =>
    simp only [or_true, true_and]
    exact key (Or.inr hs)
  | IMPLICITLY_OPEN => simp
  | EXPLICITLY_OPEN => simp
  | READ_ONLY => simp
  | FULL => simp
  | OFFLINE => simp

/-- Both write pointers of the target zone after a successful `zns_do_write`. -/
theorem do_write_success_ptrs (n : FemuCtrl) (req : NvmeRequest) (append wrz : Bool)
    (out : WriteOut) (zi : Nat) (hz : zns_get_zone_by_slba n req.cmd.slba = some zi)
    (h : zns_do_write n req append wrz = some out) (hs : out.status = NVME_SUCCESS) :
    (zoneAt out.n zi).w_ptr = ((zoneAt n zi).w_ptr + (req.cmd.nlb + 1)) % U64 ∧
      (zoneAt out.n zi).d.wp = ((zoneAt n zi).d.wp + (req.cmd.nlb + 1)) % U64 ∧
      SameGeom n out.n := by
  have hl := get_zone_lt n _ zi hz
  obtain ⟨_, _, req3, hf⟩ := do_write_success n req append wrz out zi hz h hs
  have g1 := SameGeom.auto_open n zi
  have hl1 : zi < (zns_auto_open_zone n zi).2.zone_array.length := by
    rw [g1.2.2.2.2.2.2.2.2.2.2.2.1]; exact hl
  obtain ⟨_, a2, a3, a4, _⟩ := advance_spec (zns_auto_open_zone n zi).2 zi (req.cmd.nlb + 1) hl1
  have hz2 : zns_get_zone_by_slba
      (zns_advance_zone_wp (zns_auto_open_zone n zi).2 zi (req.cmd.nlb + 1)).2
      req.cmd.slba = some zi := by
    rw [get_zone_congr _ _ (g1.trans a2)]; exact hz
  obtain ⟨_, f2, f3, f4⟩ := (fun hq => finalize_spec _ out.n _ req3 zi hq hf) hz2
  obtain ⟨p1, p2⟩ := auto_open_ptrs n zi zi
  refine ⟨?_, ?_, (g1.trans a2).trans f2⟩
  · rw [f4 zi, a3, p1]
  · rw [f3]
    show ((zoneAt (zns_advance_zone_wp (zns_auto_open_zone n zi).2 zi
      (req.cmd.nlb + 1)).2 zi).d.wp + (req.cmd.nlb + 1)) % U64 = _
    rw [a4 zi, p2]

theorem bump_frame (n : FemuCtrl) (zi k : Nat) :
    (bumpWptr n zi k).nr_open_zones = n.nr_open_zones ∧
    (bumpWptr n zi k).nr_active_zones = n.nr_active_zones ∧
    (bumpWptr n zi k).zone_array.length = n.zone_array.length ∧
    (bumpWp n zi k).nr_open_zones = n.nr_open_zones ∧
    (bumpWp n zi k).nr_active_zones = n.nr_active_zones ∧
    (bumpWp n zi k).zone_array.length = n.zone_array.length :=
  ⟨rfl, rfl, length_setZone _ _ _, rfl, rfl, length_setZone _ _ _⟩

/-- C5 (the claim at a concrete input): 2 zones of 4 blocks, open limit 1, no
active limit. After one block was written to zone 0 (`nr_open_zones = 1`), a
write of 4 blocks fills the empty zone 1: it succeeds, zone 1 is `FULL` and in
the full list, but `nr_open_zones` is 0 afterwards although zone 1 was `EMPTY`
before the call (zone 0 has been auto-closed on the way). -/
theorem C5_fill_of_empty_zone_lowers_open_count :
    (zoneAt (afterOps (exampleCtrl 2 4 0 1) [CoreOp.write (exampleReq 0 0) false false])
      1).d.zs = NvmeZoneState.EMPTY ∧
    (afterOps (exampleCtrl 2 4 0 1)
      [CoreOp.write (exampleReq 0 0) false false]).nr_open_zones = 1 ∧
    (zns_do_write (afterOps (exampleCtrl 2 4 0 1) [CoreOp.write (exampleReq 0 0) false false])
      (exampleReq 4 3) false false).map
        (fun o => (o.status, (zoneAt o.n 1).d.zs, o.n.full_zones, o.n.nr_open_zones,
          (zoneAt o.n 0).d.zs)) =
      some (NVME_SUCCESS, NvmeZoneState.FULL, [1], 0, NvmeZoneState.CLOSED) := by
  decide

/-- C5 (amended): for every successful `zns_do_write` (write or append) in a
state with the accounting invariant and both limits non-zero, on a zone whose
two write pointers agree before the call and whose `w_ptr` equals
`zslba + zcap` after it: the zone is `FULL` and in the full list;
`nr_active_zones` has decreased by 1 if the zone was open or `CLOSED` and is
unchanged if it was `EMPTY`; `nr_open_zones` has decreased by 1 if the zone was
open, and for an `EMPTY` or `CLOSED` zone it has decreased by 1 exactly when
the open limit was reached with a non-empty implicitly-open list (the head of
that list was auto-closed) and is unchanged otherwise. -/
theorem C5_fill_moves_zone_to_full (n : FemuCtrl) (req : NvmeRequest) (append wrz : Bool)
    (out : WriteOut) (zi : Nat) (hinv : Inv n) (hmo : n.max_open_zones ≠ 0)
    (hma : n.max_active_zones ≠ 0)
    (hz : zns_get_zone_by_slba n req.cmd.slba = some zi)
    (h : zns_do_write n req append wrz = some out) (hs : out.status = NVME_SUCCESS)
    (hp : (zoneAt n zi).d.wp = (zoneAt n zi).w_ptr)
    (hfill : (zoneAt out.n zi).w_ptr = zns_zone_wr_boundary (zoneAt n zi)) :
    (zoneAt out.n zi).d.zs = NvmeZoneState.FULL ∧ zi ∈ out.n.full_zones ∧
    out.n.nr_active_zones + isActive (zoneAt n zi).d.zs = n.nr_active_zones ∧
    out.n.nr_open_zones + isOpen (zoneAt n zi).d.zs +
        (if ((zoneAt n zi).d.zs = NvmeZoneState.EMPTY ∨
            (zoneAt n zi).d.zs = NvmeZoneState.CLOSED) ∧
            n.nr_open_zones = n.max_open_zones ∧ n.imp_open_zones ≠ [] then 1 else 0) =
      n.nr_open_zones := by
  have hl := get_zone_lt n _ zi hz
  have hinv' := Inv_do_write n req append wrz out hinv h
  obtain ⟨hcz, hao, req3, hf⟩ := do_write_success n req append wrz out zi hz h hs
  have hst := check_zone_write_state n zi _ _ _ hcz
  obtain ⟨hz1, ha1, ho1⟩ := auto_open_counters n zi hinv
  obtain ⟨pw, _, _⟩ := do_write_success_ptrs n req append wrz out zi hz h hs
  have hw : ((zoneAt n zi).w_ptr + (req.cmd.nlb + 1)) % U64 =
      zns_zone_wr_boundary (zoneAt n zi) := by rw [← pw]; exact hfill
  have g1 := SameGeom.auto_open n zi
  have hl1 : zi < (zns_auto_open_zone n zi).2.zone_array.length := by
    rw [g1.2.2.2.2.2.2.2.2.2.2.2.1]; exact hl
  obtain ⟨_, a2, _⟩ := advance_spec (zns_auto_open_zone n zi).2 zi (req.cmd.nlb + 1) hl1
  have hz2 : zns_get_zone_by_slba
      (zns_advance_zone_wp (zns_auto_open_zone n zi).2 zi (req.cmd.nlb + 1)).2
      req.cmd.slba = some zi := by
    rw [get_zone_congr _ _ (g1.trans a2)]; exact hz
  have hadv := advance_cases (zns_auto_open_zone n zi).2 zi (req.cmd.nlb + 1) hl1
  rw [hz1, if_neg (by rw [hw]; exact lt_irrefl _)] at hadv
  rw [hadv] at hf hz2
  have hfin := (fun hq => finalize_cases _ out.n _ req3 zi hq hf) hz2
  have hd2 : (zoneAt (bumpWptr (zns_auto_open_zone n zi).2 zi (req.cmd.nlb + 1)) zi).d =
      (zoneAt n zi).d := by
    rw [(bump_state _ zi _ zi).1, hz1]
  obtain ⟨b1, b2, b3, b4, b5, b6⟩ := bump_frame (zns_auto_open_zone n zi).2 zi (req.cmd.nlb + 1)
  obtain ⟨b1', b2', b3', b4', b5', b6'⟩ :=
    bump_frame (bumpWptr (zns_auto_open_zone n zi).2 zi (req.cmd.nlb + 1)) zi (req.cmd.nlb + 1)
  have hl2 : zi < (bumpWp (bumpWptr (zns_auto_open_zone n zi).2 zi (req.cmd.nlb + 1)) zi
      (req.cmd.nlb + 1)).zone_array.length := by rw [b6', b3]; exact hl1
  unfold zns_zone_wr_boundary at hfin hw
  rw [hd2] at hfin
  change out.n = (if ((zoneAt n zi).d.wp + (req.cmd.nlb + 1)) % U64 =
    ((zoneAt n zi).d.zslba + (zoneAt n zi).d.zcap) % U64 then _ else _) at hfin
  rw [hp, if_pos hw] at hfin
  obtain ⟨⟨_, io2, _⟩, ⟨_, ia2, _⟩⟩ :=
    (fun p => (⟨p.1 hmo, p.2 hma⟩ : _ ∧ _)) (Inv_bounds n zi hinv hl)
  have full : ∀ X : FemuCtrl, out.n = zns_assign_zone_state X zi NvmeZoneState.FULL →
      zi < X.zone_array.length →
      (zoneAt out.n zi).d.zs = NvmeZoneState.FULL ∧ zi ∈ out.n.full_zones ∧
        out.n.nr_active_zones = X.nr_active_zones ∧ out.n.nr_open_zones = X.nr_open_zones := by
    intro X e hX
    have hin : inState out.n zi NvmeZoneState.FULL := by
      rw [e]; exact (inState_assign X zi zi _ _ hX).2 (Or.inr ⟨rfl, rfl⟩)
    obtain ⟨f1, f2, _⟩ := assign_frame X zi NvmeZoneState.FULL
    exact ⟨hin.2, (hinv'.1.2.2.2.1 zi).2 hin, by rw [e, f2], by rw [e, f1]⟩
  have hopen : (zoneAt n zi).d.zs = NvmeZoneState.IMPLICITLY_OPEN ∨
      (zoneAt n zi).d.zs = NvmeZoneState.EXPLICITLY_OPEN →
      out.n = zns_assign_zone_state (zns_aor_dec_active (zns_aor_dec_open
        (bumpWp (bumpWptr (zns_auto_open_zone n zi).2 zi (req.cmd.nlb + 1)) zi
          (req.cmd.nlb + 1)))) zi NvmeZoneState.FULL →
      isOpen (zoneAt n zi).d.zs = 1 → isActive (zoneAt n zi).d.zs = 1 →
      ((zoneAt out.n zi).d.zs = NvmeZoneState.FULL ∧ zi ∈ out.n.full_zones ∧
        out.n.nr_active_zones + isActive (zoneAt n zi).d.zs = n.nr_active_zones ∧
        out.n.nr_open_zones + isOpen (zoneAt n zi).d.zs +
          (if ((zoneAt n zi).d.zs = NvmeZoneState.EMPTY ∨
            (zoneAt n zi).d.zs = NvmeZoneState.CLOSED) ∧
            n.nr_open_zones = n.max_open_zones ∧ n.imp_open_zones ≠ [] then 1 else 0) =
          n.nr_open_zones) := by
    intro hso e i1 i2
    obtain ⟨f1, f2, f3, f4⟩ := full _ e hl2
    have e1 : out.n.nr_open_zones = if (zns_auto_open_zone n zi).2.nr_open_zones = 0
        then U32 - 1 else (zns_auto_open_zone n zi).2.nr_open_zones - 1 := f4
    have e2 : out.n.nr_active_zones = if (zns_auto_open_zone n zi).2.nr_active_zones = 0
        then U32 - 1 else (zns_auto_open_zone n zi).2.nr_active_zones - 1 := f3
    have hne : ¬ (((zoneAt n zi).d.zs = NvmeZoneState.EMPTY ∨
        (zoneAt n zi).d.zs = NvmeZoneState.CLOSED) ∧ n.max_open_zones ≠ 0 ∧
        n.nr_open_zones = n.max_open_zones ∧ n.imp_open_zones ≠ []) := by
      rintro ⟨h1 | h1, _⟩ <;> rcases hso with h2 | h2 <;> rw [h1] at h2 <;> cases h2
    have hne' : ¬ (((zoneAt n zi).d.zs = NvmeZoneState.EMPTY ∨
        (zoneAt n zi).d.zs = NvmeZoneState.CLOSED) ∧
        n.nr_open_zones = n.max_open_zones ∧ n.imp_open_zones ≠ []) :=
      fun c => hne ⟨c.1, hmo, c.2⟩
    rw [if_neg hne] at ho1
    rw [if_neg hne']
    rw [i1] at io2 ⊢
    rw [i2] at ia2 ⊢
    have hA : (zns_auto_open_zone n zi).2.nr_open_zones = n.nr_open_zones := by omega
    rw [ha1] at e2
    rw [hA] at e1
    rw [if_neg (by omega)] at e1 e2
    exact ⟨f1, f2, by omega, by omega⟩
  have hifeq : (if ((zoneAt n zi).d.zs = NvmeZoneState.EMPTY ∨
        (zoneAt n zi).d.zs = NvmeZoneState.CLOSED) ∧ n.max_open_zones ≠ 0 ∧
        n.nr_open_zones = n.max_open_zones ∧ n.imp_open_zones ≠ [] then 1 else 0) =
      (if ((zoneAt n zi).d.zs = NvmeZoneState.EMPTY ∨
        (zoneAt n zi).d.zs = NvmeZoneState.CLOSED) ∧
        n.nr_open_zones = n.max_open_zones ∧ n.imp_open_zones ≠ [] then 1 else 0) := by
    simp only [hmo, ne_eq, not_false_eq_true, true_and]
  rw [hifeq] at ho1
  rcases hst with hs' | hs' | hs' | hs'
  · rw [hs'] at hfin
    obtain ⟨f1, f2, f3, f4⟩ := full _ hfin hl2
    have e1 : out.n.nr_open_zones = (zns_auto_open_zone n zi).2.nr_open_zones := f4
    have e2 : out.n.nr_active_zones = (zns_auto_open_zone n zi).2.nr_active_zones := f3
    have i1 : isOpen (zoneAt n zi).d.zs = 0 := by rw [hs']; rfl
    have i2 : isActive (zoneAt n zi).d.zs = 0 := by rw [hs']; rfl
    rw [i1, i2, e1, e2, ha1]
    exact ⟨f1, f2, rfl, ho1⟩
  · rw [hs'] at hfin
    exact hopen (Or.inl hs') hfin (by rw [hs']; rfl) (by rw [hs']; rfl)
  · rw [hs'] at hfin
    exact hopen (Or.inr hs') hfin (by rw [hs']; rfl) (by rw [hs']; rfl)
  · rw [hs'] at hfin
    obtain ⟨f1, f2, f3, f4⟩ := full _ hfin hl2
    have e1 : out.n.nr_open_zones = (zns_auto_open_zone n zi).2.nr_open_zones := f4
    have e2 : out.n.nr_active_zones = if (zns_auto_open_zone n zi).2.nr_active_zones = 0
        then U32 - 1 else (zns_auto_open_zone n zi).2.nr_active_zones - 1 := f3
    have i1 : isOpen (zoneAt n zi).d.zs = 0 := by rw [hs']; rfl
    have i2 : isActive (zoneAt n zi).d.zs = 1 := by rw [hs']; rfl
    rw [i2] at ia2
    rw [ha1, if_neg (by omega)] at e2
    rw [i1, i2, e1, e2]
    exact ⟨f1, f2, by omega, ho1⟩

theorem C5_fill_moves_zone_to_full_witness :
    ∃ out, zns_do_write
        (afterOps (exampleCtrl 2 4 1 1) [CoreOp.write (exampleReq 0 0) false false])
        (exampleReq 1 2) false false = some out ∧
      (zoneAt out.n 0).d.zs = NvmeZoneState.FULL ∧ 0 ∈ out.n.full_zones ∧
      out.n.nr_active_zones + 1 = 1 ∧ out.n.nr_open_zones + 1 + 0 = 1 := by
  have hm : (zns_do_write
      (afterOps (exampleCtrl 2 4 1 1) [CoreOp.write (exampleReq 0 0) false false])
      (exampleReq 1 2) false false).map (fun o => (o.status, (zoneAt o.n 0).w_ptr)) =
      some (NVME_SUCCESS, 4) := by decide
  obtain ⟨out, ho, hv⟩ := Option.map_eq_some'.1 hm
  exact ⟨out, ho, C5_fill_moves_zone_to_full
    (afterOps (exampleCtrl 2 4 1 1) [CoreOp.write (exampleReq 0 0) false false])
    (exampleReq 1 2) false false out 0
    (Inv_afterOps _ _ (Inv_exampleCtrl 2 4 1 1 (by decide))) (by decide) (by decide)
    (by decide) ho (congrArg Prod.fst hv) (by decide)
    ((congrArg Prod.snd hv).trans (by decide))⟩

/-- C6: for every input `zns_check_zone_write` returns the first applicable
status in the order boundary error, zone full / offline / read-only, then for
an append invalid field (wrong start or too long) and for a plain write invalid
write (not at the write pointer), and success when none applies. -/
theorem C6_check_zone_write_order (n : FemuCtrl) (zi slba nlb : Nat) (append : Bool) :
    zns_check_zone_write n zi slba nlb append =
      check_zone_write_first_applicable n zi slba nlb append := by
  unfold zns_check_zone_write check_zone_write_first_applicable zns_check_zone_state_for_write
    zns_zone_wr_boundary zns_get_zone_state
  simp only
  by_cases hb : (slba + nlb) % U64 > ((zoneAt n zi).d.zslba + (zoneAt n zi).d.zcap) % U64
  · simp [hb, NVME_SUCCESS]
  · simp only [hb, if_false]
    cases hs : (zoneAt n zi).d.zs <;> cases append <;>
      simp [NVME_SUCCESS] <;>
      (try by_cases h1 : slba = (zoneAt n zi).d.zslba) <;>
      (try by_cases h2 : n.page_size <<< n.zasl < zns_l2b n nlb) <;>
      (try by_cases h3 : slba = (zoneAt n zi).w_ptr) <;>
      simp_all

/-- C7: when the transfer-size check, the namespace bounds check or the zone
write check of `zns_do_write` fails, the call returns an error status that
carries the do-not-retry bit and the controller (zone states, both write
pointers, attributes, lists and counters) is exactly the one before the call. -/
theorem C7_validation_failure_leaves_state (n : FemuCtrl) (req : NvmeRequest)
    (append wrz : Bool) (hz : n.zoned = true)
    (hfail : (wrz = false ∧ nvme_check_mdts n (zns_l2b n (req.cmd.nlb + 1)) ≠ NVME_SUCCESS) ∨
      zns_check_bounds n req.cmd.slba (req.cmd.nlb + 1) ≠ NVME_SUCCESS ∨
      ∃ zi, zns_get_zone_by_slba n req.cmd.slba = some zi ∧
        zns_check_zone_write n zi req.cmd.slba (req.cmd.nlb + 1) append ≠ NVME_SUCCESS) :
    ∃ out, zns_do_write n req append wrz = some out ∧ out.status ≠ NVME_SUCCESS ∧
      out.status.dnr = true ∧ out.n = n := by
  have ne_of_dnr : ∀ s : Status, s.orDNR ≠ NVME_SUCCESS := by
    intro s e
    have := congrArg Status.dnr e
    simp [Status.orDNR, NVME_SUCCESS] at this
  unfold zns_do_write
  simp only [hz, not_true_eq_false, if_false]
  by_cases h1 : (if wrz = true then NVME_SUCCESS
      else nvme_check_mdts n (zns_l2b n (req.cmd.nlb + 1))) = NVME_SUCCESS
  swap
  · simp only [ne_eq, h1, not_false_eq_true, if_true]
    exact ⟨_, rfl, ne_of_dnr _, rfl, rfl⟩
  simp only [ne_eq, h1, not_true_eq_false, if_false]
  by_cases h2 : zns_check_bounds n req.cmd.slba (req.cmd.nlb + 1) = NVME_SUCCESS
  swap
  · simp only [h2, not_false_eq_true, if_true]
    exact ⟨_, rfl, ne_of_dnr _, rfl, rfl⟩
  simp only [h2, not_true_eq_false, if_false]
  rcases hfail with ⟨hw, hm⟩ | hb | ⟨zi, hzi, hc⟩
  · rw [hw] at h1
    simp only [Bool.false_eq_true, if_false] at h1
    exact absurd h1 hm
  · exact absurd h2 hb
  · simp only [hzi, hc, not_false_eq_true, if_true]
    exact ⟨_, rfl, ne_of_dnr _, rfl, rfl⟩

theorem C7_validation_failure_leaves_state_witness :
    ∃ out, zns_do_write (exampleCtrl 2 4 1 1) (exampleReq 2 0) false false = some out ∧
      out.status ≠ NVME_SUCCESS ∧ out.status.dnr = true ∧ out.n = exampleCtrl 2 4 1 1 :=
  C7_validation_failure_leaves_state (exampleCtrl 2 4 1 1) (exampleReq 2 0) false false
    (by decide) (Or.inr (Or.inr ⟨0, by decide, by decide⟩))

theorem aor_check_cases (n : FemuCtrl) (act opn : Nat) :
    zns_aor_check n act opn = NVME_SUCCESS ∨
    (zns_aor_check n act opn = ⟨NvmeStatusCode.ZONE_TOO_MANY_ACTIVE, true⟩ ∧
      n.max_active_zones ≠ 0 ∧ (n.nr_active_zones + act) % U32 > n.max_active_zones) ∨
    (zns_aor_check n act opn = ⟨NvmeStatusCode.ZONE_TOO_MANY_OPEN, true⟩ ∧
      ¬ (n.max_active_zones ≠ 0 ∧ (n.nr_active_zones + act) % U32 > n.max_active_zones) ∧
      n.max_open_zones ≠ 0 ∧ (n.nr_open_zones + opn) % U32 > n.max_open_zones) := by
  unfold zns_aor_check
  by_cases h1 : n.max_active_zones ≠ 0 ∧ (n.nr_active_zones + act) % U32 > n.max_active_zones
  · rw [if_pos h1]; exact Or.inr (Or.inl ⟨rfl, h1⟩)
  · rw [if_neg h1]
    by_cases h2 : n.max_open_zones ≠ 0 ∧ (n.nr_open_zones + opn) % U32 > n.max_open_zones
    · rw [if_pos h2]; exact Or.inr (Or.inr ⟨rfl, h1, h2⟩)
    · rw [if_neg h2]; exact Or.inl rfl

/-- What a failing `zns_auto_open_zone` leaves behind in a state with the
invariant: the status is one of the two accountant errors, `nr_active_zones`
and the target zone are untouched, `TooManyOpenZones` comes with an unchanged
controller, and otherwise the only change is the automatic close of the head
of the implicitly-open list. -/
theorem auto_open_failure (n : FemuCtrl) (zi : Nat) (hinv : Inv n)
    (hao : (zns_auto_open_zone n zi).1 ≠ NVME_SUCCESS) :
    ((zns_auto_open_zone n zi).1 = ⟨NvmeStatusCode.ZONE_TOO_MANY_ACTIVE, true⟩ ∨
      (zns_auto_open_zone n zi).1 = ⟨NvmeStatusCode.ZONE_TOO_MANY_OPEN, true⟩) ∧
    (zns_auto_open_zone n zi).2.nr_active_zones = n.nr_active_zones ∧
    zoneAt (zns_auto_open_zone n zi).2 zi = zoneAt n zi ∧
    ((zns_auto_open_zone n zi).1 = ⟨NvmeStatusCode.ZONE_TOO_MANY_OPEN, true⟩ →
      (zns_auto_open_zone n zi).2 = n) ∧
    ((zns_auto_open_zone n zi).2 = n ∨
      ∃ h t, n.imp_open_zones = h :: t ∧ n.max_open_zones ≠ 0 ∧
        n.nr_open_zones = n.max_open_zones ∧
        (zns_auto_open_zone n zi).2.nr_open_zones + 1 = n.nr_open_zones ∧
        (zns_auto_open_zone n zi).2.imp_open_zones = t ∧
        (zns_auto_open_zone n zi).2.exp_open_zones = n.exp_open_zones ∧
        (zns_auto_open_zone n zi).2.closed_zones = n.closed_zones ++ [h] ∧
        (zns_auto_open_zone n zi).2.full_zones = n.full_zones ∧
        (zoneAt (zns_auto_open_zone n zi).2 h).d.zs = NvmeZoneState.CLOSED ∧
        ∀ zj, zj ≠ h → zoneAt (zns_auto_open_zone n zi).2 zj = zoneAt n zj) := by
  have key : ∀ act : Nat, (zoneAt n zi).d.zs ≠ NvmeZoneState.IMPLICITLY_OPEN →
      zns_aor_check (zns_auto_transition_zone n) act 1 ≠ NVME_SUCCESS →
      (zns_aor_check (zns_auto_transition_zone n) act 1 =
          ⟨NvmeStatusCode.ZONE_TOO_MANY_ACTIVE, true⟩ ∨
        zns_aor_check (zns_auto_transition_zone n) act 1 =
          ⟨NvmeStatusCode.ZONE_TOO_MANY_OPEN, true⟩) ∧
      (zns_auto_transition_zone n).nr_active_zones = n.nr_active_zones ∧
      zoneAt (zns_auto_transition_zone n) zi = zoneAt n zi ∧
      (zns_aor_check (zns_auto_transition_zone n) act 1 =
          ⟨NvmeStatusCode.ZONE_TOO_MANY_OPEN, true⟩ → zns_auto_transition_zone n = n) ∧
      (zns_auto_transition_zone n = n ∨
        ∃ h t, n.imp_open_zones = h :: t ∧ n.max_open_zones ≠ 0 ∧
          n.nr_open_zones = n.max_open_zones ∧
          (zns_auto_transition_zone n).nr_open_zones + 1 = n.nr_open_zones ∧
          (zns_auto_transition_zone n).imp_open_zones = t ∧
          (zns_auto_transition_zone n).exp_open_zones = n.exp_open_zones ∧
          (zns_auto_transition_zone n).closed_zones = n.closed_zones ++ [h] ∧
          (zns_auto_transition_zone n).full_zones = n.full_zones ∧
          (zoneAt (zns_auto_transition_zone n) h).d.zs = NvmeZoneState.CLOSED ∧
          ∀ zj, zj ≠ h → zoneAt (zns_auto_transition_zone n) zj = zoneAt n zj) := by
    intro act hni hne
    have hcodes : zns_aor_check (zns_auto_transition_zone n) act 1 =
          ⟨NvmeStatusCode.ZONE_TOO_MANY_ACTIVE, true⟩ ∨
        zns_aor_check (zns_auto_transition_zone n) act 1 =
          ⟨NvmeStatusCode.ZONE_TOO_MANY_OPEN, true⟩ := by
      rcases aor_check_cases (zns_auto_transition_zone n) act 1 with c | c | c
      · exact absurd c hne
      · exact Or.inl c.1
      · exact Or.inr c.1
    rcases auto_transition_cases n hinv with ⟨e, _⟩ | ⟨h, t, hl, hmo, heq, e, hs, hlt, hpos, hlt32⟩
    · rw [e]
      rw [e] at hcodes
      exact ⟨hcodes, rfl, rfl, fun _ => rfl, Or.inl rfl⟩
    · obtain ⟨a1, a2, a3, a4, a5, a6, a7, a8⟩ := auto_close_effect n h t hinv hl hs hlt hpos
      have hzh : zi ≠ h := fun e' => hni (e' ▸ hs)
      refine ⟨hcodes, ?_, ?_, ?_, ?_⟩
      · rw [e]; exact a2
      · rw [e]; exact a8 zi hzh
      · intro hto
        exfalso
        rcases aor_check_cases (zns_auto_transition_zone n) act 1 with c | c | c
        · exact hne c
        · rw [c.1] at hto; simp at hto
        · obtain ⟨_, _, _, c4⟩ := c
          rw [e] at c4
          have hmax : (zns_assign_zone_state (zns_aor_dec_open n) h
              NvmeZoneState.CLOSED).max_open_zones = n.max_open_zones :=
            (assign_frame _ _ _).2.2.1
          rw [hmax, a1, Nat.mod_eq_of_lt hlt32] at c4
          omega
      · right
        rw [e]
        exact ⟨h, t, hl, hmo, heq, a1, a3, a4, a5, a6, a7, a8⟩
  unfold zns_auto_open_zone at hao ⊢
  simp only [zns_get_zone_state] at hao ⊢
  cases hs : (zoneAt n zi).d.zs <;> simp only [hs] at hao ⊢
  · exact key 1 (by rw [hs]; simp) hao
  · exact absurd rfl hao
  · exact absurd rfl hao
  · exact key 0 (by rw [hs]; simp) hao
  · exact absurd rfl hao
  · exact absurd rfl hao
  · exact absurd rfl hao

/-- C8 (the claim at a concrete input): with both limits 1, after one block was
written to zone 0 (`ImplicitlyOpen`, `nr_open_zones = 1`), a write to the empty
zone 1 fails with `TooManyActiveZones`, yet zone 0 has been closed, linked into
the closed list, and `nr_open_zones` is 0. -/
theorem C8_auto_close_not_undone :
    (zns_do_write (exampleCtrl 2 4 1 1) (exampleReq 0 0) false false).bind
        (fun o1 => (zns_do_write o1.n (exampleReq 4 0) false false).map
          (fun o2 => (o2.status, o1.n.nr_open_zones, o2.n.nr_open_zones))) =
      some (⟨NvmeStatusCode.ZONE_TOO_MANY_ACTIVE, true⟩, 1, 0) ∧
    (zns_do_write (exampleCtrl 2 4 1 1) (exampleReq 0 0) false false).bind
        (fun o1 => (zns_do_write o1.n (exampleReq 4 0) false false).map
          (fun o2 => ((zoneAt o1.n 0).d.zs, (zoneAt o2.n 0).d.zs))) =
      some (NvmeZoneState.IMPLICITLY_OPEN, NvmeZoneState.CLOSED) ∧
    (zns_do_write (exampleCtrl 2 4 1 1) (exampleReq 0 0) false false).bind
        (fun o1 => (zns_do_write o1.n (exampleReq 4 0) false false).map
          (fun o2 => (o1.n.closed_zones, o2.n.closed_zones))) = some ([], [0]) := by
  decide

/-- C8 (amended): when the auto-open step of `zns_do_write` fails, in a state
with the accounting invariant, the call returns `TooManyActiveZones` or
`TooManyOpenZones` with do-not-retry, `nr_active_zones` and the target zone are
as before, and with `TooManyOpenZones` the whole controller is as before; with
`TooManyActiveZones` either nothing changed or the open limit was reached and
the head of the implicitly-open list has been closed (moved to the tail of the
closed list, `nr_open_zones` one less), every other zone being as before. -/
theorem C8_auto_open_failure_effect (n : FemuCtrl) (req : NvmeRequest) (append wrz : Bool)
    (out : WriteOut) (zi : Nat) (hinv : Inv n)
    (h : zns_do_write n req append wrz = some out)
    (hz : zns_get_zone_by_slba n req.cmd.slba = some zi)
    (hm : wrz = true ∨ nvme_check_mdts n (zns_l2b n (req.cmd.nlb + 1)) = NVME_SUCCESS)
    (hb : zns_check_bounds n req.cmd.slba (req.cmd.nlb + 1) = NVME_SUCCESS)
    (hc : zns_check_zone_write n zi req.cmd.slba (req.cmd.nlb + 1) append = NVME_SUCCESS)
    (hao : (zns_auto_open_zone n zi).1 ≠ NVME_SUCCESS) :
    (out.status = ⟨NvmeStatusCode.ZONE_TOO_MANY_ACTIVE, true⟩ ∨
      out.status = ⟨NvmeStatusCode.ZONE_TOO_MANY_OPEN, true⟩) ∧
    out.n.nr_active_zones = n.nr_active_zones ∧ zoneAt out.n zi = zoneAt n zi ∧
    (out.status = ⟨NvmeStatusCode.ZONE_TOO_MANY_OPEN, true⟩ → out.n = n) ∧
    (out.n = n ∨
      ∃ hd t, n.imp_open_zones = hd :: t ∧ n.max_open_zones ≠ 0 ∧
        n.nr_open_zones = n.max_open_zones ∧ out.n.nr_open_zones + 1 = n.nr_open_zones ∧
        out.n.imp_open_zones = t ∧ out.n.exp_open_zones = n.exp_open_zones ∧
        out.n.closed_zones = n.closed_zones ++ [hd] ∧ out.n.full_zones = n.full_zones ∧
        (zoneAt out.n hd).d.zs = NvmeZoneState.CLOSED ∧
        ∀ zj, zj ≠ hd → zoneAt out.n zj = zoneAt n zj) := by
  obtain ⟨_, hcs⟩ := do_write_cases n req append wrz out h
  have hout : out = ⟨(zns_auto_open_zone n zi).1.orDNR, (zns_auto_open_zone n zi).2,
      { req with is_write := true }, none⟩ := by
    rcases hcs with ⟨hw, hne, _⟩ | ⟨_, ⟨hne, _⟩ | ⟨_, zi', hz', hcs⟩⟩
    · rcases hm with hm | hm
      · rw [hm] at hw; simp at hw
      · exact absurd hm hne
    · exact absurd hb hne
    have hzi : zi' = zi := by rw [hz] at hz'; exact (Option.some.inj hz').symm
    subst hzi
    rcases hcs with ⟨hne, _⟩ | ⟨_, ⟨_, e⟩ | ⟨hs, _⟩⟩
    · exact absurd hc hne
    · exact e
    · exact absurd hs hao
  obtain ⟨a1, a2, a3, a4, a5⟩ := auto_open_failure n zi hinv hao
  have hst : out.status = (zns_auto_open_zone n zi).1 := by
    rw [hout]
    rcases a1 with a | a <;> rw [a] <;> rfl
  have hn : out.n = (zns_auto_open_zone n zi).2 := by rw [hout]
  rw [hst, hn]
  exact ⟨a1, a2, a3, a4, a5⟩

theorem C8_auto_open_failure_effect_witness :
    ∃ out, zns_do_write
        (afterOps (exampleCtrl 2 4 1 1) [CoreOp.write (exampleReq 0 0) false false])
        (exampleReq 4 0) false false = some out ∧
      out.status = ⟨NvmeStatusCode.ZONE_TOO_MANY_ACTIVE, true⟩ ∧
      out.n.nr_active_zones = 1 ∧ out.n.nr_open_zones = 0 ∧
      out.n.nr_active_zones =
        (afterOps (exampleCtrl 2 4 1 1)
          [CoreOp.write (exampleReq 0 0) false false]).nr_active_zones := by
  have hm : (zns_do_write
      (afterOps (exampleCtrl 2 4 1 1) [CoreOp.write (exampleReq 0 0) false false])
      (exampleReq 4 0) false false).map
        (fun o => (o.status, o.n.nr_active_zones, o.n.nr_open_zones)) =
      some (⟨NvmeStatusCode.ZONE_TOO_MANY_ACTIVE, true⟩, 1, 0) := by decide
  obtain ⟨out, ho, hv⟩ := Option.map_eq_some'.1 hm
  simp only [Prod.mk.injEq] at hv
  have hc := C8_auto_open_failure_effect
    (afterOps (exampleCtrl 2 4 1 1) [CoreOp.write (exampleReq 0 0) false false])
    (exampleReq 4 0) false false out 1
    (Inv_afterOps _ _ (Inv_exampleCtrl 2 4 1 1 (by decide))) ho (by decide)
    (Or.inr (by decide)) (by decide) (by decide) (by decide)
  exact ⟨out, ho, hv.1, hv.2.1, hv.2.2, hc.2.1⟩

/-- C9 (the claim at a concrete input): with both limits 1 and zone 0
explicitly open (`nr_open_zones = max_open_zones = 1`, no implicitly open
zone), a one-block write to the empty zone 1 fails with `TooManyActiveZones`,
not with `TooManyOpenZones`. -/
theorem C9_active_limit_reported_first :
    (zns_do_zone_op (exampleCtrl 2 4 1 1) 0 0 zns_open_zone).bind
        (fun r => (zns_do_write r.2 (exampleReq 4 0) false false).map
          (fun o => (r.1, r.2.nr_open_zones, r.2.imp_open_zones, r.2.exp_open_zones,
            o.status))) =
      some (NVME_SUCCESS, 1, [], [0], ⟨NvmeStatusCode.ZONE_TOO_MANY_ACTIVE, true⟩) := by
  decide

/-- C9 (amended): in a state with the accounting invariant where the open
limit is reached, for a write to an `EMPTY` or `CLOSED` zone `zi`. (1) If the
implicitly-open list has head `hd` and the write succeeds with `w_ptr + nlb`
of `zi` below the write boundary of `zi` and `d.wp + nlb` of `zi` different
from it (64-bit sums), then `hd` is `CLOSED` and at the
tail of the closed list, `zi` is `ImplicitlyOpen`, `nr_open_zones` again
equals the limit, and every zone other than `hd` and `zi` (so every explicitly
open zone) is unchanged. (2) If the implicitly-open list is empty and the
request passes the checks, the write fails and changes nothing; the status is
`TooManyActiveZones` when `zi` is `EMPTY` and the active limit is reached too
(it is checked first), and `TooManyOpenZones` otherwise. -/
theorem C9_auto_close_makes_room (n : FemuCtrl) (req : NvmeRequest) (append wrz : Bool)
    (zi : Nat) (hinv : Inv n) (hmo : n.max_open_zones ≠ 0)
    (heq : n.nr_open_zones = n.max_open_zones)
    (hz : zns_get_zone_by_slba n req.cmd.slba = some zi)
    (hst : (zoneAt n zi).d.zs = NvmeZoneState.EMPTY ∨ (zoneAt n zi).d.zs = NvmeZoneState.CLOSED) :
    (∀ out hd t, n.imp_open_zones = hd :: t → zns_do_write n req append wrz = some out →
      out.status = NVME_SUCCESS →
      ((zoneAt n zi).w_ptr + (req.cmd.nlb + 1)) % U64 < zns_zone_wr_boundary (zoneAt n zi) →
      ((zoneAt n zi).d.wp + (req.cmd.nlb + 1)) % U64 ≠ zns_zone_wr_boundary (zoneAt n zi) →
      (zoneAt out.n hd).d.zs = NvmeZoneState.CLOSED ∧
      out.n.closed_zones = n.closed_zones.erase zi ++ [hd] ∧
      (zoneAt out.n zi).d.zs = NvmeZoneState.IMPLICITLY_OPEN ∧
      out.n.nr_open_zones = n.max_open_zones ∧ out.n.exp_open_zones = n.exp_open_zones ∧
      (∀ zj, zj ≠ hd → zj ≠ zi → zoneAt out.n zj = zoneAt n zj) ∧
      (∀ zj, (zoneAt n zj).d.zs = NvmeZoneState.EXPLICITLY_OPEN →
        (zoneAt out.n zj).d.zs = NvmeZoneState.EXPLICITLY_OPEN)) ∧
    (n.imp_open_zones = [] → n.zoned = true →
      (wrz = true ∨ nvme_check_mdts n (zns_l2b n (req.cmd.nlb + 1)) = NVME_SUCCESS) →
      zns_check_bounds n req.cmd.slba (req.cmd.nlb + 1) = NVME_SUCCESS →
      zns_check_zone_write n zi req.cmd.slba (req.cmd.nlb + 1) append = NVME_SUCCESS →
      ∃ out, zns_do_write n req append wrz = some out ∧ out.n = n ∧
        out.status =
          (if (zoneAt n zi).d.zs = NvmeZoneState.EMPTY ∧ n.max_active_zones ≠ 0 ∧
              (n.nr_active_zones + 1) % U32 > n.max_active_zones then
            ⟨NvmeStatusCode.ZONE_TOO_MANY_ACTIVE, true⟩
          else ⟨NvmeStatusCode.ZONE_TOO_MANY_OPEN, true⟩)) := by
  have hl := get_zone_lt n _ zi hz
  have hni : (zoneAt n zi).d.zs ≠ NvmeZoneState.IMPLICITLY_OPEN := by
    rcases hst with h | h <;> rw [h] <;> simp
  constructor
  · intro out hd t himp hdo hs hlt hne
    obtain ⟨_, hao, req3, hf⟩ := do_write_success n req append wrz out zi hz hdo hs
    -- the automatic close fires on `hd`
    have hn1 : (zns_auto_open_zone n zi).2 = zns_auto_transition_zone n := by
      unfold zns_auto_open_zone
      simp only [zns_get_zone_state]
      rcases hst with h | h <;> rw [h]
    rcases auto_transition_cases n hinv with ⟨_, hnot⟩ | ⟨h', t', hl', _, _, e, hsh, hlth, hpos, hlt32⟩
    · exact absurd ⟨hmo, heq, by rw [himp]; simp⟩ hnot
    have hhd : h' = hd := by rw [himp] at hl'; exact (List.cons.inj hl').1.symm
    subst hhd
    obtain ⟨a1, a2, a3, a4, a5, a6, a7, a8⟩ := auto_close_effect n h' t' hinv hl' hsh hlth hpos
    rw [← e, ← hn1] at a1 a2 a3 a4 a5 a6 a7 a8
    have hzh : zi ≠ h' := fun e' => hni (e' ▸ hsh)
    have g1 := SameGeom.auto_open n zi
    have hl1 : zi < (zns_auto_open_zone n zi).2.zone_array.length := by
      rw [g1.2.2.2.2.2.2.2.2.2.2.2.1]; exact hl
    have hzz := a8 zi hzh
    -- the implicit open of `zi`
    obtain ⟨b1, b2, b3, _, _, b6, b7, _⟩ := advance_open_effect (zns_auto_open_zone n zi).2 zi
      (req.cmd.nlb + 1) hl1 (by rw [hzz]; exact hlt) (by rw [hzz]; exact hst)
    obtain ⟨_, c2, _, c4, _⟩ := advance_spec (zns_auto_open_zone n zi).2 zi (req.cmd.nlb + 1) hl1
    -- the write does not fill the zone
    have hz2 : zns_get_zone_by_slba
        (zns_advance_zone_wp (zns_auto_open_zone n zi).2 zi (req.cmd.nlb + 1)).2
        req.cmd.slba = some zi := by
      rw [get_zone_congr _ _ (g1.trans c2)]; exact hz
    have hfin := (fun hq => finalize_cases _ out.n _ req3 zi hq hf) hz2
    have hwp : (zoneAt (zns_advance_zone_wp (zns_auto_open_zone n zi).2 zi
        (req.cmd.nlb + 1)).2 zi).d.wp = (zoneAt n zi).d.wp := by
      rw [c4 zi, hzz]
    have hbd := boundary_congr _ _ (g1.trans c2) zi
    rw [hwp, hbd, if_neg hne] at hfin
    have hzo : ∀ zj, (zoneAt out.n zj).d.zs =
        (zoneAt (zns_advance_zone_wp (zns_auto_open_zone n zi).2 zi
          (req.cmd.nlb + 1)).2 zj).d.zs := by
      intro zj; rw [hfin]; exact (bump_state _ zi _ zj).2.1
    have hother : ∀ zj, zj ≠ h' → zj ≠ zi → zoneAt out.n zj = zoneAt n zj := by
      intro zj h1 h2
      rw [hfin, zoneAt_bumpWp]
      simp only [h2, false_and, if_false]
      rw [b2 zj h2, a8 zj h1]
    refine ⟨?_, ?_, ?_, ?_, ?_, hother, ?_⟩
    · rw [hzo, b2 h' (Ne.symm hzh)]; exact a7
    · rw [hfin]
      show (zns_advance_zone_wp (zns_auto_open_zone n zi).2 zi
          (req.cmd.nlb + 1)).2.closed_zones = _
      rw [b7, hzz, a5]
      rcases hst with h | h
      · have hnm : zi ∉ n.closed_zones := by
          intro hm
          have := ((hinv.1.2.2.1 zi).1 hm).2
          rw [h] at this; simp at this
        rw [h]
        simp only [reduceCtorEq, if_false]
        rw [List.erase_of_not_mem hnm]
      · have hm : zi ∈ n.closed_zones := (hinv.1.2.2.1 zi).2 ⟨hl, h⟩
        rw [h]
        simp only [if_true]
        exact List.erase_append_left _ hm
    · rw [hzo]; exact b1
    · rw [hfin]
      show (zns_advance_zone_wp (zns_auto_open_zone n zi).2 zi
          (req.cmd.nlb + 1)).2.nr_open_zones = _
      rw [b3, ← heq]
      have : (zns_auto_open_zone n zi).2.nr_open_zones + 1 = n.nr_open_zones := a1
      rw [this]
      exact Nat.mod_eq_of_lt hlt32
    · rw [hfin]
      show (zns_advance_zone_wp (zns_auto_open_zone n zi).2 zi
          (req.cmd.nlb + 1)).2.exp_open_zones = _
      rw [b6]; exact a4
    · intro zj hzj
      have h1 : zj ≠ h' := fun e' => by rw [e', hsh] at hzj; simp at hzj
      have h2 : zj ≠ zi := fun e' => by
        rw [e'] at hzj
        rcases hst with h | h <;> rw [h] at hzj <;> simp at hzj
      rw [hother zj h1 h2]; exact hzj
  · intro himp hzoned hm hb hc
    have htr : zns_auto_transition_zone n = n := by
      unfold zns_auto_transition_zone
      rw [himp]
      simp
    obtain ⟨bo, ba⟩ := Inv_bounds n zi hinv hl
    obtain ⟨b1, _, _⟩ := bo hmo
    have hopen0 : isOpen (zoneAt n zi).d.zs = 0 := by
      rcases hst with h | h <;> rw [h] <;> rfl
    rw [hopen0] at b1
    have hov : (n.nr_open_zones + 1) % U32 > n.max_open_zones := by
      rw [Nat.mod_eq_of_lt (by omega), heq]; omega
    have hao : (zns_auto_open_zone n zi) =
        ((if (zoneAt n zi).d.zs = NvmeZoneState.EMPTY ∧ n.max_active_zones ≠ 0 ∧
              (n.nr_active_zones + 1) % U32 > n.max_active_zones then
            ⟨NvmeStatusCode.ZONE_TOO_MANY_ACTIVE, true⟩
          else ⟨NvmeStatusCode.ZONE_TOO_MANY_OPEN, true⟩), n) := by
      unfold zns_auto_open_zone
      simp only [zns_get_zone_state]
      rcases hst with h | h
      · rw [h]
        simp only [htr, true_and]
        unfold zns_aor_check
        by_cases hact : n.max_active_zones ≠ 0 ∧
            (n.nr_active_zones + 1) % U32 > n.max_active_zones
        · rw [if_pos hact, if_pos hact]
        · rw [if_neg hact, if_neg hact, if_pos ⟨hmo, hov⟩]
      · rw [h]
        simp only [htr, reduceCtorEq, false_and, if_false]
        unfold zns_aor_check
        have hact : ¬ (n.max_active_zones ≠ 0 ∧
            (n.nr_active_zones + 0) % U32 > n.max_active_zones) := by
          intro hx
          obtain ⟨c1, c2, c3⟩ := ba hx.1
          have := hx.2
          rw [Nat.add_zero, Nat.mod_eq_of_lt (by omega)] at this
          omega
        rw [if_neg hact, if_pos ⟨hmo, hov⟩]
    have hne : (zns_auto_open_zone n zi).1 ≠ NVME_SUCCESS := by
      rw [hao]
      simp only
      split <;> simp [NVME_SUCCESS]
    unfold zns_do_write
    simp only [hzoned, not_true_eq_false, if_false]
    have h1 : (if wrz = true then NVME_SUCCESS
        else nvme_check_mdts n (zns_l2b n (req.cmd.nlb + 1))) = NVME_SUCCESS := by
      rcases hm with h | h
      · rw [h]; rfl
      · rw [h]; simp
    simp only [ne_eq, h1, not_true_eq_false, if_false, hb, hz, hc, hne, not_false_eq_true,
      if_true]
    refine ⟨_, rfl, ?_, ?_⟩
    · show (zns_auto_open_zone n zi).2 = n
      rw [hao]
    · show (zns_auto_open_zone n zi).1.orDNR = _
      rw [hao]
      simp only
      split <;> rfl

theorem C9_auto_close_makes_room_witness :
    ∃ out, zns_do_write
        (afterOps (exampleCtrl 2 4 0 1) [CoreOp.write (exampleReq 0 0) false false])
        (exampleReq 4 0) false false = some out ∧
      (zoneAt out.n 0).d.zs = NvmeZoneState.CLOSED ∧
      (zoneAt out.n 1).d.zs = NvmeZoneState.IMPLICITLY_OPEN ∧ out.n.nr_open_zones = 1 := by
  have hm : (zns_do_write
      (afterOps (exampleCtrl 2 4 0 1) [CoreOp.write (exampleReq 0 0) false false])
      (exampleReq 4 0) false false).map (fun o => o.status) = some NVME_SUCCESS := by decide
  obtain ⟨out, ho, hs⟩ := Option.map_eq_some'.1 hm
  obtain ⟨c1, _, c3, c4, _⟩ := (C9_auto_close_makes_room
    (afterOps (exampleCtrl 2 4 0 1) [CoreOp.write (exampleReq 0 0) false false])
    (exampleReq 4 0) false false 1
    (Inv_afterOps _ _ (Inv_exampleCtrl 2 4 0 1 (by decide))) (by decide) (by decide)
    (by decide) (Or.inl (by decide))).1 out 0 [] (by decide) ho hs (by decide) (by decide)
  exact ⟨out, ho, c1, c3, c4⟩

/-- C10 (the code at the failing input): 2 zones of 4 blocks, no limits. Reset
of zone 1 and then Open of zone 1 both return success; a write command for one
block at `slba = 4` (the start of zone 1) dispatched by `zns_io_cmd` returns
the status word `NVME_SUCCESS | NVME_DNR`, which is not `NVME_SUCCESS`, the
completion `slba` is still 0 rather than 4, and zone 1 is still explicitly
open with its write pointer at 4. -/
theorem C10_write_after_reset_open_fails :
    (zns_do_zone_op (exampleCtrl 2 4 0 0) 1 0 zns_reset_zone).map (fun r => r.1) =
      some NVME_SUCCESS ∧
    (zns_do_zone_op (afterOps (exampleCtrl 2 4 0 0) [CoreOp.zone_op 1 0 ZoneHandler.RESET])
      1 0 zns_open_zone).map (fun r => r.1) = some NVME_SUCCESS ∧
    (zns_io_cmd (afterOps (exampleCtrl 2 4 0 0)
        [CoreOp.zone_op 1 0 ZoneHandler.RESET, CoreOp.zone_op 1 0 ZoneHandler.OPEN])
      (fun _ => true) ⟨NVME_CMD_WRITE, ⟨4, 0, 0⟩⟩ (exampleReq 4 0)).map
        (fun o => (o.status, decide (o.status = NVME_SUCCESS), o.req.cqe_slba,
          (zoneAt o.n 1).d.zs, (zoneAt o.n 1).w_ptr)) =
      some (⟨NvmeStatusCode.SUCCESS, true⟩, false, 0, NvmeZoneState.EXPLICITLY_OPEN, 4) := by
  decide

theorem zone_idx_geom (n : FemuCtrl) (slba : Nat) (hg : ZoneGeom n)
    (h : slba < n.num_zones * n.zone_size) :
    zns_get_zone_by_slba n slba = some (slba / n.zone_size) ∧
      slba / n.zone_size < n.num_zones := by
  obtain ⟨hz, hlen, hn, _, hlog, _⟩ := hg
  have hlt : slba / n.zone_size < n.num_zones := (Nat.div_lt_iff_lt_mul hz).2 h
  have hidx : zns_zone_idx n slba = some (slba / n.zone_size) := by
    unfold zns_zone_idx
    by_cases hl : n.zone_size_log2 > 0
    · rw [if_pos hl, Nat.shiftRight_eq_div_pow, ← hlog hl, Nat.mod_eq_of_lt (by omega)]
    · rw [if_neg hl, if_neg (by omega), Nat.mod_eq_of_lt (by omega)]
  refine ⟨?_, hlt⟩
  unfold zns_get_zone_by_slba
  rw [hidx]
  simp only
  rw [if_pos ⟨hlt, by rw [hlen]; exact hlt⟩]

theorem drop_zoneAt (n : FemuCtrl) (k : Nat) (hk : k < n.zone_array.length) :
    n.zone_array.drop k = zoneAt n k :: n.zone_array.drop (k + 1) := by
  have e : zoneAt n k = n.zone_array[k] := by
    unfold zoneAt
    rw [List.getD_eq_getElem?_getD, List.getElem?_eq_getElem hk]
    rfl
  rw [e]
  exact List.drop_eq_getElem_cons hk

theorem state_for_read_cases (z : NvmeZone) :
    (z.d.zs = NvmeZoneState.OFFLINE →
      zns_check_zone_state_for_read z = ⟨NvmeStatusCode.ZONE_OFFLINE, false⟩) ∧
    (z.d.zs ≠ NvmeZoneState.OFFLINE → zns_check_zone_state_for_read z = NVME_SUCCESS) := by
  unfold zns_check_zone_state_for_read zns_get_zone_state
  cases z.d.zs <;> simp

theorem rd_boundary_geom (n : FemuCtrl) (k : Nat) (hg : ZoneGeom n) (hk : k < n.num_zones) :
    zns_zone_rd_boundary n (zoneAt n k) = (k + 1) * n.zone_size := by
  obtain ⟨_, _, _, hcap, _, hsl⟩ := hg
  unfold zns_zone_rd_boundary
  rw [hsl k hk]
  have h1 : (k + 1) * n.zone_size ≤ n.num_zones * n.zone_size :=
    Nat.mul_le_mul_right _ (by omega)
  have h2 : k * n.zone_size + n.zone_size = (k + 1) * n.zone_size := by ring
  rw [h2, Nat.mod_eq_of_lt (by omega)]

/-- The loop of `zns_check_zone_read` started at zone `k`, for a request that
ends at `e` inside the namespace: it inspects the zones `k` to `(e - 1) /
zone_size` and reports the first offline one. -/
theorem read_next_geom (n : FemuCtrl) (e : Nat) (hg : ZoneGeom n)
    (he : e ≤ n.num_zones * n.zone_size) :
    ∀ d k, k + d = (e - 1) / n.zone_size → 0 < e →
      ((∃ j, k ≤ j ∧ j ≤ (e - 1) / n.zone_size ∧
          (zoneAt n j).d.zs = NvmeZoneState.OFFLINE) →
        zns_check_zone_read_next n e (n.zone_array.drop k) =
          some ⟨NvmeStatusCode.ZONE_OFFLINE, false⟩) ∧
      ((∀ j, k ≤ j → j ≤ (e - 1) / n.zone_size →
          (zoneAt n j).d.zs ≠ NvmeZoneState.OFFLINE) →
        zns_check_zone_read_next n e (n.zone_array.drop k) = some NVME_SUCCESS) := by
  have hz := hg.1
  have hlen := hg.2.1
  have hzl : 0 < e → (e - 1) / n.zone_size < n.num_zones := by
    intro h0
    exact (Nat.div_lt_iff_lt_mul hz).2 (by omega)
  intro d
  induction d with
  | zero =>
    intro k hk h0
    have hkl : k < n.num_zones := by have := hzl h0; omega
    have hdrop := drop_zoneAt n k (by rw [hlen]; exact hkl)
    have hnot : ¬ e > (k + 1) * n.zone_size := by
      intro hgt
      have : k + 1 ≤ (e - 1) / n.zone_size := (Nat.le_div_iff_mul_le hz).2 (by omega)
      omega
    rw [hdrop]
    unfold zns_check_zone_read_next
    simp only [rd_boundary_geom n k hg hkl, if_neg hnot]
    constructor
    · rintro ⟨j, hj1, hj2, hj3⟩
      have hjk : j = k := by omega
      subst hjk
      rw [(state_for_read_cases _).1 hj3]
      simp [NVME_SUCCESS]
    · intro hall
      rw [(state_for_read_cases _).2 (hall k (le_refl _) (by omega))]
      simp
  | succ d ih =>
    intro k hk h0
    have hkl : k < n.num_zones := by have := hzl h0; omega
    have hdrop := drop_zoneAt n k (by rw [hlen]; exact hkl)
    have hgt : e > (k + 1) * n.zone_size := by
      have h1 : k + 1 ≤ (e - 1) / n.zone_size := by omega
      have := (Nat.le_div_iff_mul_le hz).1 h1
      omega
    obtain ⟨ih1, ih2⟩ := ih (k + 1) (by omega) h0
    rw [hdrop]
    unfold zns_check_zone_read_next
    simp only [rd_boundary_geom n k hg hkl, if_pos hgt]
    constructor
    · rintro ⟨j, hj1, hj2, hj3⟩
      by_cases hoff : (zoneAt n k).d.zs = NvmeZoneState.OFFLINE
      · rw [(state_for_read_cases _).1 hoff]
        simp [NVME_SUCCESS]
      · rw [(state_for_read_cases _).2 hoff]
        simp only [ne_eq, not_true_eq_false, if_false]
        apply ih1
        refine ⟨j, ?_, hj2, hj3⟩
        rcases Nat.eq_or_lt_of_le hj1 with h | h
        · exact absurd (h ▸ hj3) hoff
        · exact h
    · intro hall
      rw [(state_for_read_cases _).2 (hall k (le_refl _) (by omega))]
      simp only [ne_eq, not_true_eq_false, if_false]
      exact ih2 (fun j hj1 hj2 => hall j (by omega) hj2)

/-- C11: for a controller with the zone layout of `zns_init_zoned_state` and a
request of `nlb ≥ 1` blocks at `slba` inside the namespace, with `zi` the zone
holding `slba` and `zl` the zone holding the last block, `zns_check_zone_read`
returns: `ZONE_OFFLINE` if `zi` is offline; else success if
`slba + nlb ≤ zslba + zone_size`; else `ZONE_BOUNDARY_ERROR` if
`cross_zone_read` is off; else `ZONE_OFFLINE` if one of the zones `zi + 1` to
`zl` is offline and success if none is. A zone state passes the read state
check exactly when it is not `OFFLINE`. -/
theorem C11_check_zone_read_result (n : FemuCtrl) (slba nlb : Nat) (hg : ZoneGeom n)
    (hn : 1 ≤ nlb) (hin : slba + nlb ≤ n.num_zones * n.zone_size) :
    ((zoneAt n (slba / n.zone_size)).d.zs = NvmeZoneState.OFFLINE →
      zns_check_zone_read n slba nlb = some ⟨NvmeStatusCode.ZONE_OFFLINE, false⟩) ∧
    ((zoneAt n (slba / n.zone_size)).d.zs ≠ NvmeZoneState.OFFLINE →
      (slba + nlb ≤ (zoneAt n (slba / n.zone_size)).d.zslba + n.zone_size →
        zns_check_zone_read n slba nlb = some NVME_SUCCESS) ∧
      (¬ slba + nlb ≤ (zoneAt n (slba / n.zone_size)).d.zslba + n.zone_size →
        (n.cross_zone_read = false →
          zns_check_zone_read n slba nlb = some ⟨NvmeStatusCode.ZONE_BOUNDARY_ERROR, false⟩) ∧
        (n.cross_zone_read = true →
          ((∃ j, slba / n.zone_size < j ∧ j ≤ (slba + nlb - 1) / n.zone_size ∧
              (zoneAt n j).d.zs = NvmeZoneState.OFFLINE) →
            zns_check_zone_read n slba nlb = some ⟨NvmeStatusCode.ZONE_OFFLINE, false⟩) ∧
          ((∀ j, slba / n.zone_size < j → j ≤ (slba + nlb - 1) / n.zone_size →
              (zoneAt n j).d.zs ≠ NvmeZoneState.OFFLINE) →
            zns_check_zone_read n slba nlb = some NVME_SUCCESS)))) ∧
    (∀ z : NvmeZone, zns_check_zone_state_for_read z = NVME_SUCCESS ↔
      z.d.zs ≠ NvmeZoneState.OFFLINE) := by
  have hg' := hg
  obtain ⟨hz, hlen, hnz, hcap, hlog, hsl⟩ := hg'
  obtain ⟨hget, hzi⟩ := zone_idx_geom n slba hg (by omega)
  have hb := rd_boundary_geom n (slba / n.zone_size) hg hzi
  have hend : (slba + nlb) % U64 = slba + nlb := Nat.mod_eq_of_lt (by omega)
  have hsum : (zoneAt n (slba / n.zone_size)).d.zslba + n.zone_size =
      (slba / n.zone_size + 1) * n.zone_size := by rw [hsl _ hzi]; ring
  have hu : zns_check_zone_read n slba nlb =
      (if zns_check_zone_state_for_read (zoneAt n (slba / n.zone_size)) ≠ NVME_SUCCESS then
        some (zns_check_zone_state_for_read (zoneAt n (slba / n.zone_size)))
      else if slba + nlb > (slba / n.zone_size + 1) * n.zone_size then
        if ¬ n.cross_zone_read then some ⟨NvmeStatusCode.ZONE_BOUNDARY_ERROR, false⟩
        else zns_check_zone_read_next n (slba + nlb)
          (n.zone_array.drop (slba / n.zone_size + 1))
      else some (zns_check_zone_state_for_read (zoneAt n (slba / n.zone_size)))) := by
    unfold zns_check_zone_read
    rw [hget]
    simp only [hb, hend]
  refine ⟨?_, ?_, ?_⟩
  · intro hoff
    rw [hu, (state_for_read_cases _).1 hoff]
    simp [NVME_SUCCESS]
  · intro hon
    rw [hu, (state_for_read_cases _).2 hon, hsum]
    simp only [ne_eq, not_true_eq_false, if_false]
    refine ⟨fun hle => by rw [if_neg (by omega)], fun hgt => ?_⟩
    rw [if_pos (by omega)]
    refine ⟨fun hc => by simp [hc], fun hc => ?_⟩
    simp only [hc, not_true_eq_false, if_false]
    have hk : slba / n.zone_size + 1 ≤ (slba + nlb - 1) / n.zone_size :=
      (Nat.le_div_iff_mul_le hz).2 (by omega)
    obtain ⟨r1, r2⟩ := read_next_geom n (slba + nlb) hg hin
      ((slba + nlb - 1) / n.zone_size - (slba / n.zone_size + 1)) (slba / n.zone_size + 1)
      (by omega) (by omega)
    exact ⟨fun ⟨j, h1, h2, h3⟩ => r1 ⟨j, h1, h2, h3⟩, fun hall => r2 (fun j h1 h2 => hall j h1 h2)⟩
  · intro z
    constructor
    · intro hs hoff
      rw [(state_for_read_cases z).1 hoff] at hs
      simp [NVME_SUCCESS] at hs
    · exact (state_for_read_cases z).2

theorem C11_check_zone_read_result_witness :
    zns_check_zone_read
        (zns_assign_zone_state { exampleCtrl 3 4 0 0 with cross_zone_read := true } 2
          NvmeZoneState.OFFLINE) 2 8 = some ⟨NvmeStatusCode.ZONE_OFFLINE, false⟩ ∧
      zns_check_zone_read
        (zns_assign_zone_state { exampleCtrl 3 4 0 0 with cross_zone_read := true } 2
          NvmeZoneState.OFFLINE) 2 4 = some NVME_SUCCESS :=
  ⟨((((C11_check_zone_read_result
      (zns_assign_zone_state { exampleCtrl 3 4 0 0 with cross_zone_read := true } 2
        NvmeZoneState.OFFLINE) 2 8 (by unfold ZoneGeom; decide) (by decide) (by decide)).2.1
      (by decide)).2 (by decide)).2 (by decide)).1 ⟨2, by decide, by decide, by decide⟩,
   ((((C11_check_zone_read_result
      (zns_assign_zone_state { exampleCtrl 3 4 0 0 with cross_zone_read := true } 2
        NvmeZoneState.OFFLINE) 2 4 (by unfold ZoneGeom; decide) (by decide) (by decide)).2.1
      (by decide)).2 (by decide)).2 (by decide)).2
      (fun j h1 h2 => by
        have hj : j = 1 := by
          have h3 : (2 + 4 - 1) / 4 = 1 := by decide
          have h4 : 2 / 4 = 0 := by decide
          have e1 : 2 / ((zns_assign_zone_state { exampleCtrl 3 4 0 0 with cross_zone_read := true }
            2 NvmeZoneState.OFFLINE).zone_size) = 0 := by decide
          have e2 : (2 + 4 - 1) / ((zns_assign_zone_state
            { exampleCtrl 3 4 0 0 with cross_zone_read := true }
            2 NvmeZoneState.OFFLINE).zone_size) = 1 := by decide
          rw [e1] at h1
          rw [e2] at h2
          omega
        subst hj
        decide)⟩

/-- C12: `zns_open_zone` on zone `zi`, called with the zone's state, for every
value of the counters (32-bit words, `+ 1` is the 32-bit increment). From
`EMPTY`: when `zns_aor_check` passes for one more active zone and then for one
more open zone, success, both counters incremented, zone `EXPLICITLY_OPEN`;
otherwise `TooManyActive` or `TooManyOpen` and the controller is exactly as
before (the active increment is undone). From `CLOSED`: when the check for one
more open zone passes, success, only `nr_open_zones` incremented, zone
`EXPLICITLY_OPEN`; otherwise the error and no change. From
`IMPLICITLY_OPEN`: success, counters kept, zone `EXPLICITLY_OPEN`. From
`EXPLICITLY_OPEN`: success and no change. From `FULL`, `READ_ONLY`,
`OFFLINE`: `ZONE_INVAL_TRANSITION` and no change. -/
theorem C12_open_zone_transitions (n : FemuCtrl) (zi : Nat) (hl : zi < n.zone_array.length)
    (hw : n.nr_active_zones < U32) :
    ((zoneAt n zi).d.zs = NvmeZoneState.EMPTY →
      ((zns_aor_check n 1 0 = NVME_SUCCESS ∧
          zns_aor_check (zns_aor_inc_active n) 0 1 = NVME_SUCCESS) →
        (zns_open_zone n zi (zoneAt n zi).d.zs).1 = NVME_SUCCESS ∧
        (zns_open_zone n zi (zoneAt n zi).d.zs).2.nr_active_zones =
          (n.nr_active_zones + 1) % U32 ∧
        (zns_open_zone n zi (zoneAt n zi).d.zs).2.nr_open_zones = (n.nr_open_zones + 1) % U32 ∧
        (zoneAt (zns_open_zone n zi (zoneAt n zi).d.zs).2 zi).d.zs =
          NvmeZoneState.EXPLICITLY_OPEN) ∧
      (¬ (zns_aor_check n 1 0 = NVME_SUCCESS ∧
          zns_aor_check (zns_aor_inc_active n) 0 1 = NVME_SUCCESS) →
        ((zns_open_zone n zi (zoneAt n zi).d.zs).1 = ⟨NvmeStatusCode.ZONE_TOO_MANY_ACTIVE, true⟩ ∨
          (zns_open_zone n zi (zoneAt n zi).d.zs).1 = ⟨NvmeStatusCode.ZONE_TOO_MANY_OPEN, true⟩) ∧
        (zns_open_zone n zi (zoneAt n zi).d.zs).2 = n)) ∧
    ((zoneAt n zi).d.zs = NvmeZoneState.CLOSED →
      (zns_aor_check n 0 1 = NVME_SUCCESS →
        (zns_open_zone n zi (zoneAt n zi).d.zs).1 = NVME_SUCCESS ∧
        (zns_open_zone n zi (zoneAt n zi).d.zs).2.nr_active_zones = n.nr_active_zones ∧
        (zns_open_zone n zi (zoneAt n zi).d.zs).2.nr_open_zones = (n.nr_open_zones + 1) % U32 ∧
        (zoneAt (zns_open_zone n zi (zoneAt n zi).d.zs).2 zi).d.zs =
          NvmeZoneState.EXPLICITLY_OPEN) ∧
      (zns_aor_check n 0 1 ≠ NVME_SUCCESS →
        ((zns_open_zone n zi (zoneAt n zi).d.zs).1 = ⟨NvmeStatusCode.ZONE_TOO_MANY_ACTIVE, true⟩ ∨
          (zns_open_zone n zi (zoneAt n zi).d.zs).1 = ⟨NvmeStatusCode.ZONE_TOO_MANY_OPEN, true⟩) ∧
        (zns_open_zone n zi (zoneAt n zi).d.zs).2 = n)) ∧
    ((zoneAt n zi).d.zs = NvmeZoneState.IMPLICITLY_OPEN →
      (zns_open_zone n zi (zoneAt n zi).d.zs).1 = NVME_SUCCESS ∧
      (zns_open_zone n zi (zoneAt n zi).d.zs).2.nr_active_zones = n.nr_active_zones ∧
      (zns_open_zone n zi (zoneAt n zi).d.zs).2.nr_open_zones = n.nr_open_zones ∧
      (zoneAt (zns_open_zone n zi (zoneAt n zi).d.zs).2 zi).d.zs =
        NvmeZoneState.EXPLICITLY_OPEN) ∧
    ((zoneAt n zi).d.zs = NvmeZoneState.EXPLICITLY_OPEN →
      zns_open_zone n zi (zoneAt n zi).d.zs = (NVME_SUCCESS, n)) ∧
    ((zoneAt n zi).d.zs = NvmeZoneState.FULL ∨ (zoneAt n zi).d.zs = NvmeZoneState.READ_ONLY ∨
        (zoneAt n zi).d.zs = NvmeZoneState.OFFLINE →
      zns_open_zone n zi (zoneAt n zi).d.zs =
        (⟨NvmeStatusCode.ZONE_INVAL_TRANSITION, false⟩, n)) := by
  have fail : ∀ m : FemuCtrl, ∀ act opn, zns_aor_check m act opn ≠ NVME_SUCCESS →
      zns_aor_check m act opn = ⟨NvmeStatusCode.ZONE_TOO_MANY_ACTIVE, true⟩ ∨
        zns_aor_check m act opn = ⟨NvmeStatusCode.ZONE_TOO_MANY_OPEN, true⟩ := by
    intro m act opn hne
    rcases aor_check_cases m act opn with h | ⟨h, _⟩ | ⟨h, _⟩
    · exact absurd h hne
    · exact Or.inl h
    · exact Or.inr h
  refine ⟨?_, ?_, ?_, ?_, ?_⟩
  · intro hs
    rw [hs]
    constructor
    · rintro ⟨h1, h2⟩
      obtain ⟨f1, f2, _⟩ := assign_frame (zns_aor_inc_open (zns_aor_inc_active n)) zi
        NvmeZoneState.EXPLICITLY_OPEN
      have hz := (assign_zone_effect (zns_aor_inc_open (zns_aor_inc_active n)) zi
        NvmeZoneState.EXPLICITLY_OPEN hl).1
      simp only [zns_open_zone, zns_open_zone_closed, h1, h2, ne_eq, not_true_eq_false,
        if_false]
      exact ⟨trivial, f2, f1, hz⟩
    · intro hnot
      by_cases h1 : zns_aor_check n 1 0 = NVME_SUCCESS
      · have h2 : zns_aor_check (zns_aor_inc_active n) 0 1 ≠ NVME_SUCCESS :=
          fun h2 => hnot ⟨h1, h2⟩
        simp only [zns_open_zone, zns_open_zone_closed, h1, h2, ne_eq, not_true_eq_false,
          not_false_eq_true, if_false, if_true]
        exact ⟨fail _ _ _ h2, dec_inc_active n hw⟩
      · simp only [zns_open_zone, h1, ne_eq, not_false_eq_true, if_true]
        exact ⟨fail _ _ _ h1, trivial⟩
  · intro hs
    rw [hs]
    constructor
    · intro h1
      obtain ⟨f1, f2, _⟩ := assign_frame (zns_aor_inc_open n) zi NvmeZoneState.EXPLICITLY_OPEN
      have hz := (assign_zone_effect (zns_aor_inc_open n) zi
        NvmeZoneState.EXPLICITLY_OPEN hl).1
      simp only [zns_open_zone, zns_open_zone_closed, h1, ne_eq, not_true_eq_false, if_false]
      exact ⟨trivial, f2, f1, hz⟩
    · intro h1
      simp only [zns_open_zone, zns_open_zone_closed, h1, ne_eq, not_false_eq_true, if_true,
        reduceCtorEq, if_false]
      exact ⟨fail _ _ _ h1, trivial⟩
  · intro hs
    rw [hs]
    obtain ⟨f1, f2, _⟩ := assign_frame n zi NvmeZoneState.EXPLICITLY_OPEN
    exact ⟨rfl, f2, f1, (assign_zone_effect n zi NvmeZoneState.EXPLICITLY_OPEN hl).1⟩
  · intro hs
    rw [hs]
    rfl
  · intro hs
    rcases hs with hs | hs | hs <;> rw [hs] <;> rfl

theorem C12_open_zone_transitions_witness :
    (zns_open_zone (exampleCtrl 2 4 1 1) 0 (zoneAt (exampleCtrl 2 4 1 1) 0).d.zs).1 =
        NVME_SUCCESS ∧
      (zns_open_zone (exampleCtrl 2 4 1 1) 0
        (zoneAt (exampleCtrl 2 4 1 1) 0).d.zs).2.nr_active_zones = (0 + 1) % U32 ∧
      (zns_open_zone (exampleCtrl 2 4 1 1) 0
        (zoneAt (exampleCtrl 2 4 1 1) 0).d.zs).2.nr_open_zones = (0 + 1) % U32 ∧
      (zoneAt (zns_open_zone (exampleCtrl 2 4 1 1) 0
        (zoneAt (exampleCtrl 2 4 1 1) 0).d.zs).2 0).d.zs = NvmeZoneState.EXPLICITLY_OPEN :=
  ((C12_open_zone_transitions (exampleCtrl 2 4 1 1) 0 (by decide) (by decide)).1
    (by decide)).1 ⟨by decide, by decide⟩

/-- C13: `zns_close_zone` on zone `zi`, called with the zone's state. From
`IMPLICITLY_OPEN` or `EXPLICITLY_OPEN`: success, `nr_open_zones` decremented
(the 32-bit decrement), `nr_active_zones` and both write pointers kept, the
zone `CLOSED` and appended to the closed list. From `CLOSED`: success and no
change. From `EMPTY`, `FULL`, `READ_ONLY`, `OFFLINE`: `ZONE_INVAL_TRANSITION`
and no change. -/
theorem C13_close_zone_transitions (n : FemuCtrl) (zi : Nat) (hl : zi < n.zone_array.length) :
    ((zoneAt n zi).d.zs = NvmeZoneState.IMPLICITLY_OPEN ∨
        (zoneAt n zi).d.zs = NvmeZoneState.EXPLICITLY_OPEN →
      (zns_close_zone n zi (zoneAt n zi).d.zs).1 = NVME_SUCCESS ∧
      (zns_close_zone n zi (zoneAt n zi).d.zs).2.nr_open_zones =
        (if n.nr_open_zones = 0 then U32 - 1 else n.nr_open_zones - 1) ∧
      (zns_close_zone n zi (zoneAt n zi).d.zs).2.nr_active_zones = n.nr_active_zones ∧
      (zoneAt (zns_close_zone n zi (zoneAt n zi).d.zs).2 zi).w_ptr = (zoneAt n zi).w_ptr ∧
      (zoneAt (zns_close_zone n zi (zoneAt n zi).d.zs).2 zi).d.wp = (zoneAt n zi).d.wp ∧
      (zoneAt (zns_close_zone n zi (zoneAt n zi).d.zs).2 zi).d.zs = NvmeZoneState.CLOSED ∧
      (zns_close_zone n zi (zoneAt n zi).d.zs).2.closed_zones = n.closed_zones ++ [zi]) ∧
    ((zoneAt n zi).d.zs = NvmeZoneState.CLOSED →
      zns_close_zone n zi (zoneAt n zi).d.zs = (NVME_SUCCESS, n)) ∧
    ((zoneAt n zi).d.zs = NvmeZoneState.EMPTY ∨ (zoneAt n zi).d.zs = NvmeZoneState.FULL ∨
        (zoneAt n zi).d.zs = NvmeZoneState.READ_ONLY ∨
        (zoneAt n zi).d.zs = NvmeZoneState.OFFLINE →
      zns_close_zone n zi (zoneAt n zi).d.zs =
        (⟨NvmeStatusCode.ZONE_INVAL_TRANSITION, false⟩, n)) := by
  refine ⟨?_, ?_, ?_⟩
  · intro hs
    have hr : zns_close_zone n zi (zoneAt n zi).d.zs =
        (NVME_SUCCESS, zns_assign_zone_state (zns_aor_dec_open n) zi NvmeZoneState.CLOSED) := by
      rcases hs with h | h <;> rw [h] <;> rfl
    have hnc : (zoneAt n zi).d.zs ≠ NvmeZoneState.CLOSED := by
      rcases hs with h | h <;> rw [h] <;> simp
    obtain ⟨f1, f2, _⟩ := assign_frame (zns_aor_dec_open n) zi NvmeZoneState.CLOSED
    obtain ⟨z1, z2, z3, _⟩ := assign_zone_effect (zns_aor_dec_open n) zi
      NvmeZoneState.CLOSED hl
    obtain ⟨_, _, l3, _⟩ := assign_lists (zns_aor_dec_open n) zi NvmeZoneState.CLOSED
    have hz : zoneAt (zns_aor_dec_open n) zi = zoneAt n zi := rfl
    rw [hz] at z2 z3 l3
    rw [hr]
    refine ⟨rfl, f1, f2, z2, z3, z1, ?_⟩
    rw [l3]
    simp only [hnc, decide_False, decide_True]
    exact queueAfter_add _ _
  · intro hs
    rw [hs]
    rfl
  · intro hs
    rcases hs with hs | hs | hs | hs <;> rw [hs] <;> rfl

theorem C13_close_zone_transitions_witness :
    (zns_close_zone (afterOps (exampleCtrl 2 4 1 1) [CoreOp.zone_op 0 0 ZoneHandler.OPEN]) 0
        (zoneAt (afterOps (exampleCtrl 2 4 1 1) [CoreOp.zone_op 0 0 ZoneHandler.OPEN])
          0).d.zs).2.nr_open_zones = 0 ∧
      (zns_close_zone (afterOps (exampleCtrl 2 4 1 1) [CoreOp.zone_op 0 0 ZoneHandler.OPEN]) 0
        (zoneAt (afterOps (exampleCtrl 2 4 1 1) [CoreOp.zone_op 0 0 ZoneHandler.OPEN])
          0).d.zs).2.closed_zones = [0] := by
  obtain ⟨_, c2, _, _, _, _, c7⟩ := (C13_close_zone_transitions
    (afterOps (exampleCtrl 2 4 1 1) [CoreOp.zone_op 0 0 ZoneHandler.OPEN]) 0 (by decide)).1
    (Or.inr (by decide))
  exact ⟨c2.trans (by decide), c7.trans (by decide)⟩

/-- C14: `zns_finish_zone` on zone `zi`, called with the zone's state. From
`IMPLICITLY_OPEN` or `EXPLICITLY_OPEN` both counters are decremented, from
`CLOSED` only `nr_active_zones`, from `EMPTY` none (32-bit decrements); in
these four cases the call succeeds, `w_ptr` and `d.wp` are `zslba + zcap` (the
64-bit sum) and the zone is `FULL`. From `FULL`: success and no change. From
`READ_ONLY` or `OFFLINE`: `ZONE_INVAL_TRANSITION` and no change. -/
theorem C14_finish_zone_transitions (n : FemuCtrl) (zi : Nat) (hl : zi < n.zone_array.length) :
    ((zoneAt n zi).d.zs = NvmeZoneState.IMPLICITLY_OPEN ∨
        (zoneAt n zi).d.zs = NvmeZoneState.EXPLICITLY_OPEN ∨
        (zoneAt n zi).d.zs = NvmeZoneState.CLOSED ∨
        (zoneAt n zi).d.zs = NvmeZoneState.EMPTY →
      (zns_finish_zone n zi (zoneAt n zi).d.zs).1 = NVME_SUCCESS ∧
      (zns_finish_zone n zi (zoneAt n zi).d.zs).2.nr_open_zones =
        (if (zoneAt n zi).d.zs = NvmeZoneState.IMPLICITLY_OPEN ∨
            (zoneAt n zi).d.zs = NvmeZoneState.EXPLICITLY_OPEN then
          (if n.nr_open_zones = 0 then U32 - 1 else n.nr_open_zones - 1)
        else n.nr_open_zones) ∧
      (zns_finish_zone n zi (zoneAt n zi).d.zs).2.nr_active_zones =
        (if (zoneAt n zi).d.zs = NvmeZoneState.EMPTY then n.nr_active_zones
        else (if n.nr_active_zones = 0 then U32 - 1 else n.nr_active_zones - 1)) ∧
      (zoneAt (zns_finish_zone n zi (zoneAt n zi).d.zs).2 zi).w_ptr =
        ((zoneAt n zi).d.zslba + (zoneAt n zi).d.zcap) % U64 ∧
      (zoneAt (zns_finish_zone n zi (zoneAt n zi).d.zs).2 zi).d.wp =
        ((zoneAt n zi).d.zslba + (zoneAt n zi).d.zcap) % U64 ∧
      (zoneAt (zns_finish_zone n zi (zoneAt n zi).d.zs).2 zi).d.zs = NvmeZoneState.FULL) ∧
    ((zoneAt n zi).d.zs = NvmeZoneState.FULL →
      zns_finish_zone n zi (zoneAt n zi).d.zs = (NVME_SUCCESS, n)) ∧
    ((zoneAt n zi).d.zs = NvmeZoneState.READ_ONLY ∨
        (zoneAt n zi).d.zs = NvmeZoneState.OFFLINE →
      zns_finish_zone n zi (zoneAt n zi).d.zs =
        (⟨NvmeStatusCode.ZONE_INVAL_TRANSITION, false⟩, n)) := by
  refine ⟨?_, ?_, ?_⟩
  · intro hs
    have hr : zns_finish_zone n zi (zoneAt n zi).d.zs =
        (NVME_SUCCESS, zns_finish_zone_empty (releaseFor (zoneAt n zi).d.zs n) zi) := by
      rcases hs with h | h | h | h <;> rw [h] <;> rfl
    have hza : (releaseFor (zoneAt n zi).d.zs n).zone_array = n.zone_array := by
      cases (zoneAt n zi).d.zs <;> rfl
    have hz : zoneAt (releaseFor (zoneAt n zi).d.zs n) zi = zoneAt n zi :=
      zoneAt_congr _ _ hza zi
    obtain ⟨a1, _, a3, a4, _⟩ := finish_empty_effect (releaseFor (zoneAt n zi).d.zs n) zi
      (by rw [hza]; exact hl)
    rw [hz] at a1
    rw [hr]
    refine ⟨rfl, ?_, ?_, by rw [a1]; rfl, by rw [a1]; rfl, by rw [a1]; rfl⟩
    · show (zns_finish_zone_empty (releaseFor (zoneAt n zi).d.zs n) zi).nr_open_zones = _
      rw [a3]
      rcases hs with h | h | h | h <;> rw [h] <;> rfl
    · show (zns_finish_zone_empty (releaseFor (zoneAt n zi).d.zs n) zi).nr_active_zones = _
      rw [a4]
      rcases hs with h | h | h | h <;> rw [h] <;> rfl
  · intro hs
    rw [hs]
    rfl
  · intro hs
    rcases hs with hs | hs <;> rw [hs] <;> rfl

theorem C14_finish_zone_transitions_witness :
    (zns_finish_zone (afterOps (exampleCtrl 2 4 1 1) [CoreOp.zone_op 0 0 ZoneHandler.OPEN]) 0
        (zoneAt (afterOps (exampleCtrl 2 4 1 1) [CoreOp.zone_op 0 0 ZoneHandler.OPEN])
          0).d.zs).2.nr_open_zones = 0 ∧
      (zoneAt (zns_finish_zone
        (afterOps (exampleCtrl 2 4 1 1) [CoreOp.zone_op 0 0 ZoneHandler.OPEN]) 0
        (zoneAt (afterOps (exampleCtrl 2 4 1 1) [CoreOp.zone_op 0 0 ZoneHandler.OPEN])
          0).d.zs).2 0).w_ptr = 4 := by
  obtain ⟨_, c2, _, c4, _⟩ := (C14_finish_zone_transitions
    (afterOps (exampleCtrl 2 4 1 1) [CoreOp.zone_op 0 0 ZoneHandler.OPEN]) 0 (by decide)).1
    (Or.inr (Or.inl (by decide)))
  exact ⟨c2.trans (by decide), c4.trans (by decide)⟩

theorem not_mem_queueAfter (l : List Nat) (zi : Nat) (b : Bool) (hnd : l.Nodup)
    (hm : zi ∈ l → b = true) : zi ∉ queueAfter l zi b false := by
  cases b with
  | true =>
    rw [queueAfter_rem]
    intro h
    exact ((List.Nodup.mem_erase_iff hnd).1 h).1 rfl
  | false =>
    rw [queueAfter_keep]
    intro h
    exact absurd (hm h) (by simp)

/-- C15: `zns_reset_zone` on zone `zi`, called with the zone's state, in a
controller whose zone lists agree with the zone states. From
`IMPLICITLY_OPEN` or `EXPLICITLY_OPEN` both counters are decremented, from
`CLOSED` only `nr_active_zones`, from `FULL` none (32-bit decrements); in
these four cases the call succeeds, `w_ptr` and `d.wp` equal `zslba`, the zone
is `EMPTY`, in none of the four lists, and its attributes are 0. From `EMPTY`:
success and the controller, timing state included, is unchanged. From
`READ_ONLY` or `OFFLINE`: `ZONE_INVAL_TRANSITION` and no change. -/
theorem C15_reset_zone_transitions (n : FemuCtrl) (zi : Nat) (hq : QueuesOk n)
    (hl : zi < n.zone_array.length) :
    ((zoneAt n zi).d.zs = NvmeZoneState.IMPLICITLY_OPEN ∨
        (zoneAt n zi).d.zs = NvmeZoneState.EXPLICITLY_OPEN ∨
        (zoneAt n zi).d.zs = NvmeZoneState.CLOSED ∨
        (zoneAt n zi).d.zs = NvmeZoneState.FULL →
      (zns_reset_zone n zi (zoneAt n zi).d.zs).1 = NVME_SUCCESS ∧
      (zns_reset_zone n zi (zoneAt n zi).d.zs).2.nr_open_zones =
        (if (zoneAt n zi).d.zs = NvmeZoneState.IMPLICITLY_OPEN ∨
            (zoneAt n zi).d.zs = NvmeZoneState.EXPLICITLY_OPEN then
          (if n.nr_open_zones = 0 then U32 - 1 else n.nr_open_zones - 1)
        else n.nr_open_zones) ∧
      (zns_reset_zone n zi (zoneAt n zi).d.zs).2.nr_active_zones =
        (if (zoneAt n zi).d.zs = NvmeZoneState.FULL then n.nr_active_zones
        else (if n.nr_active_zones = 0 then U32 - 1 else n.nr_active_zones - 1)) ∧
      (zoneAt (zns_reset_zone n zi (zoneAt n zi).d.zs).2 zi).w_ptr = (zoneAt n zi).d.zslba ∧
      (zoneAt (zns_reset_zone n zi (zoneAt n zi).d.zs).2 zi).d.wp = (zoneAt n zi).d.zslba ∧
      (zoneAt (zns_reset_zone n zi (zoneAt n zi).d.zs).2 zi).d.zslba = (zoneAt n zi).d.zslba ∧
      (zoneAt (zns_reset_zone n zi (zoneAt n zi).d.zs).2 zi).d.zs = NvmeZoneState.EMPTY ∧
      (zoneAt (zns_reset_zone n zi (zoneAt n zi).d.zs).2 zi).d.za = 0 ∧
      zi ∉ (zns_reset_zone n zi (zoneAt n zi).d.zs).2.imp_open_zones ∧
      zi ∉ (zns_reset_zone n zi (zoneAt n zi).d.zs).2.exp_open_zones ∧
      zi ∉ (zns_reset_zone n zi (zoneAt n zi).d.zs).2.closed_zones ∧
      zi ∉ (zns_reset_zone n zi (zoneAt n zi).d.zs).2.full_zones) ∧
    ((zoneAt n zi).d.zs = NvmeZoneState.EMPTY →
      zns_reset_zone n zi (zoneAt n zi).d.zs = (NVME_SUCCESS, n)) ∧
    ((zoneAt n zi).d.zs = NvmeZoneState.READ_ONLY ∨
        (zoneAt n zi).d.zs = NvmeZoneState.OFFLINE →
      zns_reset_zone n zi (zoneAt n zi).d.zs =
        (⟨NvmeStatusCode.ZONE_INVAL_TRANSITION, false⟩, n)) := by
  refine ⟨?_, ?_, ?_⟩
  · intro hs
    have hr : zns_reset_zone n zi (zoneAt n zi).d.zs =
        (NVME_SUCCESS, zns_aio_zone_reset_cb n zi) := by
      rcases hs with h | h | h | h <;> rw [h] <;> rfl
    have hs' : (zoneAt n zi).d.zs = NvmeZoneState.IMPLICITLY_OPEN ∨
        (zoneAt n zi).d.zs = NvmeZoneState.EXPLICITLY_OPEN ∨
        (zoneAt n zi).d.zs = NvmeZoneState.CLOSED ∨
        (zoneAt n zi).d.zs = NvmeZoneState.FULL := hs
    obtain ⟨a1, _, a3, a4, a5, a6, a7, a8, _⟩ := reset_cb_effect n zi hl hs
    obtain ⟨q1, q2, q3, q4, d1, d2, d3, d4⟩ := hq
    rw [hr]
    refine ⟨rfl, ?_, ?_, by rw [a1]; rfl, by rw [a1]; rfl, by rw [a1]; rfl, by rw [a1]; rfl,
      by rw [a1]; simp [assignZone], ?_, ?_, ?_, ?_⟩
    · show (zns_aio_zone_reset_cb n zi).nr_open_zones = _
      rw [a3]
      rcases hs' with h | h | h | h <;> rw [h] <;> rfl
    · show (zns_aio_zone_reset_cb n zi).nr_active_zones = _
      rw [a4]
      rcases hs' with h | h | h | h <;> rw [h] <;> rfl
    · show zi ∉ (zns_aio_zone_reset_cb n zi).imp_open_zones
      rw [a5]
      exact not_mem_queueAfter _ _ _ d1 (fun h => by simpa using ((q1 zi).1 h).2)
    · show zi ∉ (zns_aio_zone_reset_cb n zi).exp_open_zones
      rw [a6]
      exact not_mem_queueAfter _ _ _ d2 (fun h => by simpa using ((q2 zi).1 h).2)
    · show zi ∉ (zns_aio_zone_reset_cb n zi).closed_zones
      rw [a7]
      exact not_mem_queueAfter _ _ _ d3 (fun h => by simpa using ((q3 zi).1 h).2)
    · show zi ∉ (zns_aio_zone_reset_cb n zi).full_zones
      rw [a8]
      exact not_mem_queueAfter _ _ _ d4 (fun h => by simpa using ((q4 zi).1 h).2)
  · intro hs
    rw [hs]
    rfl
  · intro hs
    rcases hs with hs | hs <;> rw [hs] <;> rfl

theorem C15_reset_zone_transitions_witness :
    (zns_reset_zone
        (afterOps (exampleCtrl 2 4 1 1) [CoreOp.write (exampleReq 0 1) false false]) 0
        (zoneAt (afterOps (exampleCtrl 2 4 1 1) [CoreOp.write (exampleReq 0 1) false false])
          0).d.zs).2.nr_open_zones = 0 ∧
      (zoneAt (zns_reset_zone
        (afterOps (exampleCtrl 2 4 1 1) [CoreOp.write (exampleReq 0 1) false false]) 0
        (zoneAt (afterOps (exampleCtrl 2 4 1 1) [CoreOp.write (exampleReq 0 1) false false])
          0).d.zs).2 0).w_ptr = 0 ∧
      (zoneAt (afterOps (exampleCtrl 2 4 1 1) [CoreOp.write (exampleReq 0 1) false false])
        0).w_ptr = 2 := by
  obtain ⟨_, c2, _, c4, _⟩ := (C15_reset_zone_transitions
    (afterOps (exampleCtrl 2 4 1 1) [CoreOp.write (exampleReq 0 1) false false]) 0
    (Inv_afterOps _ _ (Inv_exampleCtrl 2 4 1 1 (by decide))).1 (by decide)).1
    (Or.inl (by decide))
  exact ⟨c2.trans (by decide), c4.trans (by decide), by decide⟩

theorem set_zd_ext_cases (n : FemuCtrl) (zi : Nat) (hl : zi < n.zone_array.length) :
    ((zoneAt n zi).d.zs ≠ NvmeZoneState.EMPTY →
      zns_set_zd_ext n zi = (⟨NvmeStatusCode.ZONE_INVAL_TRANSITION, false⟩, n)) ∧
    ((zoneAt n zi).d.zs = NvmeZoneState.EMPTY → zns_aor_check n 1 0 ≠ NVME_SUCCESS →
      zns_set_zd_ext n zi = (zns_aor_check n 1 0, n)) ∧
    ((zoneAt n zi).d.zs = NvmeZoneState.EMPTY → zns_aor_check n 1 0 = NVME_SUCCESS →
      (zns_set_zd_ext n zi).1 = NVME_SUCCESS ∧
      (zns_set_zd_ext n zi).2.nr_active_zones = (n.nr_active_zones + 1) % U32 ∧
      (zns_set_zd_ext n zi).2.nr_open_zones = n.nr_open_zones ∧
      (zoneAt (zns_set_zd_ext n zi).2 zi).d.zs = NvmeZoneState.CLOSED ∧
      (zoneAt (zns_set_zd_ext n zi).2 zi).d.za =
        (zoneAt n zi).d.za ||| NVME_ZA_ZD_EXT_VALID) := by
  refine ⟨?_, ?_, ?_⟩
  · intro h
    unfold zns_set_zd_ext
    rw [if_neg (by simpa [zns_get_zone_state] using h)]
  · intro h hc
    unfold zns_set_zd_ext
    rw [if_pos (by simpa [zns_get_zone_state] using h)]
    simp only [hc, ne_eq, not_false_eq_true, if_true]
  · intro h hc
    obtain ⟨a1, _, a3, a4, _⟩ := set_assign_effect (zns_aor_inc_active n) zi
      { zoneAt (zns_aor_inc_active n) zi with
        d := { (zoneAt (zns_aor_inc_active n) zi).d with
          za := (zoneAt (zns_aor_inc_active n) zi).d.za ||| NVME_ZA_ZD_EXT_VALID } }
      NvmeZoneState.CLOSED hl
    unfold zns_set_zd_ext
    rw [if_pos (by simpa [zns_get_zone_state] using h)]
    simp only [hc, ne_eq, not_true_eq_false, if_false]
    refine ⟨trivial, a4, a3, by rw [a1]; rfl, ?_⟩
    rw [a1]
    simp [assignZone]
    rfl

theorem mgmt_send_status_ne (s : Status) (h : s ≠ NVME_SUCCESS) :
    zns_mgmt_send_status s ≠ NVME_SUCCESS := by
  unfold zns_mgmt_send_status
  rw [if_pos h]
  exact orDNR_ne_success s

/-- C17: zone management send with action SetZoneDescriptorExtension.
(1) With the select-all bit set (zone 0 starting at block 0) it returns
`INVALID_FIELD` with do-not-retry and changes nothing. (2) With the bit clear
and `slba` the start of zone `zi`: with `zd_extension_size = 0` it returns
`INVALID_FIELD`; with the feature on and the extension transferred, a zone
that is not `EMPTY` gives `ZONE_INVAL_TRANSITION`, an `EMPTY` zone with the
active limit reached gives `ZONE_TOO_MANY_ACTIVE`, all with do-not-retry and
the controller unchanged; an `EMPTY` zone that passes `zns_aor_check` gives
success with `nr_active_zones` incremented (32-bit), `nr_open_zones` kept,
the extension-valid bit set in the attributes and the zone `CLOSED`. (3) The
command succeeds only with the feature on, the select-all bit clear, the zone
`EMPTY` and an active slot available. -/
theorem C17_set_zd_ext_action (n : FemuCtrl) (req : NvmeRequest)
    (hact : req.cdw13 % U32 &&& 255 = NVME_ZONE_ACTION_SET_ZD_EXT) :
    (req.cdw13 % U32 &&& 256 ≠ 0 → 0 < n.zone_array.length → (zoneAt n 0).d.zslba = 0 →
      zns_zone_mgmt_send n req = some (⟨NvmeStatusCode.INVALID_FIELD, true⟩, n)) ∧
    (∀ slba zi, req.cdw13 % U32 &&& 256 = 0 →
      zns_get_mgmt_zone_slba_idx n req = some (NVME_SUCCESS, slba, zi) →
      zi < n.zone_array.length → slba = (zoneAt n zi).d.zslba →
      (n.zd_extension_size = 0 →
        zns_zone_mgmt_send n req = some (⟨NvmeStatusCode.INVALID_FIELD, true⟩, n)) ∧
      (n.zd_extension_size ≠ 0 → req.dma_prp = NVME_SUCCESS →
        ((zoneAt n zi).d.zs ≠ NvmeZoneState.EMPTY →
          zns_zone_mgmt_send n req =
            some (⟨NvmeStatusCode.ZONE_INVAL_TRANSITION, true⟩, n)) ∧
        ((zoneAt n zi).d.zs = NvmeZoneState.EMPTY → n.max_active_zones ≠ 0 →
          (n.nr_active_zones + 1) % U32 > n.max_active_zones →
          zns_zone_mgmt_send n req =
            some (⟨NvmeStatusCode.ZONE_TOO_MANY_ACTIVE, true⟩, n)) ∧
        ((zoneAt n zi).d.zs = NvmeZoneState.EMPTY → zns_aor_check n 1 0 ≠ NVME_SUCCESS →
          zns_zone_mgmt_send n req = some (zns_aor_check n 1 0, n)) ∧
        ((zoneAt n zi).d.zs = NvmeZoneState.EMPTY → zns_aor_check n 1 0 = NVME_SUCCESS →
          ∃ n', zns_zone_mgmt_send n req = some (NVME_SUCCESS, n') ∧
            n'.nr_active_zones = (n.nr_active_zones + 1) % U32 ∧
            n'.nr_open_zones = n.nr_open_zones ∧
            (zoneAt n' zi).d.zs = NvmeZoneState.CLOSED ∧
            (zoneAt n' zi).d.za = (zoneAt n zi).d.za ||| NVME_ZA_ZD_EXT_VALID ∧
            (zoneAt n' zi).d.za.testBit 7 = true))) ∧
    (∀ n', zns_zone_mgmt_send n req = some (NVME_SUCCESS, n') →
      n.zd_extension_size ≠ 0 ∧ req.cdw13 % U32 &&& 256 = 0 ∧
      ∃ slba zi, zns_get_mgmt_zone_slba_idx n req = some (NVME_SUCCESS, slba, zi) ∧
        (zoneAt n zi).d.zs = NvmeZoneState.EMPTY ∧ zns_aor_check n 1 0 = NVME_SUCCESS) := by
  have single : ∀ slba zi, req.cdw13 % U32 &&& 256 = 0 →
      zns_get_mgmt_zone_slba_idx n req = some (NVME_SUCCESS, slba, zi) →
      zi < n.zone_array.length → slba = (zoneAt n zi).d.zslba →
      zns_zone_mgmt_send n req =
        if n.zd_extension_size = 0 then some (⟨NvmeStatusCode.INVALID_FIELD, true⟩, n)
        else if req.dma_prp ≠ NVME_SUCCESS then some (req.dma_prp, n)
        else if (zns_set_zd_ext n zi).1 = NVME_SUCCESS then
          some ((zns_set_zd_ext n zi).1, (zns_set_zd_ext n zi).2)
        else some (zns_mgmt_send_status (zns_set_zd_ext n zi).1, (zns_set_zd_ext n zi).2) := by
    intro slba zi hall hidx hl hs
    rw [mgmt_send_single n req slba zi hall hidx hl hs, hact, if_neg (by decide),
      if_neg (by decide), if_neg (by decide), if_neg (by decide), if_neg (by decide), if_pos rfl]
  refine ⟨?_, ?_, ?_⟩
  · intro hall hl hz
    unfold zns_zone_mgmt_send
    simp only [hall, ne_eq, not_false_eq_true, decide_True, not_true_eq_false, if_false, hl, hz,
      hact, if_true, true_or]
    rfl
  · intro slba zi hall hidx hl hs
    have e := single slba zi hall hidx hl hs
    obtain ⟨s1, s2, s3⟩ := set_zd_ext_cases n zi hl
    refine ⟨fun hz => by rw [e, if_pos hz], fun hz hd => ?_⟩
    rw [if_neg hz, if_neg (by rw [hd]; simp)] at e
    refine ⟨?_, ?_, ?_, ?_⟩
    · intro hne
      rw [e, s1 hne]
      rfl
    · intro he hm hgt
      have hc : zns_aor_check n 1 0 = ⟨NvmeStatusCode.ZONE_TOO_MANY_ACTIVE, true⟩ := by
        unfold zns_aor_check
        rw [if_pos ⟨hm, hgt⟩]
      have hne : zns_aor_check n 1 0 ≠ NVME_SUCCESS := by rw [hc]; decide
      rw [e, s2 he hne, hc]
      rfl
    · intro he hne
      rw [e, s2 he hne]
      simp only [hne, if_false]
      rcases aor_check_cases n 1 0 with h | ⟨h, _⟩ | ⟨h, _⟩
      · exact absurd h hne
      · rw [h]; rfl
      · rw [h]; rfl
    · intro he hc
      obtain ⟨t1, t2, t3, t4, t5⟩ := s3 he hc
      refine ⟨(zns_set_zd_ext n zi).2, ?_, t2, t3, t4, t5, ?_⟩
      · rw [e, if_pos t1, t1]
      · rw [t5, Nat.testBit_or]
        simp [NVME_ZA_ZD_EXT_VALID]
        right
        decide
  · intro n' hsucc
    by_cases hall : req.cdw13 % U32 &&& 256 = 0
    · cases hidx : zns_get_mgmt_zone_slba_idx n req with
      | none =>
        unfold zns_zone_mgmt_send at hsucc
        simp [hall, hidx] at hsucc
      | some r =>
        obtain ⟨st, slba, zi⟩ := r
        by_cases hst : st = NVME_SUCCESS
        · subst hst
          by_cases hl : zi < n.zone_array.length
          · by_cases hs : slba = (zoneAt n zi).d.zslba
            · have e := single slba zi hall hidx hl hs
              obtain ⟨s1, s2, s3⟩ := set_zd_ext_cases n zi hl
              rw [e] at hsucc
              by_cases hz : n.zd_extension_size = 0
              · rw [if_pos hz] at hsucc
                exact absurd (congrArg Prod.fst (Option.some.inj hsucc))
                  (by simp [NVME_SUCCESS])
              · rw [if_neg hz] at hsucc
                by_cases hd : req.dma_prp ≠ NVME_SUCCESS
                · rw [if_pos hd] at hsucc
                  exact absurd (congrArg Prod.fst (Option.some.inj hsucc)) hd
                · rw [if_neg hd] at hsucc
                  by_cases hx : (zns_set_zd_ext n zi).1 = NVME_SUCCESS
                  · refine ⟨hz, hall, slba, zi, rfl, ?_⟩
                    by_cases he : (zoneAt n zi).d.zs = NvmeZoneState.EMPTY
                    · refine ⟨he, ?_⟩
                      by_contra hc
                      rw [s2 he hc] at hx
                      exact hc hx
                    · rw [s1 he] at hx
                      exact absurd hx (by simp [NVME_SUCCESS])
                  · rw [if_neg hx] at hsucc
                    exact absurd (congrArg Prod.fst (Option.some.inj hsucc))
                      (mgmt_send_status_ne _ hx)
            · unfold zns_zone_mgmt_send at hsucc
              simp [hall, hidx, hl, hs, NVME_SUCCESS] at hsucc
          · unfold zns_zone_mgmt_send at hsucc
            simp [hall, hidx, hl] at hsucc
        · unfold zns_zone_mgmt_send at hsucc
          simp only [hall, ne_eq, not_true_eq_false, decide_False, Bool.false_eq_true,
            not_false_eq_true, if_true, hidx, hst, Option.some.injEq, Prod.mk.injEq] at hsucc
          exact hsucc.1.elim
    · exfalso
      unfold zns_zone_mgmt_send at hsucc
      simp only [hall, ne_eq, not_false_eq_true, decide_True, not_true_eq_false, if_false,
        hact, true_or, if_true] at hsucc
      by_cases hl : 0 < n.zone_array.length
      · by_cases hz : 0 = (zoneAt n 0).d.zslba
        · simp [hl, ← hz, NVME_ZONE_ACTION_SET_ZD_EXT, NVME_ZONE_ACTION_OPEN,
            NVME_ZONE_ACTION_CLOSE, NVME_ZONE_ACTION_FINISH, NVME_ZONE_ACTION_RESET,
            NVME_ZONE_ACTION_OFFLINE, NVME_SUCCESS] at hsucc
        · simp [hl, hz, NVME_SUCCESS] at hsucc
      · simp [hl] at hsucc

theorem C17_set_zd_ext_action_witness :
    ∃ n', zns_zone_mgmt_send { exampleCtrl 2 4 1 1 with zd_extension_size := 64 }
        { exampleReq 0 0 with cdw10 := 4, cdw13 := NVME_ZONE_ACTION_SET_ZD_EXT } =
        some (NVME_SUCCESS, n') ∧
      n'.nr_active_zones = 1 ∧ (zoneAt n' 1).d.zs = NvmeZoneState.CLOSED ∧
      (zoneAt n' 1).d.za = 128 := by
  obtain ⟨n', h1, h2, _, h4, h5, _⟩ :=
    (((C17_set_zd_ext_action { exampleCtrl 2 4 1 1 with zd_extension_size := 64 }
      { exampleReq 0 0 with cdw10 := 4, cdw13 := NVME_ZONE_ACTION_SET_ZD_EXT }
      (by decide)).2.1 4 1 (by decide) (by decide) (by decide) (by decide)).2
      (by decide) (by decide)).2.2.2 (by decide) (by decide)
  exact ⟨n', h1, h2.trans (by decide), h4, h5.trans (by decide)⟩

/-- C19 (the claim at a concrete input): with a mask that selects closed zones
and read-only zones together, on a fresh controller of 2 zones,
`zns_do_zone_op` does not return: the list loop leaves its cursor `zone` null
and the array scan that follows starts from that cursor. -/
theorem C19_list_and_read_only_mask_faults :
    (zns_do_zone_op (exampleCtrl 2 4 0 0) 0
      (NVME_PROC_CLOSED_ZONES ||| NVME_PROC_READ_ONLY_ZONES) zns_offline_zone).isSome =
      false := by
  decide

/-- C19 (amended): in a state with the accounting invariant, for a handler that
keeps the invariant and touches only the zone it is given (the five zone
management handlers do). (1) For a non-zero mask without the read-only bit,
`zns_do_zone_op` is the visit of the closed, implicitly-open, explicitly-open
and full lists the mask selects, in that order, head to tail: the handler runs
on each zone with its state at that moment, and the first status that is
neither success nor `NVME_NO_COMPLETE` is returned at once, the zones behind it
untouched. (2) For the mask that selects read-only zones only, started at zone
0, it is the scan of the array that runs the handler on the read-only zones.
(3) Open-all with fewer free open slots than closed zones returns
`ZONE_TOO_MANY_OPEN` with do-not-retry and leaves exactly the first
`max_open_zones - nr_open_zones` zones of the closed list explicitly open. -/
theorem C19_bulk_visit_order (op : op_handler_t) (hop : HandlerOk op) (hloc : HandlerLocal op)
    (n : FemuCtrl) (zone : Nat) (hinv : Inv n) :
    (∀ mask, mask ≠ 0 → mask &&& NVME_PROC_READ_ONLY_ZONES = 0 →
      zns_do_zone_op n zone mask op = some (visitLists n mask op)) ∧
    (n.num_zones ≤ n.zone_array.length →
      zns_do_zone_op n 0 NVME_PROC_READ_ONLY_ZONES op =
        some (visitReadOnly op n.num_zones 0 NVME_SUCCESS n)) ∧
    (n.max_open_zones ≠ 0 → n.max_open_zones - n.nr_open_zones < n.closed_zones.length →
      ∃ n', zns_do_zone_op n zone NVME_PROC_CLOSED_ZONES zns_open_zone =
          some (⟨NvmeStatusCode.ZONE_TOO_MANY_OPEN, true⟩, n') ∧
        (∀ i zj, n.closed_zones[i]? = some zj → (zoneAt n' zj).d.zs =
          if i < n.max_open_zones - n.nr_open_zones then NvmeZoneState.EXPLICITLY_OPEN
          else NvmeZoneState.CLOSED) ∧
        (∀ zj, zj ∉ n.closed_zones → zoneAt n' zj = zoneAt n zj)) := by
  refine ⟨fun mask hm hro => do_zone_op_eq_visit op hop hloc n zone mask hinv hm hro,
    fun hn => do_zone_op_read_only op hloc n hn, fun hmo hk => ?_⟩
  obtain ⟨_, _, q3, _, _, _, d3, _⟩ := hinv.1
  obtain ⟨n', e, st, oth⟩ := open_all_foreach n.closed_zones NVME_SUCCESS n hinv hmo d3
    (fun z hz => (q3 z).1 hz) hk
  refine ⟨n', ?_, st, oth⟩
  unfold zns_do_zone_op
  simp only [NVME_PROC_CLOSED_ZONES] at e ⊢
  simp only [e]
  rfl

theorem C19_bulk_visit_order_witness :
    ∃ n', zns_do_zone_op
        (afterOps (exampleCtrl 3 4 0 1)
          [CoreOp.write (exampleReq 0 0) false false, CoreOp.zone_op 0 0 ZoneHandler.CLOSE,
           CoreOp.write (exampleReq 4 0) false false, CoreOp.zone_op 1 0 ZoneHandler.CLOSE])
        0 NVME_PROC_CLOSED_ZONES zns_open_zone =
        some (⟨NvmeStatusCode.ZONE_TOO_MANY_OPEN, true⟩, n') ∧
      (zoneAt n' 0).d.zs = NvmeZoneState.EXPLICITLY_OPEN ∧
      (zoneAt n' 1).d.zs = NvmeZoneState.CLOSED := by
  obtain ⟨n', e, st, _⟩ := (C19_bulk_visit_order zns_open_zone
    (handlerOk_fn ZoneHandler.OPEN) handlerLocal_open
    (afterOps (exampleCtrl 3 4 0 1)
      [CoreOp.write (exampleReq 0 0) false false, CoreOp.zone_op 0 0 ZoneHandler.CLOSE,
       CoreOp.write (exampleReq 4 0) false false, CoreOp.zone_op 1 0 ZoneHandler.CLOSE])
    0 (Inv_afterOps _ _ (Inv_exampleCtrl 3 4 0 1 (by decide)))).2.2 (by decide) (by decide)
  exact ⟨n', e, (st 0 0 (by decide)).trans (by decide), (st 1 1 (by decide)).trans (by decide)⟩

/-- C20: `zns_aor_check n act opn` returns only a status (it has no access to
the counters to change them). When the two 32-bit sums do not wrap, the status
is `ZONE_TOO_MANY_ACTIVE` with do-not-retry exactly when `max_active_zones ≠ 0`
and `nr_active_zones + act > max_active_zones`; otherwise it is
`ZONE_TOO_MANY_OPEN` with do-not-retry exactly when `max_open_zones ≠ 0` and
`nr_open_zones + opn > max_open_zones`; otherwise it is success. With both
limits 0 it is success for every input. -/
theorem C20_aor_check_result (n : FemuCtrl) (act opn : Nat) :
    (n.nr_active_zones + act < U32 → n.nr_open_zones + opn < U32 →
      (zns_aor_check n act opn = ⟨NvmeStatusCode.ZONE_TOO_MANY_ACTIVE, true⟩ ↔
        n.max_active_zones ≠ 0 ∧ n.nr_active_zones + act > n.max_active_zones) ∧
      (zns_aor_check n act opn = ⟨NvmeStatusCode.ZONE_TOO_MANY_OPEN, true⟩ ↔
        ¬ (n.max_active_zones ≠ 0 ∧ n.nr_active_zones + act > n.max_active_zones) ∧
          n.max_open_zones ≠ 0 ∧ n.nr_open_zones + opn > n.max_open_zones) ∧
      (zns_aor_check n act opn = NVME_SUCCESS ↔
        ¬ (n.max_active_zones ≠ 0 ∧ n.nr_active_zones + act > n.max_active_zones) ∧
          ¬ (n.max_open_zones ≠ 0 ∧ n.nr_open_zones + opn > n.max_open_zones))) ∧
    (n.max_active_zones = 0 → n.max_open_zones = 0 → zns_aor_check n act opn = NVME_SUCCESS) := by
  constructor
  · intro ha ho
    unfold zns_aor_check
    rw [Nat.mod_eq_of_lt ha, Nat.mod_eq_of_lt ho]
    by_cases h1 : n.max_active_zones ≠ 0 ∧ n.nr_active_zones + act > n.max_active_zones
    · rw [if_pos h1]
      simp [h1, NVME_SUCCESS]
    · rw [if_neg h1]
      by_cases h2 : n.max_open_zones ≠ 0 ∧ n.nr_open_zones + opn > n.max_open_zones
      · rw [if_pos h2]
        simp [h1, h2, NVME_SUCCESS]
      · rw [if_neg h2]
        simp [h1, h2, NVME_SUCCESS]
  · intro h1 h2
    unfold zns_aor_check
    simp [h1, h2]

theorem C20_aor_check_result_witness :
    zns_aor_check (afterOps (exampleCtrl 2 4 1 1) [CoreOp.zone_op 0 0 ZoneHandler.OPEN]) 1 0 =
      ⟨NvmeStatusCode.ZONE_TOO_MANY_ACTIVE, true⟩ :=
  (((C20_aor_check_result
    (afterOps (exampleCtrl 2 4 1 1) [CoreOp.zone_op 0 0 ZoneHandler.OPEN]) 1 0).1
    (by decide) (by decide)).1).2 ⟨by decide, by decide⟩

/-- C24: for 64-bit values `slba` and `nsze`, `zns_check_bounds` returns
`LBA_RANGE` with do-not-retry exactly when `slba + nlb > nsze` as a sum of
natural numbers (a sum that would wrap is refused), and success otherwise. -/
theorem C24_check_bounds_exact (n : FemuCtrl) (slba nlb : Nat) (hs : slba < U64)
    (hn : n.nsze < U64) :
    (zns_check_bounds n slba nlb = ⟨NvmeStatusCode.LBA_RANGE, true⟩ ↔ slba + nlb > n.nsze) ∧
    (zns_check_bounds n slba nlb = NVME_SUCCESS ↔ slba + nlb ≤ n.nsze) := by
  unfold zns_check_bounds
  by_cases hw : (U64 - 1) - slba < nlb
  · have hgt : slba + nlb > n.nsze := by omega
    rw [if_pos (Or.inl hw)]
    exact ⟨⟨fun _ => hgt, fun _ => rfl⟩,
      ⟨fun h => absurd h (by simp [NVME_SUCCESS]), fun h => absurd h (by omega)⟩⟩
  · have hm : (slba + nlb) % U64 = slba + nlb := Nat.mod_eq_of_lt (by omega)
    rw [hm]
    by_cases hgt : slba + nlb > n.nsze
    · rw [if_pos (Or.inr hgt)]
      exact ⟨⟨fun _ => hgt, fun _ => rfl⟩,
        ⟨fun h => absurd h (by simp [NVME_SUCCESS]), fun h => absurd h (by omega)⟩⟩
    · rw [if_neg (by rintro (h | h); exact hw h; exact hgt h)]
      exact ⟨⟨fun h => absurd h (by simp [NVME_SUCCESS]), fun h => absurd h hgt⟩,
        ⟨fun _ => by omega, fun _ => rfl⟩⟩

theorem C24_check_bounds_exact_witness :
    zns_check_bounds (exampleCtrl 2 4 0 0) (U64 - 1) 2 = ⟨NvmeStatusCode.LBA_RANGE, true⟩ ∧
      zns_check_bounds (exampleCtrl 2 4 0 0) 4 4 = NVME_SUCCESS :=
  ⟨(C24_check_bounds_exact (exampleCtrl 2 4 0 0) (U64 - 1) 2 (by decide) (by decide)).1.2
      (by decide),
    (C24_check_bounds_exact (exampleCtrl 2 4 0 0) 4 4 (by decide) (by decide)).2.2
      (by decide)⟩

/-- C30: on a zoned controller `zns_write` returns for every command and
request, the status is not `NVME_SUCCESS` and carries the do-not-retry bit
(also when `nvme_check_mdts` passes), and the controller afterwards is the
controller before: zones, lists, counters, placement cursor and die
watermarks are all unchanged. -/
theorem C30_write_never_succeeds (n : FemuCtrl) (cmd : NvmeCmd) (req : NvmeRequest)
    (hz : n.zoned = true) :
    ∃ out, zns_write n cmd req = some out ∧ out.status ≠ NVME_SUCCESS ∧
      out.status.dnr = true ∧ out.n = n ∧ out.data_offset = none ∧
      out.req = { req with is_write := true } := by
  unfold zns_write
  simp only [hz, not_true_eq_false, if_false]
  exact ⟨_, rfl, orDNR_ne_success _, rfl, rfl, rfl, rfl⟩

theorem C30_write_never_succeeds_witness :
    ∃ out, zns_write (exampleCtrl 2 4 0 0) ⟨NVME_CMD_WRITE, ⟨0, 0, 0⟩⟩ (exampleReq 0 0) =
        some out ∧ out.status ≠ NVME_SUCCESS ∧ out.n = exampleCtrl 2 4 0 0 := by
  obtain ⟨out, h1, h2, _, h4, _⟩ := C30_write_never_succeeds (exampleCtrl 2 4 0 0)
    ⟨NVME_CMD_WRITE, ⟨0, 0, 0⟩⟩ (exampleReq 0 0) (by decide)
  exact ⟨out, h1, h2, h4⟩

theorem get_set_fc (zns : zns_ssd) (p : ppa) (f : zns_fc) (hc : p.ch < zns.ch.length)
    (hf : p.fc < (zns.ch.getD p.ch default).fc.length) :
    get_fc (set_fc zns p f) p = f := by
  unfold get_fc set_fc
  simp only [List.getD_eq_getElem?_getD, List.getElem?_set, hc, if_true, Option.getD_some]
  simp only [List.getD_eq_getElem?_getD] at hf
  simp [hf]

theorem get_set_fc_other (zns : zns_ssd) (p q : ppa) (f : zns_fc)
    (hne : q.ch ≠ p.ch ∨ q.fc ≠ p.fc) :
    get_fc (set_fc zns p f) q = get_fc zns q := by
  unfold get_fc set_fc
  simp only [List.getD_eq_getElem?_getD, List.getElem?_set]
  by_cases hc : p.ch = q.ch
  · have hfc : ¬ p.fc = q.fc := fun e => hne.elim (fun h => h hc.symm) (fun h => h e.symm)
    rw [if_pos hc]
    by_cases hl : p.ch < zns.ch.length
    · rw [if_pos hl, hc]
      simp only [Option.getD_some, List.getElem?_set, hfc, if_false]
    · rw [if_neg hl]
      have : zns.ch[p.ch]? = none := List.getElem?_eq_none (Nat.le_of_not_lt hl)
      rw [← hc, this]
  · rw [if_neg hc]

/-- C25: `zns_advance_status` on an existing die with watermark `w`, for a
read, write or erase with delay `d` and effective submission time `t`, when
`max w t + d` fits 64 bits: the new watermark of the die is `max w t + d`, the
returned latency is `max w t + d - t`, so the latency is at least `d` and the
watermark does not decrease; no other die changes. For any other command kind
the latency is 0 and the timing state is unchanged. -/
theorem C25_advance_status_timing (n : FemuCtrl) (ncmd : nand_cmd) (p : ppa)
    (hc : p.ch < n.zns.ch.length) (hf : p.fc < (n.zns.ch.getD p.ch default).fc.length) :
    (ncmd.cmd ≠ NandOp.NAND_OTHER →
      max (get_fc n.zns p).next_fc_avail_time (effectiveStime n ncmd) + nandDelay n ncmd.cmd
        < U64 →
      (get_fc (zns_advance_status n ncmd p).2.zns p).next_fc_avail_time =
        max (get_fc n.zns p).next_fc_avail_time (effectiveStime n ncmd) +
          nandDelay n ncmd.cmd ∧
      (zns_advance_status n ncmd p).1 =
        max (get_fc n.zns p).next_fc_avail_time (effectiveStime n ncmd) +
          nandDelay n ncmd.cmd - effectiveStime n ncmd ∧
      (zns_advance_status n ncmd p).1 ≥ nandDelay n ncmd.cmd ∧
      (get_fc (zns_advance_status n ncmd p).2.zns p).next_fc_avail_time ≥
        (get_fc n.zns p).next_fc_avail_time ∧
      ∀ q : ppa, q.ch ≠ p.ch ∨ q.fc ≠ p.fc →
        get_fc (zns_advance_status n ncmd p).2.zns q = get_fc n.zns q) ∧
    (ncmd.cmd = NandOp.NAND_OTHER →
      (zns_advance_status n ncmd p).1 = 0 ∧ (zns_advance_status n ncmd p).2.zns = n.zns) := by
  have key : ∀ d : Nat,
      max (get_fc n.zns p).next_fc_avail_time (effectiveStime n ncmd) + d < U64 →
      ∀ m : FemuCtrl, m.zns = n.zns →
      (get_fc (set_fc m.zns p { get_fc m.zns p with next_fc_avail_time :=
          ((if (get_fc m.zns p).next_fc_avail_time < effectiveStime n ncmd then
            effectiveStime n ncmd else (get_fc m.zns p).next_fc_avail_time) + d) % U64 })
          p).next_fc_avail_time =
        max (get_fc n.zns p).next_fc_avail_time (effectiveStime n ncmd) + d ∧
      (((if (get_fc m.zns p).next_fc_avail_time < effectiveStime n ncmd then
            effectiveStime n ncmd else (get_fc m.zns p).next_fc_avail_time) + d) % U64 +
          (U64 - effectiveStime n ncmd)) % U64 =
        max (get_fc n.zns p).next_fc_avail_time (effectiveStime n ncmd) + d -
          effectiveStime n ncmd ∧
      ∀ q : ppa, q.ch ≠ p.ch ∨ q.fc ≠ p.fc →
        get_fc (set_fc m.zns p { get_fc m.zns p with next_fc_avail_time :=
          ((if (get_fc m.zns p).next_fc_avail_time < effectiveStime n ncmd then
            effectiveStime n ncmd else (get_fc m.zns p).next_fc_avail_time) + d) % U64 })
          q = get_fc n.zns q := by
    intro d hd m hm
    rw [hm]
    have hmax : (if (get_fc n.zns p).next_fc_avail_time < effectiveStime n ncmd then
        effectiveStime n ncmd else (get_fc n.zns p).next_fc_avail_time) =
        max (get_fc n.zns p).next_fc_avail_time (effectiveStime n ncmd) := by
      split
      · rw [Nat.max_def, if_pos (by omega)]
      · rw [Nat.max_def]
        split
        · omega
        · rfl
    rw [hmax, Nat.mod_eq_of_lt hd]
    have hle : effectiveStime n ncmd ≤
        max (get_fc n.zns p).next_fc_avail_time (effectiveStime n ncmd) := Nat.le_max_right _ _
    refine ⟨by rw [get_set_fc _ _ _ hc hf], ?_, fun q hq => get_set_fc_other _ _ _ _ hq⟩
    have e : max (get_fc n.zns p).next_fc_avail_time (effectiveStime n ncmd) + d +
        (U64 - effectiveStime n ncmd) =
        (max (get_fc n.zns p).next_fc_avail_time (effectiveStime n ncmd) + d -
          effectiveStime n ncmd) + U64 := by omega
    rw [e, Nat.add_mod_right, Nat.mod_eq_of_lt (by omega)]
  have hle : effectiveStime n ncmd ≤
      max (get_fc n.zns p).next_fc_avail_time (effectiveStime n ncmd) := Nat.le_max_right _ _
  have hge : (get_fc n.zns p).next_fc_avail_time ≤
      max (get_fc n.zns p).next_fc_avail_time (effectiveStime n ncmd) := Nat.le_max_left _ _
  constructor
  · intro hk hd
    by_cases hs : ncmd.stime = 0
    · have e : zns_advance_status n ncmd p =
          ((((if (get_fc n.zns p).next_fc_avail_time < effectiveStime n ncmd then
            effectiveStime n ncmd else (get_fc n.zns p).next_fc_avail_time) +
              nandDelay n ncmd.cmd) % U64 + (U64 - effectiveStime n ncmd)) % U64,
            { n with
              clock_reads := n.clock_reads + 1
              zns := set_fc n.zns p { get_fc n.zns p with next_fc_avail_time :=
              ((if (get_fc n.zns p).next_fc_avail_time < effectiveStime n ncmd then
                effectiveStime n ncmd else (get_fc n.zns p).next_fc_avail_time) +
                nandDelay n ncmd.cmd) % U64 } }) := by
        unfold zns_advance_status effectiveStime nandDelay
        cases hcmd : ncmd.cmd <;> first
          | exact absurd hcmd hk
          | simp only [hs, if_true]
      obtain ⟨k1, k2, k3⟩ := key (nandDelay n ncmd.cmd) hd n rfl
      rw [e]
      exact ⟨k1, k2, by rw [k2]; omega, by rw [k1]; omega, k3⟩
    · have e : zns_advance_status n ncmd p =
          ((((if (get_fc n.zns p).next_fc_avail_time < effectiveStime n ncmd then
            effectiveStime n ncmd else (get_fc n.zns p).next_fc_avail_time) +
              nandDelay n ncmd.cmd) % U64 + (U64 - effectiveStime n ncmd)) % U64,
            { n with
              zns := set_fc n.zns p { get_fc n.zns p with next_fc_avail_time :=
              ((if (get_fc n.zns p).next_fc_avail_time < effectiveStime n ncmd then
                effectiveStime n ncmd else (get_fc n.zns p).next_fc_avail_time) +
                nandDelay n ncmd.cmd) % U64 } }) := by
        unfold zns_advance_status effectiveStime nandDelay
        cases hcmd : ncmd.cmd <;> first
          | exact absurd hcmd hk
          | simp only [hs, if_false]
      obtain ⟨k1, k2, k3⟩ := key (nandDelay n ncmd.cmd) hd n rfl
      rw [e]
      exact ⟨k1, k2, by rw [k2]; omega, by rw [k1]; omega, k3⟩
  · intro hk
    unfold zns_advance_status
    by_cases hs : ncmd.stime = 0 <;> simp only [hk, hs, if_true, if_false] <;> trivial

theorem C25_advance_status_timing_witness :
    (get_fc (zns_advance_status (exampleCtrl 2 4 0 0) ⟨NandOp.NAND_READ, 7⟩ ⟨1, 0, 0⟩).2.zns
        ⟨1, 0, 0⟩).next_fc_avail_time = 40007 ∧
      (zns_advance_status (exampleCtrl 2 4 0 0) ⟨NandOp.NAND_READ, 7⟩ ⟨1, 0, 0⟩).1 = 40000 := by
  obtain ⟨h1, h2, _⟩ := (C25_advance_status_timing (exampleCtrl 2 4 0 0)
    ⟨NandOp.NAND_READ, 7⟩ ⟨1, 0, 0⟩ (by decide) (by decide)).1 (by decide) (by decide)
  exact ⟨h1.trans (by decide), h2.trans (by decide)⟩

/-- C27: (1) in every state reached from `zns_init_zoned_state` (counters 0,
fewer than `2^32` zones) by core operations, a zone is in the
implicitly-open, explicitly-open, closed or full list exactly when it is a zone
of the array in that state, so a zone that is `EMPTY`, `READ_ONLY` or
`OFFLINE` is in no list, and no list holds a zone twice. (2)
`zns_assign_zone_state` keeps this: in such a controller, for a zone of the
array, the lists afterwards again agree with the states, the zone has left the
list of its old state, and it is the last element of the list of its new
state. -/
theorem C27_zone_lists_match_states (n0 : FemuCtrl) (ops : List CoreOp) (n : FemuCtrl)
    (ho : n0.nr_open_zones = 0) (ha : n0.nr_active_zones = 0) (hz : n0.num_zones < U32)
    (hrun : runOps (zns_init_zoned_state n0) ops = some n) :
    ((∀ zi, zi ∈ n.imp_open_zones ↔
        zi < n.zone_array.length ∧ (zoneAt n zi).d.zs = NvmeZoneState.IMPLICITLY_OPEN) ∧
      (∀ zi, zi ∈ n.exp_open_zones ↔
        zi < n.zone_array.length ∧ (zoneAt n zi).d.zs = NvmeZoneState.EXPLICITLY_OPEN) ∧
      (∀ zi, zi ∈ n.closed_zones ↔
        zi < n.zone_array.length ∧ (zoneAt n zi).d.zs = NvmeZoneState.CLOSED) ∧
      (∀ zi, zi ∈ n.full_zones ↔
        zi < n.zone_array.length ∧ (zoneAt n zi).d.zs = NvmeZoneState.FULL) ∧
      n.imp_open_zones.Nodup ∧ n.exp_open_zones.Nodup ∧ n.closed_zones.Nodup ∧
      n.full_zones.Nodup) ∧
    (∀ zi, (zoneAt n zi).d.zs = NvmeZoneState.EMPTY ∨
        (zoneAt n zi).d.zs = NvmeZoneState.READ_ONLY ∨
        (zoneAt n zi).d.zs = NvmeZoneState.OFFLINE →
      zi ∉ n.imp_open_zones ∧ zi ∉ n.exp_open_zones ∧ zi ∉ n.closed_zones ∧
        zi ∉ n.full_zones) ∧
    (∀ zi st, zi < n.zone_array.length →
      QueuesOk (zns_assign_zone_state n zi st) ∧
      (zns_assign_zone_state n zi st).imp_open_zones = queueAfter n.imp_open_zones zi
        (decide ((zoneAt n zi).d.zs = NvmeZoneState.IMPLICITLY_OPEN))
        (decide (st = NvmeZoneState.IMPLICITLY_OPEN)) ∧
      (zns_assign_zone_state n zi st).exp_open_zones = queueAfter n.exp_open_zones zi
        (decide ((zoneAt n zi).d.zs = NvmeZoneState.EXPLICITLY_OPEN))
        (decide (st = NvmeZoneState.EXPLICITLY_OPEN)) ∧
      (zns_assign_zone_state n zi st).closed_zones = queueAfter n.closed_zones zi
        (decide ((zoneAt n zi).d.zs = NvmeZoneState.CLOSED))
        (decide (st = NvmeZoneState.CLOSED)) ∧
      (zns_assign_zone_state n zi st).full_zones = queueAfter n.full_zones zi
        (decide ((zoneAt n zi).d.zs = NvmeZoneState.FULL))
        (decide (st = NvmeZoneState.FULL))) := by
  have hinv : Inv n := Inv_runOps ops _ n (Inv_init n0 ho ha hz) hrun
  have hq := hinv.1
  refine ⟨hq, ?_, ?_⟩
  · intro zi hs
    obtain ⟨q1, q2, q3, q4, _⟩ := hq
    refine ⟨fun h => ?_, fun h => ?_, fun h => ?_, fun h => ?_⟩
    · have := ((q1 zi).1 h).2
      rcases hs with e | e | e <;> rw [e] at this <;> cases this
    · have := ((q2 zi).1 h).2
      rcases hs with e | e | e <;> rw [e] at this <;> cases this
    · have := ((q3 zi).1 h).2
      rcases hs with e | e | e <;> rw [e] at this <;> cases this
    · have := ((q4 zi).1 h).2
      rcases hs with e | e | e <;> rw [e] at this <;> cases this
  · intro zi st hl
    obtain ⟨l1, l2, l3, l4⟩ := assign_lists n zi st
    exact ⟨(assign_spec n zi st hq hl).1, l1, l2, l3, l4⟩

theorem C27_zone_lists_match_states_witness :
    (afterOps (exampleCtrl 2 4 1 1) [CoreOp.write (exampleReq 0 0) false false,
        CoreOp.zone_op 0 0 ZoneHandler.CLOSE]).closed_zones = [0] ∧
      (∀ zi, zi ∈ (afterOps (exampleCtrl 2 4 1 1) [CoreOp.write (exampleReq 0 0) false false,
        CoreOp.zone_op 0 0 ZoneHandler.CLOSE]).closed_zones ↔
        zi < (afterOps (exampleCtrl 2 4 1 1) [CoreOp.write (exampleReq 0 0) false false,
          CoreOp.zone_op 0 0 ZoneHandler.CLOSE]).zone_array.length ∧
        (zoneAt (afterOps (exampleCtrl 2 4 1 1) [CoreOp.write (exampleReq 0 0) false false,
          CoreOp.zone_op 0 0 ZoneHandler.CLOSE]) zi).d.zs = NvmeZoneState.CLOSED) := by
  have hm : (runOps (zns_init_zoned_state (exampleConfig 2 4 1 1))
      [CoreOp.write (exampleReq 0 0) false false, CoreOp.zone_op 0 0 ZoneHandler.CLOSE]).isSome =
      true := by decide
  obtain ⟨n, hn⟩ := Option.isSome_iff_exists.1 hm
  have ha : afterOps (exampleCtrl 2 4 1 1) [CoreOp.write (exampleReq 0 0) false false,
      CoreOp.zone_op 0 0 ZoneHandler.CLOSE] = n := by
    unfold afterOps exampleCtrl
    rw [hn]
    rfl
  have h := (C27_zone_lists_match_states (exampleConfig 2 4 1 1)
    [CoreOp.write (exampleReq 0 0) false false, CoreOp.zone_op 0 0 ZoneHandler.CLOSE] n
    (by decide) (by decide) (by decide) hn).1
  rw [ha]
  refine ⟨?_, h.2.2.1⟩
  rw [← ha]
  decide

theorem advance_step (n : FemuCtrl) (hc : n.zns.num_ch < 256) (hl : n.zns.num_lun < 256)
    (hch : n.zns.wp.ch < n.zns.num_ch) (hlun : n.zns.wp.lun < n.zns.num_lun) :
    advance_read_pointer n = some { n with zns := { n.zns with wp :=
      { ch := (n.zns.wp.ch + 1) % n.zns.num_ch,
        lun := if n.zns.wp.ch + 1 = n.zns.num_ch then (n.zns.wp.lun + 1) % n.zns.num_lun
          else n.zns.wp.lun } } } := by
  unfold advance_read_pointer
  simp only [Nat.mod_eq_of_lt hc, Nat.mod_eq_of_lt hl, hch, hlun, not_true_eq_false, if_false]
  by_cases h : n.zns.wp.ch + 1 = n.zns.num_ch
  · simp only [h, ne_eq, not_true_eq_false, if_false, if_true, Nat.mod_self]
    by_cases h2 : n.zns.wp.lun + 1 = n.zns.num_lun
    · simp only [h2, if_true, Nat.mod_self]
    · simp only [h2, if_false]
      rw [Nat.mod_eq_of_lt (by omega)]
  · simp only [h, ne_eq, not_false_eq_true, if_true, if_false]
    rw [Nat.mod_eq_of_lt (by omega)]

theorem succ_div_cases (a C : Nat) (hC : 0 < C) :
    (a + 1) / C = if a % C + 1 = C then a / C + 1 else a / C := by
  have hm := Nat.mod_lt a hC
  have hd := Nat.div_add_mod a C
  by_cases h : a % C + 1 = C
  · rw [if_pos h]
    have e : a + 1 = C * (a / C + 1) := by rw [Nat.mul_add, Nat.mul_one]; omega
    rw [e, Nat.mul_div_cancel_left _ hC]
  · rw [if_neg h]
    have e : a + 1 = (a % C + 1) + C * (a / C) := by omega
    rw [e, Nat.add_mul_div_left _ _ hC, Nat.div_eq_of_lt (by omega), Nat.zero_add]

theorem advance_times_pos (k : Nat) :
    ∀ n : FemuCtrl, n.zns.num_ch < 256 → n.zns.num_lun < 256 →
      n.zns.wp.ch < n.zns.num_ch → n.zns.wp.lun < n.zns.num_lun →
      advance_read_pointer_times k n = some { n with zns := { n.zns with wp :=
        { ch := (n.zns.wp.ch + k) % n.zns.num_ch,
          lun := (n.zns.wp.lun + (n.zns.wp.ch + k) / n.zns.num_ch) % n.zns.num_lun } } } := by
  induction k with
  | zero =>
    intro n _ _ hch hlun
    unfold advance_read_pointer_times
    simp only [Nat.add_zero, Nat.mod_eq_of_lt hch, Nat.div_eq_of_lt hch,
      Nat.mod_eq_of_lt hlun]
  | succ k ih =>
    intro n hc hl hch hlun
    have hC : 0 < n.zns.num_ch := by omega
    have hL : 0 < n.zns.num_lun := by omega
    unfold advance_read_pointer_times
    rw [advance_step n hc hl hch hlun]
    simp only
    have hl2 : (if n.zns.wp.ch + 1 = n.zns.num_ch then (n.zns.wp.lun + 1) % n.zns.num_lun
        else n.zns.wp.lun) < n.zns.num_lun := by
      split
      · exact Nat.mod_lt _ hL
      · exact hlun
    rw [ih { n with zns := { n.zns with wp :=
      { ch := (n.zns.wp.ch + 1) % n.zns.num_ch,
        lun := if n.zns.wp.ch + 1 = n.zns.num_ch then (n.zns.wp.lun + 1) % n.zns.num_lun
          else n.zns.wp.lun } } } hc hl (Nat.mod_lt _ hC) hl2]
    simp only
    have e1 : ((n.zns.wp.ch + 1) % n.zns.num_ch + k) % n.zns.num_ch =
        (n.zns.wp.ch + (k + 1)) % n.zns.num_ch := by
      rw [Nat.add_mod, Nat.mod_mod, ← Nat.add_mod]
      congr 1
      omega
    have e2 : ((if n.zns.wp.ch + 1 = n.zns.num_ch then (n.zns.wp.lun + 1) % n.zns.num_lun
          else n.zns.wp.lun) + ((n.zns.wp.ch + 1) % n.zns.num_ch + k) / n.zns.num_ch) %
          n.zns.num_lun =
        (n.zns.wp.lun + (n.zns.wp.ch + (k + 1)) / n.zns.num_ch) % n.zns.num_lun := by
      by_cases h : n.zns.wp.ch + 1 = n.zns.num_ch
      · rw [if_pos h]
        have e : n.zns.wp.ch + (k + 1) = k + n.zns.num_ch := by omega
        rw [h, Nat.mod_self, Nat.zero_add, e, Nat.add_div_right _ hC, Nat.add_mod,
          Nat.mod_mod, ← Nat.add_mod]
        congr 1
        omega
      · have e : n.zns.wp.ch + 1 + k = n.zns.wp.ch + (k + 1) := by omega
        rw [if_neg h, Nat.mod_eq_of_lt (show n.zns.wp.ch + 1 < n.zns.num_ch by omega), e]
    rw [e1, e2]

/-- C28: with `num_ch ≥ 1` and `num_lun ≥ 1` (both 8-bit values, as the
variables they are read into) and the cursor in range. (1)
`advance_read_pointer` returns, `ch` becomes `(ch + 1) mod num_ch`, `lun`
becomes `(lun + 1) mod num_lun` when `ch` wrapped and stays otherwise, the
cursor is in range again, and nothing else changes. (2) After `k` advances the
cursor is `((ch + k) mod num_ch, (lun + (ch + k) / num_ch) mod num_lun)`. (3)
After `num_ch * num_lun` advances the cursor is back at its start. (4) The
cursors after `j < k < num_ch * num_lun` advances differ, and (5) every pair
`(c, l)` in range is the cursor after some `k < num_ch * num_lun` advances: in
one round every pair is visited exactly once. -/
theorem C28_advance_read_pointer_round (n : FemuCtrl) (hc1 : 1 ≤ n.zns.num_ch)
    (hc : n.zns.num_ch < 256) (hl1 : 1 ≤ n.zns.num_lun) (hl : n.zns.num_lun < 256)
    (hch : n.zns.wp.ch < n.zns.num_ch) (hlun : n.zns.wp.lun < n.zns.num_lun) :
    (∃ m, advance_read_pointer n = some m ∧
      m.zns.wp.ch = (n.zns.wp.ch + 1) % n.zns.num_ch ∧
      m.zns.wp.lun = (if n.zns.wp.ch + 1 = n.zns.num_ch then (n.zns.wp.lun + 1) % n.zns.num_lun
        else n.zns.wp.lun) ∧
      m.zns.wp.ch < n.zns.num_ch ∧ m.zns.wp.lun < n.zns.num_lun ∧
      m = { n with zns := { n.zns with wp := m.zns.wp } }) ∧
    (∀ k, ∃ m, advance_read_pointer_times k n = some m ∧
      m.zns.wp.ch = (n.zns.wp.ch + k) % n.zns.num_ch ∧
      m.zns.wp.lun = (n.zns.wp.lun + (n.zns.wp.ch + k) / n.zns.num_ch) % n.zns.num_lun) ∧
    (∃ m, advance_read_pointer_times (n.zns.num_ch * n.zns.num_lun) n = some m ∧
      m.zns.wp = n.zns.wp) ∧
    (∀ j k mj mk, j < k → k < n.zns.num_ch * n.zns.num_lun →
      advance_read_pointer_times j n = some mj → advance_read_pointer_times k n = some mk →
      mj.zns.wp ≠ mk.zns.wp) ∧
    (∀ c l, c < n.zns.num_ch → l < n.zns.num_lun →
      ∃ k m, k < n.zns.num_ch * n.zns.num_lun ∧ advance_read_pointer_times k n = some m ∧
        m.zns.wp = ⟨c, l⟩) := by
  have hC : 0 < n.zns.num_ch := hc1
  have hL : 0 < n.zns.num_lun := hl1
  have hN : 0 < n.zns.num_ch * n.zns.num_lun := Nat.mul_pos hC hL
  have hNC : n.zns.num_ch ≤ n.zns.num_ch * n.zns.num_lun := Nat.le_mul_of_pos_right _ hL
  have hpos := fun k => advance_times_pos k n hc hl hch hlun
  refine ⟨?_, ?_, ?_, ?_, ?_⟩
  · refine ⟨_, advance_step n hc hl hch hlun, rfl, rfl, Nat.mod_lt _ hC, ?_, rfl⟩
    show (if n.zns.wp.ch + 1 = n.zns.num_ch then (n.zns.wp.lun + 1) % n.zns.num_lun
      else n.zns.wp.lun) < n.zns.num_lun
    split
    · exact Nat.mod_lt _ hL
    · exact hlun
  · intro k
    exact ⟨_, hpos k, rfl, rfl⟩
  · refine ⟨_, hpos _, ?_⟩
    show (⟨(n.zns.wp.ch + n.zns.num_ch * n.zns.num_lun) % n.zns.num_ch,
      (n.zns.wp.lun + (n.zns.wp.ch + n.zns.num_ch * n.zns.num_lun) / n.zns.num_ch) %
        n.zns.num_lun⟩ : write_pointer) = n.zns.wp
    rw [Nat.add_mul_mod_self_left, Nat.mod_eq_of_lt hch, Nat.add_mul_div_left _ _ hC,
      Nat.div_eq_of_lt hch, Nat.zero_add, Nat.add_mod_right, Nat.mod_eq_of_lt hlun]
  · intro j k mj mk hjk hk ej ek heq
    rw [hpos j] at ej
    rw [hpos k] at ek
    have e1 := congrArg write_pointer.ch heq
    have e2 := congrArg write_pointer.lun heq
    rw [← Option.some.inj ej, ← Option.some.inj ek] at e1 e2
    simp only at e1 e2
    have da := Nat.div_add_mod (n.zns.wp.ch + j) n.zns.num_ch
    have db := Nat.div_add_mod (n.zns.wp.ch + k) n.zns.num_ch
    have hq : (n.zns.wp.ch + j) / n.zns.num_ch ≤ (n.zns.wp.ch + k) / n.zns.num_ch :=
      Nat.div_le_div_right (by omega)
    have hmod : (n.zns.wp.ch + j) / n.zns.num_ch ≡ (n.zns.wp.ch + k) / n.zns.num_ch
        [MOD n.zns.num_lun] := Nat.ModEq.add_left_cancel' n.zns.wp.lun e2
    have hdvd : n.zns.num_lun ∣
        (n.zns.wp.ch + k) / n.zns.num_ch - (n.zns.wp.ch + j) / n.zns.num_ch :=
      (Nat.modEq_iff_dvd' hq).1 hmod
    by_cases hz : (n.zns.wp.ch + k) / n.zns.num_ch - (n.zns.wp.ch + j) / n.zns.num_ch = 0
    · have : (n.zns.wp.ch + k) / n.zns.num_ch = (n.zns.wp.ch + j) / n.zns.num_ch := by omega
      rw [this, ← e1] at db
      omega
    · have hge := Nat.le_of_dvd (Nat.pos_of_ne_zero hz) hdvd
      have hmul := Nat.mul_le_mul_left n.zns.num_ch hge
      rw [Nat.mul_sub] at hmul
      rw [← e1] at db
      omega
  · intro c l hc' hl'
    have hq0 : (l + n.zns.num_lun - n.zns.wp.lun) % n.zns.num_lun < n.zns.num_lun :=
      Nat.mod_lt _ hL
    have hres : ∀ t, (n.zns.wp.lun + ((l + n.zns.num_lun - n.zns.wp.lun) % n.zns.num_lun +
        t * n.zns.num_lun)) % n.zns.num_lun = l := by
      intro t
      rw [← Nat.add_assoc, Nat.add_mul_mod_self_right, Nat.add_mod, Nat.mod_mod,
        ← Nat.add_mod]
      have e : n.zns.wp.lun + (l + n.zns.num_lun - n.zns.wp.lun) = l + n.zns.num_lun := by
        omega
      rw [e, Nat.add_mod_right, Nat.mod_eq_of_lt hl']
    by_cases hge : n.zns.wp.ch ≤
        (l + n.zns.num_lun - n.zns.wp.lun) % n.zns.num_lun * n.zns.num_ch + c
    · have hb : (l + n.zns.num_lun - n.zns.wp.lun) % n.zns.num_lun * n.zns.num_ch + c <
          n.zns.num_ch * n.zns.num_lun := by
        have : ((l + n.zns.num_lun - n.zns.wp.lun) % n.zns.num_lun + 1) * n.zns.num_ch ≤
            n.zns.num_lun * n.zns.num_ch := Nat.mul_le_mul_right _ hq0
        rw [Nat.add_mul, Nat.one_mul, Nat.mul_comm n.zns.num_lun] at this
        omega
      refine ⟨(l + n.zns.num_lun - n.zns.wp.lun) % n.zns.num_lun * n.zns.num_ch + c -
        n.zns.wp.ch, _, by omega, hpos _, ?_⟩
      have e : n.zns.wp.ch + ((l + n.zns.num_lun - n.zns.wp.lun) % n.zns.num_lun *
          n.zns.num_ch + c - n.zns.wp.ch) =
          c + n.zns.num_ch * ((l + n.zns.num_lun - n.zns.wp.lun) % n.zns.num_lun) := by
        rw [Nat.mul_comm n.zns.num_ch]
        omega
      show (⟨_, _⟩ : write_pointer) = ⟨c, l⟩
      rw [e, Nat.add_mul_mod_self_left, Nat.mod_eq_of_lt hc', Nat.add_mul_div_left _ _ hC,
        Nat.div_eq_of_lt hc', Nat.zero_add]
      have := hres 0
      rw [Nat.zero_mul, Nat.add_zero] at this
      rw [this]
    · have hq00 : (l + n.zns.num_lun - n.zns.wp.lun) % n.zns.num_lun = 0 := by
        by_contra h0
        have h1 : 1 * n.zns.num_ch ≤
            (l + n.zns.num_lun - n.zns.wp.lun) % n.zns.num_lun * n.zns.num_ch :=
          Nat.mul_le_mul_right _ (Nat.pos_of_ne_zero h0)
        rw [Nat.one_mul] at h1
        exact hge (Nat.le_trans (Nat.le_of_lt hch) (Nat.le_trans h1 (Nat.le_add_right _ _)))
      rw [hq00, Nat.zero_mul, Nat.zero_add] at hge
      refine ⟨n.zns.num_ch * n.zns.num_lun + c - n.zns.wp.ch, _, by omega, hpos _, ?_⟩
      have e : n.zns.wp.ch + (n.zns.num_ch * n.zns.num_lun + c - n.zns.wp.ch) =
          c + n.zns.num_ch * n.zns.num_lun := by omega
      show (⟨_, _⟩ : write_pointer) = ⟨c, l⟩
      rw [e, Nat.add_mul_mod_self_left, Nat.mod_eq_of_lt hc', Nat.add_mul_div_left _ _ hC,
        Nat.div_eq_of_lt hc', Nat.zero_add]
      have := hres 1
      rw [hq00, Nat.zero_add, Nat.one_mul] at this
      rw [this]

theorem C28_advance_read_pointer_round_witness :
    ∃ m, advance_read_pointer_times 4 (exampleCtrl 2 4 0 0) = some m ∧
      m.zns.wp = (exampleCtrl 2 4 0 0).zns.wp :=
  (C28_advance_read_pointer_round (exampleCtrl 2 4 0 0) (by decide) (by decide) (by decide)
    (by decide) (by decide) (by decide)).2.2.1

/-- C23 (counterexample): a namespace of 2 TiB with 512-byte blocks and zones
of 512 bytes (one block each), no limits and no descriptor extension.
`zns_init_zone_geometry` returns 0 (success) with `zone_size = 1`, and the
stored `num_zones` is 0, while `(namespace bytes / lba_size) / zone_size` is
`2^32`: the quotient is truncated to the 32-bit field. -/
theorem C23_zone_count_truncated :
    (zns_init_zone_geometry (exampleConfig 0 0 0 0) 512 0 (2 ^ 41)).map
        (fun o => (o.1, o.2.zone_size, o.2.zone_capacity, o.2.num_zones)) =
      some (0, 1, 1, 0) ∧
    2 ^ 41 / 2 ^ (exampleConfig 0 0 0 0).lbads / 1 = 2 ^ 32 := by
  decide

/-- C23 (amended): for a block size shift below 31 `zns_init_zone_geometry`
returns 0 or -1, and -1 iff one of: capacity bytes > size bytes; size bytes <
LBA size; capacity bytes < LBA size; `max_open_zones` > `num_zones`;
`max_active_zones` > `num_zones`; `zd_extension_size` not a multiple of 64;
`zd_extension_size / 64 > 0xff`, where `num_zones` is the stored 32-bit value
`((size / lba_size) / zone_size) mod 2^32`. On success the controller differs
from the old one in `zone_size = size bytes / lba_size ≥ 1`, `zone_capacity =
capacity bytes / lba_size`, between 1 and `zone_size`, and `num_zones`, which
equals `(size / lba_size) / zone_size` whenever that is below `2^32`; both
limits are at most `num_zones`. -/
theorem C23_init_zone_geometry_result (n : FemuCtrl) (zone_size_bs zone_cap_bs size : Nat)
    (hl : n.lbads < 31) :
    ∃ r m, zns_init_zone_geometry n zone_size_bs zone_cap_bs size = some (r, m) ∧
      (r = 0 ∨ r = -1) ∧
      (r = -1 ↔
        (zoneCapBytes zone_size_bs zone_cap_bs > zoneSizeBytes zone_size_bs ∨
         zoneSizeBytes zone_size_bs < 2 ^ n.lbads ∨
         zoneCapBytes zone_size_bs zone_cap_bs < 2 ^ n.lbads ∨
         n.max_open_zones >
           (size / 2 ^ n.lbads / (zoneSizeBytes zone_size_bs / 2 ^ n.lbads)) % U32 ∨
         n.max_active_zones >
           (size / 2 ^ n.lbads / (zoneSizeBytes zone_size_bs / 2 ^ n.lbads)) % U32 ∨
         n.zd_extension_size % 64 ≠ 0 ∨
         n.zd_extension_size / 64 > 255)) ∧
      (r = 0 →
        m = { n with
              zone_size := zoneSizeBytes zone_size_bs / 2 ^ n.lbads,
              zone_capacity := zoneCapBytes zone_size_bs zone_cap_bs / 2 ^ n.lbads,
              num_zones :=
                (size / 2 ^ n.lbads / (zoneSizeBytes zone_size_bs / 2 ^ n.lbads)) % U32 } ∧
        1 ≤ m.zone_size ∧ 1 ≤ m.zone_capacity ∧ m.zone_capacity ≤ m.zone_size ∧
        (size / 2 ^ n.lbads / m.zone_size < U32 →
          m.num_zones = size / 2 ^ n.lbads / m.zone_size) ∧
        m.max_open_zones ≤ m.num_zones ∧ m.max_active_zones ≤ m.num_zones) := by
  have hzs : (if zone_size_bs ≠ 0 then zone_size_bs else NVME_DEFAULT_ZONE_SIZE) =
      zoneSizeBytes zone_size_bs := by
    unfold zoneSizeBytes NVME_DEFAULT_ZONE_SIZE
    by_cases h : zone_size_bs = 0
    · simp [h]
    · simp [h]
  have hzc : (if zone_cap_bs ≠ 0 then zone_cap_bs else zoneSizeBytes zone_size_bs) =
      zoneCapBytes zone_size_bs zone_cap_bs := by
    unfold zoneCapBytes
    by_cases h : zone_cap_bs = 0
    · simp [h]
    · simp [h]
  have hand : n.zd_extension_size &&& 0x3f = n.zd_extension_size % 64 :=
    Nat.and_pow_two_sub_one_eq_mod n.zd_extension_size 6
  have hshr : n.zd_extension_size >>> 6 = n.zd_extension_size / 64 :=
    Nat.shiftRight_eq_div_pow n.zd_extension_size 6
  have hpos : 0 < 2 ^ n.lbads := Nat.two_pow_pos n.lbads
  unfold zns_init_zone_geometry
  simp only [Nat.not_le.2 hl, if_false, hzs, hzc, hand, hshr]
  generalize zoneSizeBytes zone_size_bs = zs
  generalize zoneCapBytes zone_size_bs zone_cap_bs = zc
  generalize 2 ^ n.lbads = lb at hpos
  by_cases h1 : zc > zs
  · rw [if_pos h1]
    exact ⟨_, _, rfl, Or.inr rfl, ⟨fun _ => Or.inl h1, fun _ => rfl⟩, fun h => by simp at h⟩
  rw [if_neg h1]
  by_cases h2 : zs < lb
  · rw [if_pos h2]
    exact ⟨_, _, rfl, Or.inr rfl, ⟨fun _ => Or.inr (Or.inl h2), fun _ => rfl⟩,
      fun h => by simp at h⟩
  rw [if_neg h2]
  by_cases h3 : zc < lb
  · rw [if_pos h3]
    exact ⟨_, _, rfl, Or.inr rfl, ⟨fun _ => Or.inr (Or.inr (Or.inl h3)), fun _ => rfl⟩,
      fun h => by simp at h⟩
  rw [if_neg h3]
  have hzs1 : 1 ≤ zs / lb := (Nat.one_le_div_iff hpos).2 (Nat.not_lt.1 h2)
  have hzc1 : 1 ≤ zc / lb := (Nat.one_le_div_iff hpos).2 (Nat.not_lt.1 h3)
  have hle : zc / lb ≤ zs / lb := Nat.div_le_div_right (Nat.not_lt.1 h1)
  generalize hnz : (size / lb / (zs / lb)) % U32 = nz
  by_cases h4 : n.max_open_zones > nz
  · rw [if_pos h4]
    exact ⟨_, _, rfl, Or.inr rfl,
      ⟨fun _ => Or.inr (Or.inr (Or.inr (Or.inl h4))), fun _ => rfl⟩, fun h => by simp at h⟩
  rw [if_neg h4]
  by_cases h5 : n.max_active_zones > nz
  · rw [if_pos h5]
    exact ⟨_, _, rfl, Or.inr rfl,
      ⟨fun _ => Or.inr (Or.inr (Or.inr (Or.inr (Or.inl h5)))), fun _ => rfl⟩,
      fun h => by simp at h⟩
  rw [if_neg h5]
  by_cases h6 : n.zd_extension_size % 64 ≠ 0
  · have h0 : n.zd_extension_size ≠ 0 := fun h => h6 (by rw [h])
    rw [if_pos h0, if_pos h6]
    exact ⟨_, _, rfl, Or.inr rfl,
      ⟨fun _ => Or.inr (Or.inr (Or.inr (Or.inr (Or.inr (Or.inl h6))))), fun _ => rfl⟩,
      fun h => by simp at h⟩
  by_cases h7 : n.zd_extension_size / 64 > 255
  · have h0 : n.zd_extension_size ≠ 0 := fun h => by rw [h] at h7; simp at h7
    rw [if_pos h0, if_neg h6, if_pos h7]
    exact ⟨_, _, rfl, Or.inr rfl,
      ⟨fun _ => Or.inr (Or.inr (Or.inr (Or.inr (Or.inr (Or.inr h7))))), fun _ => rfl⟩,
      fun h => by simp at h⟩
  have hres : (if n.zd_extension_size ≠ 0 then
        if n.zd_extension_size % 64 ≠ 0 then
          some ((-1 : Int), { n with
            zone_size := zs / lb, zone_capacity := zc / lb, num_zones := nz })
        else if n.zd_extension_size / 64 > 255 then
          some ((-1 : Int), { n with
            zone_size := zs / lb, zone_capacity := zc / lb, num_zones := nz })
        else some ((0 : Int), { n with
            zone_size := zs / lb, zone_capacity := zc / lb, num_zones := nz })
      else some ((0 : Int), { n with
            zone_size := zs / lb, zone_capacity := zc / lb, num_zones := nz })) =
      some ((0 : Int), { n with
            zone_size := zs / lb, zone_capacity := zc / lb, num_zones := nz }) := by
    rw [if_neg h6, if_neg h7]
    split <;> rfl
  refine ⟨_, _, hres, Or.inl rfl, ⟨fun h => by simp at h, fun h => ?_⟩, fun _ => ?_⟩
  · rcases h with h | h | h | h | h | h | h
    · exact (h1 h).elim
    · exact (h2 h).elim
    · exact (h3 h).elim
    · exact (h4 h).elim
    · exact (h5 h).elim
    · exact (h6 h).elim
    · exact (h7 h).elim
  · exact ⟨rfl, hzs1, hzc1, hle, fun hlt => by
      show nz = size / lb / (zs / lb)
      rw [← hnz]
      exact Nat.mod_eq_of_lt hlt, Nat.not_lt.1 h4, Nat.not_lt.1 h5⟩

theorem C23_init_zone_geometry_result_witness :
    ∃ r m, zns_init_zone_geometry (exampleConfig 0 0 2 1) 2048 1024 8192 = some (r, m) ∧
      (r = 0 ∨ r = -1) ∧ (r = 0 → m.zone_size = 4 ∧ m.zone_capacity = 2 ∧ m.num_zones = 4) := by
  obtain ⟨r, m, e, h01, _, hs⟩ :=
    C23_init_zone_geometry_result (exampleConfig 0 0 2 1) 2048 1024 8192 (by decide)
  refine ⟨r, m, e, h01, fun h0 => ?_⟩
  rw [(hs h0).1]
  decide

theorem report_count_eq (n : FemuCtrl) (f : Nat) (part : Bool) (mz cap : Nat) :
    ∀ (zs : List NvmeZone) (slba acc : Nat),
      cap ≤ slba + zs.length * n.zone_size →
      (zs ≠ [] → slba + (zs.length - 1) * n.zone_size < cap) →
      slba + zs.length * n.zone_size < U64 →
      zns_report_count n f part mz cap zs slba acc =
        some (if part = true then
            (if acc ≥ mz then acc else min (acc + zs.countP (zns_zone_matches_filter f)) mz)
          else acc + zs.countP (zns_zone_matches_filter f)) := by
  intro zs
  induction zs with
  | nil =>
    intro slba acc h1 _ _
    simp only [List.length_nil, Nat.zero_mul, Nat.add_zero] at h1
    unfold zns_report_count
    rw [if_neg (by omega)]
    simp only [List.countP_nil, Nat.add_zero]
    congr 1
    by_cases hp : part = true
    · rw [if_pos hp]
      split
      · rfl
      · omega
    · rw [if_neg hp]
  | cons z rest ih =>
    intro slba acc h1 h2 h3
    simp only [List.length_cons, Nat.add_sub_cancel, Nat.succ_mul] at h1 h2 h3
    have h2 := h2 (by simp)
    unfold zns_report_count
    rw [if_pos (by omega)]
    by_cases hb : part = true ∧ acc ≥ mz
    · rw [if_pos hb, if_pos hb.1, if_pos hb.2]
    · rw [if_neg hb, Nat.mod_eq_of_lt (by omega)]
      rw [ih _ _ (by omega) (fun hne => by
        have : 1 ≤ rest.length := List.length_pos.2 hne
        have e : rest.length * n.zone_size =
            (rest.length - 1) * n.zone_size + n.zone_size := by
          rw [← Nat.succ_mul]
          congr 1
          omega
        omega) (by omega)]
      congr 1
      rw [List.countP_cons]
      by_cases hp : part = true
      · have hacc : ¬ acc ≥ mz := fun h => hb ⟨hp, h⟩
        rw [if_pos hp, if_pos hp, if_neg hacc]
        cases hm : zns_zone_matches_filter f z
        · simp only [Bool.false_eq_true, if_false, Nat.add_zero, if_neg hacc]
        · simp only [if_true]
          split <;> omega
      · rw [if_neg hp, if_neg hp]
        cases hm : zns_zone_matches_filter f z
        · simp only [Bool.false_eq_true, if_false, Nat.add_zero]
        · simp only [if_true]
          omega

theorem count_drop_eq (n : FemuCtrl) (p : NvmeZone → Bool) :
    ∀ (k s : Nat), s + k = n.zone_array.length →
      (n.zone_array.drop s).countP p =
        ((List.range' s k).filter (fun i => p (zoneAt n i))).length := by
  intro k
  induction k with
  | zero =>
    intro s hs
    rw [List.drop_of_length_le (by omega)]
    rfl
  | succ k ih =>
    intro s hs
    rw [drop_zoneAt n s (by omega), List.range'_succ, List.countP_cons, List.filter_cons,
      ih (s + 1) (by omega)]
    by_cases hm : p (zoneAt n s) = true
    · simp only [hm, if_true, List.length_cons]
    · simp only [hm, if_false, Nat.add_zero]
      rfl

theorem report_fill_eq (n : FemuCtrl) (wp_valid : wp_valid_t) (extended : Bool) (f : Nat) :
    ∀ (k idx mz : Nat), idx + k = n.zone_array.length →
      zns_report_fill n wp_valid extended f k idx mz =
        some ((((List.range' idx k).filter
          (fun i => zns_zone_matches_filter f (zoneAt n i))).take mz).map
            (reportEntry n wp_valid extended)) := by
  intro k
  induction k with
  | zero =>
    intro idx mz _
    unfold zns_report_fill
    simp
  | succ k ih =>
    intro idx mz hk
    unfold zns_report_fill
    by_cases hmz : mz > 0
    · rw [if_pos hmz, if_pos (by omega), List.range'_succ, List.filter_cons]
      by_cases hm : zns_zone_matches_filter f (zoneAt n idx) = true
      · simp only [hm, if_true]
        rw [ih (idx + 1) (mz - 1) (by omega)]
        obtain ⟨m1, rfl⟩ : ∃ m1, mz = m1 + 1 := ⟨mz - 1, by omega⟩
        simp only [Nat.add_sub_cancel, Option.map_some', List.take_succ_cons, List.map_cons]
        rfl
      · simp only [hm, if_false]
        rw [ih (idx + 1) mz (by omega)]
        rfl
    · rw [if_neg hmz]
      have : mz = 0 := by omega
      subst this
      rfl

theorem zone_idx_value (n : FemuCtrl) (slba : Nat) (hg : ZoneGeom n)
    (h : slba < n.num_zones * n.zone_size) :
    zns_zone_idx n slba = some (slba / n.zone_size) := by
  obtain ⟨hz, _, hn, _, hlog, _⟩ := hg
  have hlt : slba / n.zone_size < n.num_zones := (Nat.div_lt_iff_lt_mul hz).2 h
  unfold zns_zone_idx
  by_cases hl : n.zone_size_log2 > 0
  · rw [if_pos hl, Nat.shiftRight_eq_div_pow, ← hlog hl, Nat.mod_eq_of_lt (by omega)]
  · rw [if_neg hl, if_neg (by omega), Nat.mod_eq_of_lt (by omega)]

/-- The zone report in closed form, for a namespace whose capacity in blocks
ends with the last zone or less than `slba mod zone_size` blocks behind it, so
that the counting loop stays inside the zone array. -/
theorem mgmt_recv_eq (n : FemuCtrl) (wp_valid : wp_valid_t) (req : NvmeRequest)
    (hg : ZoneGeom n) (hsz : n.nsze = n.num_zones * n.zone_size)
    (hc1 : n.num_zones * n.zone_size ≤ zns_ns_nlbas n)
    (hc2 : zns_ns_nlbas n ≤ n.num_zones * n.zone_size + reportSlba req % n.zone_size)
    (hnw : n.nsze + n.zone_size ≤ U64) (hv : ReportRequestValid n req) :
    zns_zone_mgmt_recv n wp_valid req = some (req.dma_prp, some
      ⟨if reportPartial req = true then
          min (reportMatches n (reportZrasf req) (reportSlba req / n.zone_size)).length
            (reportMaxZones n req)
        else (reportMatches n (reportZrasf req) (reportSlba req / n.zone_size)).length,
       ((reportMatches n (reportZrasf req) (reportSlba req / n.zone_size)).take
          (reportMaxZones n req)).map (reportEntry n wp_valid (reportZra req = 1))⟩) := by
  obtain ⟨hzoned, hslba, hzra, hf, hds, hmdts⟩ := hv
  have hg2 := hg
  obtain ⟨hz, hlen, hn, hmul, hlog, hzslba⟩ := hg2
  have hidx := zone_idx_value n (reportSlba req) hg (by rw [← hsz]; exact hslba)
  have hlt : reportSlba req / n.zone_size < n.num_zones :=
    (Nat.div_lt_iff_lt_mul hz).2 (by rw [← hsz]; exact hslba)
  have h1 : zns_get_mgmt_zone_slba_idx n req =
      some (NVME_SUCCESS, reportSlba req, reportSlba req / n.zone_size) := by
    unfold zns_get_mgmt_zone_slba_idx
    simp only [hzoned, not_true_eq_false, if_false]
    rw [show req.cdw11 % U32 * U32 + req.cdw10 % U32 = reportSlba req from rfl,
      if_neg (by omega), hidx]
    simp only
    rw [if_pos hlt]
  have hdiv := Nat.div_add_mod (reportSlba req) n.zone_size
  have hmod := Nat.mod_lt (reportSlba req) hz
  have hlen2 : (n.zone_array.drop (reportSlba req / n.zone_size)).length =
      n.num_zones - reportSlba req / n.zone_size := by
    rw [List.length_drop, hlen]
  have hsplit : n.num_zones * n.zone_size =
      n.zone_size * (reportSlba req / n.zone_size) +
        (n.num_zones - reportSlba req / n.zone_size) * n.zone_size := by
    rw [Nat.mul_comm n.zone_size, ← Nat.add_mul]
    congr 1
    omega
  have hcount := report_count_eq n (reportZrasf req) (reportPartial req) (reportMaxZones n req)
    (zns_ns_nlbas n) (n.zone_array.drop (reportSlba req / n.zone_size)) (reportSlba req) 0
    (by rw [hlen2]; omega)
    (fun _ => by
      rw [hlen2]
      have e : (n.num_zones - reportSlba req / n.zone_size) * n.zone_size =
          (n.num_zones - reportSlba req / n.zone_size - 1) * n.zone_size + n.zone_size := by
        rw [← Nat.succ_mul]
        congr 1
        omega
      omega)
    (by rw [hlen2]; omega)
  rw [count_drop_eq n _ (n.num_zones - reportSlba req / n.zone_size) _ (by omega)] at hcount
  have hfill := report_fill_eq n wp_valid (reportZra req = 1) (reportZrasf req)
    (n.num_zones - reportSlba req / n.zone_size) (reportSlba req / n.zone_size)
    (reportMaxZones n req) (by omega)
  have hzra1 : ¬ (reportZra req ≠ 0 ∧ reportZra req ≠ 1) := by
    rcases hzra with h | h
    · exact fun c => c.1 h
    · exact fun c => c.2 h.1
  have hzra2 : ¬ (reportZra req = 1 ∧ n.zd_extension_size = 0) := by
    rcases hzra with h | h
    · exact fun c => by omega
    · exact fun c => h.2 c.2
  unfold zns_zone_mgmt_recv
  simp only [h1]
  rw [if_neg (by simp),
    show req.cdw13 % U32 &&& 255 = reportZra req from rfl, if_neg hzra1, if_neg hzra2,
    show (req.cdw13 % U32) >>> 8 &&& 255 = reportZrasf req from rfl,
    if_neg (by unfold NVME_ZONE_REPORT_OFFLINE; omega),
    show (req.cdw12 % U32 + 1) * 4 % U32 = reportDataSize req from rfl,
    if_neg (by omega), hmdts, if_neg (by simp)]
  rw [show decide ((req.cdw13 % U32) >>> 16 &&& 1 ≠ 0) = reportPartial req from rfl,
    show ((reportDataSize req - 64) / if reportZra req = 1 then 64 + n.zd_extension_size else 64)
      = reportMaxZones n req from rfl, hcount]
  simp only [hfill]
  unfold reportMatches
  congr 4
  by_cases hp : reportPartial req = true
  · rw [if_pos hp, if_pos hp, Nat.zero_add]
    split
    · omega
    · rfl
  · rw [if_neg hp, if_neg hp, Nat.zero_add]

/-- The zone report of `mgmt_recv_eq`, property by property. With
`s = slba / zone_size`, `m` the number of zones with index in `[s, num_zones)`
matching the filter and `max_zones = (data_size - 64) / entry size`: the header
count is `m` when the partial flag is clear and `min m max_zones` when it is
set; the entries are the first `min m max_zones` matching zones, one entry per
zone, in ascending index order starting from `s`. -/
theorem zone_report_contents (n : FemuCtrl) (wp_valid : wp_valid_t) (req : NvmeRequest)
    (hg : ZoneGeom n) (hsz : n.nsze = n.num_zones * n.zone_size)
    (hc1 : n.num_zones * n.zone_size ≤ zns_ns_nlbas n)
    (hc2 : zns_ns_nlbas n ≤ n.num_zones * n.zone_size + reportSlba req % n.zone_size)
    (hnw : n.nsze + n.zone_size ≤ U64) (hv : ReportRequestValid n req) :
    (∀ i, i ∈ reportMatches n (reportZrasf req) (reportSlba req / n.zone_size) ↔
      (reportSlba req / n.zone_size ≤ i ∧ i < n.num_zones ∧
        zns_zone_matches_filter (reportZrasf req) (zoneAt n i) = true)) ∧
    List.Pairwise (fun a b => a < b)
      (reportMatches n (reportZrasf req) (reportSlba req / n.zone_size)) ∧
    ∃ rep, zns_zone_mgmt_recv n wp_valid req = some (req.dma_prp, some rep) ∧
      rep.nr_zones =
        (if reportPartial req = true then
          min (reportMatches n (reportZrasf req) (reportSlba req / n.zone_size)).length
            (reportMaxZones n req)
        else (reportMatches n (reportZrasf req) (reportSlba req / n.zone_size)).length) ∧
      rep.entries.length =
        min (reportMatches n (reportZrasf req) (reportSlba req / n.zone_size)).length
          (reportMaxZones n req) ∧
      rep.entries =
        ((reportMatches n (reportZrasf req) (reportSlba req / n.zone_size)).take
          (reportMaxZones n req)).map (reportEntry n wp_valid (reportZra req = 1)) ∧
      (∀ j, j < rep.entries.length →
        ∃ i, (reportMatches n (reportZrasf req) (reportSlba req / n.zone_size))[j]? = some i ∧
          rep.entries[j]? = some (reportEntry n wp_valid (reportZra req = 1) i)) := by
  refine ⟨fun i => ?_, ?_, _, mgmt_recv_eq n wp_valid req hg hsz hc1 hc2 hnw hv, rfl, ?_, rfl, ?_⟩
  · unfold reportMatches
    rw [List.mem_filter, List.mem_range'_1]
    constructor
    · rintro ⟨⟨h1, h2⟩, h3⟩
      exact ⟨h1, by omega, h3⟩
    · rintro ⟨h1, h2, h3⟩
      exact ⟨⟨h1, by omega⟩, h3⟩
  · unfold reportMatches
    exact List.Pairwise.sublist (List.filter_sublist _) (List.pairwise_lt_range' _ _)
  · simp only [List.length_map, List.length_take]
    exact Nat.min_comm _ _
  · intro j hj
    simp only [List.length_map, List.length_take] at hj
    have hj2 : j < (reportMatches n (reportZrasf req) (reportSlba req / n.zone_size)).length := by
      omega
    refine ⟨(reportMatches n (reportZrasf req) (reportSlba req / n.zone_size))[j],
      List.getElem?_eq_getElem hj2, ?_⟩
    simp only [List.getElem?_map, List.getElem?_take]
    rw [if_pos (by omega), List.getElem?_eq_getElem hj2]
    rfl

/-- Every entry the descriptor loop writes is the entry of a zone of the array
that matches the filter. -/
theorem report_fill_mem (n : FemuCtrl) (wp_valid : wp_valid_t) (extended : Bool) (f : Nat) :
    ∀ (k idx mz : Nat) (l : List NvmeZoneReportEntry),
      zns_report_fill n wp_valid extended f k idx mz = some l →
      ∀ e ∈ l, ∃ i, idx ≤ i ∧ i < n.zone_array.length ∧
        zns_zone_matches_filter f (zoneAt n i) = true ∧ e = reportEntry n wp_valid extended i := by
  intro k
  induction k with
  | zero =>
    intro idx mz l h e he
    unfold zns_report_fill at h
    simp only [Option.some.injEq] at h
    rw [← h] at he
    simp at he
  | succ k ih =>
    intro idx mz l h e he
    unfold zns_report_fill at h
    by_cases hmz : mz > 0
    · rw [if_pos hmz] at h
      by_cases hl : idx < n.zone_array.length
      · rw [if_pos hl] at h
        by_cases hm : zns_zone_matches_filter f (zoneAt n idx) = true
        · simp only [hm, if_true] at h
          obtain ⟨l1, hl1, e1⟩ := Option.map_eq_some'.1 h
          rw [← e1] at he
          rcases List.mem_cons.1 he with he | he
          · exact ⟨idx, Nat.le_refl _, hl, hm, he⟩
          · obtain ⟨i, h1, h2, h3, h4⟩ := ih _ _ _ hl1 e he
            exact ⟨i, by omega, h2, h3, h4⟩
        · simp only [hm, if_false] at h
          obtain ⟨i, h1, h2, h3, h4⟩ := ih _ _ _ h e he
          exact ⟨i, by omega, h2, h3, h4⟩
      · rw [if_neg hl] at h
        simp at h
    · rw [if_neg hmz] at h
      simp only [Option.some.injEq] at h
      rw [← h] at he
      simp at he

/-- The entries of a report `zns_zone_mgmt_recv` returns are the output of the
descriptor loop for the filter and the report action of the request. -/
theorem mgmt_recv_entries (n : FemuCtrl) (wp_valid : wp_valid_t) (req : NvmeRequest)
    (st : Status) (rep : NvmeZoneReport)
    (h : zns_zone_mgmt_recv n wp_valid req = some (st, some rep)) :
    ∃ k idx mz, zns_report_fill n wp_valid (reportZra req = 1) (reportZrasf req) k idx mz =
      some rep.entries := by
  unfold zns_zone_mgmt_recv at h
  simp only at h
  cases h1 : zns_get_mgmt_zone_slba_idx n req with
  | none => simp [h1] at h
  | some r =>
    obtain ⟨status, slba, zone_idx⟩ := r
    simp only [h1] at h
    split at h
    · simp at h
    split at h
    · simp at h
    split at h
    · simp at h
    split at h
    · simp at h
    split at h
    · simp at h
    split at h
    · simp at h
    split at h
    · simp at h
    · split at h
      · simp at h
      · next entries hfill =>
        simp only [Option.some.injEq, Prod.mk.injEq] at h
        obtain ⟨_, h2⟩ := h
        rw [← h2]
        exact ⟨_, _, _, hfill⟩

/-- C21 (the code at the failing input): a namespace of 9216 bytes with blocks
of 512 bytes and zones of 2048 bytes. `zns_init_zone_geometry` returns 0 with
`zone_size = 4` and `num_zones = 4`, so the zones cover 16 of the 18 blocks
`zns_ns_nlbas` gives. For a zone report of all zones from `slba = 0` with a
budget of 1024 bytes (room for 15 entries, partial flag clear), a request that
passes every check, 4 zones match, and the descriptor loop, bounded by
`num_zones`, writes 4 entries. The counting loop is bounded by the 18 blocks
and makes a fifth pass at `slba = 16`, which reads the zone slot behind the
array: in the model the command has no result, and whatever zone `z` the read
behind the array finds, the count is 5 and not 4. -/
theorem C21_report_count_reads_past_zone_array :
    (zns_init_zone_geometry { exampleConfig 0 0 0 0 with size := 9216 } 2048 2048 9216).map
        (fun r => (r.1, r.2.zone_size, r.2.num_zones)) = some (0, 4, 4) ∧
    zns_ns_nlbas (zns_init_zoned_state { exampleConfig 4 4 0 0 with size := 9216 }) = 18 ∧
    (zns_init_zoned_state { exampleConfig 4 4 0 0 with size := 9216 }).zone_array.length = 4 ∧
    ReportRequestValid (zns_init_zoned_state { exampleConfig 4 4 0 0 with size := 9216 })
      { exampleReq 0 0 with cdw12 := 255, cdw13 := 0 } ∧
    reportMaxZones (zns_init_zoned_state { exampleConfig 4 4 0 0 with size := 9216 })
      { exampleReq 0 0 with cdw12 := 255, cdw13 := 0 } = 15 ∧
    reportMatches (zns_init_zoned_state { exampleConfig 4 4 0 0 with size := 9216 }) 0 0 =
      [0, 1, 2, 3] ∧
    zns_report_fill (zns_init_zoned_state { exampleConfig 4 4 0 0 with size := 9216 })
        zns_wp_is_valid false 0 4 0 15 =
      some ([0, 1, 2, 3].map (reportEntry
        (zns_init_zoned_state { exampleConfig 4 4 0 0 with size := 9216 })
        zns_wp_is_valid false)) ∧
    zns_report_count (zns_init_zoned_state { exampleConfig 4 4 0 0 with size := 9216 })
        0 false 15 18
        (zns_init_zoned_state { exampleConfig 4 4 0 0 with size := 9216 }).zone_array 0 0 =
      none ∧
    (∀ z : NvmeZone,
      zns_report_count (zns_init_zoned_state { exampleConfig 4 4 0 0 with size := 9216 })
        0 false 15 18
        ((zns_init_zoned_state { exampleConfig 4 4 0 0 with size := 9216 }).zone_array ++ [z])
        0 0 = some 5) ∧
    zns_zone_mgmt_recv (zns_init_zoned_state { exampleConfig 4 4 0 0 with size := 9216 })
        zns_wp_is_valid { exampleReq 0 0 with cdw12 := 255, cdw13 := 0 } = none := by
  refine ⟨by decide, by decide, by decide, by unfold ReportRequestValid; decide, by decide,
    by decide, by decide, by decide, fun z => rfl, by decide⟩

/-- The write pointer of a zone that passes `zns_check_zone_state_for_write`
is valid, as `zns_do_write` asserts, and so is that of a `FULL` zone. -/
theorem wp_is_valid_of_state (z : NvmeZone) :
    (zns_check_zone_state_for_write z = NVME_SUCCESS → zns_wp_is_valid z = true) ∧
    (zns_get_zone_state z = NvmeZoneState.FULL → zns_wp_is_valid z = true) := by
  unfold zns_check_zone_state_for_write zns_wp_is_valid
  cases h : zns_get_zone_state z <;> simp [NVME_SUCCESS]

/-- C22: for a zone report with the state filter Full (`zrasf = 5`), with
`zns_wp_is_valid` as modelled from the spec. (1) Whenever `zns_zone_mgmt_recv`
returns a report, every entry of it is the entry of a zone of the array in
state `FULL` and carries the stored descriptor of that zone: its `za` is the
stored `za` and its `wp` is the stored `d.wp`. (2) In a controller with the
zone geometry in place whose counting loop stays inside the zone array, for a
request that passes every check and a byte budget with room for every matching
zone, the report is returned, its header count and its number of entries are
the number of Full zones from the start index on, and the `j`-th entry is the
stored descriptor of the `j`-th Full zone. -/
theorem C22_full_zone_report_fields (n : FemuCtrl) (req : NvmeRequest)
    (hf : reportZrasf req = 5) :
    (∀ st rep, zns_zone_mgmt_recv n zns_wp_is_valid req = some (st, some rep) →
      ∀ e ∈ rep.entries, ∃ i, i < n.zone_array.length ∧
        zns_get_zone_state (zoneAt n i) = NvmeZoneState.FULL ∧
        e.d = (zoneAt n i).d ∧ e.d.za = (zoneAt n i).d.za ∧ e.d.wp = (zoneAt n i).d.wp) ∧
    (ZoneGeom n → n.nsze = n.num_zones * n.zone_size →
      n.num_zones * n.zone_size ≤ zns_ns_nlbas n →
      zns_ns_nlbas n ≤ n.num_zones * n.zone_size + reportSlba req % n.zone_size →
      n.nsze + n.zone_size ≤ U64 → ReportRequestValid n req →
      (reportMatches n 5 (reportSlba req / n.zone_size)).length ≤ reportMaxZones n req →
      ∃ rep, zns_zone_mgmt_recv n zns_wp_is_valid req = some (req.dma_prp, some rep) ∧
        rep.nr_zones = (reportMatches n 5 (reportSlba req / n.zone_size)).length ∧
        rep.entries.length = (reportMatches n 5 (reportSlba req / n.zone_size)).length ∧
        ∀ j, j < rep.entries.length →
          ∃ i e, (reportMatches n 5 (reportSlba req / n.zone_size))[j]? = some i ∧
            zns_get_zone_state (zoneAt n i) = NvmeZoneState.FULL ∧
            rep.entries[j]? = some e ∧ e.d = (zoneAt n i).d ∧
            e.d.za = (zoneAt n i).d.za ∧ e.d.wp = (zoneAt n i).d.wp) := by
  have hfull : ∀ i, zns_zone_matches_filter 5 (zoneAt n i) = true →
      zns_get_zone_state (zoneAt n i) = NvmeZoneState.FULL := by
    intro i h
    unfold zns_zone_matches_filter at h
    simpa using h
  have hd : ∀ (x : Bool) i, zns_get_zone_state (zoneAt n i) = NvmeZoneState.FULL →
      (reportEntry n zns_wp_is_valid x i).d = (zoneAt n i).d := by
    intro x i h
    unfold reportEntry
    simp only [(wp_is_valid_of_state _).2 h, if_true]
  constructor
  · intro st rep h e he
    obtain ⟨k, idx, mz, hfill⟩ := mgmt_recv_entries n zns_wp_is_valid req st rep h
    rw [hf] at hfill
    obtain ⟨i, _, h2, h3, h4⟩ := report_fill_mem n zns_wp_is_valid _ 5 k idx mz _ hfill e he
    have h5 := hd (reportZra req = 1) i (hfull i h3)
    rw [← h4] at h5
    exact ⟨i, h2, hfull i h3, h5, by rw [h5], by rw [h5]⟩
  · intro hg hsz hc1 hc2 hnw hv hroom
    refine ⟨_, mgmt_recv_eq n zns_wp_is_valid req hg hsz hc1 hc2 hnw hv, ?_, ?_, ?_⟩
    · show (if reportPartial req = true then _ else _) = _
      rw [hf]
      split
      · exact Nat.min_eq_left hroom
      · rfl
    · show (List.map _ (List.take _ _)).length = _
      rw [hf, List.length_map, List.length_take]
      exact Nat.min_eq_right hroom
    · intro j hj
      change j < (List.map _ (List.take _ _)).length at hj
      rw [hf, List.length_map, List.length_take] at hj
      have hj2 : j < (reportMatches n 5 (reportSlba req / n.zone_size)).length := by omega
      have hmem : (reportMatches n 5 (reportSlba req / n.zone_size))[j] ∈
          reportMatches n 5 (reportSlba req / n.zone_size) := List.getElem_mem hj2
      have hst : zns_get_zone_state
          (zoneAt n (reportMatches n 5 (reportSlba req / n.zone_size))[j]) =
          NvmeZoneState.FULL := hfull _ (by
        have h := hmem
        unfold reportMatches at h
        exact (List.mem_filter.1 h).2)
      have hd2 := hd (reportZra req = 1) _ hst
      refine ⟨_, _, List.getElem?_eq_getElem hj2, hst, ?_, hd2, by rw [hd2], by rw [hd2]⟩
      show (List.map _ (List.take _ _))[j]? = _
      rw [hf]
      simp only [List.getElem?_map, List.getElem?_take]
      rw [if_pos (by omega), List.getElem?_eq_getElem hj2]
      rfl

theorem C22_full_zone_report_fields_witness :
    ∃ rep, zns_zone_mgmt_recv
        (afterOps (exampleCtrl 10 4 0 0)
          [CoreOp.set_zd_ext 2, CoreOp.zone_op 2 0 ZoneHandler.FINISH,
           CoreOp.write (exampleReq 12 3) false false, CoreOp.zone_op 9 0 ZoneHandler.FINISH])
        zns_wp_is_valid { exampleReq 0 0 with cdw12 := 255, cdw13 := 1280 } =
        some (NVME_SUCCESS, some rep) ∧ rep.nr_zones = 3 ∧
      rep.entries.map (fun e => (e.d.zslba, e.d.zs, e.d.za, e.d.wp)) =
        [(8, NvmeZoneState.FULL, 128, 12), (12, NvmeZoneState.FULL, 0, 16),
          (36, NvmeZoneState.FULL, 0, 40)] ∧
      [2, 3, 9].map (fun i =>
          ((zoneAt (afterOps (exampleCtrl 10 4 0 0)
            [CoreOp.set_zd_ext 2, CoreOp.zone_op 2 0 ZoneHandler.FINISH,
             CoreOp.write (exampleReq 12 3) false false, CoreOp.zone_op 9 0 ZoneHandler.FINISH])
            i).d.za,
           (zoneAt (afterOps (exampleCtrl 10 4 0 0)
            [CoreOp.set_zd_ext 2, CoreOp.zone_op 2 0 ZoneHandler.FINISH,
             CoreOp.write (exampleReq 12 3) false false, CoreOp.zone_op 9 0 ZoneHandler.FINISH])
            i).d.wp)) = [(128, 12), (0, 16), (0, 40)] := by
  obtain ⟨rep, e, h1, _, _⟩ := (C22_full_zone_report_fields
    (afterOps (exampleCtrl 10 4 0 0)
      [CoreOp.set_zd_ext 2, CoreOp.zone_op 2 0 ZoneHandler.FINISH,
       CoreOp.write (exampleReq 12 3) false false, CoreOp.zone_op 9 0 ZoneHandler.FINISH])
    { exampleReq 0 0 with cdw12 := 255, cdw13 := 1280 } (by decide)).2
    (by unfold ZoneGeom; decide) (by decide) (by decide) (by decide) (by decide)
    (by unfold ReportRequestValid; decide) (by decide)
  have hd : (zns_zone_mgmt_recv
      (afterOps (exampleCtrl 10 4 0 0)
        [CoreOp.set_zd_ext 2, CoreOp.zone_op 2 0 ZoneHandler.FINISH,
         CoreOp.write (exampleReq 12 3) false false, CoreOp.zone_op 9 0 ZoneHandler.FINISH])
      zns_wp_is_valid { exampleReq 0 0 with cdw12 := 255, cdw13 := 1280 }).map
      (fun r => r.2.map (fun rep => rep.entries.map
        (fun e => (e.d.zslba, e.d.zs, e.d.za, e.d.wp)))) =
      some (some [(8, NvmeZoneState.FULL, 128, 12), (12, NvmeZoneState.FULL, 0, 16),
        (36, NvmeZoneState.FULL, 0, 40)]) := by decide
  rw [e] at hd
  exact ⟨rep, e, h1.trans (by decide), Option.some.inj (Option.some.inj hd), by decide⟩

theorem advance_status_cursor (n : FemuCtrl) (c : nand_cmd) (p : ppa) :
    SameCursor (zns_advance_status n c p).2 n := by
  unfold zns_advance_status
  cases c.cmd <;> by_cases hs : c.stime = 0 <;> simp only [hs, if_true, if_false] <;>
    exact ⟨rfl, rfl, rfl⟩

theorem advance_cursor_congr (a b a1 : FemuCtrl) (hs : SameCursor a b)
    (h : advance_read_pointer a = some a1) :
    ∃ b1, advance_read_pointer b = some b1 ∧ SameCursor a1 b1 := by
  obtain ⟨hw, hc, hl⟩ := hs
  unfold advance_read_pointer at h ⊢
  rw [hw, hc, hl] at h
  by_cases c1 : b.zns.wp.ch < b.zns.num_ch % 256
  · simp only [c1, not_true_eq_false, if_false] at h ⊢
    by_cases c2 : b.zns.wp.ch + 1 = b.zns.num_ch % 256
    swap
    · simp only [c2, ne_eq, not_false_eq_true, if_true] at h ⊢
      rw [← Option.some.inj h]
      exact ⟨_, rfl, rfl, hc, hl⟩
    · simp only [c2, ne_eq, not_true_eq_false, if_false] at h ⊢
      by_cases c3 : b.zns.wp.lun < b.zns.num_lun % 256
      · simp only [c3, not_true_eq_false, if_false] at h ⊢
        rw [← Option.some.inj h]
        exact ⟨_, rfl, rfl, hc, hl⟩
      · simp only [c3, not_false_eq_true, if_true] at h
        exact absurd h (by simp)
  · simp only [c1, not_false_eq_true, if_true] at h
    exact absurd h (by simp)

theorem advance_times_congr (k : Nat) :
    ∀ (a b ma : FemuCtrl), SameCursor a b → advance_read_pointer_times k a = some ma →
      ∃ mb, advance_read_pointer_times k b = some mb ∧ SameCursor ma mb := by
  induction k with
  | zero =>
    intro a b ma hs h
    unfold advance_read_pointer_times at h ⊢
    rw [← Option.some.inj h]
    exact ⟨b, rfl, hs⟩
  | succ k ih =>
    intro a b ma hs h
    unfold advance_read_pointer_times at h ⊢
    cases ha : advance_read_pointer a with
    | none =>
      rw [ha] at h
      exact absurd h (by simp)
    | some a1 =>
      rw [ha] at h
      obtain ⟨b1, hb, hs1⟩ := advance_cursor_congr a b a1 hs ha
      rw [hb]
      exact ih a1 b1 ma hs1 h

theorem run_max_spec (l : List Nat) :
    ∀ ml : Nat, ml ≤ l.foldl (fun a x => if x > a then x else a) ml ∧
      (∀ x ∈ l, x ≤ l.foldl (fun a x => if x > a then x else a) ml) ∧
      (l.foldl (fun a x => if x > a then x else a) ml = ml ∨
        l.foldl (fun a x => if x > a then x else a) ml ∈ l) := by
  induction l with
  | nil =>
    intro ml
    exact ⟨Nat.le_refl _, fun x hx => absurd hx (List.not_mem_nil x), Or.inl rfl⟩
  | cons y l ih =>
    intro ml
    rw [List.foldl_cons]
    by_cases hy : y > ml
    · rw [if_pos hy]
      obtain ⟨h1, h2, h3⟩ := ih y
      refine ⟨by omega, ?_, ?_⟩
      · intro x hx
        rcases List.mem_cons.1 hx with hx | hx
        · rw [hx]
          exact h1
        · exact h2 x hx
      · rcases h3 with h3 | h3
        · exact Or.inr (by rw [h3]; exact List.mem_cons_self _ _)
        · exact Or.inr (List.mem_cons_of_mem _ h3)
    · rw [if_neg hy]
      obtain ⟨h1, h2, h3⟩ := ih ml
      refine ⟨h1, ?_, ?_⟩
      · intro x hx
        rcases List.mem_cons.1 hx with hx | hx
        · rw [hx]
          omega
        · exact h2 x hx
      · rcases h3 with h3 | h3
        · exact Or.inl h3
        · exact Or.inr (List.mem_cons_of_mem _ h3)

theorem rw_pages_trace (stime : Nat) (k : Nat) :
    ∀ (lpn ml : Nat) (n : FemuCtrl),
      zns_rw_pages NandOp.NAND_READ stime k lpn ml n =
        (readTrace stime k lpn n).map
          (fun t => ((t.1.map Prod.snd).foldl (fun a x => if x > a then x else a) ml, t.2)) := by
  induction k with
  | zero =>
    intro lpn ml n
    unfold zns_rw_pages readTrace
    rfl
  | succ k ih =>
    intro lpn ml n
    unfold zns_rw_pages readTrace
    cases lpn_to_ppa n lpn with
    | none => rfl
    | some p =>
      cases advance_read_pointer n with
      | none => rfl
      | some n1 =>
        simp only
        rw [ih]
        cases readTrace stime k (lpn + 1)
            (zns_advance_status n1 ⟨NandOp.NAND_READ, stime⟩ p).2 with
        | none => rfl
        | some t => rfl

theorem trace_keys (stime : Nat) (k : Nat) :
    ∀ (lpn : Nat) (n m : FemuCtrl) (tr : List (ppa × Nat)),
      readTrace stime k lpn n = some (tr, m) →
      tr.length = k ∧
      (∀ j, j < k → ∃ mj p, advance_read_pointer_times j n = some mj ∧ tr[j]? = some p ∧
        p.1.ch = mj.zns.wp.ch ∧ p.1.fc = mj.zns.wp.lun) ∧
      ∃ mk, advance_read_pointer_times k n = some mk ∧ SameCursor m mk := by
  induction k with
  | zero =>
    intro lpn n m tr h
    unfold readTrace at h
    have e := Option.some.inj h
    have e1 : tr = [] := (congrArg Prod.fst e).symm
    have e2 : m = n := (congrArg Prod.snd e).symm
    subst e1 e2
    exact ⟨rfl, fun j hj => absurd hj (Nat.not_lt_zero j), m, rfl, rfl, rfl, rfl⟩
  | succ k ih =>
    intro lpn n m tr h
    unfold readTrace at h
    cases hp : lpn_to_ppa n lpn with
    | none =>
      rw [hp] at h
      exact absurd h (by simp)
    | some p =>
      rw [hp] at h
      cases ha : advance_read_pointer n with
      | none =>
        rw [ha] at h
        exact absurd h (by simp)
      | some n1 =>
        rw [ha] at h
        simp only at h
        obtain ⟨t, ht, et⟩ := Option.map_eq_some'.1 h
        have e1 : tr = (p, (zns_advance_status n1 ⟨NandOp.NAND_READ, stime⟩ p).1) :: t.1 :=
          (congrArg Prod.fst et).symm
        have e2 : m = t.2 := (congrArg Prod.snd et).symm
        obtain ⟨hlen, hkeys, mk, hmk, hsk⟩ := ih (lpn + 1) _ t.2 t.1 ht
        have hsc : SameCursor (zns_advance_status n1 ⟨NandOp.NAND_READ, stime⟩ p).2 n1 :=
          advance_status_cursor n1 _ p
        have hpk : p.ch = n.zns.wp.ch ∧ p.fc = n.zns.wp.lun := by
          unfold lpn_to_ppa at hp
          cases hz : zns_zone_idx n ((lpn * 4096) % U64) with
          | none =>
            rw [hz] at hp
            exact absurd hp (by simp)
          | some zi =>
            rw [hz] at hp
            rw [← Option.some.inj hp]
            exact ⟨rfl, rfl⟩
        subst e1 e2
        refine ⟨by rw [List.length_cons, hlen], ?_, ?_⟩
        · intro j hj
          cases j with
          | zero =>
            exact ⟨n, (p, (zns_advance_status n1 ⟨NandOp.NAND_READ, stime⟩ p).1), rfl,
              List.getElem?_cons_zero, hpk.1, hpk.2⟩
          | succ j =>
            obtain ⟨mj, q, hmj, hq, hq1, hq2⟩ := hkeys j (by omega)
            obtain ⟨mj1, hmj1, hs1⟩ := advance_times_congr j _ n1 mj hsc hmj
            refine ⟨mj1, q, ?_, ?_, ?_, ?_⟩
            · unfold advance_read_pointer_times
              rw [ha]
              exact hmj1
            · rw [List.getElem?_cons_succ]
              exact hq
            · rw [hq1, hs1.1]
            · rw [hq2, hs1.1]
        · obtain ⟨mk1, hmk1, hs1⟩ := advance_times_congr k _ n1 mk hsc hmk
          refine ⟨mk1, ?_, ?_⟩
          · unfold advance_read_pointer_times
            rw [ha]
            exact hmk1
          · exact ⟨hsk.1.trans hs1.1, hsk.2.1.trans hs1.2.1, hsk.2.2.trans hs1.2.2⟩

theorem read_success (n : FemuCtrl) (req : NvmeRequest) (out : WriteOut)
    (h : zns_read n req = some out) (hs : out.status = NVME_SUCCESS) :
    zns_check_bounds n req.cmd.slba (req.cmd.nlb + 1) = NVME_SUCCESS ∧
    ∃ maxlat, zns_rw_pages NandOp.NAND_READ req.stime
        (((req.cmd.slba + req.cmd.nlb) % U64) / 4096 + 1 - req.cmd.slba / 4096)
        (req.cmd.slba / 4096) 0 n = some (maxlat, out.n) ∧
      out.req.reqlat = maxlat ∧
      out.req.expire_time = (req.expire_time + maxlat) % U64 := by
  unfold zns_read at h
  simp only at h
  split at h
  · exact absurd h (by simp)
  split at h
  · rw [← Option.some.inj h] at hs
    exact absurd hs (orDNR_ne_success _)
  split at h
  · rw [← Option.some.inj h] at hs
    exact absurd hs (orDNR_ne_success _)
  rename_i hb
  split at h
  · exact absurd h (by simp)
  split at h
  · rw [← Option.some.inj h] at hs
    exact absurd hs (orDNR_ne_success _)
  split at h
  · rw [← Option.some.inj h] at hs
    exact absurd hs (orDNR_ne_success _)
  split at h
  · exact absurd h (by simp)
  rename_i maxlat n1 hrw
  rw [← Option.some.inj h]
  exact ⟨not_not.1 hb, maxlat, hrw, rfl, rfl⟩

/-- C26: when `zns_read` returns success for `(slba, nlb)`: with `pages` the
keys and latencies `zns_advance_status` returned for the pages in page order,
the number of pages is `(slba + nlb - 1) / 4096 - slba / 4096 + 1`; `reqlat` is
at least every page latency and is one of them, and `expire_time` has grown by
`reqlat` (64-bit sum); page `j` was timed on the die the cursor addressed after
`j` advances from its position before the read; and the cursor after the read
is the cursor after exactly that number of advances. With channel and die
counts that fit their 8-bit variables and the cursor `(ch, lun)` in range
before the read, page `j` was timed on the die
`((ch + j) mod num_ch, (lun + (ch + j) / num_ch) mod num_lun)`, and the cursor
after the read of `N` pages is
`((ch + N) mod num_ch, (lun + (ch + N) / num_ch) mod num_lun)`. -/
theorem C26_read_latency_is_page_maximum (n : FemuCtrl) (req : NvmeRequest) (out : WriteOut)
    (h : zns_read n req = some out) (hs : out.status = NVME_SUCCESS) :
    ∃ pages : List (ppa × Nat),
      readTrace req.stime
          ((req.cmd.slba + (req.cmd.nlb + 1) - 1) / 4096 - req.cmd.slba / 4096 + 1)
          (req.cmd.slba / 4096) n = some (pages, out.n) ∧
      pages.length =
        (req.cmd.slba + (req.cmd.nlb + 1) - 1) / 4096 - req.cmd.slba / 4096 + 1 ∧
      (∀ x ∈ pages, x.2 ≤ out.req.reqlat) ∧
      (∃ x ∈ pages, x.2 = out.req.reqlat) ∧
      out.req.expire_time = (req.expire_time + out.req.reqlat) % U64 ∧
      (∀ j, j < pages.length →
        ∃ mj p, advance_read_pointer_times j n = some mj ∧ pages[j]? = some p ∧
          p.1.ch = mj.zns.wp.ch ∧ p.1.fc = mj.zns.wp.lun) ∧
      (∃ m, advance_read_pointer_times pages.length n = some m ∧
        out.n.zns.wp = m.zns.wp) ∧
      (n.zns.num_ch < 256 → n.zns.num_lun < 256 → n.zns.wp.ch < n.zns.num_ch →
        n.zns.wp.lun < n.zns.num_lun →
        (∀ j p, pages[j]? = some p →
          p.1.ch = (n.zns.wp.ch + j) % n.zns.num_ch ∧
          p.1.fc = (n.zns.wp.lun + (n.zns.wp.ch + j) / n.zns.num_ch) % n.zns.num_lun) ∧
        out.n.zns.wp =
          { ch := (n.zns.wp.ch + pages.length) % n.zns.num_ch,
            lun := (n.zns.wp.lun + (n.zns.wp.ch + pages.length) / n.zns.num_ch) %
              n.zns.num_lun }) := by
  obtain ⟨hb, maxlat, hrw, hlat, hexp⟩ := read_success n req out h hs
  have hnw : req.cmd.slba + (req.cmd.nlb + 1) < U64 := by
    unfold zns_check_bounds at hb
    by_contra hc
    rw [if_pos (Or.inl (by omega))] at hb
    exact absurd hb (by simp [NVME_SUCCESS])
  have hk : ((req.cmd.slba + req.cmd.nlb) % U64) / 4096 + 1 - req.cmd.slba / 4096 =
      (req.cmd.slba + (req.cmd.nlb + 1) - 1) / 4096 - req.cmd.slba / 4096 + 1 := by
    rw [Nat.mod_eq_of_lt (by omega)]
    have e : req.cmd.slba + (req.cmd.nlb + 1) - 1 = req.cmd.slba + req.cmd.nlb := by omega
    have hle : req.cmd.slba / 4096 ≤ (req.cmd.slba + req.cmd.nlb) / 4096 :=
      Nat.div_le_div_right (Nat.le_add_right _ _)
    rw [e]
    omega
  rw [hk, rw_pages_trace] at hrw
  obtain ⟨t, ht, et⟩ := Option.map_eq_some'.1 hrw
  have e1 : (t.1.map Prod.snd).foldl (fun a x => if x > a then x else a) 0 = maxlat :=
    congrArg Prod.fst et
  have e2 : t.2 = out.n := congrArg Prod.snd et
  obtain ⟨hlen, hkeys, mk, hmk, hsk⟩ := trace_keys req.stime _ _ n t.2 t.1 ht
  obtain ⟨_, hmax, hmem⟩ := run_max_spec (t.1.map Prod.snd) 0
  rw [e1, ← hlat] at hmax hmem
  have hne : t.1 ≠ [] := by
    intro hnil
    rw [hnil] at hlen
    simp at hlen
  refine ⟨t.1, by rw [← e2]; exact ht, hlen, ?_, ?_, by rw [hlat]; exact hexp, ?_, ?_, ?_⟩
  · intro x hx
    exact hmax x.2 (List.mem_map_of_mem Prod.snd hx)
  · rcases hmem with h0 | hin
    · obtain ⟨x, l, hx⟩ := List.exists_cons_of_ne_nil hne
      refine ⟨x, by rw [hx]; exact List.mem_cons_self _ _, ?_⟩
      have := hmax x.2 (List.mem_map_of_mem Prod.snd (by rw [hx]; exact List.mem_cons_self _ _))
      omega
    · obtain ⟨x, hx, hx2⟩ := List.mem_map.1 hin
      exact ⟨x, hx, hx2⟩
  · intro j hj
    exact hkeys j (by rw [← hlen]; exact hj)
  · refine ⟨mk, by rw [hlen]; exact hmk, ?_⟩
    rw [← e2]
    exact hsk.1
  · intro hc hl hch hlun
    constructor
    · intro j p hp
      have hj : j < t.1.length := by
        by_contra hge
        rw [List.getElem?_eq_none (by omega)] at hp
        simp at hp
      obtain ⟨mj, p1, hmj, hp1, k1, k2⟩ := hkeys j (by rw [← hlen]; exact hj)
      rw [hp] at hp1
      have ep : p = p1 := Option.some.inj hp1
      rw [advance_times_pos j n hc hl hch hlun] at hmj
      have em := Option.some.inj hmj
      rw [ep, k1, k2, ← em]
      exact ⟨rfl, rfl⟩
    · rw [advance_times_pos _ n hc hl hch hlun] at hmk
      have em := Option.some.inj hmk
      rw [← e2, hsk.1, ← em, hlen]

theorem C26_read_latency_is_page_maximum_witness :
    ∃ (out : WriteOut) (pages : List (ppa × Nat)),
      zns_read (exampleCtrl 1 8192 0 0) (exampleReq 4095 1) = some out ∧
      out.status = NVME_SUCCESS ∧
      (exampleCtrl 1 8192 0 0).zns.wp = { ch := 0, lun := 0 } ∧
      readTrace 0 2 0 (exampleCtrl 1 8192 0 0) = some (pages, out.n) ∧
      pages.map (fun x => (x.1.ch, x.1.fc, x.2)) = [(0, 0, 40000), (1, 0, 40000)] ∧
      out.req.reqlat = 40000 ∧ out.req.expire_time = 40000 ∧
      out.n.zns.wp = { ch := 0, lun := 1 } := by
  obtain ⟨out, ho, hst⟩ := Option.map_eq_some'.1
    (show (zns_read (exampleCtrl 1 8192 0 0) (exampleReq 4095 1)).map (fun o => o.status) =
      some NVME_SUCCESS by decide)
  obtain ⟨pages, htr, hlen, _, _, _, _, _, hpos⟩ :=
    C26_read_latency_is_page_maximum (exampleCtrl 1 8192 0 0) (exampleReq 4095 1) out ho hst
  obtain ⟨_, hwp⟩ := hpos (by decide) (by decide) (by decide) (by decide)
  have h2 : pages.length = 2 := hlen.trans (by decide)
  rw [h2] at hwp
  have hd : (readTrace 0 2 0 (exampleCtrl 1 8192 0 0)).map
      (fun t => t.1.map (fun x => (x.1.ch, x.1.fc, x.2))) =
      some [(0, 0, 40000), (1, 0, 40000)] := by decide
  have hd2 : (zns_read (exampleCtrl 1 8192 0 0) (exampleReq 4095 1)).map
      (fun o => (o.req.reqlat, o.req.expire_time)) = some (40000, 40000) := by decide
  rw [ho] at hd2
  have e2 := Option.some.inj hd2
  have htr2 : readTrace 0 2 0 (exampleCtrl 1 8192 0 0) = some (pages, out.n) := htr
  rw [htr2] at hd
  exact ⟨out, pages, ho, hst, by decide, htr2, Option.some.inj hd,
    congrArg Prod.fst e2, congrArg Prod.snd e2, hwp.trans (by decide)⟩

theorem length_walkCopies (mode : FemuMode) (lbal : List Nat) (is_write : Bool) :
    ∀ (l : List ScatterGatherEntry) (idx m : Nat),
      (walkCopies mode lbal is_write l idx m).length = l.length := by
  intro l
  induction l with
  | nil =>
    intro idx m
    rfl
  | cons e rest ih =>
    intro idx m
    unfold walkCopies
    rw [List.length_cons, List.length_cons, ih]

theorem walkCopies_get (mode : FemuMode) (lbal : List Nat) (is_write : Bool) :
    ∀ (l : List ScatterGatherEntry) (idx m i : Nat) (hi : i < l.length),
      (walkCopies mode lbal is_write l idx m)[i]? =
        some ⟨l[i].base,
          if i = 0 then m
          else if mode = FemuMode.OCSSD then lbal.getD (idx + i) 0
          else (m + ((l.take i).map ScatterGatherEntry.len).sum) % U64,
          l[i].len, is_write⟩ := by
  intro l
  induction l with
  | nil =>
    intro idx m i hi
    exact absurd hi (Nat.not_lt_zero i)
  | cons e rest ih =>
    intro idx m i hi
    unfold walkCopies
    cases i with
    | zero => simp only [List.getElem?_cons_zero, List.getElem_cons_zero, if_true]
    | succ i =>
      have hi2 : i < rest.length := Nat.lt_of_succ_lt_succ hi
      rw [List.getElem?_cons_succ, ih _ _ i hi2]
      simp only [List.getElem_cons_succ, Nat.succ_ne_zero, if_false, List.take_succ_cons,
        List.map_cons, List.sum_cons]
      by_cases hm : mode = FemuMode.OCSSD
      · simp only [hm, if_true]
        cases i with
        | zero => rfl
        | succ i =>
          simp only [Nat.succ_ne_zero, if_false]
          congr 3
          omega
      · simp only [hm, if_false]
        cases i with
        | zero =>
          simp only [if_true, List.take_zero, List.map_nil, List.sum_nil, Nat.add_zero]
        | succ i =>
          simp only [Nat.succ_ne_zero, if_false]
          congr 2
          rw [Nat.mod_add_mod, Nat.add_assoc]

theorem backend_loop_eq (mode : FemuMode) (sg : List ScatterGatherEntry) (lbal : List Nat)
    (dma : DmaCopy → Bool) (is_write : Bool)
    (hsg : ∀ e ∈ sg, e.base < U64 ∧ e.len < U64) (hmode : mode ≠ FemuMode.OTHER)
    (hoc : mode = FemuMode.OCSSD → sg.length < lbal.length) :
    ∀ (fuel idx m : Nat), idx ≤ sg.length → sg.length - idx ≤ fuel →
      backend_rw_loop mode sg lbal dma is_write fuel idx 0 m =
        some (walkCopies mode lbal is_write (sg.drop idx) idx m,
          (walkCopies mode lbal is_write (sg.drop idx) idx m).countP dma) := by
  intro fuel
  induction fuel with
  | zero =>
    intro idx m h1 h2
    have e : idx = sg.length := by omega
    unfold backend_rw_loop
    rw [if_neg (by omega), e, List.drop_length]
    rfl
  | succ fuel ih =>
    intro idx m h1 h2
    unfold backend_rw_loop
    by_cases hlt : idx < sg.length
    · have hget : sg.getD idx default = sg[idx] := by
        rw [List.getD_eq_getElem?_getD, List.getElem?_eq_getElem hlt]
        rfl
      have hmem := hsg sg[idx] (List.getElem_mem hlt)
      rw [if_pos hlt, List.drop_eq_getElem_cons hlt]
      simp only [hget, Nat.add_zero, Nat.zero_le, if_true, Nat.sub_zero, Nat.zero_add,
        Nat.mod_eq_of_lt hmem.1, Nat.mod_eq_of_lt hmem.2]
      unfold walkCopies
      have ihh := fun m1 => ih (idx + 1) m1 (by omega) (by omega)
      cases mode with
      | OTHER => exact absurd rfl hmode
      | OCSSD =>
        have hl := hoc rfl
        have e : lbal.getD (idx + 1) 0 = lbal[idx + 1] := by
          rw [List.getD_eq_getElem?_getD,
            List.getElem?_eq_getElem (show idx + 1 < lbal.length by omega)]
          rfl
        simp only [List.getElem?_eq_getElem (show idx + 1 < lbal.length by omega), if_true,
          ihh, Option.map_some', e, List.countP_cons]
        congr 2
        omega
      | BBSSD =>
        simp only [ihh, Option.map_some', List.countP_cons, reduceCtorEq, if_false]
        congr 2
        omega
      | NOSSD =>
        simp only [ihh, Option.map_some', List.countP_cons, reduceCtorEq, if_false]
        congr 2
        omega
      | ZNSSD =>
        simp only [ihh, Option.map_some', List.countP_cons, reduceCtorEq, if_false]
        congr 2
        omega
    · have e : idx = sg.length := by omega
      rw [if_neg hlt, e, List.drop_length]
      rfl

/-- C29: `backend_rw` on a scatter list of `k` segments with 64-bit bases and
lengths, in one of the four modes, with the 64-bit `lbal[0] = m0` (and, in OCSSD mode, a
table with the entries `lbal[0..k]`, which the loop reads), given at least `k`
loop passes. The function returns 0 after exactly `k` copies, in segment order;
copy `i` moves `len_i` bytes at host address `base_i` in the direction of
`is_write`; in OCSSD mode its backend offset is `lbal[i]`; in the sequential
modes it is `m0 + sum of len_j for j < i` as a 64-bit sum, which is the plain
sum whenever that fits 64 bits. The number of logged errors is the number of
failing copies, and whatever `dma_memory_rw` reports, the copies made and the
result are the same. -/
theorem C29_backend_rw_walk (fuel : Nat) (mode : FemuMode) (sg : List ScatterGatherEntry)
    (lbal : List Nat) (dma : DmaCopy → Bool) (is_write : Bool) (m0 : Nat)
    (hfuel : sg.length ≤ fuel) (h0 : lbal[0]? = some m0) (hm0 : m0 < U64)
    (hsg : ∀ e ∈ sg, e.base < U64 ∧ e.len < U64) (hmode : mode ≠ FemuMode.OTHER)
    (hoc : mode = FemuMode.OCSSD → sg.length < lbal.length) :
    ∃ out, backend_rw fuel mode sg lbal dma is_write = some out ∧ out.ret = 0 ∧
      out.copies.length = sg.length ∧
      (∀ i e, sg[i]? = some e →
        ∃ c, out.copies[i]? = some c ∧ c.addr = e.base ∧ c.len = e.len ∧
          c.is_write = is_write ∧
          (mode = FemuMode.OCSSD → lbal[i]? = some c.mb_oft) ∧
          (mode ≠ FemuMode.OCSSD →
            c.mb_oft = (m0 + ((sg.take i).map ScatterGatherEntry.len).sum) % U64 ∧
            (m0 + ((sg.take i).map ScatterGatherEntry.len).sum < U64 →
              c.mb_oft = m0 + ((sg.take i).map ScatterGatherEntry.len).sum))) ∧
      out.errors = out.copies.countP dma ∧
      ∀ dma1, ∃ out1, backend_rw fuel mode sg lbal dma1 is_write = some out1 ∧
        out1.copies = out.copies ∧ out1.ret = 0 := by
  have hloop := fun d => backend_loop_eq mode sg lbal d is_write hsg hmode hoc fuel 0 m0
    (Nat.zero_le _) (by omega)
  simp only [List.drop_zero] at hloop
  have hrun : ∀ d, backend_rw fuel mode sg lbal d is_write =
      some ⟨walkCopies mode lbal is_write sg 0 m0,
        (walkCopies mode lbal is_write sg 0 m0).countP d, 0⟩ := by
    intro d
    unfold backend_rw
    rw [h0]
    simp only [hloop d, Option.map_some']
  refine ⟨_, hrun dma, rfl, length_walkCopies _ _ _ _ _ _, ?_, rfl, fun d => ⟨_, hrun d, rfl, rfl⟩⟩
  intro i e hie
  have hi : i < sg.length := by
    by_contra hc
    rw [List.getElem?_eq_none (by omega)] at hie
    exact absurd hie (by simp)
  have he : sg[i] = e := by
    rw [List.getElem?_eq_getElem hi] at hie
    exact Option.some.inj hie
  refine ⟨_, walkCopies_get mode lbal is_write sg 0 m0 i hi, by rw [he], by rw [he], rfl,
    ?_, ?_⟩
  · intro hm
    have hl := hoc hm
    show lbal[i]? = some (if i = 0 then m0 else if mode = FemuMode.OCSSD then
      lbal.getD (0 + i) 0 else _)
    by_cases hz : i = 0
    · rw [if_pos hz, hz]
      exact h0
    · rw [if_neg hz, if_pos hm, Nat.zero_add, List.getD_eq_getElem?_getD,
        List.getElem?_eq_getElem (show i < lbal.length by omega)]
      rfl
  · intro hm
    have hval : (if i = 0 then m0 else if mode = FemuMode.OCSSD then lbal.getD (0 + i) 0
        else (m0 + ((sg.take i).map ScatterGatherEntry.len).sum) % U64) =
        (m0 + ((sg.take i).map ScatterGatherEntry.len).sum) % U64 := by
      by_cases hz : i = 0
      · rw [if_pos hz, hz, List.take_zero, List.map_nil, List.sum_nil, Nat.add_zero,
          Nat.mod_eq_of_lt hm0]
      · rw [if_neg hz, if_neg hm]
    exact ⟨hval, fun hfit => by
      show (if i = 0 then m0 else _) = _
      rw [hval, Nat.mod_eq_of_lt hfit]⟩

theorem C29_backend_rw_walk_witness :
    ∃ out, backend_rw 3 FemuMode.ZNSSD [⟨4096, 512⟩, ⟨8192, 1024⟩, ⟨100, 8⟩] [2048]
        (fun c => decide (c.addr = 8192)) false = some out ∧
      out.ret = 0 ∧ out.copies.length = 3 ∧
      out.copies = [⟨4096, 2048, 512, false⟩, ⟨8192, 2560, 1024, false⟩, ⟨100, 3584, 8, false⟩] ∧
      out.errors = 1 := by
  obtain ⟨out, e, h1, h2, _, h4, _⟩ := C29_backend_rw_walk 3 FemuMode.ZNSSD
    [⟨4096, 512⟩, ⟨8192, 1024⟩, ⟨100, 8⟩] [2048] (fun c => decide (c.addr = 8192)) false 2048
    (by decide) (by decide) (by decide) (by decide) (by decide) (by decide)
  have hc : out.copies =
      [⟨4096, 2048, 512, false⟩, ⟨8192, 2560, 1024, false⟩, ⟨100, 3584, 8, false⟩] := by
    have hd : (backend_rw 3 FemuMode.ZNSSD [⟨4096, 512⟩, ⟨8192, 1024⟩, ⟨100, 8⟩] [2048]
        (fun c => decide (c.addr = 8192)) false).map (fun o => o.copies) =
        some [⟨4096, 2048, 512, false⟩, ⟨8192, 2560, 1024, false⟩, ⟨100, 3584, 8, false⟩] := by
      decide
    rw [e] at hd
    exact Option.some.inj hd
  refine ⟨out, e, h1, h2, hc, ?_⟩
  rw [h4, hc]
  decide

theorem list_length_eq_count (n : FemuCtrl) (l : List Nat) (st : NvmeZoneState)
    (hmem : ∀ zi, zi ∈ l ↔ inState n zi st) (hnd : l.Nodup) :
    l.length = n.zone_array.countP (fun z => decide (z.d.zs = st)) := by
  have hperm : l.Perm ((List.range n.zone_array.length).filter
      (fun i => decide ((zoneAt n i).d.zs = st))) := by
    refine (List.perm_ext_iff_of_nodup hnd (List.Nodup.filter _ (List.nodup_range _))).2 ?_
    intro a
    rw [hmem a, List.mem_filter, List.mem_range]
    unfold inState
    simp
  have hc := count_drop_eq n (fun z => decide (z.d.zs = st)) n.zone_array.length 0
    (Nat.zero_add _)
  rw [List.drop_zero, ← List.range_eq_range'] at hc
  rw [hperm.length_eq, hc]

theorem countP_split (p q r : NvmeZone → Bool) (l : List NvmeZone)
    (h : ∀ z, (r z = true ↔ (p z = true ∨ q z = true)) ∧ ¬ (p z = true ∧ q z = true)) :
    l.countP r = l.countP p + l.countP q := by
  induction l with
  | nil => rfl
  | cons z rest ih =>
    rw [List.countP_cons, List.countP_cons, List.countP_cons, ih]
    obtain ⟨h1, h2⟩ := h z
    cases hp : p z <;> cases hq : q z <;> cases hr : r z <;>
      simp only [hp, hq, hr, Bool.false_eq_true, if_false, if_true, or_self, or_true, true_or,
        iff_false, false_iff, not_true_eq_false, iff_true, true_iff, and_self,
        not_false_eq_true] at h1 h2 ⊢ <;> omega

theorem counts_eq (n : FemuCtrl) (hq : QueuesOk n) :
    openCount n = openZoneCount n ∧ activeCount n = activeZoneCount n := by
  obtain ⟨q1, q2, q3, _, d1, d2, d3, _⟩ := hq
  have e1 := list_length_eq_count n _ _ q1 d1
  have e2 := list_length_eq_count n _ _ q2 d2
  have e3 := list_length_eq_count n _ _ q3 d3
  have s1 : openZoneCount n =
      n.zone_array.countP (fun z => decide (z.d.zs = NvmeZoneState.IMPLICITLY_OPEN)) +
      n.zone_array.countP (fun z => decide (z.d.zs = NvmeZoneState.EXPLICITLY_OPEN)) := by
    unfold openZoneCount
    refine countP_split _ _ _ _ (fun z => ?_)
    cases z.d.zs <;> simp
  have s2 : activeZoneCount n = openZoneCount n +
      n.zone_array.countP (fun z => decide (z.d.zs = NvmeZoneState.CLOSED)) := by
    unfold activeZoneCount openZoneCount
    refine countP_split _ _ _ _ (fun z => ?_)
    cases z.d.zs <;> simp
  unfold activeCount openCount
  rw [s2, s1, e1, e2, e3]
  exact ⟨rfl, rfl⟩

/-- C31: in every state reached from the initial state of
`zns_init_zoned_state` (counters 0, fewer than `2^32` zones) by a finite
sequence of core operations: with `max_open_zones ≠ 0` the counter
`nr_open_zones` is the number of zones in state `IMPLICITLY_OPEN` or
`EXPLICITLY_OPEN`, and with `max_active_zones ≠ 0` the counter
`nr_active_zones` is the number of zones in state `IMPLICITLY_OPEN`,
`EXPLICITLY_OPEN` or `CLOSED`; zones in the other four states count for
neither. -/
theorem C31_counters_equal_zone_counts (n0 : FemuCtrl) (ops : List CoreOp) (n : FemuCtrl)
    (ho : n0.nr_open_zones = 0) (ha : n0.nr_active_zones = 0) (hz : n0.num_zones < U32)
    (hrun : runOps (zns_init_zoned_state n0) ops = some n) :
    (n.max_open_zones ≠ 0 → n.nr_open_zones = openZoneCount n) ∧
      (n.max_active_zones ≠ 0 → n.nr_active_zones = activeZoneCount n) := by
  have hinv := Inv_runOps ops _ n (Inv_init n0 ho ha hz) hrun
  obtain ⟨c1, c2⟩ := counts_eq n hinv.1
  exact ⟨fun h => (hinv.2.2.1 h).1.trans c1, fun h => (hinv.2.2.2 h).1.trans c2⟩

theorem C31_counters_equal_zone_counts_witness :
    ∃ n, runOps (zns_init_zoned_state (exampleConfig 3 4 2 2))
        [CoreOp.write (exampleReq 0 0) false false, CoreOp.write (exampleReq 4 0) false false,
          CoreOp.zone_op 0 0 ZoneHandler.CLOSE, CoreOp.write (exampleReq 8 3) false false] =
        some n ∧
      (n.nr_open_zones, n.nr_active_zones) = (1, 2) ∧
      (n.max_open_zones ≠ 0 → n.nr_open_zones = openZoneCount n) ∧
      (n.max_active_zones ≠ 0 → n.nr_active_zones = activeZoneCount n) := by
  have hm : (runOps (zns_init_zoned_state (exampleConfig 3 4 2 2))
        [CoreOp.write (exampleReq 0 0) false false, CoreOp.write (exampleReq 4 0) false false,
          CoreOp.zone_op 0 0 ZoneHandler.CLOSE, CoreOp.write (exampleReq 8 3) false false]).map
        (fun n => (n.nr_open_zones, n.nr_active_zones)) = some (1, 2) := by decide
  obtain ⟨n, hn, hv⟩ := Option.map_eq_some'.1 hm
  exact ⟨n, hn, hv,
    C31_counters_equal_zone_counts (exampleConfig 3 4 2 2) _ n rfl rfl (by decide) hn⟩

theorem pow2_of_and (fuel : Nat) :
    ∀ v : Nat, v < 2 ^ fuel → v ≠ 0 → v &&& (v - 1) = 0 → v = 2 ^ floor_log2 fuel v := by
  induction fuel with
  | zero =>
    intro v hv h0 _
    simp only [Nat.pow_zero, Nat.lt_one_iff] at hv
    exact absurd hv h0
  | succ fuel ih =>
    intro v hv h0 hand
    unfold floor_log2
    by_cases h1 : v ≤ 1
    · rw [if_pos h1]
      have : v = 1 := by omega
      rw [this]
      rfl
    · rw [if_neg h1]
      have hd : v / 2 &&& (v - 1) / 2 = 0 := by
        rw [← Nat.and_div_two, hand]
      have hpow : 2 ^ (fuel + 1) = 2 * 2 ^ fuel := by
        rw [Nat.pow_succ, Nat.mul_comm]
      have hhalf : v / 2 < 2 ^ fuel := by omega
      by_cases hodd : v % 2 = 1
      · have e : (v - 1) / 2 = v / 2 := by omega
        rw [e, Nat.and_self] at hd
        omega
      · have e : (v - 1) / 2 = v / 2 - 1 := by omega
        rw [e] at hd
        have hv2 := ih (v / 2) hhalf (by omega) hd
        have hev : v = 2 * (v / 2) := by omega
        rw [Nat.add_comm 1, Nat.pow_succ, ← hv2]
        omega

theorem is_power_of_2_pow (k : Nat) : is_power_of_2 (2 ^ k) = true := by
  unfold is_power_of_2
  have h1 : 2 ^ k ≠ 0 := Nat.pos_iff_ne_zero.1 (Nat.two_pow_pos k)
  have h2 : 2 ^ k &&& (2 ^ k - 1) = 0 := by
    rw [Nat.and_pow_two_sub_one_eq_mod, Nat.mod_self]
  simp [h1, h2]

theorem init_log2 (n0 : FemuCtrl) (h64 : n0.zone_size < U64) :
    (∀ k, n0.zone_size = 2 ^ k → (zns_init_zoned_state n0).zone_size_log2 = k) ∧
    ((¬ ∃ k, n0.zone_size = 2 ^ k) → (zns_init_zoned_state n0).zone_size_log2 = 0) ∧
    (0 < (zns_init_zoned_state n0).zone_size_log2 →
      n0.zone_size = 2 ^ (zns_init_zoned_state n0).zone_size_log2) := by
  have hU : U64 = 2 ^ 64 := by decide
  rw [hU] at h64
  have hkey : is_power_of_2 n0.zone_size = true →
      n0.zone_size = 2 ^ floor_log2 64 n0.zone_size := by
    intro hp
    unfold is_power_of_2 at hp
    simp only [ne_eq, decide_eq_true_eq] at hp
    exact pow2_of_and 64 _ h64 hp.1 hp.2
  have hlog : (zns_init_zoned_state n0).zone_size_log2 =
      if is_power_of_2 n0.zone_size = true then floor_log2 64 n0.zone_size else 0 := rfl
  refine ⟨fun k hk => ?_, fun hno => ?_, fun hpos => ?_⟩
  · have hp : is_power_of_2 n0.zone_size = true := by
      rw [hk]
      exact is_power_of_2_pow k
    rw [hlog, if_pos hp]
    have e := hkey hp
    rw [hk] at e
    rw [hk]
    exact (Nat.pow_right_injective (Nat.le_refl 2) e).symm
  · rw [hlog]
    by_cases hp : is_power_of_2 n0.zone_size = true
    · exact absurd ⟨_, hkey hp⟩ hno
    · rw [if_neg hp]
  · rw [hlog] at hpos ⊢
    by_cases hp : is_power_of_2 n0.zone_size = true
    · rw [if_pos hp]
      exact hkey hp
    · rw [if_neg hp] at hpos
      exact absurd hpos (Nat.lt_irrefl 0)

theorem init_zone_idx (n0 : FemuCtrl) (hzs : 1 ≤ n0.zone_size) (h64 : n0.zone_size < U64)
    (slba : Nat) :
    zns_zone_idx (zns_init_zoned_state n0) slba = some ((slba / n0.zone_size) % U32) := by
  have hlog := (init_log2 n0 h64).2.2
  have hsz : (zns_init_zoned_state n0).zone_size = n0.zone_size := rfl
  unfold zns_zone_idx
  rw [hsz]
  by_cases hl : (zns_init_zoned_state n0).zone_size_log2 > 0
  · rw [if_pos hl, Nat.shiftRight_eq_div_pow, ← hlog hl]
  · rw [if_neg hl, if_neg (by omega)]

/-- The geometry `zns_init_zone_geometry` accepts, for a 64-bit configured zone
size and namespace size: the zone size is between 1 and `2^64 - 1`, the zone
count fits 32 bits, and `num_zones * zone_size` does not wrap. -/
theorem geometry_no_wrap (c m : FemuCtrl) (zone_size_bs zone_cap_bs size : Nat)
    (hb : zone_size_bs < U64) (hs : size < U64)
    (h : zns_init_zone_geometry c zone_size_bs zone_cap_bs size = some (0, m)) :
    1 ≤ m.zone_size ∧ m.zone_size < U64 ∧ m.num_zones < U32 ∧
      m.num_zones * m.zone_size < U64 := by
  unfold zns_init_zone_geometry at h
  have hne : ∀ x : FemuCtrl, some ((-1 : Int), x) ≠ some ((0 : Int), m) := by
    intro x e
    have := congrArg Prod.fst (Option.some.inj e)
    simp at this
  have hpos : 0 < 2 ^ c.lbads := Nat.two_pow_pos _
  have hzs : (if zone_size_bs ≠ 0 then zone_size_bs else NVME_DEFAULT_ZONE_SIZE) < U64 := by
    split
    · exact hb
    · decide
  by_cases h0 : 31 ≤ c.lbads
  · rw [if_pos h0] at h
    exact absurd h (by simp)
  rw [if_neg h0] at h
  simp only at h
  generalize (if zone_size_bs ≠ 0 then zone_size_bs else NVME_DEFAULT_ZONE_SIZE) = zs at h hzs
  generalize (if zone_cap_bs ≠ 0 then zone_cap_bs else zs) = zc at h
  generalize 2 ^ c.lbads = lb at h hpos
  by_cases c1 : zc > zs
  · rw [if_pos c1] at h
    exact absurd h (hne _)
  rw [if_neg c1] at h
  by_cases c2 : zs < lb
  · rw [if_pos c2] at h
    exact absurd h (hne _)
  rw [if_neg c2] at h
  by_cases c3 : zc < lb
  · rw [if_pos c3] at h
    exact absurd h (hne _)
  rw [if_neg c3] at h
  have h1 : 1 ≤ zs / lb := (Nat.one_le_div_iff hpos).2 (Nat.not_lt.1 c2)
  have hfin : m.zone_size = zs / lb ∧ m.num_zones = (size / lb / (zs / lb)) % U32 := by
    by_cases c4 : c.max_open_zones > (size / lb / (zs / lb)) % U32
    · rw [if_pos c4] at h
      exact absurd h (hne _)
    rw [if_neg c4] at h
    by_cases c5 : c.max_active_zones > (size / lb / (zs / lb)) % U32
    · rw [if_pos c5] at h
      exact absurd h (hne _)
    rw [if_neg c5] at h
    have hm : ∀ (r : Int) (x : FemuCtrl), x.zone_size = zs / lb →
        x.num_zones = (size / lb / (zs / lb)) % U32 → some (r, x) = some ((0 : Int), m) →
        m.zone_size = zs / lb ∧ m.num_zones = (size / lb / (zs / lb)) % U32 := by
      intro r x hx1 hx2 e
      have e2 : x = m := congrArg Prod.snd (Option.some.inj e)
      rw [← e2]
      exact ⟨hx1, hx2⟩
    split at h
    · split at h
      · exact hm _ _ rfl rfl h
      · split at h
        · exact hm _ _ rfl rfl h
        · exact hm _ _ rfl rfl h
    · exact hm _ _ rfl rfl h
  rw [hfin.1, hfin.2]
  have hle : size / lb / (zs / lb) % U32 ≤ size / lb / (zs / lb) := Nat.mod_le _ _
  have hmul : size / lb / (zs / lb) * (zs / lb) ≤ size / lb := Nat.div_mul_le_self _ _
  have hmul2 : size / lb / (zs / lb) % U32 * (zs / lb) ≤ size / lb / (zs / lb) * (zs / lb) :=
    Nat.mul_le_mul_right _ hle
  have hsl : size / lb ≤ size := Nat.div_le_self _ _
  have hzl : zs / lb ≤ zs := Nat.div_le_self _ _
  have hU : 0 < U32 := by decide
  exact ⟨h1, by omega, Nat.mod_lt _ hU, by omega⟩

/-- C34: for a zone size between 1 and `2^64 - 1`, after
`zns_init_zoned_state`: `zone_size_log2` is `k` when the zone size is `2^k` and
0 when the zone size is not a power of two (so it is 0 for zone size 1, which
takes the division path); for every `slba`, `zns_zone_idx` returns
`floor(slba / zone_size)` truncated to 32 bits, on the shift path and on the
division path alike; and for a zone count that fits 32 bits with `num_zones *
zone_size` below `2^64`, `zns_zone_idx (zone_slba i) = i` for every
`i < num_zones`. -/
theorem C34_zone_idx_is_quotient (n0 : FemuCtrl) (hzs : 1 ≤ n0.zone_size)
    (h64 : n0.zone_size < U64) :
    (∀ k, n0.zone_size = 2 ^ k → (zns_init_zoned_state n0).zone_size_log2 = k) ∧
    ((¬ ∃ k, n0.zone_size = 2 ^ k) → (zns_init_zoned_state n0).zone_size_log2 = 0) ∧
    (∀ slba, zns_zone_idx (zns_init_zoned_state n0) slba =
      some ((slba / n0.zone_size) % U32)) ∧
    (∀ slba, 0 < (zns_init_zoned_state n0).zone_size_log2 →
      slba >>> (zns_init_zoned_state n0).zone_size_log2 = slba / n0.zone_size) ∧
    (n0.num_zones < U32 → n0.num_zones * n0.zone_size < U64 →
      ∀ i, i < n0.num_zones →
        zone_slba (zns_init_zoned_state n0) i = i * n0.zone_size ∧
        zns_zone_idx (zns_init_zoned_state n0) (zone_slba (zns_init_zoned_state n0) i) =
          some i) := by
  obtain ⟨l1, l2, l3⟩ := init_log2 n0 h64
  refine ⟨l1, l2, init_zone_idx n0 hzs h64, fun slba hpos => ?_, fun hn hmul i hi => ?_⟩
  · rw [Nat.shiftRight_eq_div_pow, ← l3 hpos]
  · have hle : i * n0.zone_size ≤ n0.num_zones * n0.zone_size :=
      Nat.mul_le_mul_right _ (Nat.le_of_lt hi)
    have hs : zone_slba (zns_init_zoned_state n0) i = i * n0.zone_size := by
      unfold zone_slba
      rw [show (zns_init_zoned_state n0).zone_size = n0.zone_size from rfl,
        Nat.mod_eq_of_lt (show i < U32 by omega), Nat.mod_eq_of_lt (by omega)]
    refine ⟨hs, ?_⟩
    rw [hs, init_zone_idx n0 hzs h64, Nat.mul_div_cancel _ hzs,
      Nat.mod_eq_of_lt (show i < U32 by omega)]

theorem C34_zone_idx_is_quotient_witness :
    (zns_init_zoned_state (exampleConfig 3 8 0 0)).zone_size_log2 = 3 ∧
      zns_zone_idx (zns_init_zoned_state (exampleConfig 3 8 0 0)) 21 = some ((21 / 8) % U32) ∧
      zns_zone_idx (zns_init_zoned_state (exampleConfig 3 1 0 0)) 2 = some ((2 / 1) % U32) :=
  ⟨(C34_zone_idx_is_quotient (exampleConfig 3 8 0 0) (by decide) (by decide)).1 3 (by decide),
    (C34_zone_idx_is_quotient (exampleConfig 3 8 0 0) (by decide) (by decide)).2.2.1 21,
    (C34_zone_idx_is_quotient (exampleConfig 3 1 0 0) (by decide) (by decide)).2.2.1 2⟩

/-- The loop of `zns_check_zone_read` started at zone `k`, for a request that
ends at `e` inside the namespace: it returns, and its result is already
determined by the zones `k` to `(e - 1) / zone_size`, the only zones it
reads. -/
theorem read_next_within (n : FemuCtrl) (e : Nat) (hg : ZoneGeom n)
    (he : e ≤ n.num_zones * n.zone_size) :
    ∀ d k, k + d = (e - 1) / n.zone_size → 0 < e →
      ∃ st, zns_check_zone_read_next n e (n.zone_array.drop k) = some st ∧
        zns_check_zone_read_next n e ((n.zone_array.drop k).take (d + 1)) = some st := by
  have hz := hg.1
  have hlen := hg.2.1
  have hzl : 0 < e → (e - 1) / n.zone_size < n.num_zones := by
    intro h0
    exact (Nat.div_lt_iff_lt_mul hz).2 (by omega)
  intro d
  induction d with
  | zero =>
    intro k hk h0
    have hkl : k < n.num_zones := by have := hzl h0; omega
    have hdrop := drop_zoneAt n k (by rw [hlen]; exact hkl)
    have hnot : ¬ e > (k + 1) * n.zone_size := by
      intro hgt
      have : k + 1 ≤ (e - 1) / n.zone_size := (Nat.le_div_iff_mul_le hz).2 (by omega)
      omega
    rw [hdrop, List.take_succ_cons]
    unfold zns_check_zone_read_next
    simp only [rd_boundary_geom n k hg hkl, if_neg hnot]
    split
    · exact ⟨_, rfl, rfl⟩
    · exact ⟨_, rfl, rfl⟩
  | succ d ih =>
    intro k hk h0
    have hkl : k < n.num_zones := by have := hzl h0; omega
    have hdrop := drop_zoneAt n k (by rw [hlen]; exact hkl)
    have hgt : e > (k + 1) * n.zone_size := by
      have h1 : k + 1 ≤ (e - 1) / n.zone_size := by omega
      have := (Nat.le_div_iff_mul_le hz).1 h1
      omega
    obtain ⟨st, i1, i2⟩ := ih (k + 1) (by omega) h0
    rw [hdrop, List.take_succ_cons]
    unfold zns_check_zone_read_next
    simp only [rd_boundary_geom n k hg hkl, if_pos hgt]
    split
    · exact ⟨_, rfl, rfl⟩
    · exact ⟨st, i1, i2⟩

/-- C33: with the zone layout of `zns_init_zoned_state` (zone `i` starts at
`i * zone_size`) and `nsze = num_zones * zone_size`, for a request of
`nlb ≥ 1` blocks that passes `zns_check_bounds`: `zns_zone_idx slba` is
`slba / zone_size`, which is below `num_zones`, so `zns_get_zone_by_slba`
returns that zone and its assertion does not fire; `zns_check_zone_read`
returns a status (with and without cross-zone read); the zone of the last
block has an index below `num_zones`; and when the request reaches past the
first zone, the `do ... while` loop started behind it returns, and what it
returns is determined by the zones up to the zone of the last block: it reads
no zone behind that one. -/
theorem C33_read_stays_in_array (n : FemuCtrl) (slba nlb : Nat) (hg : ZoneGeom n)
    (hsz : n.nsze = n.num_zones * n.zone_size) (hn : 1 ≤ nlb)
    (hb : zns_check_bounds n slba nlb = NVME_SUCCESS) :
    zns_zone_idx n slba = some (slba / n.zone_size) ∧
    slba / n.zone_size < n.num_zones ∧
    zns_get_zone_by_slba n slba = some (slba / n.zone_size) ∧
    (∃ st, zns_check_zone_read n slba nlb = some st) ∧
    (slba + nlb - 1) / n.zone_size < n.num_zones ∧
    (slba + nlb > (slba / n.zone_size + 1) * n.zone_size →
      ∃ st, zns_check_zone_read_next n ((slba + nlb) % U64)
          (n.zone_array.drop (slba / n.zone_size + 1)) = some st ∧
        zns_check_zone_read_next n ((slba + nlb) % U64)
          ((n.zone_array.drop (slba / n.zone_size + 1)).take
            ((slba + nlb - 1) / n.zone_size - slba / n.zone_size)) = some st) := by
  have hz := hg.1
  have hin : slba + nlb ≤ n.num_zones * n.zone_size ∧ slba + nlb < U64 := by
    unfold zns_check_bounds at hb
    by_cases hc : (U64 - 1) - slba < nlb ∨ (slba + nlb) % U64 > n.nsze
    · rw [if_pos hc] at hb
      exact absurd hb (by simp [NVME_SUCCESS])
    · have h1 : ¬ (U64 - 1) - slba < nlb := fun h => hc (Or.inl h)
      have h2 : ¬ (slba + nlb) % U64 > n.nsze := fun h => hc (Or.inr h)
      have h3 : slba + nlb < U64 := by omega
      rw [Nat.mod_eq_of_lt h3] at h2
      exact ⟨by omega, h3⟩
  have hlt : slba < n.num_zones * n.zone_size := by omega
  obtain ⟨hget, hzi⟩ := zone_idx_geom n slba hg hlt
  have hlast : (slba + nlb - 1) / n.zone_size < n.num_zones :=
    (Nat.div_lt_iff_lt_mul hz).2 (by omega)
  have hend : (slba + nlb) % U64 = slba + nlb := Nat.mod_eq_of_lt hin.2
  have hloop : slba + nlb > (slba / n.zone_size + 1) * n.zone_size →
      ∃ st, zns_check_zone_read_next n (slba + nlb)
          (n.zone_array.drop (slba / n.zone_size + 1)) = some st ∧
        zns_check_zone_read_next n (slba + nlb)
          ((n.zone_array.drop (slba / n.zone_size + 1)).take
            ((slba + nlb - 1) / n.zone_size - slba / n.zone_size)) = some st := by
    intro hgt
    have hk : slba / n.zone_size + 1 ≤ (slba + nlb - 1) / n.zone_size :=
      (Nat.le_div_iff_mul_le hz).2 (by omega)
    have h := read_next_within n (slba + nlb) hg hin.1
      ((slba + nlb - 1) / n.zone_size - (slba / n.zone_size + 1)) (slba / n.zone_size + 1)
      (by omega) (by omega)
    have e : (slba + nlb - 1) / n.zone_size - (slba / n.zone_size + 1) + 1 =
        (slba + nlb - 1) / n.zone_size - slba / n.zone_size := by omega
    rw [e] at h
    exact h
  refine ⟨zone_idx_value n slba hg hlt, hzi, hget, ?_, hlast, ?_⟩
  · unfold zns_check_zone_read
    rw [hget]
    simp only [rd_boundary_geom n _ hg hzi, hend]
    split
    · exact ⟨_, rfl⟩
    · split
      · split
        · exact ⟨_, rfl⟩
        · next hgt _ =>
          obtain ⟨st, h1, _⟩ := hloop hgt
          exact ⟨st, h1⟩
      · exact ⟨_, rfl⟩
  · rw [hend]
    exact hloop

theorem C33_read_stays_in_array_witness :
    zns_zone_idx { exampleCtrl 3 4 0 0 with cross_zone_read := true } 2 = some 0 ∧
      ∃ st, zns_check_zone_read { exampleCtrl 3 4 0 0 with cross_zone_read := true } 2 10 =
        some st := by
  obtain ⟨h1, _, _, h4, _⟩ := C33_read_stays_in_array
    { exampleCtrl 3 4 0 0 with cross_zone_read := true } 2 10 (by unfold ZoneGeom; decide)
    (by decide) (by decide) (by decide)
  exact ⟨h1, h4⟩

theorem keeps_bulk_proc_zone (P : FemuCtrl → Prop) (op : op_handler_t)
    (hop : HandlerKeeps P op) (n : FemuCtrl) (zi mask : Nat) (hp : P n) :
    P (zns_bulk_proc_zone n zi mask op).2 := by
  unfold zns_bulk_proc_zone
  simp only [zns_get_zone_state]
  split
  · by_cases hl : zi < n.zone_array.length
    · exact hop n zi hp hl
    · next hsel =>
      rw [zoneAt_out_of_range n zi (Nat.le_of_not_lt hl)] at hsel
      simp at hsel
  · exact hp

theorem keeps_bulk_foreach (P : FemuCtrl → Prop) (op : op_handler_t)
    (hop : HandlerKeeps P op) (mask : Nat) (l : List Nat) :
    ∀ (st : Status) (n : FemuCtrl), P n → P (zns_bulk_foreach mask op l st n).2.1 := by
  induction l with
  | nil => intro st n h; exact h
  | cons zi rest ih =>
    intro st n h
    unfold zns_bulk_foreach
    simp only
    split
    · exact keeps_bulk_proc_zone P op hop n zi mask h
    · exact ih _ _ (keeps_bulk_proc_zone P op hop n zi mask h)

theorem keeps_bulk_scan (P : FemuCtrl → Prop) (op : op_handler_t)
    (hop : HandlerKeeps P op) (mask : Nat) (i : Nat) :
    ∀ (zone : Nat) (st : Status) (n : FemuCtrl) (r : Status × FemuCtrl), P n →
      zns_bulk_scan mask op i zone st n = some r → P r.2 := by
  induction i with
  | zero =>
    intro zone st n r h hr
    simp only [zns_bulk_scan, Option.some.injEq] at hr
    rw [← hr]; exact h
  | succ i ih =>
    intro zone st n r h hr
    unfold zns_bulk_scan at hr
    split at hr
    · simp only at hr
      split at hr
      · simp only [Option.some.injEq] at hr
        rw [← hr]; exact keeps_bulk_proc_zone P op hop n zone mask h
      · exact ih _ _ _ r (keeps_bulk_proc_zone P op hop n zone mask h) hr
    · simp at hr

set_option maxHeartbeats 1600000 in
theorem keeps_do_zone_op (P : FemuCtrl → Prop) (op : op_handler_t)
    (hop : HandlerKeeps P op) (n : FemuCtrl) (zone mask : Nat)
    (r : Status × FemuCtrl) (hp : P n) (h : zns_do_zone_op n zone mask op = some r) :
    P r.2 := by
  unfold zns_do_zone_op at h
  split at h
  · split at h
    · next hl =>
      simp only [Option.some.injEq] at h
      rw [← h]; exact hop n zone hp hl
    · simp at h
  · have i1 : P (if mask &&& NVME_PROC_CLOSED_ZONES ≠ 0 then
          zns_bulk_foreach mask op n.closed_zones NVME_SUCCESS n
        else (NVME_SUCCESS, n, false)).2.1 := by
      split
      · exact keeps_bulk_foreach P op hop mask _ _ _ hp
      · exact hp
    generalize (if mask &&& NVME_PROC_CLOSED_ZONES ≠ 0 then
          zns_bulk_foreach mask op n.closed_zones NVME_SUCCESS n
        else (NVME_SUCCESS, n, false)) = r1 at h i1
    simp only at h
    split at h
    · simp only [Option.some.injEq] at h
      rw [← h]; exact i1
    · have i2 : P (if mask &&& NVME_PROC_OPENED_ZONES ≠ 0 then
            if (zns_bulk_foreach mask op r1.2.1.imp_open_zones r1.1 r1.2.1).2.2 = true then
              zns_bulk_foreach mask op r1.2.1.imp_open_zones r1.1 r1.2.1
            else zns_bulk_foreach mask op
              (zns_bulk_foreach mask op r1.2.1.imp_open_zones r1.1 r1.2.1).2.1.exp_open_zones
              (zns_bulk_foreach mask op r1.2.1.imp_open_zones r1.1 r1.2.1).1
              (zns_bulk_foreach mask op r1.2.1.imp_open_zones r1.1 r1.2.1).2.1
          else r1).2.1 := by
        split
        · split
          · exact keeps_bulk_foreach P op hop mask _ _ _ i1
          · exact keeps_bulk_foreach P op hop mask _ _ _
              (keeps_bulk_foreach P op hop mask _ _ _ i1)
        · exact i1
      generalize (if mask &&& NVME_PROC_OPENED_ZONES ≠ 0 then
            if (zns_bulk_foreach mask op r1.2.1.imp_open_zones r1.1 r1.2.1).2.2 = true then
              zns_bulk_foreach mask op r1.2.1.imp_open_zones r1.1 r1.2.1
            else zns_bulk_foreach mask op
              (zns_bulk_foreach mask op r1.2.1.imp_open_zones r1.1 r1.2.1).2.1.exp_open_zones
              (zns_bulk_foreach mask op r1.2.1.imp_open_zones r1.1 r1.2.1).1
              (zns_bulk_foreach mask op r1.2.1.imp_open_zones r1.1 r1.2.1).2.1
          else r1) = r2 at h i2
      split at h
      · simp only [Option.some.injEq] at h
        rw [← h]; exact i2
      · have i3 : P (if mask &&& NVME_PROC_FULL_ZONES ≠ 0 then
              zns_bulk_foreach mask op r2.2.1.full_zones r2.1 r2.2.1
            else r2).2.1 := by
          split
          · exact keeps_bulk_foreach P op hop mask _ _ _ i2
          · exact i2
        generalize (if mask &&& NVME_PROC_FULL_ZONES ≠ 0 then
              zns_bulk_foreach mask op r2.2.1.full_zones r2.1 r2.2.1
            else r2) = r3 at h i3
        split at h
        · simp only [Option.some.injEq] at h
          rw [← h]; exact i3
        · split at h
          · split at h
            · split at h
              · simp only [Option.some.injEq] at h
                rw [← h]; exact i3
              · simp at h
            · exact keeps_bulk_scan P op hop mask _ _ _ _ r i3 h
          · simp only [Option.some.injEq] at h
            rw [← h]; exact i3

theorem Counted_bounds (n : FemuCtrl) (zi : Nat) (h : Counted n)
    (hl : zi < n.zone_array.length) :
    n.nr_open_zones + (1 - isOpen (zoneAt n zi).d.zs) < U32 ∧
    isOpen (zoneAt n zi).d.zs ≤ n.nr_open_zones ∧
    n.nr_active_zones + (1 - isActive (zoneAt n zi).d.zs) < U32 ∧
    isActive (zoneAt n zi).d.zs ≤ n.nr_active_zones := by
  obtain ⟨hq, hlen, ⟨t1, t2⟩, _⟩ := h
  obtain ⟨r1, r2⟩ := count_room n zi hq hl
  obtain ⟨p1, p2⟩ := count_pos n zi hq hl
  rw [t1, t2]
  exact ⟨by omega, by omega, by omega, by omega⟩

theorem Counted_assign (m : FemuCtrl) (zi : Nat) (st : NvmeZoneState) (hq : QueuesOk m)
    (hlen : m.zone_array.length < U32) (hl : zi < m.zone_array.length)
    (hno : ∀ zj, (zoneAt m zj).d.zs ≠ NvmeZoneState.READ_ONLY ∧
      (zoneAt m zj).d.zs ≠ NvmeZoneState.OFFLINE)
    (hst : st ≠ NvmeZoneState.READ_ONLY ∧ st ≠ NvmeZoneState.OFFLINE)
    (ho : m.nr_open_zones + isOpen (zoneAt m zi).d.zs = openCount m + isOpen st)
    (ha : m.nr_active_zones + isActive (zoneAt m zi).d.zs = activeCount m + isActive st) :
    Counted (zns_assign_zone_state m zi st) := by
  obtain ⟨q, c1, c2, c3, _⟩ := assign_spec m zi st hq hl
  obtain ⟨f1, f2, f3, f4, f5⟩ := assign_frame m zi st
  refine ⟨q, by rw [f5]; exact hlen, ⟨?_, ?_⟩, ?_⟩
  · rw [f1]
    unfold openCount isOpen at *
    omega
  · rw [f2]
    unfold activeCount openCount isActive isOpen at *
    omega
  · intro zj
    rw [zoneAt_assign]
    split
    · exact hst
    · exact hno zj

/-- The general transition step for `Counted`: a state `m` that differs from a
counted state `n` in counters and write pointers only, followed by the
assignment of a state other than `READ_ONLY` and `OFFLINE` to zone `zi`, is
counted again when the counters were moved by what the old and the new state of
the zone hold. -/
theorem Counted_transition (n m : FemuCtrl) (zi : Nat) (st : NvmeZoneState) (h : Counted n)
    (hs : SameQ n m) (hl : zi < n.zone_array.length)
    (hst : st ≠ NvmeZoneState.READ_ONLY ∧ st ≠ NvmeZoneState.OFFLINE)
    (ho : m.nr_open_zones + isOpen (zoneAt n zi).d.zs = n.nr_open_zones + isOpen st)
    (ha : m.nr_active_zones + isActive (zoneAt n zi).d.zs = n.nr_active_zones + isActive st) :
    Counted (zns_assign_zone_state m zi st) := by
  obtain ⟨hq, hlen, ⟨t1, t2⟩, hno⟩ := h
  obtain ⟨c1, c2⟩ := hs.counts
  have hs' := hs
  obtain ⟨_, _, _, _, h5, h6, _, _⟩ := hs'
  apply Counted_assign m zi st (hs.queuesOk hq) (by rw [h5]; exact hlen) (by rw [h5]; exact hl)
    (fun zj => by rw [h6]; exact hno zj) hst
  · rw [h6, c1]; omega
  · rw [h6, c2]; omega

theorem Counted_same (n m : FemuCtrl) (h : Counted n) (hs : SameQ n m)
    (ho : m.nr_open_zones = n.nr_open_zones) (ha : m.nr_active_zones = n.nr_active_zones) :
    Counted m := by
  obtain ⟨hq, hlen, ⟨t1, t2⟩, hno⟩ := h
  obtain ⟨c1, c2⟩ := hs.counts
  have hs' := hs
  obtain ⟨_, _, _, _, h5, h6, _, _⟩ := hs'
  exact ⟨hs.queuesOk hq, by rw [h5]; exact hlen, ⟨by rw [ho, c1]; exact t1,
    by rw [ha, c2]; exact t2⟩, fun zj => by rw [h6]; exact hno zj⟩

/-- The counter values after an increment and after a decrement that do not
wrap. -/
theorem counter_steps (x : Nat) :
    (x + 1 < U32 → (x + 1) % U32 = x + 1) ∧
    (1 ≤ x → (if x = 0 then U32 - 1 else x - 1) + 1 = x) := by
  constructor
  · intro h; exact Nat.mod_eq_of_lt h
  · intro h
    rw [if_neg (by omega)]
    omega

theorem Counted_release (n m : FemuCtrl) (zi : Nat) (st : NvmeZoneState) (h : Counted n)
    (hl : zi < n.zone_array.length) (hs : SameQ n m)
    (ho : m.nr_open_zones = (releaseFor (zoneAt n zi).d.zs n).nr_open_zones)
    (ha : m.nr_active_zones = (releaseFor (zoneAt n zi).d.zs n).nr_active_zones)
    (hst : st = NvmeZoneState.EMPTY ∨ st = NvmeZoneState.FULL) :
    Counted (zns_assign_zone_state m zi st) := by
  obtain ⟨b1, b2, b3, b4⟩ := Counted_bounds n zi h hl
  have hso : isOpen st = 0 := by rcases hst with e | e <;> rw [e] <;> rfl
  have hsa : isActive st = 0 := by rcases hst with e | e <;> rw [e] <;> rfl
  have hne : st ≠ NvmeZoneState.READ_ONLY ∧ st ≠ NvmeZoneState.OFFLINE := by
    rcases hst with e | e <;> rw [e] <;> simp
  apply Counted_transition n m zi st h hs hl hne
  · rw [ho, hso]
    cases hos : (zoneAt n zi).d.zs with
    | IMPLICITLY_OPEN =>
      rw [hos] at b2
      have := (counter_steps n.nr_open_zones).2 b2
      exact this
    | EXPLICITLY_OPEN =>
      rw [hos] at b2
      have := (counter_steps n.nr_open_zones).2 b2
      exact this
    | _ => rfl
  · rw [ha, hsa]
    cases hos : (zoneAt n zi).d.zs with
    | IMPLICITLY_OPEN =>
      rw [hos] at b4
      exact (counter_steps n.nr_active_zones).2 b4
    | EXPLICITLY_OPEN =>
      rw [hos] at b4
      exact (counter_steps n.nr_active_zones).2 b4
    | CLOSED =>
      rw [hos] at b4
      exact (counter_steps n.nr_active_zones).2 b4
    | _ => rfl

theorem Counted_auto_transition (n : FemuCtrl) (h : Counted n) :
    Counted (zns_auto_transition_zone n) := by
  rw [auto_transition_eq n h.1]
  split
  · cases hh : n.imp_open_zones.head? with
    | none => exact h
    | some zi =>
      simp only
      have hmem : zi ∈ n.imp_open_zones := List.mem_of_mem_head? hh
      have hin := (h.1.1 zi).1 hmem
      obtain ⟨b1, b2, b3, b4⟩ := Counted_bounds n zi h hin.1
      rw [hin.2] at b2
      apply Counted_transition n _ zi _ h (SameQ.refl n).dec_open hin.1 (by simp)
      · rw [hin.2]
        exact (counter_steps n.nr_open_zones).2 b2
      · rw [hin.2]
        rfl
  · exact h

theorem Counted_advance (n : FemuCtrl) (zi nlb : Nat) (h : Counted n)
    (hl : zi < n.zone_array.length) : Counted (zns_advance_zone_wp n zi nlb).2 := by
  have hsq : SameQ n (setZone n zi { zoneAt n zi with w_ptr := ((zoneAt n zi).w_ptr + nlb) % U64 }) :=
    (SameQ.refl n).setZone zi _ rfl
  have hst : (zoneAt (setZone n zi { zoneAt n zi with w_ptr := ((zoneAt n zi).w_ptr + nlb) % U64 })
      zi).d.zs = (zoneAt n zi).d.zs := hsq.2.2.2.2.2.1 zi
  obtain ⟨b1, b2, b3, b4⟩ := Counted_bounds n zi h hl
  unfold zns_advance_zone_wp
  simp only [zns_get_zone_state, hst]
  split
  · cases hs : (zoneAt n zi).d.zs with
    | EMPTY =>
      simp only
      rw [hs] at b1 b3
      apply Counted_transition n _ zi _ h hsq.inc_active.inc_open hl (by simp)
      · rw [hs]
        show (n.nr_open_zones + 1) % U32 + 0 = n.nr_open_zones + 1
        rw [(counter_steps n.nr_open_zones).1 b1]
      · rw [hs]
        show (n.nr_active_zones + 1) % U32 + 0 = n.nr_active_zones + 1
        rw [(counter_steps n.nr_active_zones).1 b3]
    | CLOSED =>
      simp only
      rw [hs] at b1
      apply Counted_transition n _ zi _ h hsq.inc_open hl (by simp)
      · rw [hs]
        show (n.nr_open_zones + 1) % U32 + 0 = n.nr_open_zones + 1
        rw [(counter_steps n.nr_open_zones).1 b1]
      · rw [hs]
        rfl
    | _ => exact Counted_same n _ h hsq rfl rfl
  · exact Counted_same n _ h hsq rfl rfl

theorem Counted_finalize (n n' : FemuCtrl) (req req' : NvmeRequest) (failed : Bool)
    (h0 : Counted n) (h : zns_finalize_zoned_write n req failed = some (n', req')) :
    Counted n' := by
  unfold zns_finalize_zoned_write at h
  cases hz : zns_get_zone_by_slba n req.cmd.slba with
  | none => simp [hz] at h
  | some zi =>
  have hl := get_zone_lt n _ zi hz
  have hsq : SameQ n (setZone n zi { zoneAt n zi with
      d := { (zoneAt n zi).d with wp := ((zoneAt n zi).d.wp + (req.cmd.nlb + 1)) % U64 } }) :=
    (SameQ.refl n).setZone zi _ rfl
  have hst := hsq.2.2.2.2.2.1 zi
  cases failed <;> simp only [hz, Bool.false_eq_true, if_false, if_true] at h <;>
  · split at h
    · split at h
      · next hs =>
        have hs' : (zoneAt n zi).d.zs = NvmeZoneState.IMPLICITLY_OPEN := hst ▸ hs
        simp only [Option.some.injEq, Prod.mk.injEq] at h
        obtain ⟨h1, _⟩ := h
        subst h1
        exact Counted_release n _ zi _ h0 hl hsq.dec_open.dec_active (by rw [hs']; rfl)
          (by rw [hs']; rfl) (Or.inr rfl)
      · next hs =>
        have hs' : (zoneAt n zi).d.zs = NvmeZoneState.EXPLICITLY_OPEN := hst ▸ hs
        simp only [Option.some.injEq, Prod.mk.injEq] at h
        obtain ⟨h1, _⟩ := h
        subst h1
        exact Counted_release n _ zi _ h0 hl hsq.dec_open.dec_active (by rw [hs']; rfl)
          (by rw [hs']; rfl) (Or.inr rfl)
      · next hs =>
        have hs' : (zoneAt n zi).d.zs = NvmeZoneState.CLOSED := hst ▸ hs
        simp only [Option.some.injEq, Prod.mk.injEq] at h
        obtain ⟨h1, _⟩ := h
        subst h1
        exact Counted_release n _ zi _ h0 hl hsq.dec_active (by rw [hs']; rfl)
          (by rw [hs']; rfl) (Or.inr rfl)
      · next hs =>
        have hs' : (zoneAt n zi).d.zs = NvmeZoneState.EMPTY := hst ▸ hs
        simp only [Option.some.injEq, Prod.mk.injEq] at h
        obtain ⟨h1, _⟩ := h
        subst h1
        exact Counted_release n _ zi _ h0 hl hsq (by rw [hs']; rfl)
          (by rw [hs']; rfl) (Or.inr rfl)
      · simp only [Option.some.injEq, Prod.mk.injEq] at h
        obtain ⟨h1, _⟩ := h
        subst h1
        exact Counted_same n _ h0 hsq rfl rfl
      · simp at h
    · simp only [Option.some.injEq, Prod.mk.injEq] at h
      obtain ⟨h1, _⟩ := h
      subst h1
      exact Counted_same n _ h0 hsq rfl rfl

theorem Counted_auto_open (n : FemuCtrl) (zi : Nat) (h : Counted n) :
    Counted (zns_auto_open_zone n zi).2 := by
  unfold zns_auto_open_zone
  split <;> first | exact Counted_auto_transition n h | exact h

theorem Counted_do_write (n : FemuCtrl) (req : NvmeRequest) (append wrz : Bool) (out : WriteOut)
    (h0 : Counted n) (h : zns_do_write n req append wrz = some out) : Counted out.n := by
  obtain ⟨_, hc⟩ := do_write_cases n req append wrz out h
  rcases hc with ⟨_, _, e⟩ | ⟨_, ⟨_, e⟩ | ⟨_, zi, hz, hc⟩⟩
  · rw [e]; exact h0
  · rw [e]; exact h0
  have hl := get_zone_lt n _ zi hz
  rcases hc with ⟨_, e⟩ | ⟨_, ⟨_, e⟩ | ⟨hao, hc⟩⟩
  · rw [e]; exact h0
  · rw [e]; exact Counted_auto_open n zi h0
  have b := (SameGeom.auto_open n zi).2.2.2.2.2.2.2.2.2.2.2.1
  have h2 : Counted (zns_advance_zone_wp (zns_auto_open_zone n zi).2 zi (req.cmd.nlb + 1)).2 :=
    Counted_advance _ zi _ (Counted_auto_open n zi h0) (by rw [b]; exact hl)
  rcases hc with ⟨_, _, e⟩ | ⟨_, n3, req3, hf, e⟩
  · rw [e]; exact h2
  · rw [e]; exact Counted_finalize _ n3 _ req3 false h2 hf

theorem Counted_open_zone (n : FemuCtrl) (zi : Nat) (h : Counted n)
    (hl : zi < n.zone_array.length) : Counted (zns_open_zone n zi (zoneAt n zi).d.zs).2 := by
  obtain ⟨b1, b2, b3, b4⟩ := Counted_bounds n zi h hl
  cases hs : (zoneAt n zi).d.zs with
  | EMPTY =>
    rw [hs] at b1 b3
    unfold zns_open_zone
    simp only
    by_cases h1 : zns_aor_check n 1 0 = NVME_SUCCESS
    swap
    · simp only [ne_eq, h1, not_false_eq_true, if_true]; exact h
    simp only [ne_eq, h1, not_true_eq_false, if_false]
    unfold zns_open_zone_closed
    by_cases h2 : zns_aor_check (zns_aor_inc_active n) 0 1 = NVME_SUCCESS
    swap
    · simp only [ne_eq, h2, not_false_eq_true, if_true]
      apply Counted_same n _ h (SameQ.refl n).inc_active.dec_active rfl
      show (if (n.nr_active_zones + 1) % U32 = 0 then U32 - 1
        else (n.nr_active_zones + 1) % U32 - 1) = n.nr_active_zones
      rw [(counter_steps n.nr_active_zones).1 b3, if_neg (by omega)]
      omega
    simp only [ne_eq, h2, not_true_eq_false, if_false]
    apply Counted_transition n _ zi _ h (SameQ.refl n).inc_active.inc_open hl (by simp)
    · rw [hs]
      show (n.nr_open_zones + 1) % U32 + 0 = n.nr_open_zones + 1
      rw [(counter_steps n.nr_open_zones).1 b1]
    · rw [hs]
      show (n.nr_active_zones + 1) % U32 + 0 = n.nr_active_zones + 1
      rw [(counter_steps n.nr_active_zones).1 b3]
  | CLOSED =>
    rw [hs] at b1
    unfold zns_open_zone zns_open_zone_closed
    simp only
    by_cases h2 : zns_aor_check n 0 1 = NVME_SUCCESS
    swap
    · simp only [ne_eq, h2, not_false_eq_true, if_true, reduceCtorEq, if_false]; exact h
    simp only [ne_eq, h2, not_true_eq_false, if_false]
    apply Counted_transition n _ zi _ h (SameQ.refl n).inc_open hl (by simp)
    · rw [hs]
      show (n.nr_open_zones + 1) % U32 + 0 = n.nr_open_zones + 1
      rw [(counter_steps n.nr_open_zones).1 b1]
    · rw [hs]
      rfl
  | IMPLICITLY_OPEN =>
    unfold zns_open_zone
    simp only
    apply Counted_transition n _ zi _ h (SameQ.refl n) hl (by simp)
    · rw [hs]; rfl
    · rw [hs]; rfl
  | EXPLICITLY_OPEN => exact h
  | READ_ONLY => exact h
  | FULL => exact h
  | OFFLINE => exact h

theorem Counted_close_zone (n : FemuCtrl) (zi : Nat) (h : Counted n)
    (hl : zi < n.zone_array.length) : Counted (zns_close_zone n zi (zoneAt n zi).d.zs).2 := by
  obtain ⟨b1, b2, b3, b4⟩ := Counted_bounds n zi h hl
  have key : isOpen (zoneAt n zi).d.zs = 1 →
      Counted (zns_assign_zone_state (zns_aor_dec_open n) zi NvmeZoneState.CLOSED) := by
    intro h1
    have h2 : isActive (zoneAt n zi).d.zs = 1 := by
      unfold isActive isOpen at *
      cases hs : (zoneAt n zi).d.zs <;> simp [hs] at h1 ⊢
    rw [h1] at b2
    apply Counted_transition n _ zi _ h (SameQ.refl n).dec_open hl (by simp)
    · rw [h1]
      exact (counter_steps n.nr_open_zones).2 b2
    · rw [h2]
      rfl
  cases hs : (zoneAt n zi).d.zs with
  | IMPLICITLY_OPEN => exact key (by rw [hs]; rfl)
  | EXPLICITLY_OPEN => exact key (by rw [hs]; rfl)
  | _ => exact h

theorem Counted_finish_zone (n : FemuCtrl) (zi : Nat) (h : Counted n)
    (hl : zi < n.zone_array.length) : Counted (zns_finish_zone n zi (zoneAt n zi).d.zs).2 := by
  have key : ∀ m : FemuCtrl, SameQ n m →
      m.nr_open_zones = (releaseFor (zoneAt n zi).d.zs n).nr_open_zones →
      m.nr_active_zones = (releaseFor (zoneAt n zi).d.zs n).nr_active_zones →
      Counted (zns_finish_zone_empty m zi) := by
    intro m hs ho ha
    unfold zns_finish_zone_empty
    refine Counted_release n _ zi _ h hl ?_ ho ha (Or.inr rfl)
    refine SameQ.setZone (SameQ.setZone hs _ _ ?_) _ _ ?_ <;> rfl
  cases hs : (zoneAt n zi).d.zs with
  | IMPLICITLY_OPEN =>
    exact key _ (SameQ.refl n).dec_open.dec_active (by rw [hs]; rfl) (by rw [hs]; rfl)
  | EXPLICITLY_OPEN =>
    exact key _ (SameQ.refl n).dec_open.dec_active (by rw [hs]; rfl) (by rw [hs]; rfl)
  | CLOSED => exact key _ (SameQ.refl n).dec_active (by rw [hs]; rfl) (by rw [hs]; rfl)
  | EMPTY => exact key _ (SameQ.refl n) (by rw [hs]; rfl) (by rw [hs]; rfl)
  | _ => exact h

theorem Counted_reset_cb (n : FemuCtrl) (zi : Nat) (h : Counted n)
    (hl : zi < n.zone_array.length) : Counted (zns_aio_zone_reset_cb n zi) := by
  have key : ∀ m : FemuCtrl, SameQ n m →
      m.nr_open_zones = (releaseFor (zoneAt n zi).d.zs n).nr_open_zones →
      m.nr_active_zones = (releaseFor (zoneAt n zi).d.zs n).nr_active_zones →
      Counted (zns_assign_zone_state
        (setZone (setZone m zi { zoneAt m zi with w_ptr := (zoneAt m zi).d.zslba }) zi
          { zoneAt (setZone m zi { zoneAt m zi with w_ptr := (zoneAt m zi).d.zslba }) zi with
            d := { (zoneAt (setZone m zi
              { zoneAt m zi with w_ptr := (zoneAt m zi).d.zslba }) zi).d with
              wp := (zoneAt (setZone m zi
                { zoneAt m zi with w_ptr := (zoneAt m zi).d.zslba }) zi).w_ptr } })
        zi NvmeZoneState.EMPTY) := by
    intro m hs ho ha
    refine Counted_release n _ zi _ h hl ?_ ho ha (Or.inl rfl)
    refine SameQ.setZone (SameQ.setZone hs _ _ ?_) _ _ ?_ <;> rfl
  unfold zns_aio_zone_reset_cb
  simp only [zns_get_zone_state]
  have fin : ∀ m : FemuCtrl, Counted m → ∀ blk, Counted (zns_reset_erase m blk) := by
    intro m hm blk
    obtain ⟨f1, f2, f3, _⟩ := reset_erase_frame m blk
    exact Counted_same m _ hm f1 f2 f3
  apply fin
  cases hs : (zoneAt n zi).d.zs with
  | IMPLICITLY_OPEN =>
    exact key _ (SameQ.refl n).dec_open.dec_active (by rw [hs]; rfl) (by rw [hs]; rfl)
  | EXPLICITLY_OPEN =>
    exact key _ (SameQ.refl n).dec_open.dec_active (by rw [hs]; rfl) (by rw [hs]; rfl)
  | CLOSED => exact key _ (SameQ.refl n).dec_active (by rw [hs]; rfl) (by rw [hs]; rfl)
  | FULL => exact key _ (SameQ.refl n) (by rw [hs]; rfl) (by rw [hs]; rfl)
  | _ => exact h

theorem Counted_reset_zone (n : FemuCtrl) (zi : Nat) (h : Counted n)
    (hl : zi < n.zone_array.length) : Counted (zns_reset_zone n zi (zoneAt n zi).d.zs).2 := by
  unfold zns_reset_zone
  cases (zoneAt n zi).d.zs <;> first | exact h | exact Counted_reset_cb n zi h hl

theorem Counted_offline_zone (n : FemuCtrl) (zi : Nat) (h : Counted n) :
    Counted (zns_offline_zone n zi (zoneAt n zi).d.zs).2 := by
  cases hs : (zoneAt n zi).d.zs with
  | READ_ONLY => exact absurd hs (h.2.2.2 zi).1
  | _ => exact h

theorem Counted_set_zd_ext (n : FemuCtrl) (zi : Nat) (h : Counted n)
    (hl : zi < n.zone_array.length) : Counted (zns_set_zd_ext n zi).2 := by
  obtain ⟨b1, b2, b3, b4⟩ := Counted_bounds n zi h hl
  unfold zns_set_zd_ext
  simp only [zns_get_zone_state]
  by_cases hs : (zoneAt n zi).d.zs = NvmeZoneState.EMPTY
  swap
  · simp only [hs, if_false]; exact h
  simp only [hs, if_true]
  by_cases h1 : zns_aor_check n 1 0 = NVME_SUCCESS
  swap
  · simp only [ne_eq, h1, not_false_eq_true, if_true]; exact h
  simp only [ne_eq, h1, not_true_eq_false, if_false]
  rw [hs] at b3
  refine Counted_transition n _ zi _ h ?_ hl (by simp) ?_ ?_
  · refine SameQ.setZone (SameQ.refl n).inc_active _ _ ?_; rfl
  · rw [hs]
    rfl
  · rw [hs]
    show (n.nr_active_zones + 1) % U32 + 0 = n.nr_active_zones + 1
    rw [(counter_steps n.nr_active_zones).1 b3]

theorem handler_keeps_counted (h : ZoneHandler) : HandlerKeeps Counted h.fn := by
  intro n zi hc hl
  cases h
  · exact Counted_open_zone n zi hc hl
  · exact Counted_close_zone n zi hc hl
  · exact Counted_finish_zone n zi hc hl
  · exact Counted_reset_zone n zi hc hl
  · exact Counted_offline_zone n zi hc

theorem Counted_coreOp (n n' : FemuCtrl) (op : CoreOp) (hc : Counted n)
    (h : op.run n = some n') : Counted n' := by
  cases op with
  | write req append wrz =>
    simp only [CoreOp.run, Option.map_eq_some'] at h
    obtain ⟨out, ho, e⟩ := h
    rw [← e]; exact Counted_do_write n req append wrz out hc ho
  | zone_op zone mask hd =>
    simp only [CoreOp.run, Option.map_eq_some'] at h
    obtain ⟨r, hr, e⟩ := h
    rw [← e]; exact keeps_do_zone_op Counted hd.fn (handler_keeps_counted hd) n zone mask r hc hr
  | set_zd_ext zone =>
    simp only [CoreOp.run] at h
    split at h
    · next hl =>
      simp only [Option.some.injEq] at h
      rw [← h]; exact Counted_set_zd_ext n zone hc hl
    · simp at h

theorem Counted_runOps (ops : List CoreOp) :
    ∀ (n n' : FemuCtrl), Counted n → runOps n ops = some n' → Counted n' := by
  induction ops with
  | nil =>
    intro n n' hc h
    simp only [runOps, Option.some.injEq] at h
    rw [← h]; exact hc
  | cons op rest ih =>
    intro n n' hc h
    unfold runOps at h
    split at h
    · simp at h
    · next n1 h1 => exact ih n1 n' (Counted_coreOp n n1 op hc h1) h

theorem Counted_init (n0 : FemuCtrl) (ho : n0.nr_open_zones = 0) (ha : n0.nr_active_zones = 0)
    (hz : n0.num_zones < U32) : Counted (zns_init_zoned_state n0) := by
  obtain ⟨hlen, hall⟩ := init_zones_spec n0.zone_capacity ((n0.num_zones * n0.zone_size) % U64)
    n0.num_zones 0 n0.zone_size
  have hst : ∀ zi, (zoneAt (zns_init_zoned_state n0) zi).d.zs = NvmeZoneState.EMPTY := by
    intro zi
    by_cases hl : zi < (zns_init_zoned_state n0).zone_array.length
    · have hm : zoneAt (zns_init_zoned_state n0) zi ∈
          zns_init_zones n0.zone_capacity ((n0.num_zones * n0.zone_size) % U64)
            n0.num_zones 0 n0.zone_size := by
        unfold zoneAt
        rw [List.getD_eq_getElem _ _ hl]
        exact List.getElem_mem _
      exact (hall _ hm).1
    · exact zoneAt_out_of_range _ zi (Nat.le_of_not_lt hl)
  refine ⟨(Inv_init n0 ho ha hz).1, (Inv_init n0 ho ha hz).2.1, ⟨?_, ?_⟩, ?_⟩
  · show n0.nr_open_zones = _
    rw [ho]
    simp [openCount, zns_init_zoned_state]
  · show n0.nr_active_zones = _
    rw [ha]
    simp [activeCount, openCount, zns_init_zoned_state]
  · intro zj
    rw [hst zj]
    simp

theorem Counted_afterOps (n : FemuCtrl) (ops : List CoreOp) (hc : Counted n) :
    Counted (afterOps n ops) := by
  unfold afterOps
  cases h : runOps n ops with
  | none => exact hc
  | some m => exact Counted_runOps ops n m hc h

theorem Counted_exampleCtrl (a b c d : Nat) (h : a < U32) : Counted (exampleCtrl a b c d) :=
  Counted_init (exampleConfig a b c d) rfl rfl h

theorem runOps_afterOps (n : FemuCtrl) (ops : List CoreOp) (h : (runOps n ops).isSome = true) :
    runOps n ops = some (afterOps n ops) := by
  unfold afterOps
  cases hr : runOps n ops with
  | none => rw [hr] at h; simp at h
  | some m => rfl

/-! ### The zone starts of the reachable states -/

theorem sameStarts_of_geom {n m : FemuCtrl} (h : SameGeom n m) : SameStarts n m :=
  ⟨h.2.2.2.2.2.2.2.2.2.2.2.1, fun zj => (h.2.2.2.2.2.2.2.2.2.2.2.2 zj).1⟩

theorem sameStarts_trans {a b c : FemuCtrl} (h1 : SameStarts a b) (h2 : SameStarts b c) :
    SameStarts a c :=
  ⟨h2.1.trans h1.1, fun zj => (h2.2 zj).trans (h1.2 zj)⟩

theorem open_zone_starts (n : FemuCtrl) (zi : Nat) (st : NvmeZoneState) :
    SameStarts n (zns_open_zone n zi st).2 := by
  unfold zns_open_zone zns_open_zone_closed
  cases st <;> simp only <;> (repeat' split) <;>
    first
    | exact ⟨rfl, fun _ => rfl⟩
    | exact sameStarts_of_geom (SameGeom.assign n zi _)
    | exact sameStarts_of_geom (SameGeom.assign (zns_aor_inc_open n) zi _)
    | exact sameStarts_of_geom (SameGeom.assign (zns_aor_inc_open (zns_aor_inc_active n)) zi _)

theorem close_zone_starts (n : FemuCtrl) (zi : Nat) (st : NvmeZoneState) :
    SameStarts n (zns_close_zone n zi st).2 := by
  unfold zns_close_zone
  cases st <;> simp only <;>
    first
    | exact ⟨rfl, fun _ => rfl⟩
    | exact sameStarts_of_geom (SameGeom.assign (zns_aor_dec_open n) zi _)

theorem offline_zone_starts (n : FemuCtrl) (zi : Nat) (st : NvmeZoneState) :
    SameStarts n (zns_offline_zone n zi st).2 := by
  unfold zns_offline_zone
  cases st <;> simp only <;>
    first
    | exact ⟨rfl, fun _ => rfl⟩
    | exact sameStarts_of_geom (SameGeom.assign n zi _)

theorem set_zd_ext_starts (n : FemuCtrl) (zi : Nat) : SameStarts n (zns_set_zd_ext n zi).2 := by
  unfold zns_set_zd_ext
  split
  · simp only
    split
    · exact ⟨rfl, fun _ => rfl⟩
    · exact sameStarts_of_geom (SameGeom.trans
        (SameGeom.of_setZone (zns_aor_inc_active n) zi
          { zoneAt (zns_aor_inc_active n) zi with
            d := { (zoneAt (zns_aor_inc_active n) zi).d with
              za := (zoneAt (zns_aor_inc_active n) zi).d.za ||| NVME_ZA_ZD_EXT_VALID } }
          rfl rfl)
        (SameGeom.assign _ zi NvmeZoneState.CLOSED))
  · exact ⟨rfl, fun _ => rfl⟩

theorem finish_empty_starts (m : FemuCtrl) (zi : Nat) (hl : zi < m.zone_array.length) :
    SameStarts m (zns_finish_zone_empty m zi) := by
  obtain ⟨h1, h2, _, _, _, _, _, _, h9⟩ := finish_empty_effect m zi hl
  refine ⟨h9, fun zj => ?_⟩
  by_cases hj : zj = zi
  · rw [hj, h1]
    rfl
  · rw [h2 zj hj]

theorem finish_zone_starts (n : FemuCtrl) (zi : Nat) (hl : zi < n.zone_array.length) :
    SameStarts n (zns_finish_zone n zi (zoneAt n zi).d.zs).2 := by
  unfold zns_finish_zone
  cases (zoneAt n zi).d.zs with
  | EMPTY => exact finish_empty_starts n zi hl
  | IMPLICITLY_OPEN => exact finish_empty_starts (zns_aor_dec_active (zns_aor_dec_open n)) zi hl
  | EXPLICITLY_OPEN => exact finish_empty_starts (zns_aor_dec_active (zns_aor_dec_open n)) zi hl
  | CLOSED => exact finish_empty_starts (zns_aor_dec_active n) zi hl
  | READ_ONLY => exact ⟨rfl, fun _ => rfl⟩
  | FULL => exact ⟨rfl, fun _ => rfl⟩
  | OFFLINE => exact ⟨rfl, fun _ => rfl⟩

theorem reset_cb_starts (n : FemuCtrl) (zi : Nat) (hl : zi < n.zone_array.length)
    (hs : (zoneAt n zi).d.zs = NvmeZoneState.IMPLICITLY_OPEN ∨
      (zoneAt n zi).d.zs = NvmeZoneState.EXPLICITLY_OPEN ∨
      (zoneAt n zi).d.zs = NvmeZoneState.CLOSED ∨ (zoneAt n zi).d.zs = NvmeZoneState.FULL) :
    SameStarts n (zns_aio_zone_reset_cb n zi) := by
  obtain ⟨h1, h2, _, _, _, _, _, _, h9⟩ := reset_cb_effect n zi hl hs
  refine ⟨h9, fun zj => ?_⟩
  by_cases hj : zj = zi
  · rw [hj, h1]
    rfl
  · rw [h2 zj hj]

theorem reset_zone_starts (n : FemuCtrl) (zi : Nat) (hl : zi < n.zone_array.length) :
    SameStarts n (zns_reset_zone n zi (zoneAt n zi).d.zs).2 := by
  unfold zns_reset_zone
  cases hs : (zoneAt n zi).d.zs with
  | EMPTY => exact ⟨rfl, fun _ => rfl⟩
  | IMPLICITLY_OPEN => exact reset_cb_starts n zi hl (Or.inl hs)
  | EXPLICITLY_OPEN => exact reset_cb_starts n zi hl (Or.inr (Or.inl hs))
  | CLOSED => exact reset_cb_starts n zi hl (Or.inr (Or.inr (Or.inl hs)))
  | READ_ONLY => exact ⟨rfl, fun _ => rfl⟩
  | FULL => exact reset_cb_starts n zi hl (Or.inr (Or.inr (Or.inr hs)))
  | OFFLINE => exact ⟨rfl, fun _ => rfl⟩

theorem handler_keeps_starts (base : FemuCtrl) (h : ZoneHandler) :
    HandlerKeeps (SameStarts base) h.fn := by
  intro n zi hp hl
  cases h
  · exact sameStarts_trans hp (open_zone_starts n zi _)
  · exact sameStarts_trans hp (close_zone_starts n zi _)
  · exact sameStarts_trans hp (finish_zone_starts n zi hl)
  · exact sameStarts_trans hp (reset_zone_starts n zi hl)
  · exact sameStarts_trans hp (offline_zone_starts n zi _)

theorem do_write_starts (n : FemuCtrl) (req : NvmeRequest) (append wrz : Bool) (out : WriteOut)
    (h : zns_do_write n req append wrz = some out) : SameStarts n out.n := by
  obtain ⟨_, hc⟩ := do_write_cases n req append wrz out h
  rcases hc with ⟨_, _, e⟩ | ⟨_, ⟨_, e⟩ | ⟨_, zi, hz, hc⟩⟩
  · rw [e]; exact ⟨rfl, fun _ => rfl⟩
  · rw [e]; exact ⟨rfl, fun _ => rfl⟩
  have hl := get_zone_lt n _ zi hz
  have g1 := SameGeom.auto_open n zi
  rcases hc with ⟨_, e⟩ | ⟨_, ⟨_, e⟩ | ⟨hao, hc⟩⟩
  · rw [e]; exact ⟨rfl, fun _ => rfl⟩
  · rw [e]; exact sameStarts_of_geom g1
  have hl1 : zi < (zns_auto_open_zone n zi).2.zone_array.length := by
    rw [g1.2.2.2.2.2.2.2.2.2.2.2.1]; exact hl
  obtain ⟨_, a2, _, _, _⟩ := advance_spec (zns_auto_open_zone n zi).2 zi (req.cmd.nlb + 1) hl1
  rcases hc with ⟨_, _, e⟩ | ⟨_, n3, req3, hf, e⟩
  · rw [e]; exact sameStarts_of_geom (g1.trans a2)
  · have hz2 : zns_get_zone_by_slba
        (zns_advance_zone_wp (zns_auto_open_zone n zi).2 zi (req.cmd.nlb + 1)).2
        req.cmd.slba = some zi := by
      rw [get_zone_congr _ _ (g1.trans a2)]; exact hz
    obtain ⟨_, f2, _, _⟩ := (fun hq => finalize_spec _ n3 _ req3 zi hq hf) hz2
    rw [e]; exact sameStarts_of_geom ((g1.trans a2).trans f2)

theorem starts_coreOp (base n n' : FemuCtrl) (op : CoreOp) (hp : SameStarts base n)
    (h : op.run n = some n') : SameStarts base n' := by
  cases op with
  | write req append wrz =>
    simp only [CoreOp.run, Option.map_eq_some'] at h
    obtain ⟨out, ho, e⟩ := h
    rw [← e]; exact sameStarts_trans hp (do_write_starts n req append wrz out ho)
  | zone_op zone mask hd =>
    simp only [CoreOp.run, Option.map_eq_some'] at h
    obtain ⟨r, hr, e⟩ := h
    rw [← e]
    exact keeps_do_zone_op (SameStarts base) hd.fn (handler_keeps_starts base hd) n zone mask r
      hp hr
  | set_zd_ext zone =>
    simp only [CoreOp.run] at h
    split at h
    · simp only [Option.some.injEq] at h
      rw [← h]; exact sameStarts_trans hp (set_zd_ext_starts n zone)
    · simp at h

theorem starts_runOps (base : FemuCtrl) (ops : List CoreOp) :
    ∀ (n n' : FemuCtrl), SameStarts base n → runOps n ops = some n' → SameStarts base n' := by
  induction ops with
  | nil =>
    intro n n' hp h
    simp only [runOps, Option.some.injEq] at h
    rw [← h]; exact hp
  | cons op rest ih =>
    intro n n' hp h
    unfold runOps at h
    split at h
    · simp at h
    · next n1 h1 => exact ih n1 n' (starts_coreOp base n n1 op hp h1) h

/-- In a state reached from the initial one of a namespace with at least one
zone, the zone array has `num_zones` zones and zone 0 starts at block 0. -/
theorem reach_first_zone (n0 : FemuCtrl) (ops : List CoreOp) (n : FemuCtrl)
    (hnz : 0 < n0.num_zones) (hrun : runOps (zns_init_zoned_state n0) ops = some n) :
    n.zone_array.length = n0.num_zones ∧ (zoneAt n 0).d.zslba = 0 := by
  obtain ⟨h1, h2⟩ := starts_runOps (zns_init_zoned_state n0) ops _ n ⟨rfl, fun _ => rfl⟩ hrun
  obtain ⟨hlen, _⟩ := init_zones_spec n0.zone_capacity ((n0.num_zones * n0.zone_size) % U64)
    n0.num_zones 0 n0.zone_size
  refine ⟨h1.trans hlen, ?_⟩
  rw [h2 0]
  obtain ⟨k, hk⟩ : ∃ k, n0.num_zones = k + 1 := ⟨n0.num_zones - 1, by omega⟩
  unfold zoneAt zns_init_zoned_state
  simp only [hk, zns_init_zones]
  rfl

/-- C18: zone management send with action Reset and the select-all bit set, in
a state `n` reached by any sequence of operations from the initial state of a
namespace with at least one zone (both counters 0 before initialisation, as
`zns_init_zone_cap` leaves them; any limits, also 0): the command returns
success; every zone that was `IMPLICITLY_OPEN`, `EXPLICITLY_OPEN`, `CLOSED` or
`FULL` is `EMPTY` with `w_ptr = d.wp = zslba`; the zones that were `EMPTY`,
`READ_ONLY` or `OFFLINE` are unchanged; the four lists are empty; and both
counters are 0. -/
theorem C18_reset_all (n0 : FemuCtrl) (ops : List CoreOp) (n : FemuCtrl) (req : NvmeRequest)
    (ho : n0.nr_open_zones = 0) (ha : n0.nr_active_zones = 0) (hz : n0.num_zones < U32)
    (hnz : 0 < n0.num_zones) (hrun : runOps (zns_init_zoned_state n0) ops = some n)
    (hall : req.cdw13 % U32 &&& 256 ≠ 0)
    (hact : req.cdw13 % U32 &&& 255 = NVME_ZONE_ACTION_RESET) :
    ∃ n', zns_zone_mgmt_send n req = some (NVME_SUCCESS, n') ∧
      (∀ z, z < n.zone_array.length →
        (zoneAt n z).d.zs = NvmeZoneState.IMPLICITLY_OPEN ∨
          (zoneAt n z).d.zs = NvmeZoneState.EXPLICITLY_OPEN ∨
          (zoneAt n z).d.zs = NvmeZoneState.CLOSED ∨
          (zoneAt n z).d.zs = NvmeZoneState.FULL →
        (zoneAt n' z).d.zs = NvmeZoneState.EMPTY ∧
          (zoneAt n' z).w_ptr = (zoneAt n z).d.zslba ∧
          (zoneAt n' z).d.wp = (zoneAt n z).d.zslba ∧
          (zoneAt n' z).d.zslba = (zoneAt n z).d.zslba) ∧
      (∀ z, (zoneAt n z).d.zs = NvmeZoneState.EMPTY ∨
          (zoneAt n z).d.zs = NvmeZoneState.READ_ONLY ∨
          (zoneAt n z).d.zs = NvmeZoneState.OFFLINE → zoneAt n' z = zoneAt n z) ∧
      n'.imp_open_zones = [] ∧ n'.exp_open_zones = [] ∧ n'.closed_zones = [] ∧
      n'.full_zones = [] ∧ n'.nr_open_zones = 0 ∧ n'.nr_active_zones = 0 := by
  have hinv : Inv n := Inv_runOps ops _ n (Inv_init n0 ho ha hz) hrun
  have ht : Tracked n := (Counted_runOps ops _ n (Counted_init n0 ho ha hz) hrun).2.2.1
  obtain ⟨hlen, hz0⟩ := reach_first_zone n0 ops n hnz hrun
  have hl0 : 0 < n.zone_array.length := by rw [hlen]; exact hnz
  obtain ⟨a1, a2, a3, a4, a5, a6, a7, a8⟩ := reset_all_effect n hinv ht
  have hv := do_zone_op_eq_visit zns_reset_zone (handlerOk_fn ZoneHandler.RESET)
    handlerLocal_reset n 0 (NVME_PROC_OPENED_ZONES ||| NVME_PROC_CLOSED_ZONES |||
      NVME_PROC_FULL_ZONES) hinv (by decide) (by decide)
  refine ⟨(visitLists n (NVME_PROC_OPENED_ZONES ||| NVME_PROC_CLOSED_ZONES |||
    NVME_PROC_FULL_ZONES) zns_reset_zone).2, ?_, ?_, ?_, a3, a4, a5, a6, a7, a8⟩
  · unfold zns_zone_mgmt_send
    simp only [hall, ne_eq, not_false_eq_true, decide_True, not_true_eq_false, if_false, hl0,
      hz0, hact, if_true]
    rw [hv]
    rfl
  · intro z hz hs
    have e := a1 z hz hs
    rw [e]
    exact ⟨rfl, rfl, rfl, rfl⟩
  · intro z hs
    apply a2 z
    intro hr
    rcases hs with h | h | h <;> rcases hr with r | r | r | r <;> rw [h] at r <;> cases r

theorem C18_reset_all_witness :
    ∃ n', zns_zone_mgmt_send
        (afterOps (exampleCtrl 3 4 0 0)
          [CoreOp.write (exampleReq 0 3) false false, CoreOp.write (exampleReq 4 0) false false,
           CoreOp.zone_op 2 0 ZoneHandler.OPEN])
        { exampleReq 0 0 with cdw13 := 256 + NVME_ZONE_ACTION_RESET } =
        some (NVME_SUCCESS, n') ∧
      (zoneAt n' 0).d.zs = NvmeZoneState.EMPTY ∧ (zoneAt n' 1).w_ptr = 4 ∧
      n'.nr_open_zones = 0 ∧ n'.nr_active_zones = 0 ∧
      [0, 1, 2].map (fun z => ((zoneAt (afterOps (exampleCtrl 3 4 0 0)
          [CoreOp.write (exampleReq 0 3) false false, CoreOp.write (exampleReq 4 0) false false,
           CoreOp.zone_op 2 0 ZoneHandler.OPEN]) z).d.zs,
        (zoneAt (afterOps (exampleCtrl 3 4 0 0)
          [CoreOp.write (exampleReq 0 3) false false, CoreOp.write (exampleReq 4 0) false false,
           CoreOp.zone_op 2 0 ZoneHandler.OPEN]) z).w_ptr)) =
        [(NvmeZoneState.FULL, 4), (NvmeZoneState.IMPLICITLY_OPEN, 5),
          (NvmeZoneState.EXPLICITLY_OPEN, 8)] ∧
      ((afterOps (exampleCtrl 3 4 0 0)
          [CoreOp.write (exampleReq 0 3) false false, CoreOp.write (exampleReq 4 0) false false,
           CoreOp.zone_op 2 0 ZoneHandler.OPEN]).nr_open_zones,
        (afterOps (exampleCtrl 3 4 0 0)
          [CoreOp.write (exampleReq 0 3) false false, CoreOp.write (exampleReq 4 0) false false,
           CoreOp.zone_op 2 0 ZoneHandler.OPEN]).nr_active_zones) = (2, 2) := by
  obtain ⟨n', e, h1, _, _, _, _, _, h7, h8⟩ := C18_reset_all (exampleConfig 3 4 0 0)
    [CoreOp.write (exampleReq 0 3) false false, CoreOp.write (exampleReq 4 0) false false,
     CoreOp.zone_op 2 0 ZoneHandler.OPEN]
    (afterOps (exampleCtrl 3 4 0 0)
      [CoreOp.write (exampleReq 0 3) false false, CoreOp.write (exampleReq 4 0) false false,
       CoreOp.zone_op 2 0 ZoneHandler.OPEN])
    { exampleReq 0 0 with cdw13 := 256 + NVME_ZONE_ACTION_RESET }
    rfl rfl (by decide) (by decide) (runOps_afterOps _ _ (by decide)) (by decide) (by decide)
  exact ⟨n', e, (h1 0 (by decide) (Or.inr (Or.inr (Or.inr (by decide))))).1,
    (h1 1 (by decide) (Or.inl (by decide))).2.1.trans (by decide), h7, h8, by decide, by decide⟩

theorem cursor_pos_shift (C L ch lun a : Nat) (hC : 0 < C) (hch : ch < C) :
    ((ch + 1) % C + a) % C = (ch + (a + 1)) % C ∧
    ((if ch + 1 = C then (lun + 1) % L else lun) + ((ch + 1) % C + a) / C) % L =
      (lun + (ch + (a + 1)) / C) % L := by
  constructor
  · rw [Nat.add_mod, Nat.mod_mod, ← Nat.add_mod]
    congr 1
    omega
  · by_cases h : ch + 1 = C
    · rw [if_pos h]
      have e : ch + (a + 1) = a + C := by omega
      rw [h, Nat.mod_self, Nat.zero_add, e, Nat.add_div_right _ hC, Nat.add_mod,
        Nat.mod_mod, ← Nat.add_mod]
      congr 1
      omega
    · have e : ch + 1 + a = ch + (a + 1) := by omega
      rw [if_neg h, Nat.mod_eq_of_lt (show ch + 1 < C by omega), e]

theorem cursor_pos_return (C L ch lun : Nat) (hC : 0 < C) (hch : ch < C) (hlun : lun < L) :
    (ch + C * L) % C = ch ∧ (lun + (ch + C * L) / C) % L = lun := by
  constructor
  · rw [Nat.add_mul_mod_self_left, Nat.mod_eq_of_lt hch]
  · rw [Nat.add_mul_div_left _ _ hC, Nat.div_eq_of_lt hch, Nat.zero_add, Nat.add_mod_right,
      Nat.mod_eq_of_lt hlun]

theorem cursor_pos_inj (C L ch lun j k : Nat) (hjk : j < k) (hk : k < C * L)
    (e1 : (ch + j) % C = (ch + k) % C)
    (e2 : (lun + (ch + j) / C) % L = (lun + (ch + k) / C) % L) : False := by
  have da := Nat.div_add_mod (ch + j) C
  have db := Nat.div_add_mod (ch + k) C
  have hq : (ch + j) / C ≤ (ch + k) / C := Nat.div_le_div_right (by omega)
  have hmod : (ch + j) / C ≡ (ch + k) / C [MOD L] := Nat.ModEq.add_left_cancel' lun e2
  have hdvd : L ∣ (ch + k) / C - (ch + j) / C := (Nat.modEq_iff_dvd' hq).1 hmod
  by_cases hz : (ch + k) / C - (ch + j) / C = 0
  · have : (ch + k) / C = (ch + j) / C := by omega
    rw [this, ← e1] at db
    omega
  · have hge := Nat.le_of_dvd (Nat.pos_of_ne_zero hz) hdvd
    have hmul := Nat.mul_le_mul_left C hge
    rw [Nat.mul_sub] at hmul
    rw [← e1] at db
    omega

theorem get_fc_congr (zns : zns_ssd) (p q : ppa) (h1 : q.ch = p.ch) (h2 : q.fc = p.fc) :
    get_fc zns q = get_fc zns p := by
  unfold get_fc
  rw [h1, h2]

theorem set_fc_shape (zns : zns_ssd) (p : ppa) (f : zns_fc) :
    (set_fc zns p f).num_ch = zns.num_ch ∧ (set_fc zns p f).num_lun = zns.num_lun ∧
    (set_fc zns p f).wp = zns.wp ∧ (set_fc zns p f).ch.length = zns.ch.length ∧
    ∀ c, ((set_fc zns p f).ch.getD c default).fc.length = (zns.ch.getD c default).fc.length := by
  refine ⟨rfl, rfl, rfl, ?_, fun c => ?_⟩
  · unfold set_fc
    simp only [List.length_set]
  · unfold set_fc
    simp only [List.getD_eq_getElem?_getD, List.getElem?_set]
    by_cases hc : p.ch = c
    · rw [if_pos hc]
      by_cases hl : p.ch < zns.ch.length
      · rw [if_pos hl, hc]
        simp only [Option.getD_some, List.length_set]
      · rw [if_neg hl]
        have : zns.ch[c]? = none := List.getElem?_eq_none (by omega)
        rw [this]
    · rw [if_neg hc]

theorem read_status_eq (n : FemuCtrl) (stime : Nat) (p : ppa) (hs : stime ≠ 0) :
    zns_advance_status n ⟨NandOp.NAND_READ, stime⟩ p =
      ((((if (get_fc n.zns p).next_fc_avail_time < stime then stime
          else (get_fc n.zns p).next_fc_avail_time) + n.zns_read) % U64 + (U64 - stime)) % U64,
        { n with zns := set_fc n.zns p { get_fc n.zns p with next_fc_avail_time :=
          ((if (get_fc n.zns p).next_fc_avail_time < stime then stime
            else (get_fc n.zns p).next_fc_avail_time) + n.zns_read) % U64 } }) := by
  unfold zns_advance_status
  simp only [hs, if_false]

theorem get_fc_ch (z1 z2 : zns_ssd) (q : ppa) (h : z1.ch = z2.ch) :
    get_fc z1 q = get_fc z2 q := by
  unfold get_fc
  rw [h]

/-- What one timed page read leaves behind, for a non-zero submission time:
the latency, the new watermark of the die, and everything that is not
touched. -/
theorem read_status_fields (n : FemuCtrl) (stime : Nat) (p : ppa) (hs : stime ≠ 0) :
    (zns_advance_status n ⟨NandOp.NAND_READ, stime⟩ p).2.zns.num_ch = n.zns.num_ch ∧
    (zns_advance_status n ⟨NandOp.NAND_READ, stime⟩ p).2.zns.num_lun = n.zns.num_lun ∧
    (zns_advance_status n ⟨NandOp.NAND_READ, stime⟩ p).2.zns.wp = n.zns.wp ∧
    (zns_advance_status n ⟨NandOp.NAND_READ, stime⟩ p).2.zns_read = n.zns_read ∧
    (zns_advance_status n ⟨NandOp.NAND_READ, stime⟩ p).2.zns.ch.length = n.zns.ch.length ∧
    (∀ c, ((zns_advance_status n ⟨NandOp.NAND_READ, stime⟩ p).2.zns.ch.getD c default).fc.length =
      (n.zns.ch.getD c default).fc.length) ∧
    (zns_advance_status n ⟨NandOp.NAND_READ, stime⟩ p).1 =
      (((if (get_fc n.zns p).next_fc_avail_time < stime then stime
          else (get_fc n.zns p).next_fc_avail_time) + n.zns_read) % U64 + (U64 - stime)) % U64 ∧
    (∀ q : ppa, q.ch ≠ p.ch ∨ q.fc ≠ p.fc →
      get_fc (zns_advance_status n ⟨NandOp.NAND_READ, stime⟩ p).2.zns q = get_fc n.zns q) ∧
    (p.ch < n.zns.ch.length → p.fc < (n.zns.ch.getD p.ch default).fc.length →
      ∀ q : ppa, q.ch = p.ch → q.fc = p.fc →
      (get_fc (zns_advance_status n ⟨NandOp.NAND_READ, stime⟩ p).2.zns q).next_fc_avail_time =
        ((if (get_fc n.zns p).next_fc_avail_time < stime then stime
          else (get_fc n.zns p).next_fc_avail_time) + n.zns_read) % U64) := by
  rw [read_status_eq n stime p hs]
  refine ⟨rfl, rfl, rfl, rfl, (set_fc_shape _ p _).2.2.2.1, (set_fc_shape _ p _).2.2.2.2, rfl,
    fun q hq => get_set_fc_other _ _ _ _ hq, fun hc hf q h1 h2 => ?_⟩
  show (get_fc (set_fc n.zns p _) q).next_fc_avail_time = _
  rw [get_fc_congr _ p q h1 h2, get_set_fc _ _ _ hc hf]

theorem round_step (stime j lpn : Nat) (s s1 : FemuCtrl) (p : ppa) (hs : stime ≠ 0)
    (hinv : RoundInv stime j s) (hp : lpn_to_ppa s lpn = some p)
    (ha : advance_read_pointer s = some s1)
    (hov : stime + (j / (s.zns.num_ch * s.zns.num_lun) + 1) * s.zns_read < U64) :
    (zns_advance_status s1 ⟨NandOp.NAND_READ, stime⟩ p).1 =
      (j / (s.zns.num_ch * s.zns.num_lun) + 1) * s.zns_read ∧
    RoundInv stime (j + 1) (zns_advance_status s1 ⟨NandOp.NAND_READ, stime⟩ p).2 ∧
    (zns_advance_status s1 ⟨NandOp.NAND_READ, stime⟩ p).2.zns.num_ch = s.zns.num_ch ∧
    (zns_advance_status s1 ⟨NandOp.NAND_READ, stime⟩ p).2.zns.num_lun = s.zns.num_lun ∧
    (zns_advance_status s1 ⟨NandOp.NAND_READ, stime⟩ p).2.zns_read = s.zns_read := by
  obtain ⟨hC, hC8, hL, hL8, hch, hlun, ⟨hlen, hfc⟩, hdie⟩ := hinv
  have hN : 0 < s.zns.num_ch * s.zns.num_lun := Nat.mul_pos hC hL
  rw [advance_step s hC8 hL8 hch hlun] at ha
  have hs1 := (Option.some.inj ha).symm
  have f1 : s1.zns.num_ch = s.zns.num_ch := by rw [hs1]
  have f2 : s1.zns.num_lun = s.zns.num_lun := by rw [hs1]
  have f3 : s1.zns.wp.ch = (s.zns.wp.ch + 1) % s.zns.num_ch := by rw [hs1]
  have f4 : s1.zns.wp.lun = (if s.zns.wp.ch + 1 = s.zns.num_ch then
      (s.zns.wp.lun + 1) % s.zns.num_lun else s.zns.wp.lun) := by rw [hs1]
  have f5 : s1.zns.ch = s.zns.ch := by rw [hs1]
  have f6 : s1.zns_read = s.zns_read := by rw [hs1]
  clear ha hs1
  have hpk : p.ch = s.zns.wp.ch ∧ p.fc = s.zns.wp.lun := by
    unfold lpn_to_ppa at hp
    cases hz : zns_zone_idx s ((lpn * 4096) % U64) with
    | none =>
      rw [hz] at hp
      exact absurd hp (by simp)
    | some zi =>
      rw [hz] at hp
      rw [← Option.some.inj hp]
      exact ⟨rfl, rfl⟩
  have hc0 : cursorCh s 0 = s.zns.wp.ch := by
    unfold cursorCh
    rw [Nat.add_zero, Nat.mod_eq_of_lt hch]
  have hl0 : cursorLun s 0 = s.zns.wp.lun := by
    unfold cursorLun
    rw [Nat.add_zero, Nat.div_eq_of_lt hch, Nat.add_zero, Nat.mod_eq_of_lt hlun]
  have hw : (get_fc s1.zns p).next_fc_avail_time =
      dieTime s (cursorCh s 0) (cursorLun s 0) := by
    unfold dieTime
    rw [get_fc_ch s1.zns s.zns p f5,
      get_fc_congr s.zns p ⟨cursorCh s 0, cursorLun s 0, 0⟩ (by rw [hc0, hpk.1])
        (by rw [hl0, hpk.2])]
  obtain ⟨d0, d1⟩ := hdie 0 hN
  rw [Nat.add_zero, ← hw] at d0 d1
  have hnew : ((if (get_fc s1.zns p).next_fc_avail_time < stime then stime
      else (get_fc s1.zns p).next_fc_avail_time) + s1.zns_read) % U64 =
      stime + (j / (s.zns.num_ch * s.zns.num_lun) + 1) * s.zns_read ∧
      stime + (j / (s.zns.num_ch * s.zns.num_lun) + 1) * s.zns_read + (U64 - stime) =
        (j / (s.zns.num_ch * s.zns.num_lun) + 1) * s.zns_read + U64 := by
    generalize j / (s.zns.num_ch * s.zns.num_lun) = q at d0 d1 hov ⊢
    have hmul : (q + 1) * s.zns_read = q * s.zns_read + s.zns_read := Nat.succ_mul _ _
    have hmax : (if (get_fc s1.zns p).next_fc_avail_time < stime then stime
        else (get_fc s1.zns p).next_fc_avail_time) = stime + q * s.zns_read := by
      by_cases hq0 : q = 0
      · have := d0 hq0
        rw [hq0, Nat.zero_mul, Nat.add_zero]
        split <;> omega
      · have := d1 (Nat.pos_of_ne_zero hq0)
        rw [if_neg (by omega), this]
    rw [hmax, f6, Nat.mod_eq_of_lt (by omega)]
    constructor <;> omega
  obtain ⟨hnew, hsum⟩ := hnew
  obtain ⟨g1, g2, g3, g4, g5, g6, g7, g8, g9⟩ := read_status_fields s1 stime p hs
  rw [hnew] at g7 g9
  generalize zns_advance_status s1 ⟨NandOp.NAND_READ, stime⟩ p = r at g1 g2 g3 g4 g5 g6 g7 g8 g9 ⊢
  have hl2 : (if s.zns.wp.ch + 1 = s.zns.num_ch then (s.zns.wp.lun + 1) % s.zns.num_lun
      else s.zns.wp.lun) < s.zns.num_lun := by
    split
    · exact Nat.mod_lt _ hL
    · exact hlun
  have hpc : p.ch < s1.zns.ch.length := by rw [f5, hlen, hpk.1]; exact hch
  have hpf : p.fc < (s1.zns.ch.getD p.ch default).fc.length := by
    rw [f5, hpk.1, hfc _ hch, hpk.2]
    exact hlun
  refine ⟨?_, ?_, g1.trans f1, g2.trans f2, g4.trans f6⟩
  · rw [g7, hsum, Nat.add_mod_right]
    exact Nat.mod_eq_of_lt (Nat.lt_of_le_of_lt (Nat.le_add_left _ _) hov)
  · unfold RoundInv DieArray
    rw [g1, g2, g3, g4, g5, f1, f2, f3, f4, f5, f6]
    refine ⟨hC, hC8, hL, hL8, Nat.mod_lt _ hC, hl2, ⟨hlen, fun c hc => ?_⟩, fun a ha => ?_⟩
    · rw [g6 c, f5]
      exact hfc c hc
    · have hcc : cursorCh r.2 a = cursorCh s (a + 1) := by
        unfold cursorCh
        rw [g1, g3, f1, f3]
        exact (cursor_pos_shift _ s.zns.num_lun _ s.zns.wp.lun a hC hch).1
      have hcl : cursorLun r.2 a = cursorLun s (a + 1) := by
        unfold cursorLun
        rw [g1, g2, g3, f1, f2, f3, f4]
        exact (cursor_pos_shift _ _ _ _ a hC hch).2
      rw [hcc, hcl]
      have hja : j + 1 + a = j + (a + 1) := by omega
      rw [hja]
      by_cases hlast : a + 1 = s.zns.num_ch * s.zns.num_lun
      · obtain ⟨r1, r2⟩ := cursor_pos_return s.zns.num_ch s.zns.num_lun s.zns.wp.ch
          s.zns.wp.lun hC hch hlun
        have hq1 : cursorCh s (a + 1) = p.ch := by
          unfold cursorCh
          rw [hlast, r1, hpk.1]
        have hq2 : cursorLun s (a + 1) = p.fc := by
          unfold cursorLun
          rw [hlast, r2, hpk.2]
        have hval : dieTime r.2 (cursorCh s (a + 1)) (cursorLun s (a + 1)) =
            stime + (j / (s.zns.num_ch * s.zns.num_lun) + 1) * s.zns_read := by
          unfold dieTime
          exact g9 hpc hpf ⟨cursorCh s (a + 1), cursorLun s (a + 1), 0⟩ hq1 hq2
        have hcnt : (j + (a + 1)) / (s.zns.num_ch * s.zns.num_lun) =
            j / (s.zns.num_ch * s.zns.num_lun) + 1 := by
          rw [hlast, Nat.add_div_right _ hN]
        rw [hval, hcnt]
        exact ⟨fun h => absurd h (Nat.succ_ne_zero _), fun _ => rfl⟩
      · have hlt : a + 1 < s.zns.num_ch * s.zns.num_lun := by omega
        have hne : (cursorCh s (a + 1)) ≠ p.ch ∨ (cursorLun s (a + 1)) ≠ p.fc := by
          by_contra hcon
          have h1 : cursorCh s (a + 1) = p.ch := by
            by_contra h
            exact hcon (Or.inl h)
          have h2 : cursorLun s (a + 1) = p.fc := by
            by_contra h
            exact hcon (Or.inr h)
          rw [hpk.1, ← hc0] at h1
          rw [hpk.2, ← hl0] at h2
          unfold cursorCh at h1
          unfold cursorLun at h2
          exact cursor_pos_inj s.zns.num_ch s.zns.num_lun s.zns.wp.ch s.zns.wp.lun 0 (a + 1)
            (Nat.succ_pos a) hlt h1.symm h2.symm
        have hval : dieTime r.2 (cursorCh s (a + 1)) (cursorLun s (a + 1)) =
            dieTime s (cursorCh s (a + 1)) (cursorLun s (a + 1)) := by
          unfold dieTime
          rw [g8 ⟨cursorCh s (a + 1), cursorLun s (a + 1), 0⟩ hne, get_fc_ch s1.zns s.zns _ f5]
        rw [hval]
        exact hdie (a + 1) hlt

theorem rw_pages_round (stime C L d : Nat) (hs : stime ≠ 0) (k : Nat) :
    ∀ (j lpn ml : Nat) (s : FemuCtrl) (res : Nat × FemuCtrl),
      s.zns.num_ch = C → s.zns.num_lun = L → s.zns_read = d → RoundInv stime j s →
      ml = (j + C * L - 1) / (C * L) * d →
      stime + (j + k + C * L - 1) / (C * L) * d < U64 →
      zns_rw_pages NandOp.NAND_READ stime k lpn ml s = some res →
      res.1 = (j + k + C * L - 1) / (C * L) * d := by
  induction k with
  | zero =>
    intro j lpn ml s res _ _ _ _ hml _ h
    unfold zns_rw_pages at h
    rw [← Option.some.inj h, Nat.add_zero]
    exact hml
  | succ k ih =>
    intro j lpn ml s res hC hL hd hinv hml hov h
    have hN : 0 < C * L := by
      rw [← hC, ← hL]
      exact Nat.mul_pos hinv.1 hinv.2.2.1
    unfold zns_rw_pages at h
    cases hp : lpn_to_ppa s lpn with
    | none =>
      rw [hp] at h
      exact absurd h (by simp)
    | some p =>
      rw [hp] at h
      cases ha : advance_read_pointer s with
      | none =>
        rw [ha] at h
        exact absurd h (by simp)
      | some s1 =>
        rw [ha] at h
        simp only at h
        have hdiv : j / (C * L) + 1 = (j + 1 + C * L - 1) / (C * L) := by
          have e : j + 1 + C * L - 1 = j + C * L := by omega
          rw [e, Nat.add_div_right _ hN]
        have hmono : (j + 1 + C * L - 1) / (C * L) ≤ (j + (k + 1) + C * L - 1) / (C * L) :=
          Nat.div_le_div_right (by omega)
        have hmono2 : (j + C * L - 1) / (C * L) ≤ (j + 1 + C * L - 1) / (C * L) :=
          Nat.div_le_div_right (by omega)
        have hb1 := Nat.mul_le_mul_right d hmono
        have hb2 := Nat.mul_le_mul_right d hmono2
        have hstep := round_step stime j lpn s s1 p hs hinv hp ha (by
          rw [hC, hL, hd, hdiv]
          omega)
        rw [hC, hL, hd, hdiv] at hstep
        obtain ⟨r1, r2, r3, r4, r5⟩ := hstep
        have hml2 : (if (zns_advance_status s1 ⟨NandOp.NAND_READ, stime⟩ p).1 > ml then
            (zns_advance_status s1 ⟨NandOp.NAND_READ, stime⟩ p).1 else ml) =
            (j + 1 + C * L - 1) / (C * L) * d := by
          rw [r1]
          split
          · rfl
          · omega
        rw [hml2] at h
        have e : j + (k + 1) + C * L - 1 = j + 1 + k + C * L - 1 := by omega
        rw [e] at hov ⊢
        exact ih (j + 1) (lpn + 1) _ _ res r3 r4 r5 r2 rfl hov h

/-- C35: a `zns_read` that returns success, with a non-zero submission time
`stime`, on a controller whose timing arrays have `num_ch ≥ 1` channels of
`num_lun ≥ 1` dies (both counts 8-bit), with the cursor in range and every die
watermark at most `stime`, when `stime` plus the resulting latency fits 64
bits. With `pages = (slba + nlb - 1) / 4096 - slba / 4096 + 1` and
`dies = num_ch * num_lun`, the request latency `reqlat` is
`ceil(pages / dies)` times the read delay; in particular it is exactly the
read delay when `pages ≤ dies`. -/
theorem C35_read_latency_rounds (n : FemuCtrl) (req : NvmeRequest) (out : WriteOut)
    (h : zns_read n req = some out) (hs : out.status = NVME_SUCCESS)
    (hst : req.stime ≠ 0)
    (hC : 1 ≤ n.zns.num_ch) (hC8 : n.zns.num_ch < 256)
    (hL : 1 ≤ n.zns.num_lun) (hL8 : n.zns.num_lun < 256)
    (hch : n.zns.wp.ch < n.zns.num_ch) (hlun : n.zns.wp.lun < n.zns.num_lun)
    (harr : DieArray n)
    (hfree : ∀ c l, c < n.zns.num_ch → l < n.zns.num_lun → dieTime n c l ≤ req.stime)
    (hov : req.stime +
      ((req.cmd.slba + (req.cmd.nlb + 1) - 1) / 4096 - req.cmd.slba / 4096 + 1 +
        n.zns.num_ch * n.zns.num_lun - 1) / (n.zns.num_ch * n.zns.num_lun) * n.zns_read < U64) :
    out.req.reqlat =
      ((req.cmd.slba + (req.cmd.nlb + 1) - 1) / 4096 - req.cmd.slba / 4096 + 1 +
        n.zns.num_ch * n.zns.num_lun - 1) / (n.zns.num_ch * n.zns.num_lun) * n.zns_read ∧
    ((req.cmd.slba + (req.cmd.nlb + 1) - 1) / 4096 - req.cmd.slba / 4096 + 1 ≤
        n.zns.num_ch * n.zns.num_lun → out.req.reqlat = n.zns_read) := by
  obtain ⟨hb, maxlat, hrw, hlat, _⟩ := read_success n req out h hs
  have hN : 0 < n.zns.num_ch * n.zns.num_lun := Nat.mul_pos hC hL
  have hnw : req.cmd.slba + (req.cmd.nlb + 1) < U64 := by
    unfold zns_check_bounds at hb
    by_contra hc
    rw [if_pos (Or.inl (by omega))] at hb
    exact absurd hb (by simp [NVME_SUCCESS])
  have hk : ((req.cmd.slba + req.cmd.nlb) % U64) / 4096 + 1 - req.cmd.slba / 4096 =
      (req.cmd.slba + (req.cmd.nlb + 1) - 1) / 4096 - req.cmd.slba / 4096 + 1 := by
    rw [Nat.mod_eq_of_lt (by omega)]
    have e : req.cmd.slba + (req.cmd.nlb + 1) - 1 = req.cmd.slba + req.cmd.nlb := by omega
    have hle : req.cmd.slba / 4096 ≤ (req.cmd.slba + req.cmd.nlb) / 4096 :=
      Nat.div_le_div_right (Nat.le_add_right _ _)
    rw [e]
    omega
  rw [hk] at hrw
  have hinv : RoundInv req.stime 0 n := by
    refine ⟨hC, hC8, hL, hL8, hch, hlun, harr, fun a ha => ?_⟩
    rw [Nat.zero_add, Nat.div_eq_of_lt ha]
    refine ⟨fun _ => hfree _ _ (Nat.mod_lt _ hC) (Nat.mod_lt _ hL),
      fun hpos => absurd hpos (Nat.lt_irrefl 0)⟩
  have hml : 0 = (0 + n.zns.num_ch * n.zns.num_lun - 1) / (n.zns.num_ch * n.zns.num_lun) *
      n.zns_read := by
    rw [Nat.zero_add, Nat.div_eq_of_lt (by omega), Nat.zero_mul]
  have hres := rw_pages_round req.stime n.zns.num_ch n.zns.num_lun n.zns_read hst _ 0 _ 0 n
    (maxlat, out.n) rfl rfl rfl hinv hml (by rw [Nat.zero_add]; exact hov) hrw
  rw [Nat.zero_add] at hres
  have hval : out.req.reqlat =
      ((req.cmd.slba + (req.cmd.nlb + 1) - 1) / 4096 - req.cmd.slba / 4096 + 1 +
        n.zns.num_ch * n.zns.num_lun - 1) / (n.zns.num_ch * n.zns.num_lun) * n.zns_read :=
    hlat.trans hres
  refine ⟨hval, fun hle => ?_⟩
  rw [hval]
  have e : (req.cmd.slba + (req.cmd.nlb + 1) - 1) / 4096 - req.cmd.slba / 4096 + 1 +
      n.zns.num_ch * n.zns.num_lun - 1 =
      ((req.cmd.slba + (req.cmd.nlb + 1) - 1) / 4096 - req.cmd.slba / 4096) +
        n.zns.num_ch * n.zns.num_lun := by omega
  rw [e, Nat.add_div_right _ hN, Nat.div_eq_of_lt (by omega), Nat.zero_add, Nat.one_mul]

theorem C35_read_latency_rounds_witness :
    ∃ out : WriteOut,
      zns_read { exampleCtrl 1 32768 0 0 with mdts := 12 }
        { exampleReq 0 20479 with stime := 1000 } = some out ∧
      out.status = NVME_SUCCESS ∧ out.req.reqlat = 80000 := by
  obtain ⟨out, ho, hst⟩ := Option.map_eq_some'.1
    (show (zns_read { exampleCtrl 1 32768 0 0 with mdts := 12 }
      { exampleReq 0 20479 with stime := 1000 }).map (fun o => o.status) =
      some NVME_SUCCESS by decide)
  have h := (C35_read_latency_rounds { exampleCtrl 1 32768 0 0 with mdts := 12 }
    { exampleReq 0 20479 with stime := 1000 } out ho hst (by decide) (by decide) (by decide)
    (by decide) (by decide) (by decide) (by decide) (by unfold DieArray; decide)
    (fun c l hc hl => by
      have hc2 : c < 2 := hc
      have hl2 : l < 2 := hl
      interval_cases c <;> interval_cases l <;> decide)
    (by decide)).1
  exact ⟨out, ho, hst, h.trans (by decide)⟩

end FEMU
